import Mathlib

/-!
Verification of the constraint-graph subsystem (lib/Sema/ConstraintGraph.cpp).

This file gives a shallow embedding of the constraint graph: the node store,
the mutation API with its change journal, scope-based undo, connected
components with one-way ordering, edge contraction, and constraint gathering.
Definitions are translated from the C++ source; line references in doc
comments point into lib/Sema/ConstraintGraph.cpp.

Modelling conventions, used throughout:

* A type variable is identified by its integer ID (`TypeVariableType::getID`),
  so `TVar := Nat`; the ID ordering is what `unionSets` uses for tie-breaks.
* A `Ty` is the tree shape the graph consults: type-variable leaves, `InOut`
  wrappers, binary constructors and opaque bases.  `getDesugaredType` is the
  identity here (the model carries no sugar), and `getTypeVariables` is the
  pre-order occurrence traversal.
* Mutable C++ state becomes explicit state passing on the `Graph` record.
  `ConstraintGraphNode` pointers become a total function `nodes : TVar →
  CGNode` together with `hasNode : TVar → Bool` (the `getGraphNode() !=
  nullptr` test); a variable without a node maps to `CGNode.empty`.
* `lookupNode` recurses through `mergeNodes`/`bindTypeVariable` when it
  creates a node (ConstraintGraph.cpp:73-81).  That recursion terminates in
  C++ because every round creates a node; the embedding bounds it with a
  `fuel` argument.  Exhausted fuel only skips the post-creation merge/bind
  cascade (creation itself is never skipped), so any fuel at least the
  number of nodes the call can create gives exactly the C++ behaviour.
  Theorems below are proved for every fuel unless noted.
* The C++ `EquivalenceClass` vector is lazily seeded with `[self]` on first
  observation (`getEquivalenceClassUnsafe`, ConstraintGraph.cpp:92-97,
  a `mutable` cache).  Every read goes through that materialisation, so the
  embedding seeds the class eagerly at node creation, which is
  observationally identical.
-/

set_option maxHeartbeats 1600000

namespace CG

/-- Type variables are identified by their integer ID (`getID`). -/
abbrev TVar := Nat

/-- Shallow embedding of the type surface the graph consults
(`getDesugaredType`, `getTypeVariables`, `findIf`, `is<InOutType>`,
`getAs<TypeVariableType>`). -/
inductive Ty where
  | tvar (v : TVar)
  | inOutTy (t : Ty)
  | fn (a b : Ty)
  | base (n : Nat)
deriving DecidableEq

/-- Type::getTypeVariables - every type-variable occurrence, in traversal
order (duplicates possible, as in the C++). -/
def Ty.typeVarsList : Ty → List TVar
  | .tvar v => [v]
  | .inOutTy t => t.typeVarsList
  | .fn a b => a.typeVarsList ++ b.typeVarsList
  | .base _ => []

/-- Type::hasTypeVariable. -/
def Ty.hasTypeVariable (t : Ty) : Bool := !t.typeVarsList.isEmpty

/-- Type::findIf - does some subterm (the type itself included) satisfy
the predicate? -/
def Ty.findIf (p : Ty → Bool) : Ty → Bool
  | .tvar v => p (.tvar v)
  | .inOutTy t => p (.inOutTy t) || t.findIf p
  | .fn a b => p (.fn a b) || a.findIf p || b.findIf p
  | .base n => p (.base n)

/-- Type::getAs<TypeVariableType>() on a desugared type. -/
def Ty.getAsTypeVar : Ty → Option TVar
  | .tvar v => some v
  | _ => none

/-- Type::is<InOutType>(). -/
def Ty.isInOut : Ty → Bool
  | .inOutTy _ => true
  | _ => false

/-- Constraint kinds the graph distinguishes; every other kind is `Other`. -/
inductive ConstraintKind where
  | Bind | BindParam | BindToPointerType | Equal | OneWayBind | OneWayBindParam | Other
deriving DecidableEq

/-- A constraint, for the graph's purposes: an identity, a kind, the uniqued
`getTypeVariables()` list, and the two operand types. -/
structure Constraint where
  cid : Nat
  kind : ConstraintKind
  typeVars : List TVar
  firstTy : Ty
  secondTy : Ty
deriving DecidableEq

/-- One graph node (`ConstraintGraphNode`): the constraint vector (the
C++ `ConstraintIndex` side map is the positional index of the unique
occurrence, so the vector alone carries it), the equivalence-class vector,
and the fixed-binding vector. -/
structure CGNode where
  constraints : List Constraint
  equivalenceClass : List TVar
  fixedBindings : List TVar
deriving DecidableEq

def CGNode.empty : CGNode := ⟨[], [], []⟩

/-- The capability surface the graph reads from the `ConstraintSystem`:
`getRepresentative`, `getFixedType`, the capability flags and
`getPotentialBindings` (used only by `contractEdges`). -/
structure CSEnv where
  rep : TVar → TVar
  fixedType : TVar → Option Ty
  canBindToLValue : TVar → Bool
  canBindToInOut : TVar → Bool
  potentialBindings : TVar → Option (List Ty)

/-- A journalled change (`ConstraintGraph::Change`,
ConstraintGraph.cpp:168-210). -/
inductive Change where
  | addedTypeVariable (tv : TVar)
  | addedConstraint (c : Constraint)
  | removedConstraint (c : Constraint)
  | extendedEquivalenceClass (tv : TVar) (prevSize : Nat)
  | boundTypeVariable (tv : TVar) (fixed : Ty)
deriving DecidableEq

/-- The graph state: the dense `TypeVariables` vector, the per-variable
node (with `hasNode` playing the role of the `getGraphNode()` pointer test
and `graphIndex` the stored `getGraphIndex()` slot), the orphaned
constraints, the change journal and the active-scope flag. -/
structure Graph where
  typeVariables : List TVar
  nodes : TVar → CGNode
  hasNode : TVar → Bool
  graphIndex : TVar → Nat
  orphanedConstraints : List Constraint
  changes : List Change
  activeScope : Bool

/-- Pointwise function update (used for the node map and friends). -/
def upd {α : Type} (f : TVar → α) (v : TVar) (x : α) : TVar → α :=
  fun w => if w = v then x else f w

@[simp] theorem upd_same {α : Type} (f : TVar → α) (v : TVar) (x : α) :
    upd f v x v = x := by simp [upd]

theorem upd_other {α : Type} (f : TVar → α) (v : TVar) (x : α) {w : TVar}
    (h : w ≠ v) : upd f v x w = f w := by simp [upd, h]

/-- ConstraintGraphNode::removeConstraint (ConstraintGraph.cpp:106-129):
look the constraint's index up, and either pop it off the back or swap the
last element into its slot and pop.  The C++ asserts that the constraint is
present; the total model returns the list unchanged when it is not. -/
def swapRemove {α : Type} [DecidableEq α] (l : List α) (c : α) : List α :=
  if c ∈ l then
    let index := l.indexOf c
    if index = l.length - 1 then l.dropLast
    else (l.set index (l.getLastD c)).dropLast
  else l

/-- Replace the node stored for one variable. -/
def Graph.setNode (g : Graph) (v : TVar) (n : CGNode) : Graph :=
  { g with nodes := upd g.nodes v n }

/-- Apply a function to the node stored for one variable. -/
def Graph.modifyNode (g : Graph) (v : TVar) (f : CGNode → CGNode) : Graph :=
  g.setNode v (f (g.nodes v))

/-- The node-creation bookkeeping inside `ConstraintGraph::lookupNode`
(ConstraintGraph.cpp:60-71): allocate the node, record index and variable,
and journal `AddedTypeVariable` when a scope is active.  The equivalence
class is seeded with the variable itself (see the header comment on the
lazy `getEquivalenceClassUnsafe`). -/
def createNode (g : Graph) (tv : TVar) : Graph :=
  { g with
    nodes := upd g.nodes tv { CGNode.empty with equivalenceClass := [tv] },
    hasNode := upd g.hasNode tv true,
    graphIndex := upd g.graphIndex tv g.typeVariables.length,
    typeVariables := g.typeVariables ++ [tv],
    changes :=
      if g.activeScope then g.changes ++ [Change.addedTypeVariable tv]
      else g.changes }

/-- The three mutually recursive node-creating operations:
`lookupNode`, `mergeNodes` and `bindTypeVariable`. -/
inductive NodeOp where
  | lookup (tv : TVar)
  | merge (typeVar1 typeVar2 : TVar)
  | bind (typeVar : TVar) (fixed : Ty)

/-- One step of the `bindTypeVariable` loop body (ConstraintGraph.cpp:343-350)
once the adjacent variable's node is in hand: add the symmetric
fixed-binding pair (`addFixedBinding` is `push_back`). -/
def addFixedPair (g : Graph) (typeVar otherTypeVar : TVar) : Graph :=
  let g1 := g.modifyNode otherTypeVar
    (fun n => { n with fixedBindings := n.fixedBindings ++ [typeVar] })
  g1.modifyNode typeVar
    (fun n => { n with fixedBindings := n.fixedBindings ++ [otherTypeVar] })

/-- The recursive core of `lookupNode` (ConstraintGraph.cpp:49-84),
`mergeNodes` (309-332) and `bindTypeVariable` (334-357).  Structure:

* `lookup tv`: if the node exists return; otherwise create it, then (if the
  external representative differs) merge into the representative, else (if a
  fixed type exists) bind to it.
* `merge a b`: look the representative's node up, journal
  `ExtendedEquivalenceClass` with the class size when a scope is active,
  look the non-representative up, and append its (materialised) class.
* `bind tv fixed`: nothing if the fixed type mentions no type variables;
  otherwise look `tv` up, then for each newly seen mentioned variable other
  than `tv` itself add the symmetric fixed-binding pair, and finally journal
  `BoundTypeVariable` when a scope is active.

Each cross-call spends one unit of fuel; with fuel `0` a lookup still
creates the node (skipping only the merge/bind cascade) and `merge`/`bind`
do nothing. -/
def nodeOpGo (env : CSEnv) : Nat → NodeOp → Graph → Graph
  | 0, .lookup tv, g => if g.hasNode tv then g else createNode g tv
  | 0, .merge _ _, g => g
  | 0, .bind _ _, g => g
  | fuel + 1, .lookup tv, g =>
    if g.hasNode tv then g
    else
      let g1 := createNode g tv
      let typeVarRep := env.rep tv
      if tv ≠ typeVarRep then nodeOpGo env fuel (.merge tv typeVarRep) g1
      else
        match env.fixedType typeVarRep with
        | some fixed => nodeOpGo env fuel (.bind tv fixed) g1
        | none => g1
  | fuel + 1, .merge typeVar1 typeVar2, g =>
    let typeVarRep := env.rep typeVar1
    let g1 := nodeOpGo env fuel (.lookup typeVarRep) g
    let typeVarNonRep := if typeVar1 = typeVarRep then typeVar2 else typeVar1
    let g2 :=
      if g1.activeScope then
        { g1 with changes := g1.changes ++
            [Change.extendedEquivalenceClass typeVarRep
              (g1.nodes typeVarRep).equivalenceClass.length] }
      else g1
    let g3 := nodeOpGo env fuel (.lookup typeVarNonRep) g2
    g3.modifyNode typeVarRep
      (fun n => { n with equivalenceClass := n.equivalenceClass ++
        (g3.nodes typeVarNonRep).equivalenceClass })
  | fuel + 1, .bind typeVar fixed, g =>
    if !fixed.hasTypeVariable then g
    else
      let g1 := nodeOpGo env fuel (.lookup typeVar) g
      let st := fixed.typeVarsList.foldl
        (fun (st : Graph × List TVar) otherTypeVar =>
          if otherTypeVar ∈ st.2 then st
          else
            if typeVar = otherTypeVar then (st.1, otherTypeVar :: st.2)
            else
              let ga := nodeOpGo env fuel (.lookup otherTypeVar) st.1
              (addFixedPair ga typeVar otherTypeVar, otherTypeVar :: st.2))
        (g1, ([] : List TVar))
      let g2 := st.1
      if g2.activeScope then
        { g2 with changes := g2.changes ++ [Change.boundTypeVariable typeVar fixed] }
      else g2

/-- ConstraintGraph::lookupNode / operator[] (ConstraintGraph.cpp:49-84). -/
def lookupNode (env : CSEnv) (fuel : Nat) (g : Graph) (tv : TVar) : Graph :=
  nodeOpGo env fuel (.lookup tv) g

/-- ConstraintGraph::mergeNodes (ConstraintGraph.cpp:309-332). -/
def mergeNodes (env : CSEnv) (fuel : Nat) (g : Graph)
    (typeVar1 typeVar2 : TVar) : Graph :=
  nodeOpGo env fuel (.merge typeVar1 typeVar2) g

/-- ConstraintGraph::bindTypeVariable (ConstraintGraph.cpp:334-357). -/
def bindTypeVariable (env : CSEnv) (fuel : Nat) (g : Graph)
    (typeVar : TVar) (fixed : Ty) : Graph :=
  nodeOpGo env fuel (.bind typeVar fixed) g

/-- One step of the `unbindTypeVariable` loop body
(ConstraintGraph.cpp:368-372): `removeFixedBinding` is a plain `pop_back`
(ConstraintGraph.cpp:144-146), and - unlike `bindTypeVariable` - there is
no `typeVar == otherTypeVar` skip, so a self-mention pops the bound
variable's own vector twice. -/
def removeFixedPair (g : Graph) (typeVar otherTypeVar : TVar) : Graph :=
  let g1 := g.modifyNode otherTypeVar
    (fun n => { n with fixedBindings := n.fixedBindings.dropLast })
  g1.modifyNode typeVar
    (fun n => { n with fixedBindings := n.fixedBindings.dropLast })

/-- ConstraintGraph::unbindTypeVariable (ConstraintGraph.cpp:359-374). -/
def unbindTypeVariable (env : CSEnv) (fuel : Nat) (g : Graph)
    (typeVar : TVar) (fixed : Ty) : Graph :=
  if !fixed.hasTypeVariable then g
  else
    let g1 := lookupNode env fuel g typeVar
    (fixed.typeVarsList.foldl
      (fun (st : Graph × List TVar) otherTypeVar =>
        if otherTypeVar ∈ st.2 then st
        else
          let ga := lookupNode env fuel st.1 otherTypeVar
          (removeFixedPair ga typeVar otherTypeVar, otherTypeVar :: st.2))
      (g1, ([] : List TVar))).1

/-- ConstraintGraph::addConstraint (ConstraintGraph.cpp:261-281): append the
constraint to the node of every mentioned variable (creating nodes through
`lookupNode`), push it onto the orphan list when it mentions none, and
journal when a scope is active. -/
def addConstraintOp (env : CSEnv) (fuel : Nat) (g : Graph) (c : Constraint) :
    Graph :=
  let g1 := c.typeVars.foldl
    (fun g tv =>
      let ga := lookupNode env fuel g tv
      ga.modifyNode tv (fun n => { n with constraints := n.constraints ++ [c] }))
    g
  let g2 :=
    if c.typeVars.isEmpty then
      { g1 with orphanedConstraints := g1.orphanedConstraints ++ [c] }
    else g1
  if g2.activeScope then
    { g2 with changes := g2.changes ++ [Change.addedConstraint c] }
  else g2

/-- ConstraintGraph::removeConstraint (ConstraintGraph.cpp:283-307): remove
the constraint from every mentioned variable's node (swap-with-last), remove
it from the orphan list (same swap trick) when it mentions none, and journal
when a scope is active. -/
def removeConstraintOp (env : CSEnv) (fuel : Nat) (g : Graph) (c : Constraint) :
    Graph :=
  let g1 := c.typeVars.foldl
    (fun g tv =>
      let ga := lookupNode env fuel g tv
      ga.modifyNode tv (fun n => { n with constraints := swapRemove n.constraints c }))
    g
  let g2 :=
    if c.typeVars.isEmpty then
      { g1 with orphanedConstraints := swapRemove g1.orphanedConstraints c }
    else g1
  if g2.activeScope then
    { g2 with changes := g2.changes ++ [Change.removedConstraint c] }
  else g2

/-- ConstraintGraph::removeNode (ConstraintGraph.cpp:247-259): free the
node, then remove the variable from `TypeVariables` by overwriting its slot
with the last element (when it is not itself last) and popping the back.
The stored graph index of a swapped variable is not updated. -/
def removeNode (g : Graph) (typeVar : TVar) : Graph :=
  let index := g.graphIndex typeVar
  let g1 := { g with
    nodes := upd g.nodes typeVar CGNode.empty,
    hasNode := upd g.hasNode typeVar false }
  let lastIndex := g1.typeVariables.length - 1
  if index < lastIndex then
    { g1 with typeVariables :=
        (g1.typeVariables.set index (g1.typeVariables.getLastD typeVar)).dropLast }
  else { g1 with typeVariables := g1.typeVariables.dropLast }

/-- ConstraintGraph::Change::undo (ConstraintGraph.cpp:212-243).  The active
scope is cleared for the duration of the undo so nothing re-journals, and
restored afterwards (the `SaveAndRestore`). -/
def Change.undo (env : CSEnv) (fuel : Nat) (e : Change) (g : Graph) : Graph :=
  let saved := g.activeScope
  let g0 := { g with activeScope := false }
  let g1 :=
    match e with
    | .addedTypeVariable tv => removeNode g0 tv
    | .addedConstraint c => removeConstraintOp env fuel g0 c
    | .removedConstraint c => addConstraintOp env fuel g0 c
    | .extendedEquivalenceClass tv n =>
      let g2 := lookupNode env fuel g0 tv
      g2.modifyNode tv (fun nd => { nd with equivalenceClass := nd.equivalenceClass.take n })
    | .boundTypeVariable tv fixed => unbindTypeVariable env fuel g0 tv fixed
  { g1 with activeScope := saved }

/-- One round of the scope-destructor loop (ConstraintGraph.cpp:159-162):
undo the last journal entry and pop it. -/
def popUndoStep (env : CSEnv) (fuel : Nat) (g : Graph) : Graph :=
  match g.changes.getLast? with
  | none => g
  | some e =>
    let g1 := Change.undo env fuel e g
    { g1 with changes := g1.changes.dropLast }

/-- Undo-and-pop iterated `k` times. -/
def popUndoN (env : CSEnv) (fuel : Nat) : Nat → Graph → Graph
  | 0, g => g
  | k + 1, g => popUndoN env fuel k (popUndoStep env fuel g)

/-- A scope value (`ConstraintGraphScope`): the previous active-scope flag
and the journal length at opening (ConstraintGraph.cpp:149-153). -/
structure GScope where
  parentActive : Bool
  numChanges : Nat

/-- Opening a scope: remember the parent and the journal length, mark the
scope active. -/
def openScope (g : Graph) : GScope × Graph :=
  (⟨g.activeScope, g.changes.length⟩, { g with activeScope := true })

/-- Destroying a scope (ConstraintGraph.cpp:155-166): pop and undo down to
the recorded journal length, then restore the parent scope. -/
def closeScope (env : CSEnv) (fuel : Nat) (s : GScope) (g : Graph) : Graph :=
  let g1 := popUndoN env fuel (g.changes.length - s.numChanges) g
  { g1 with activeScope := s.parentActive }

/-- The public mutation operations a client can perform on the graph
(lookup-driven node creation, `addConstraint`, `removeConstraint`,
`mergeNodes` for equivalence merging, and `bindTypeVariable`). -/
inductive MutOp where
  | lookup (tv : TVar)
  | addC (c : Constraint)
  | removeC (c : Constraint)
  | mergeE (a b : TVar)
  | bindTV (tv : TVar) (fixed : Ty)

def execOp (env : CSEnv) (fuel : Nat) (g : Graph) : MutOp → Graph
  | .lookup tv => lookupNode env fuel g tv
  | .addC c => addConstraintOp env fuel g c
  | .removeC c => removeConstraintOp env fuel g c
  | .mergeE a b => mergeNodes env fuel g a b
  | .bindTV tv fixed => bindTypeVariable env fuel g tv fixed

def execOps (env : CSEnv) (fuel : Nat) (g : Graph) (ops : List MutOp) : Graph :=
  ops.foldl (execOp env fuel) g

/-- The graph with no nodes, no orphans and an empty journal. -/
def emptyGraph : Graph :=
  { typeVariables := []
    nodes := fun _ => CGNode.empty
    hasNode := fun _ => false
    graphIndex := fun _ => 0
    orphanedConstraints := []
    changes := []
    activeScope := false }

end CG

namespace CG

/-! ### Constraint gathering (ConstraintGraph.cpp:376-427)

`gatherConstraints` only reads the graph.  (In C++ `operator[]` would
create a node for a variable that has none; on graphs where every variable
consulted has a node - the reachable-state invariant - it is the plain read
modelled here.) -/

/-- ConstraintGraph::GatheringKind. -/
inductive GatheringKind where
  | EquivalenceClass
  | AllMentions
deriving DecidableEq

/-- The three pieces of traversal state in `gatherConstraints`: the visited
type variables, the visited constraints, and the accumulated result. -/
structure GatherState where
  typeVarsSet : List TVar
  visitedConstraints : List Constraint
  acc : List Constraint

/-- The `addAdjacentConstraints` closure (ConstraintGraph.cpp:384-399): walk
the equivalence class of the adjacent variable's representative; for each
newly seen member, visit its constraints, and push each newly seen
constraint that the predicate accepts. -/
def addAdjacentConstraints (env : CSEnv) (g : Graph) (accept : Constraint → Bool)
    (adjTypeVar : TVar) (st : GatherState) : GatherState :=
  let adjTypeVarsToVisit := (g.nodes (env.rep adjTypeVar)).equivalenceClass
  adjTypeVarsToVisit.foldl
    (fun st adjTypeVarEquiv =>
      if adjTypeVarEquiv ∈ st.typeVarsSet then st
      else
        let st1 := { st with typeVarsSet := adjTypeVarEquiv :: st.typeVarsSet }
        (g.nodes adjTypeVarEquiv).constraints.foldl
          (fun st constraint =>
            if constraint ∈ st.visitedConstraints then st
            else
              let st2 := { st with
                visitedConstraints := constraint :: st.visitedConstraints }
              if accept constraint then { st2 with acc := st2.acc ++ [constraint] }
              else st2)
          st1)
    st

/-- ConstraintGraph::gatherConstraints (ConstraintGraph.cpp:376-427): walk
the equivalence class of the variable's representative; for each member,
push its newly seen accepted constraints, walk adjacents of every
constraint's mentioned variables when the kind is `AllMentions`, and then
walk adjacents of the member's fixed bindings. -/
def gatherConstraints (env : CSEnv) (g : Graph) (typeVar : TVar)
    (kind : GatheringKind) (accept : Constraint → Bool) : List Constraint :=
  let equivClass := (g.nodes (env.rep typeVar)).equivalenceClass
  (equivClass.foldl
    (fun st typeVar1 =>
      let node := g.nodes typeVar1
      let st1 := node.constraints.foldl
        (fun st constraint =>
          let stA :=
            if constraint ∈ st.visitedConstraints then st
            else
              let stB := { st with
                visitedConstraints := constraint :: st.visitedConstraints }
              if accept constraint then { stB with acc := stB.acc ++ [constraint] }
              else stB
          if kind = GatheringKind.AllMentions then
            constraint.typeVars.foldl
              (fun st adjTypeVar => addAdjacentConstraints env g accept adjTypeVar st)
              stA
          else stA)
        st
      node.fixedBindings.foldl
        (fun st adjTypeVar => addAdjacentConstraints env g accept adjTypeVar st)
        st1)
    (⟨[], [], []⟩ : GatherState)).acc

/-! ### Connected components (ConstraintGraph.cpp:429-855)

The `ConnectedComponents` helper class.  Its union-find `representatives`
map becomes `UFState`; `findRepresentative` performs path compression, so
it returns an updated state that is threaded everywhere the C++ mutates the
map.  The graph is only read (same reachable-state caveat as above). -/

/-- The union-find parent map (`representatives`): absent means the
variable is its own representative. -/
structure UFState where
  parent : TVar → Option TVar

def UFState.empty : UFState := ⟨fun _ => none⟩

/-- Invariant maintained by `unionSets` and path compression: a parent has
a strictly smaller ID (`unionSets` reparents the higher ID onto the lower,
and compression points at the chain's root).  It makes `v + 1` steps enough
for any find starting at `v`. -/
def UFInv (u : UFState) : Prop :=
  ∀ v p, u.parent v = some p → p < v

/-- ConnectedComponents::findRepresentative (ConstraintGraph.cpp:548-564):
follow parents to the root, path-compressing on the way out.  The step
count is bounded by `v + 1`, which suffices under `UFInv`. -/
def UFState.findAux : Nat → UFState → TVar → TVar × UFState
  | 0, u, v => (v, u)
  | fuel + 1, u, v =>
    match u.parent v with
    | none => (v, u)
    | some p =>
      let r := UFState.findAux fuel u p
      if r.1 = p then r
      else (r.1, ⟨upd r.2.parent v (some r.1)⟩)

def UFState.findRepresentative (u : UFState) (v : TVar) : TVar × UFState :=
  UFState.findAux (v + 1) u v

/-- The result of `findRepresentative`, without the compressed state. -/
def UFState.root (u : UFState) (v : TVar) : TVar :=
  (u.findRepresentative v).1

/-- ConnectedComponents::unionSets (ConstraintGraph.cpp:571-584): find both
representatives; when they differ, reparent the one with the higher ID onto
the one with the lower ID. -/
def unionSets (u : UFState) (typeVar1 typeVar2 : TVar) : Bool × UFState :=
  let r1 := u.findRepresentative typeVar1
  let r2 := r1.2.findRepresentative typeVar2
  let rep1 := r1.1
  let rep2 := r2.1
  if rep1 = rep2 then (false, r2.2)
  else if rep1 < rep2 then (true, ⟨upd r2.2.parent rep2 (some rep1)⟩)
  else (true, ⟨upd r2.2.parent rep1 (some rep2)⟩)

/-- ConnectedComponents::unionSetsViaConstraint (ConstraintGraph.cpp:590-604):
union the first mentioned variable with each of the others. -/
def unionSetsViaConstraint (u : UFState) (constraint : Constraint) :
    Bool × UFState :=
  if constraint.typeVars.length < 2 then (false, u)
  else
    match constraint.typeVars with
    | [] => (false, u)
    | typeVar :: rest =>
      rest.foldl
        (fun (acc : Bool × UFState) otherTypeVar =>
          let r := unionSets acc.2 typeVar otherTypeVar
          (acc.1 || r.1, r.2))
        (false, u)

/-- State of the phase-1 walk: the union-find, the deferred one-way
constraints, and the visited-constraints set. -/
structure CCState where
  uf : UFState
  oneWayConstraints : List Constraint
  visitedConstraints : List Constraint

/-- ConnectedComponents::connectedComponents (ConstraintGraph.cpp:611-639):
for each input variable, union it with its representative's equivalence
class and its fixed-binding adjacencies; defer one-way constraints, union
through every other newly seen constraint. -/
def ccPhase1 (env : CSEnv) (g : Graph) (typeVars : List TVar) : CCState :=
  typeVars.foldl
    (fun st typeVar =>
      let rep := env.rep typeVar
      let u1 := (g.nodes rep).equivalenceClass.foldl
        (fun u equiv => (unionSets u typeVar equiv).2) st.uf
      let node := g.nodes typeVar
      let u2 := node.fixedBindings.foldl
        (fun u fixedAdj => (unionSets u typeVar fixedAdj).2) u1
      node.constraints.foldl
        (fun st constraint =>
          if constraint ∈ st.visitedConstraints then st
          else
            let st1 := { st with
              visitedConstraints := constraint :: st.visitedConstraints }
            if constraint.kind = ConstraintKind.OneWayBind ∨
                constraint.kind = ConstraintKind.OneWayBindParam then
              { st1 with oneWayConstraints := st1.oneWayConstraints ++ [constraint] }
            else { st1 with uf := (unionSetsViaConstraint st1.uf constraint).2 })
        { st with uf := u2 })
    ⟨UFState.empty, [], []⟩

/-- One node of the one-way digraph (`RawOneWayComponent`,
ConstraintGraph.cpp:446-457). -/
structure RawOneWayComponent where
  typeVars : List TVar
  outAdjacencies : List TVar
  inAdjacencies : List TVar
deriving DecidableEq

def RawOneWayComponent.empty : RawOneWayComponent := ⟨[], [], []⟩

/-- The `oneWayDigraph` map, keyed by type-variable representative, in
first-touch order. -/
abbrev OneWayDigraph := List (TVar × RawOneWayComponent)

def digraphFind (d : OneWayDigraph) (v : TVar) : Option RawOneWayComponent :=
  match d.find? (fun p => p.1 == v) with
  | some p => some p.2
  | none => none

/-- The map's `operator[]`: create a default entry when absent, then apply
the mutation. -/
def digraphModify (d : OneWayDigraph) (v : TVar)
    (f : RawOneWayComponent → RawOneWayComponent) : OneWayDigraph :=
  match d.find? (fun p => p.1 == v) with
  | some _ => d.map (fun p => if p.1 == v then (p.1, f p.2) else p)
  | none => d ++ [(v, f RawOneWayComponent.empty)]

/-- ConnectedComponents::insertIfUnique (ConstraintGraph.cpp:643-647). -/
def insertIfUnique (vector : List TVar) (typeVar : TVar) : List TVar :=
  if typeVar ∈ vector then vector else vector ++ [typeVar]

/-- The `getRepresentativesInType` closure (ConstraintGraph.cpp:653-664). -/
def getRepresentativesInType (u : UFState) (type : Ty) : List TVar × UFState :=
  type.typeVarsList.foldl
    (fun (st : List TVar × UFState) typeVar =>
      let r := st.2.findRepresentative typeVar
      (insertIfUnique st.1 r.1, r.2))
    ([], u)

/-- ConnectedComponents::buildOneWayConstraintGraph
(ConstraintGraph.cpp:650-695): add an edge from each right-hand
representative to each left-hand representative of every one-way
constraint, then bucket the input variables into their digraph nodes. -/
def buildOneWayConstraintGraph (u : UFState) (typeVars : List TVar)
    (oneWayConstraints : List Constraint) : OneWayDigraph × UFState :=
  let st1 := oneWayConstraints.foldl
    (fun (st : OneWayDigraph × UFState) constraint =>
      let lhs := getRepresentativesInType st.2 constraint.firstTy
      let rhs := getRepresentativesInType lhs.2 constraint.secondTy
      let d := lhs.1.foldl
        (fun d lhsTypeRep =>
          rhs.1.foldl
            (fun d rhsTypeRep =>
              let d1 := digraphModify d rhsTypeRep
                (fun c => { c with outAdjacencies := insertIfUnique c.outAdjacencies lhsTypeRep })
              digraphModify d1 lhsTypeRep
                (fun c => { c with inAdjacencies := insertIfUnique c.inAdjacencies rhsTypeRep }))
            d)
        st.1
      (d, rhs.2))
    (([] : OneWayDigraph), u)
  typeVars.foldl
    (fun (st : OneWayDigraph × UFState) typeVar =>
      let r := st.2.findRepresentative typeVar
      match digraphFind st.1 r.1 with
      | none => (st.1, r.2)
      | some _ =>
        (digraphModify st.1 r.1 (fun c => { c with typeVars := c.typeVars ++ [typeVar] }),
         r.2))
    st1

/-- The data the `ConnectedComponents` constructor
(ConstraintGraph.cpp:470-488) leaves behind: the union-find after phases
1-3 and the one-way digraph. -/
structure CCData where
  uf : UFState
  oneWayDigraph : OneWayDigraph

/-- The `ConnectedComponents` constructor: phase 1; if one-way constraints
were found, build the digraph and then finish collapsing by unioning
through each one-way constraint. -/
def ccConstruct (env : CSEnv) (g : Graph) (typeVars : List TVar) : CCData :=
  let st := ccPhase1 env g typeVars
  if st.oneWayConstraints.isEmpty then ⟨st.uf, []⟩
  else
    let b := buildOneWayConstraintGraph st.uf typeVars st.oneWayConstraints
    let u3 := st.oneWayConstraints.foldl
      (fun u constraint => (unionSetsViaConstraint u constraint).2) b.2
    ⟨u3, b.1⟩

/-- ConstraintGraph::OneWayComponent. -/
structure OneWayComponent where
  typeVars : List TVar
  dependsOn : List Nat
deriving DecidableEq

/-- ConstraintGraph::Component. -/
structure Component where
  typeVars : List TVar
  constraints : List Constraint
  oneWayComponents : List OneWayComponent
deriving DecidableEq

def Component.emptyC : Component := ⟨[], [], []⟩

def assocFind (m : List (TVar × Nat)) (v : TVar) : Option Nat :=
  (m.find? (fun p => p.1 == v)).map (fun p => p.2)

/-- State of the outer postorder depth-first search in
`populateOneWayComponentDependencies`: the visited set, the (compressed)
union-find, and the per-component dependency orders. -/
structure OuterDFSState where
  visited : List TVar
  uf : UFState
  orders : List (List TVar)

def listPushAt (l : List (List TVar)) (i : Nat) (v : TVar) : List (List TVar) :=
  l.set i ((l.getD i []) ++ [v])

/-- One visit of `postorderDepthFirstSearchRec` (ConstraintGraph.cpp:713-727)
as instantiated for the outer search (746-782): the adjacency callback
returns the out-adjacencies when the representative's component is
retained, and the post-visit callback appends the variable to its
component's dependency order when present in the digraph.  The fuel bounds
the recursion depth; each level below the first either hits the visited set
or inserts a new variable, so a fuel exceeding the number of visitable
variables is exact. -/
def outerDFSVisit (digraph : OneWayDigraph) (componentIdxMap : List (TVar × Nat)) :
    Nat → TVar → OuterDFSState → OuterDFSState
  | 0, _, st => st
  | fuel + 1, typeVar, st =>
    if typeVar ∈ st.visited then st
    else
      let st1 := { st with visited := typeVar :: st.visited }
      let r := st1.uf.findRepresentative typeVar
      let adjacencies :=
        match assocFind componentIdxMap r.1 with
        | none => []
        | some _ =>
          match digraphFind digraph typeVar with
          | none => []
          | some comp => comp.outAdjacencies
      let st2 := adjacencies.foldl
        (fun st adj => outerDFSVisit digraph componentIdxMap fuel adj st)
        { st1 with uf := r.2 }
      match digraphFind digraph typeVar with
      | none => st2
      | some _ =>
        let r2 := st2.uf.findRepresentative typeVar
        match assocFind componentIdxMap r2.1 with
        | none => { st2 with uf := r2.2 }
        | some idx => { st2 with uf := r2.2, orders := listPushAt st2.orders idx typeVar }

/-- One visit of `postorderDepthFirstSearchRec` as instantiated for the
per-subcomponent dependency search (ConstraintGraph.cpp:816-840): walk
in-adjacencies; post-visit records the subcomponent index of every reached
variable other than the owner.  The C++ asserts that the reached variable
already has an index; the model skips it when absent. -/
def innerDFSVisit (digraph : OneWayDigraph) (subcomponentIdxs : List (TVar × Nat))
    (ownerTypeVar : TVar) :
    Nat → TVar → List TVar × List Nat → List TVar × List Nat
  | 0, _, st => st
  | fuel + 1, typeVar, st =>
    if typeVar ∈ st.1 then st
    else
      let st1 := (typeVar :: st.1, st.2)
      let adjacencies :=
        match digraphFind digraph typeVar with
        | none => []
        | some comp => comp.inAdjacencies
      let st2 := adjacencies.foldl
        (fun st adj => innerDFSVisit digraph subcomponentIdxs ownerTypeVar fuel adj st)
        st1
      if typeVar = ownerTypeVar then st2
      else
        match assocFind subcomponentIdxs typeVar with
        | none => st2
        | some subcomponentIdx => (st2.1, st2.2 ++ [subcomponentIdx])

/-- ConnectedComponents::populateOneWayComponentDependencies
(ConstraintGraph.cpp:731-843): run the outer postorder search to get each
component's dependency order; then, walking each order in reverse, assign
subcomponent indices, copy the raw subcomponent's variables, and collect
each subcomponent's dependencies with the inner (in-adjacency) search. -/
def populateOneWay (dfsFuel : Nat) (typeVars : List TVar)
    (digraph : OneWayDigraph) (componentIdxMap : List (TVar × Nat))
    (uf : UFState) (components : List Component) : List Component :=
  let st0 : OuterDFSState := ⟨[], uf, List.replicate components.length []⟩
  let stF := typeVars.foldl
    (fun st typeVar => outerDFSVisit digraph componentIdxMap dfsFuel typeVar st) st0
  let dependencyOrders := stF.orders
  (List.range components.length).foldl
    (fun components componentIdx =>
      let dependencyOrder := dependencyOrders.getD componentIdx []
      if dependencyOrder.isEmpty then components
      else
        let res := dependencyOrder.reverse.foldl
          (fun (st : Component × List (TVar × Nat)) typeVar =>
            let component := st.1
            let subcomponentIdxs := st.2
            let subcomponentIdxs1 :=
              subcomponentIdxs ++ [(typeVar, component.oneWayComponents.length)]
            let newTypeVars :=
              match digraphFind digraph typeVar with
              | some raw => raw.typeVars
              | none => [typeVar]
            let component1 := { component with
              oneWayComponents := component.oneWayComponents ++ [OneWayComponent.mk newTypeVars []] }
            let inner := innerDFSVisit digraph subcomponentIdxs1 typeVar dfsFuel typeVar ([], [])
            let lastIdx := component1.oneWayComponents.length - 1
            let lastComp := component1.oneWayComponents.getD lastIdx (OneWayComponent.mk [] [])
            let newOwc := component1.oneWayComponents.set lastIdx { lastComp with dependsOn := inner.2 }
            let component2 := { component1 with oneWayComponents := newOwc }
            (component2, subcomponentIdxs1))
          (components.getD componentIdx Component.emptyC, [])
        components.set componentIdx res.1)
    components

/-- State of the component-assembly walk in `getComponents`. -/
structure AssembleState where
  components : List Component
  componentIdxMap : List (TVar × Nat)
  knownConstraints : List Constraint
  uf : UFState

/-- ConnectedComponents::getComponents (ConstraintGraph.cpp:491-544): mark
the representatives owning an unbound variable; assign each variable whose
representative is marked to its component (allocating components in
first-encounter order) and union-add its constraints; then fill in one-way
dependency data when the digraph is non-empty. -/
def getComponents (env : CSEnv) (g : Graph) (typeVars : List TVar)
    (dfsFuel : Nat) (cc : CCData) : List Component :=
  let pA := typeVars.foldl
    (fun (st : List TVar × UFState) typeVar =>
      match env.fixedType typeVar with
      | some _ => st
      | none =>
        let r := st.2.findRepresentative typeVar
        (if r.1 ∈ st.1 then st.1 else st.1 ++ [r.1], r.2))
    (([] : List TVar), cc.uf)
  let componentHasUnboundTypeVar := pA.1
  let stB := typeVars.foldl
    (fun (st : AssembleState) typeVar =>
      let r := st.uf.findRepresentative typeVar
      let st := { st with uf := r.2 }
      if r.1 ∈ componentHasUnboundTypeVar then
        let p :=
          match assocFind st.componentIdxMap r.1 with
          | some idx => (st, idx)
          | none =>
            ({ st with
               componentIdxMap := st.componentIdxMap ++ [(r.1, st.componentIdxMap.length)],
               components := st.components ++ [Component.emptyC] },
             st.componentIdxMap.length)
        let st1 := p.1
        let componentIdx := p.2
        let comp := st1.components.getD componentIdx Component.emptyC
        let comps2 := st1.components.set componentIdx { comp with typeVars := comp.typeVars ++ [typeVar] }
        let st2 := { st1 with components := comps2 }
        (g.nodes typeVar).constraints.foldl
          (fun (st : AssembleState) constraint =>
            if constraint ∈ st.knownConstraints then st
            else
              let comp := st.components.getD componentIdx Component.emptyC
              let comps3 := st.components.set componentIdx { comp with constraints := comp.constraints ++ [constraint] }
              { st with
                knownConstraints := constraint :: st.knownConstraints,
                components := comps3 })
          st2
      else st)
    ⟨[], [], [], pA.2⟩
  if cc.oneWayDigraph.isEmpty then stB.components
  else
    populateOneWay dfsFuel typeVars cc.oneWayDigraph stB.componentIdxMap
      stB.uf stB.components

/-- A depth bound sufficient for both searches on the given input. -/
def dfsFuelFor (typeVars : List TVar) (d : OneWayDigraph) : Nat :=
  typeVars.length +
    (d.map (fun p => p.2.outAdjacencies.length + p.2.inAdjacencies.length + 1)).sum + 1

/-- ConstraintGraph::computeConnectedComponents (ConstraintGraph.cpp:847-855). -/
def computeConnectedComponents (env : CSEnv) (g : Graph)
    (typeVars : List TVar) : List Component :=
  let cc := ccConstruct env g typeVars
  getComponents env g typeVars (dfsFuelFor typeVars cc.oneWayDigraph) cc

/-! ### Edge contraction (ConstraintGraph.cpp:857-991) -/

/-- shouldContractEdge (ConstraintGraph.cpp:859-870). -/
def shouldContractEdge : ConstraintKind → Bool
  | .Bind => true
  | .BindParam => true
  | .BindToPointerType => true
  | .Equal => true
  | _ => false

/-- The per-candidate-binding risk test (ConstraintGraph.cpp:912-919): does
the binding type contain, transitively, a type variable that can bind to
`inout`, or an `InOut` type? -/
def bindingNotContractable (env : CSEnv) (type : Ty) : Bool :=
  type.findIf (fun nestedType =>
    (match nestedType.getAsTypeVar with
     | some tv => env.canBindToInOut tv
     | none => false) || nestedType.isInOut)

/-- The bindings loop of the `BindParam`/`inout` check
(ConstraintGraph.cpp:908-926): `isNotContractable` starts `true`, is
reassigned to each candidate's risk in turn, and the loop breaks at the
first risky candidate; so the final value is `true` iff the list is empty
or some candidate is risky. -/
def notContractableScan (env : CSEnv) : List Ty → Bool
  | [] => true
  | [binding] => bindingNotContractable env binding
  | binding :: rest =>
    if bindingNotContractable env binding then true else notContractableScan env rest

/-- ConstraintGraph::removeEdge (ConstraintGraph.cpp:959-986).  Erasing the
constraint from the constraint system's active/inactive lists and retiring
it in the solver state happen outside the graph; the graph-side effect is
`removeConstraint`. -/
def removeEdge (env : CSEnv) (fuel : Nat) (g : Graph) (constraint : Constraint) :
    Graph :=
  removeConstraintOp env fuel g constraint

/-- State threaded through `contractEdges`: the constraint-system view
(whose `rep` evolves through `mergeEquivalenceClasses`), the graph, the
constraints contracted so far, and the `didContractEdges` flag. -/
structure ContractState where
  env : CSEnv
  graph : Graph
  contracted : List Constraint
  didContractEdges : Bool

/-- One iteration of the `contractEdges` loop (ConstraintGraph.cpp:881-955).
`mergeFn` stands for `ConstraintSystem::mergeEquivalenceClasses` (external
to this file): it yields the constraint-system view after merging the two
representatives.  Both operand types are already desugared in the model. -/
def contractStep (mergeFn : CSEnv → TVar → TVar → CSEnv) (fuel : Nat)
    (st : ContractState) (constraint : Constraint) : ContractState :=
  let kind := constraint.kind
  match constraint.firstTy.getAsTypeVar, constraint.secondTy.getAsTypeVar with
  | some tyvar1, some tyvar2 =>
    let isParamBindingConstraint := kind = ConstraintKind.BindParam
    let skipForInOut :=
      if isParamBindingConstraint ∧ st.env.canBindToInOut tyvar1 then
        match st.env.potentialBindings tyvar1 with
        | none => true
        | some bindings => notContractableScan st.env bindings
      else false
    if skipForInOut then st
    else
      let rep1 := st.env.rep tyvar1
      let rep2 := st.env.rep tyvar2
      if st.env.canBindToLValue rep1 = st.env.canBindToLValue rep2 ∨
          isParamBindingConstraint then
        let g1 := removeEdge st.env fuel st.graph constraint
        let env1 := if rep1 ≠ rep2 then mergeFn st.env rep1 rep2 else st.env
        ⟨env1, g1, st.contracted ++ [constraint], true⟩
      else st
  | _, _ => st

/-- ConstraintGraph::contractEdges (ConstraintGraph.cpp:872-957): snapshot
the constraints whose kind is contractible (`CS.findConstraints` over the
registered constraints), then run the contraction loop over the snapshot. -/
def contractEdges (mergeFn : CSEnv → TVar → TVar → CSEnv) (fuel : Nat)
    (env : CSEnv) (g : Graph) (allConstraints : List Constraint) : ContractState :=
  let constraints := allConstraints.filter (fun c => shouldContractEdge c.kind)
  constraints.foldl (contractStep mergeFn fuel) ⟨env, g, [], false⟩

end CG

namespace CG

/-! ### Basic record-update lemmas -/

@[simp] theorem setNode_typeVariables (g : Graph) (v : TVar) (n : CGNode) :
    (g.setNode v n).typeVariables = g.typeVariables := rfl

@[simp] theorem setNode_hasNode (g : Graph) (v : TVar) (n : CGNode) :
    (g.setNode v n).hasNode = g.hasNode := rfl

@[simp] theorem setNode_graphIndex (g : Graph) (v : TVar) (n : CGNode) :
    (g.setNode v n).graphIndex = g.graphIndex := rfl

@[simp] theorem setNode_orphaned (g : Graph) (v : TVar) (n : CGNode) :
    (g.setNode v n).orphanedConstraints = g.orphanedConstraints := rfl

@[simp] theorem setNode_changes (g : Graph) (v : TVar) (n : CGNode) :
    (g.setNode v n).changes = g.changes := rfl

@[simp] theorem setNode_activeScope (g : Graph) (v : TVar) (n : CGNode) :
    (g.setNode v n).activeScope = g.activeScope := rfl

@[simp] theorem setNode_nodes_same (g : Graph) (v : TVar) (n : CGNode) :
    (g.setNode v n).nodes v = n := by
  simp [Graph.setNode]

theorem setNode_nodes_other (g : Graph) (v : TVar) (n : CGNode) {w : TVar}
    (h : w ≠ v) : (g.setNode v n).nodes w = g.nodes w := by
  simp [Graph.setNode, upd_other _ _ _ h]

@[simp] theorem modifyNode_typeVariables (g : Graph) (v : TVar) (f : CGNode → CGNode) :
    (g.modifyNode v f).typeVariables = g.typeVariables := rfl

@[simp] theorem modifyNode_hasNode (g : Graph) (v : TVar) (f : CGNode → CGNode) :
    (g.modifyNode v f).hasNode = g.hasNode := rfl

@[simp] theorem modifyNode_graphIndex (g : Graph) (v : TVar) (f : CGNode → CGNode) :
    (g.modifyNode v f).graphIndex = g.graphIndex := rfl

@[simp] theorem modifyNode_orphaned (g : Graph) (v : TVar) (f : CGNode → CGNode) :
    (g.modifyNode v f).orphanedConstraints = g.orphanedConstraints := rfl

@[simp] theorem modifyNode_changes (g : Graph) (v : TVar) (f : CGNode → CGNode) :
    (g.modifyNode v f).changes = g.changes := rfl

@[simp] theorem modifyNode_activeScope (g : Graph) (v : TVar) (f : CGNode → CGNode) :
    (g.modifyNode v f).activeScope = g.activeScope := rfl

@[simp] theorem modifyNode_nodes_same (g : Graph) (v : TVar) (f : CGNode → CGNode) :
    (g.modifyNode v f).nodes v = f (g.nodes v) := by
  simp [Graph.modifyNode]

theorem modifyNode_nodes_other (g : Graph) (v : TVar) (f : CGNode → CGNode) {w : TVar}
    (h : w ≠ v) : (g.modifyNode v f).nodes w = g.nodes w := by
  simp [Graph.modifyNode, setNode_nodes_other _ _ _ h]

@[simp] theorem createNode_typeVariables (g : Graph) (tv : TVar) :
    (createNode g tv).typeVariables = g.typeVariables ++ [tv] := rfl

@[simp] theorem createNode_activeScope (g : Graph) (tv : TVar) :
    (createNode g tv).activeScope = g.activeScope := rfl

@[simp] theorem createNode_orphaned (g : Graph) (tv : TVar) :
    (createNode g tv).orphanedConstraints = g.orphanedConstraints := rfl

theorem createNode_changes (g : Graph) (tv : TVar) :
    (createNode g tv).changes =
      if g.activeScope then g.changes ++ [Change.addedTypeVariable tv]
      else g.changes := rfl

@[simp] theorem createNode_hasNode_same (g : Graph) (tv : TVar) :
    (createNode g tv).hasNode tv = true := by
  simp [createNode]

theorem createNode_hasNode_other (g : Graph) (tv : TVar) {w : TVar} (h : w ≠ tv) :
    (createNode g tv).hasNode w = g.hasNode w := by
  simp [createNode, upd_other _ _ _ h]

@[simp] theorem createNode_nodes_same (g : Graph) (tv : TVar) :
    (createNode g tv).nodes tv = { CGNode.empty with equivalenceClass := [tv] } := by
  simp [createNode]

theorem createNode_nodes_other (g : Graph) (tv : TVar) {w : TVar} (h : w ≠ tv) :
    (createNode g tv).nodes w = g.nodes w := by
  simp [createNode, upd_other _ _ _ h]

@[simp] theorem addFixedPair_typeVariables (g : Graph) (a b : TVar) :
    (addFixedPair g a b).typeVariables = g.typeVariables := rfl

@[simp] theorem addFixedPair_hasNode (g : Graph) (a b : TVar) :
    (addFixedPair g a b).hasNode = g.hasNode := rfl

@[simp] theorem addFixedPair_changes (g : Graph) (a b : TVar) :
    (addFixedPair g a b).changes = g.changes := rfl

@[simp] theorem addFixedPair_activeScope (g : Graph) (a b : TVar) :
    (addFixedPair g a b).activeScope = g.activeScope := rfl

@[simp] theorem addFixedPair_orphaned (g : Graph) (a b : TVar) :
    (addFixedPair g a b).orphanedConstraints = g.orphanedConstraints := rfl

@[simp] theorem addFixedPair_graphIndex (g : Graph) (a b : TVar) :
    (addFixedPair g a b).graphIndex = g.graphIndex := rfl

/-- A generic invariant-preservation principle for left folds. -/
theorem foldl_invariant {α β : Type} (P : α → Prop) (f : α → β → α) (l : List β)
    (init : α) (h0 : P init) (h : ∀ a b, b ∈ l → P a → P (f a b)) :
    P (l.foldl f init) := by
  induction l generalizing init with
  | nil => exact h0
  | cons x xs ih =>
    exact ih (f init x) (h init x (by simp) h0) (fun a b hb ha => h a b (by simp [hb]) ha)

end CG

namespace CG

/-! ### Claim C5: bind/unbind reversal -/

/-- An environment where every variable is its own representative and
nothing is fixed; lookups on existing nodes are pure reads and fresh
creations trigger no cascade. -/
def envId : CSEnv :=
  { rep := fun v => v
    fixedType := fun _ => none
    canBindToLValue := fun _ => false
    canBindToInOut := fun _ => false
    potentialBindings := fun _ => none }

/-- A fixed type mentioning the bound variable `0` itself and the variable
`1`. -/
def tyC5 : Ty := Ty.fn (Ty.tvar 0) (Ty.tvar 1)

/-- A graph with live nodes `0`, `1`, `5`, where node `0` already carries
the fixed-binding pair with `5` (as a prior `bindTypeVariable 0` of a type
mentioning `5` would leave it). -/
def graphC5 : Graph :=
  { typeVariables := [0, 1, 5]
    nodes := fun v =>
      if v = 0 then ⟨[], [0], [5]⟩
      else if v = 1 then ⟨[], [1], []⟩
      else if v = 5 then ⟨[], [5], [0]⟩
      else CGNode.empty
    hasNode := fun v => v == 0 || v == 1 || v == 5
    graphIndex := fun v => if v = 0 then 0 else if v = 1 then 1 else 2
    orphanedConstraints := []
    changes := []
    activeScope := false }

/-- C5: `unbind_type_variable(tv, T)` does NOT exactly reverse
`bind_type_variable(tv, T)` when `T` mentions `tv` itself: binding `0` to
`fn (tvar 0) (tvar 1)` on `graphC5` adds the single symmetric pair between
`0` and `1` (no self-pair), but the unbind - which lacks the
`typeVar == otherTypeVar` skip and pops with `pop_back` - removes two
further entries from node `0`'s vector, destroying the pre-existing pair
with `5`: node `0` ends with no fixed bindings while node `5` still records
`0`.  This contradicts the documented intent that undo restores the state
exactly (spec property P1 / invariant 7), so the missing self-skip in
`unbindTypeVariable` (ConstraintGraph.cpp:368-371) is a code bug. -/
theorem c5_unbind_not_exact_reverse :
    ((bindTypeVariable envId 9 graphC5 0 tyC5).nodes 0).fixedBindings = [5, 1] ∧
    ((bindTypeVariable envId 9 graphC5 0 tyC5).nodes 1).fixedBindings = [0] ∧
    ((unbindTypeVariable envId 9 (bindTypeVariable envId 9 graphC5 0 tyC5) 0 tyC5).nodes 0).fixedBindings = [] ∧
    ((unbindTypeVariable envId 9 (bindTypeVariable envId 9 graphC5 0 tyC5) 0 tyC5).nodes 5).fixedBindings = [0] ∧
    (graphC5.nodes 0).fixedBindings = [5] := by
  decide

/-! ### Claim C8: the BindParam/inout contraction skip -/

/-- The condition under which `contractEdges` skips a `BindParam`
constraint whose left desugared operand is the inout-capable variable `a`:
the potential bindings are unavailable, or empty, or some candidate is
risky. -/
def c8SkipCond (env : CSEnv) (a : TVar) : Prop :=
  env.potentialBindings a = none ∨ env.potentialBindings a = some [] ∨
    ∃ t ∈ (env.potentialBindings a).getD [], bindingNotContractable env t = true

theorem notContractableScan_eq_true (env : CSEnv) (l : List Ty) :
    notContractableScan env l = true ↔
      l = [] ∨ ∃ t ∈ l, bindingNotContractable env t = true := by
  induction l with
  | nil => simp [notContractableScan]
  | cons x xs ih =>
    cases xs with
    | nil => simp [notContractableScan]
    | cons y ys =>
      by_cases h : bindingNotContractable env x = true
      · simp [notContractableScan, h]
      · rw [show notContractableScan env (x :: y :: ys) =
            (if bindingNotContractable env x then true else notContractableScan env (y :: ys)) from rfl]
        simp only [h, if_false, ih, Bool.false_eq_true]
        constructor
        · rintro (h1 | ⟨t, ht, hr⟩)
          · exact absurd h1 (by simp)
          · exact Or.inr ⟨t, by simp [ht], hr⟩
        · rintro (h1 | ⟨t, ht, hr⟩)
          · exact absurd h1 (by simp)
          · rcases List.mem_cons.mp ht with rfl | ht2
            · exact absurd hr h
            · exact Or.inr ⟨t, ht2, hr⟩

theorem contractStep_shape (mergeFn : CSEnv → TVar → TVar → CSEnv)
    (fuel : Nat) (st : ContractState) (x : Constraint)
    (hm1 : ∀ e p q, (mergeFn e p q).canBindToInOut = e.canBindToInOut)
    (hm2 : ∀ e p q, (mergeFn e p q).potentialBindings = e.potentialBindings) :
    contractStep mergeFn fuel st x = st ∨
    ((contractStep mergeFn fuel st x).contracted = st.contracted ++ [x] ∧
     (contractStep mergeFn fuel st x).env.canBindToInOut = st.env.canBindToInOut ∧
     (contractStep mergeFn fuel st x).env.potentialBindings = st.env.potentialBindings) := by
  unfold contractStep
  cases hx1 : x.firstTy.getAsTypeVar with
  | none => exact Or.inl rfl
  | some tyvar1 =>
    cases hx2 : x.secondTy.getAsTypeVar with
    | none => exact Or.inl rfl
    | some tyvar2 =>
      simp only []
      split
      · split
        · exact Or.inl rfl
        · split
          · refine Or.inr ⟨rfl, ?_, ?_⟩
            · show (if st.env.rep tyvar1 ≠ st.env.rep tyvar2 then
                  mergeFn st.env (st.env.rep tyvar1) (st.env.rep tyvar2)
                else st.env).canBindToInOut = st.env.canBindToInOut
              split
              · exact hm1 _ _ _
              · rfl
            · show (if st.env.rep tyvar1 ≠ st.env.rep tyvar2 then
                  mergeFn st.env (st.env.rep tyvar1) (st.env.rep tyvar2)
                else st.env).potentialBindings = st.env.potentialBindings
              split
              · exact hm2 _ _ _
              · rfl
          · exact Or.inl rfl
      · split
        · exact Or.inl rfl
        · split
          · refine Or.inr ⟨rfl, ?_, ?_⟩
            · show (if st.env.rep tyvar1 ≠ st.env.rep tyvar2 then
                  mergeFn st.env (st.env.rep tyvar1) (st.env.rep tyvar2)
                else st.env).canBindToInOut = st.env.canBindToInOut
              split
              · exact hm1 _ _ _
              · rfl
            · show (if st.env.rep tyvar1 ≠ st.env.rep tyvar2 then
                  mergeFn st.env (st.env.rep tyvar1) (st.env.rep tyvar2)
                else st.env).potentialBindings = st.env.potentialBindings
              split
              · exact hm2 _ _ _
              · rfl
          · exact Or.inl rfl

theorem contractStep_env_canBindToInOut (mergeFn : CSEnv → TVar → TVar → CSEnv)
    (fuel : Nat) (st : ContractState) (x : Constraint)
    (hm1 : ∀ e p q, (mergeFn e p q).canBindToInOut = e.canBindToInOut)
    (hm2 : ∀ e p q, (mergeFn e p q).potentialBindings = e.potentialBindings) :
    (contractStep mergeFn fuel st x).env.canBindToInOut = st.env.canBindToInOut := by
  rcases contractStep_shape mergeFn fuel st x hm1 hm2 with h | ⟨_, h2, _⟩
  · rw [h]
  · exact h2

theorem contractStep_env_potentialBindings (mergeFn : CSEnv → TVar → TVar → CSEnv)
    (fuel : Nat) (st : ContractState) (x : Constraint)
    (hm1 : ∀ e p q, (mergeFn e p q).canBindToInOut = e.canBindToInOut)
    (hm2 : ∀ e p q, (mergeFn e p q).potentialBindings = e.potentialBindings) :
    (contractStep mergeFn fuel st x).env.potentialBindings = st.env.potentialBindings := by
  rcases contractStep_shape mergeFn fuel st x hm1 hm2 with h | ⟨_, _, h3⟩
  · rw [h]
  · exact h3

theorem contractStep_contracted_other (mergeFn : CSEnv → TVar → TVar → CSEnv)
    (fuel : Nat) (st : ContractState) (x c : Constraint) (hne : x ≠ c)
    (hm1 : ∀ e p q, (mergeFn e p q).canBindToInOut = e.canBindToInOut)
    (hm2 : ∀ e p q, (mergeFn e p q).potentialBindings = e.potentialBindings) :
    (c ∈ (contractStep mergeFn fuel st x).contracted ↔ c ∈ st.contracted) := by
  rcases contractStep_shape mergeFn fuel st x hm1 hm2 with h | ⟨h1, _, _⟩
  · rw [h]
  · rw [h1]
    simp [Ne.symm hne]

theorem contractStep_contracted_self (mergeFn : CSEnv → TVar → TVar → CSEnv)
    (fuel : Nat) (st : ContractState) (c : Constraint) (a b : TVar)
    (envOrig : CSEnv)
    (hk : c.kind = ConstraintKind.BindParam)
    (h1 : c.firstTy = Ty.tvar a) (h2 : c.secondTy = Ty.tvar b)
    (hio : envOrig.canBindToInOut a = true)
    (he1 : st.env.canBindToInOut = envOrig.canBindToInOut)
    (he2 : st.env.potentialBindings = envOrig.potentialBindings) :
    (c ∈ (contractStep mergeFn fuel st c).contracted ↔
      (c ∈ st.contracted ∨ ¬ c8SkipCond envOrig a)) := by
  have hget1 : c.firstTy.getAsTypeVar = some a := by rw [h1]; rfl
  have hget2 : c.secondTy.getAsTypeVar = some b := by rw [h2]; rfl
  have hpb : st.env.canBindToInOut a = true := by rw [he1]; exact hio
  have hskip :
      (if c.kind = ConstraintKind.BindParam ∧ st.env.canBindToInOut a then
          match st.env.potentialBindings a with
          | none => true
          | some bindings => notContractableScan st.env bindings
        else false) = true ↔ c8SkipCond envOrig a := by
    rw [if_pos ⟨hk, hpb⟩]
    have hbs : ∀ t : Ty, bindingNotContractable st.env t = bindingNotContractable envOrig t := by
      intro t
      unfold bindingNotContractable
      congr 1
      funext nt
      cases nt.getAsTypeVar with
      | none => rfl
      | some tv => simp [he1]
    have hscan : ∀ l : List Ty, notContractableScan st.env l = notContractableScan envOrig l := by
      intro l
      induction l with
      | nil => rfl
      | cons x xs ih =>
        cases xs with
        | nil =>
          show bindingNotContractable st.env x = bindingNotContractable envOrig x
          exact hbs x
        | cons y ys =>
          show (if bindingNotContractable st.env x then true else notContractableScan st.env (y :: ys)) =
            (if bindingNotContractable envOrig x then true else notContractableScan envOrig (y :: ys))
          rw [hbs x, ih]
    rw [he2]
    unfold c8SkipCond
    cases hx : envOrig.potentialBindings a with
    | none => simp
    | some bs =>
      simp only [hx]
      rw [hscan bs, notContractableScan_eq_true]
      cases bs with
      | nil => simp
      | cons z zs => simp [Option.getD]
  unfold contractStep
  rw [hget1, hget2]
  simp only []
  by_cases hsk : c8SkipCond envOrig a
  · rw [if_pos (by rw [hk] at hskip ⊢; exact (by simpa using hskip.mpr hsk))]
    simp [hsk]
  · have : (if c.kind = ConstraintKind.BindParam ∧ st.env.canBindToInOut a then
          match st.env.potentialBindings a with
          | none => true
          | some bindings => notContractableScan st.env bindings
        else false) = false := by
      cases hb : (if c.kind = ConstraintKind.BindParam ∧ st.env.canBindToInOut a then
          match st.env.potentialBindings a with
          | none => true
          | some bindings => notContractableScan st.env bindings
        else false) with
      | false => rfl
      | true => exact absurd (hskip.mp hb) hsk
    rw [this]
    simp only [Bool.false_eq_true, if_false]
    rw [if_pos (Or.inr (by simp [hk]))]
    simp [hsk]

end CG

namespace CG

theorem contract_fold_mem (mergeFn : CSEnv → TVar → TVar → CSEnv) (fuel : Nat)
    (envOrig : CSEnv) (c : Constraint) (a b : TVar)
    (hk : c.kind = ConstraintKind.BindParam)
    (h1 : c.firstTy = Ty.tvar a) (h2 : c.secondTy = Ty.tvar b)
    (hio : envOrig.canBindToInOut a = true)
    (hm1 : ∀ e p q, (mergeFn e p q).canBindToInOut = e.canBindToInOut)
    (hm2 : ∀ e p q, (mergeFn e p q).potentialBindings = e.potentialBindings) :
    ∀ (l : List Constraint) (st : ContractState),
      st.env.canBindToInOut = envOrig.canBindToInOut →
      st.env.potentialBindings = envOrig.potentialBindings →
      (c ∈ (l.foldl (contractStep mergeFn fuel) st).contracted ↔
        (c ∈ st.contracted ∨ (c ∈ l ∧ ¬ c8SkipCond envOrig a))) := by
  intro l
  induction l with
  | nil => intro st _ _; simp
  | cons x xs ih =>
    intro st he1 he2
    have he1' : (contractStep mergeFn fuel st x).env.canBindToInOut = envOrig.canBindToInOut := by
      rw [contractStep_env_canBindToInOut mergeFn fuel st x hm1 hm2, he1]
    have he2' : (contractStep mergeFn fuel st x).env.potentialBindings = envOrig.potentialBindings := by
      rw [contractStep_env_potentialBindings mergeFn fuel st x hm1 hm2, he2]
    rw [List.foldl_cons, ih (contractStep mergeFn fuel st x) he1' he2']
    by_cases hx : x = c
    · subst hx
      rw [contractStep_contracted_self mergeFn fuel st x a b envOrig hk h1 h2 hio he1 he2]
      by_cases hsk : c8SkipCond envOrig a
      · simp [hsk]
      · simp [hsk]
    · rw [contractStep_contracted_other mergeFn fuel st x c hx hm1 hm2]
      constructor
      · rintro (h | ⟨_, hn⟩)
        · exact Or.inl h
        · exact Or.inr ⟨by simp [List.mem_cons]; tauto, hn⟩
      · rintro (h | ⟨hm, hn⟩)
        · exact Or.inl h
        · rcases List.mem_cons.mp hm with h' | h'
          · exact absurd h'.symm hx
          · exact Or.inr ⟨h', hn⟩

/-- C8 (amended): for a `BindParam` constraint whose desugared operands are
the type variables `a` and `b`, with `a` inout-capable, `contractEdges`
skips the contraction exactly when `a`'s potential bindings are
unavailable, or empty, or some candidate binding contains (transitively) a
type variable that can bind to `inout` or an `InOut` type; when the
binding set is non-empty and no candidate is risky, contraction proceeds
(`BindParam` permits the l-value mismatch).  `mergeFn` is the external
`mergeEquivalenceClasses`; it is assumed not to change the inout
capability flags or the potential-bindings view. -/
theorem c8_bindparam_inout_skip (mergeFn : CSEnv → TVar → TVar → CSEnv)
    (fuel : Nat) (env : CSEnv) (g : Graph) (allConstraints : List Constraint)
    (c : Constraint) (a b : TVar)
    (hk : c.kind = ConstraintKind.BindParam)
    (h1 : c.firstTy = Ty.tvar a) (h2 : c.secondTy = Ty.tvar b)
    (hio : env.canBindToInOut a = true)
    (hm1 : ∀ e p q, (mergeFn e p q).canBindToInOut = e.canBindToInOut)
    (hm2 : ∀ e p q, (mergeFn e p q).potentialBindings = e.potentialBindings)
    (hmem : c ∈ allConstraints) :
    (c ∉ (contractEdges mergeFn fuel env g allConstraints).contracted ↔
      c8SkipCond env a) := by
  unfold contractEdges
  rw [contract_fold_mem mergeFn fuel env c a b hk h1 h2 hio hm1 hm2
    (allConstraints.filter (fun c => shouldContractEdge c.kind))
    ⟨env, g, [], false⟩ rfl rfl]
  have hcf : c ∈ allConstraints.filter (fun c => shouldContractEdge c.kind) := by
    rw [List.mem_filter]
    exact ⟨hmem, by rw [hk]; rfl⟩
  by_cases hsk : c8SkipCond env a
  · simp [hcf, hsk]
  · simp [hcf, hsk]

/-- A `BindParam` constraint between the type variables `0` and `1`. -/
def cBP : Constraint := ⟨0, ConstraintKind.BindParam, [0, 1], Ty.tvar 0, Ty.tvar 1⟩

/-- An environment where `0` can bind to `inout` and has an empty
potential-bindings set. -/
def envC8 : CSEnv :=
  { rep := fun v => v
    fixedType := fun _ => none
    canBindToLValue := fun _ => false
    canBindToInOut := fun v => v == 0
    potentialBindings := fun v => if v = 0 then some [] else none }

/-- C8 counterexample: `0` can bind to `inout` and its potential-bindings
set is empty, so NO candidate binding is risky - the claim then demands
that contraction proceed - yet `contractEdges` skips the constraint
(`isNotContractable` is initialised to `true` and the loop never runs,
ConstraintGraph.cpp:908-929), so nothing is contracted. -/
theorem c8_counterexample :
    (contractEdges (fun e _ _ => e) 3 envC8 emptyGraph [cBP]).contracted = [] ∧
    envC8.canBindToInOut 0 = true ∧
    envC8.potentialBindings 0 = some [] ∧
    (¬ ∃ t ∈ (envC8.potentialBindings 0).getD [], bindingNotContractable envC8 t = true) := by
  refine ⟨by decide, rfl, by decide, ?_⟩
  rintro ⟨t, ht, _⟩
  simp [envC8] at ht

/-- An environment like `envC8` but with one risky candidate binding. -/
def envC8w : CSEnv :=
  { rep := fun v => v
    fixedType := fun _ => none
    canBindToLValue := fun _ => false
    canBindToInOut := fun v => v == 0
    potentialBindings := fun v => if v = 0 then some [Ty.inOutTy (Ty.base 0)] else none }

theorem c8_bindparam_inout_skip_witness :
    cBP ∉ (contractEdges (fun e _ _ => e) 3 envC8w emptyGraph [cBP]).contracted :=
  (c8_bindparam_inout_skip (fun e _ _ => e) 3 envC8w emptyGraph [cBP] cBP 0 1
    rfl rfl rfl rfl (fun _ _ _ => rfl) (fun _ _ _ => rfl) (by decide)).mpr
    (Or.inr (Or.inr ⟨Ty.inOutTy (Ty.base 0), by decide, by decide⟩))

end CG

namespace CG

/-! ### Frame properties of the node-creating operations -/

/-- Wellformedness: a variable without a node maps to the empty node (the
`getGraphNode() == nullptr` reading). -/
def WFEmpty (g : Graph) : Prop :=
  ∀ v, g.hasNode v = false → g.nodes v = CGNode.empty

/-- The frame facts shared by `lookupNode`, `mergeNodes` and
`bindTypeVariable`: they do not change the scope flag or the orphan list,
never destroy a node, never move a live variable's stored index, and (on
wellformed graphs) never touch any node's constraint list. -/
def Frame (g h : Graph) : Prop :=
  h.activeScope = g.activeScope ∧
  h.orphanedConstraints = g.orphanedConstraints ∧
  (∀ v, g.hasNode v = true → h.hasNode v = true) ∧
  (∀ v, g.hasNode v = true → h.graphIndex v = g.graphIndex v) ∧
  (WFEmpty g → WFEmpty h ∧ ∀ v, (h.nodes v).constraints = (g.nodes v).constraints)

theorem Frame_refl (g : Graph) : Frame g g :=
  ⟨rfl, rfl, fun _ h => h, fun _ _ => rfl, fun hw => ⟨hw, fun _ => rfl⟩⟩

theorem Frame_trans {g h k : Graph} (h1 : Frame g h) (h2 : Frame h k) : Frame g k := by
  obtain ⟨a1, b1, c1, d1, e1⟩ := h1
  obtain ⟨a2, b2, c2, d2, e2⟩ := h2
  refine ⟨a2.trans a1, b2.trans b1, fun v hv => c2 v (c1 v hv),
    fun v hv => (d2 v (c1 v hv)).trans (d1 v hv), fun hw => ?_⟩
  obtain ⟨hw1, he1⟩ := e1 hw
  obtain ⟨hw2, he2⟩ := e2 hw1
  exact ⟨hw2, fun v => (he2 v).trans (he1 v)⟩

theorem frame_createNode (g : Graph) (tv : TVar) (hnt : g.hasNode tv = false) :
    Frame g (createNode g tv) := by
  refine ⟨rfl, rfl, fun v hv => ?_, fun v hv => ?_, fun hw => ⟨fun v hv => ?_, fun v => ?_⟩⟩
  · by_cases h : v = tv
    · subst h; simp
    · rwa [createNode_hasNode_other _ _ h]
  · have h : v ≠ tv := fun he => by rw [he, hnt] at hv; cases hv
    simp [createNode, upd_other _ _ _ h]
  · have h : v ≠ tv := fun he => by
      rw [he] at hv
      rw [createNode_hasNode_same] at hv
      cases hv
    rw [createNode_nodes_other _ _ h]
    rw [createNode_hasNode_other _ _ h] at hv
    exact hw v hv
  · by_cases h : v = tv
    · subst h
      rw [createNode_nodes_same, hw _ hnt]
    · rw [createNode_nodes_other _ _ h]

theorem WFEmpty_modify_live (g : Graph) (v : TVar) (f : CGNode → CGNode)
    (hv : g.hasNode v = true) (hw : WFEmpty g) : WFEmpty (g.modifyNode v f) := by
  intro w hwn
  rw [modifyNode_hasNode] at hwn
  have h : w ≠ v := fun he => by rw [he, hv] at hwn; cases hwn
  rw [modifyNode_nodes_other _ _ _ h]
  exact hw w hwn

theorem frame_modify_live (g : Graph) (v : TVar) (f : CGNode → CGNode)
    (hv : g.hasNode v = true) (hc : ∀ n, (f n).constraints = n.constraints) :
    Frame g (g.modifyNode v f) := by
  refine ⟨rfl, rfl, fun w hw => by simpa using hw, fun w hw => rfl,
    fun hw => ⟨WFEmpty_modify_live g v f hv hw, fun w => ?_⟩⟩
  by_cases h : w = v
  · subst h; rw [modifyNode_nodes_same, hc]
  · rw [modifyNode_nodes_other _ _ _ h]

theorem frame_addFixedPair (g : Graph) (a b : TVar)
    (ha : g.hasNode a = true) (hb : g.hasNode b = true) :
    Frame g (addFixedPair g a b) := by
  have h1 : Frame g (g.modifyNode b
      (fun n => { n with fixedBindings := n.fixedBindings ++ [a] })) :=
    frame_modify_live g b _ hb (fun n => rfl)
  have h2 := frame_modify_live (g.modifyNode b
      (fun n => { n with fixedBindings := n.fixedBindings ++ [a] })) a
      (fun n => { n with fixedBindings := n.fixedBindings ++ [b] })
      (by simpa using ha) (fun n => rfl)
  exact Frame_trans h1 h2

theorem frame_setChanges (g : Graph) (cs : List Change) :
    Frame g { g with changes := cs } :=
  ⟨rfl, rfl, fun _ h => h, fun _ _ => rfl, fun hw => ⟨hw, fun _ => rfl⟩⟩

theorem nodeOpGo_lookup_zero (env : CSEnv) (tv : TVar) (g : Graph) :
    nodeOpGo env 0 (.lookup tv) g = if g.hasNode tv then g else createNode g tv := rfl

theorem nodeOpGo_merge_zero (env : CSEnv) (a b : TVar) (g : Graph) :
    nodeOpGo env 0 (.merge a b) g = g := rfl

theorem nodeOpGo_bind_zero (env : CSEnv) (tv : TVar) (t : Ty) (g : Graph) :
    nodeOpGo env 0 (.bind tv t) g = g := rfl

theorem nodeOpGo_lookup_succ (env : CSEnv) (f : Nat) (tv : TVar) (g : Graph) :
    nodeOpGo env (f + 1) (.lookup tv) g =
      if g.hasNode tv then g
      else
        if tv ≠ env.rep tv then nodeOpGo env f (.merge tv (env.rep tv)) (createNode g tv)
        else
          match env.fixedType (env.rep tv) with
          | some fixed => nodeOpGo env f (.bind tv fixed) (createNode g tv)
          | none => createNode g tv := rfl

theorem nodeOpGo_merge_succ (env : CSEnv) (f : Nat) (a b : TVar) (g : Graph) :
    nodeOpGo env (f + 1) (.merge a b) g =
      (let typeVarRep := env.rep a
       let g1 := nodeOpGo env f (.lookup typeVarRep) g
       let typeVarNonRep := if a = typeVarRep then b else a
       let g2 :=
         if g1.activeScope then
           { g1 with changes := g1.changes ++
               [Change.extendedEquivalenceClass typeVarRep
                 (g1.nodes typeVarRep).equivalenceClass.length] }
         else g1
       let g3 := nodeOpGo env f (.lookup typeVarNonRep) g2
       g3.modifyNode typeVarRep
         (fun n => { n with equivalenceClass := n.equivalenceClass ++
           (g3.nodes typeVarNonRep).equivalenceClass })) := rfl

theorem nodeOpGo_bind_succ (env : CSEnv) (f : Nat) (typeVar : TVar) (fixed : Ty) (g : Graph) :
    nodeOpGo env (f + 1) (.bind typeVar fixed) g =
      (if !fixed.hasTypeVariable then g
       else
         let g1 := nodeOpGo env f (.lookup typeVar) g
         let st := fixed.typeVarsList.foldl
           (fun (st : Graph × List TVar) otherTypeVar =>
             if otherTypeVar ∈ st.2 then st
             else
               if typeVar = otherTypeVar then (st.1, otherTypeVar :: st.2)
               else
                 let ga := nodeOpGo env f (.lookup otherTypeVar) st.1
                 (addFixedPair ga typeVar otherTypeVar, otherTypeVar :: st.2))
           (g1, ([] : List TVar))
         if st.1.activeScope then
           { st.1 with changes := st.1.changes ++ [Change.boundTypeVariable typeVar fixed] }
         else st.1) := rfl

/-- Frame facts for the node-creating operations, with the additional fact
that a lookup leaves its argument with a node, for every fuel. -/
theorem nodeOpGo_frame (env : CSEnv) :
    ∀ (fuel : Nat) (o : NodeOp) (g : Graph),
      Frame g (nodeOpGo env fuel o g) ∧
      (∀ tv, o = NodeOp.lookup tv → (nodeOpGo env fuel o g).hasNode tv = true) := by
  intro fuel
  induction fuel with
  | zero =>
    intro o g
    cases o with
    | lookup tv =>
      rw [nodeOpGo_lookup_zero]
      by_cases h : g.hasNode tv
      · rw [if_pos h]
        refine ⟨Frame_refl g, ?_⟩
        rintro tv2 heq
        injection heq with heq2
        subst heq2
        exact h
      · rw [if_neg h]
        refine ⟨frame_createNode g tv (Bool.not_eq_true _ ▸ (by simpa using h)), ?_⟩
        rintro tv2 heq
        injection heq with heq2
        subst heq2
        exact createNode_hasNode_same g tv
    | merge a b =>
      rw [nodeOpGo_merge_zero]
      exact ⟨Frame_refl g, fun tv heq => NodeOp.noConfusion heq⟩
    | bind tv t =>
      rw [nodeOpGo_bind_zero]
      exact ⟨Frame_refl g, fun tv2 heq => NodeOp.noConfusion heq⟩
  | succ f ih =>
    intro o g
    cases o with
    | lookup tv =>
      rw [nodeOpGo_lookup_succ]
      by_cases h : g.hasNode tv
      · rw [if_pos h]
        refine ⟨Frame_refl g, ?_⟩
        rintro tv2 heq
        injection heq with heq2
        subst heq2
        exact h
      · rw [if_neg h]
        have hnt : g.hasNode tv = false := by simpa using h
        have hcr := frame_createNode g tv hnt
        have hlive : (createNode g tv).hasNode tv = true := createNode_hasNode_same g tv
        by_cases hrep : tv ≠ env.rep tv
        · rw [if_pos hrep]
          have hm := (ih (.merge tv (env.rep tv)) (createNode g tv)).1
          refine ⟨Frame_trans hcr hm, ?_⟩
          rintro tv2 heq
          injection heq with heq2
          subst heq2
          exact hm.2.2.1 tv hlive
        · rw [if_neg hrep]
          cases hft : env.fixedType (env.rep tv) with
          | some fixed =>
            have hm := (ih (.bind tv fixed) (createNode g tv)).1
            refine ⟨Frame_trans hcr hm, ?_⟩
            rintro tv2 heq
            injection heq with heq2
            subst heq2
            exact hm.2.2.1 tv hlive
          | none =>
            refine ⟨hcr, ?_⟩
            rintro tv2 heq
            injection heq with heq2
            subst heq2
            exact hlive
    | merge a b =>
      rw [nodeOpGo_merge_succ]
      simp only []
      refine ⟨?_, fun tv heq => NodeOp.noConfusion heq⟩
      have h1 := (ih (.lookup (env.rep a)) g).1
      have hlive1 : (nodeOpGo env f (.lookup (env.rep a)) g).hasNode (env.rep a) = true :=
        (ih (.lookup (env.rep a)) g).2 (env.rep a) rfl
      set g1 := nodeOpGo env f (.lookup (env.rep a)) g with hg1
      set g2 :=
        (if g1.activeScope then
          { g1 with changes := g1.changes ++
              [Change.extendedEquivalenceClass (env.rep a)
                (g1.nodes (env.rep a)).equivalenceClass.length] }
         else g1) with hg2
      have h2 : Frame g1 g2 := by
        rw [hg2]
        split
        · exact frame_setChanges g1 _
        · exact Frame_refl g1
      have hlive2 : g2.hasNode (env.rep a) = true := by
        rw [hg2]
        split
        · exact hlive1
        · exact hlive1
      have h3 := (ih (.lookup (if a = env.rep a then b else a)) g2).1
      set g3 := nodeOpGo env f (.lookup (if a = env.rep a then b else a)) g2 with hg3
      have hlive3 : g3.hasNode (env.rep a) = true := h3.2.2.1 _ hlive2
      have h4 : Frame g3 (g3.modifyNode (env.rep a)
          (fun n => { n with equivalenceClass := n.equivalenceClass ++
            (g3.nodes (if a = env.rep a then b else a)).equivalenceClass })) :=
        frame_modify_live g3 _ _ hlive3 (fun n => rfl)
      exact Frame_trans (Frame_trans (Frame_trans h1 h2) h3) h4
    | bind typeVar fixed =>
      rw [nodeOpGo_bind_succ]
      simp only []
      refine ⟨?_, fun tv heq => NodeOp.noConfusion heq⟩
      by_cases hv : (!fixed.hasTypeVariable) = true
      · rw [if_pos hv]; exact Frame_refl g
      · rw [if_neg hv]
        have h1 := (ih (.lookup typeVar) g).1
        have hlive1 : (nodeOpGo env f (.lookup typeVar) g).hasNode typeVar = true :=
          (ih (.lookup typeVar) g).2 typeVar rfl
        set g1 := nodeOpGo env f (.lookup typeVar) g with hg1
        have hfold : ∀ st : Graph × List TVar,
            (Frame g1 st.1 ∧ st.1.hasNode typeVar = true) →
            ∀ x ∈ fixed.typeVarsList,
            True → True := fun _ _ _ _ _ => trivial
        have main : Frame g1 (fixed.typeVarsList.foldl
            (fun (st : Graph × List TVar) otherTypeVar =>
              if otherTypeVar ∈ st.2 then st
              else
                if typeVar = otherTypeVar then (st.1, otherTypeVar :: st.2)
                else
                  let ga := nodeOpGo env f (.lookup otherTypeVar) st.1
                  (addFixedPair ga typeVar otherTypeVar, otherTypeVar :: st.2))
            (g1, ([] : List TVar))).1 ∧
            (fixed.typeVarsList.foldl
            (fun (st : Graph × List TVar) otherTypeVar =>
              if otherTypeVar ∈ st.2 then st
              else
                if typeVar = otherTypeVar then (st.1, otherTypeVar :: st.2)
                else
                  let ga := nodeOpGo env f (.lookup otherTypeVar) st.1
                  (addFixedPair ga typeVar otherTypeVar, otherTypeVar :: st.2))
            (g1, ([] : List TVar))).1.hasNode typeVar = true := by
          have := foldl_invariant
            (fun (st : Graph × List TVar) => Frame g1 st.1 ∧ st.1.hasNode typeVar = true)
            (fun (st : Graph × List TVar) otherTypeVar =>
              if otherTypeVar ∈ st.2 then st
              else
                if typeVar = otherTypeVar then (st.1, otherTypeVar :: st.2)
                else
                  let ga := nodeOpGo env f (.lookup otherTypeVar) st.1
                  (addFixedPair ga typeVar otherTypeVar, otherTypeVar :: st.2))
            fixed.typeVarsList (g1, ([] : List TVar))
            ⟨Frame_refl g1, hlive1⟩ ?_
          · exact this
          · intro st x hx hst
            simp only []
            by_cases hmem : x ∈ st.2
            · rw [if_pos hmem]; exact hst
            · rw [if_neg hmem]
              by_cases heq : typeVar = x
              · rw [if_pos heq]; exact hst
              · rw [if_neg heq]
                have ha := (ih (.lookup x) st.1).1
                have halive : (nodeOpGo env f (.lookup x) st.1).hasNode x = true :=
                  (ih (.lookup x) st.1).2 x rfl
                have htv : (nodeOpGo env f (.lookup x) st.1).hasNode typeVar = true :=
                  ha.2.2.1 typeVar hst.2
                have hFP := frame_addFixedPair (nodeOpGo env f (.lookup x) st.1)
                  typeVar x htv halive
                exact ⟨Frame_trans (Frame_trans hst.1 ha) hFP,
                  by simpa using htv⟩
        set stF := fixed.typeVarsList.foldl
            (fun (st : Graph × List TVar) otherTypeVar =>
              if otherTypeVar ∈ st.2 then st
              else
                if typeVar = otherTypeVar then (st.1, otherTypeVar :: st.2)
                else
                  let ga := nodeOpGo env f (.lookup otherTypeVar) st.1
                  (addFixedPair ga typeVar otherTypeVar, otherTypeVar :: st.2))
            (g1, ([] : List TVar)) with hstF
        have hlast : Frame stF.1
            (if stF.1.activeScope then
              { stF.1 with changes := stF.1.changes ++ [Change.boundTypeVariable typeVar fixed] }
             else stF.1) := by
          split
          · exact frame_setChanges stF.1 _
          · exact Frame_refl stF.1
        exact Frame_trans (Frame_trans h1 main.1) hlast

end CG

namespace CG

/-! ### Claim C9: fixed-binding symmetry -/

/-- Fixed-binding symmetry, with multiplicities: the number of times `u`
appears in `v`'s fixed-binding vector equals the number of times `v`
appears in `u`'s. -/
def FixedSymm (g : Graph) : Prop :=
  ∀ u v, List.count u ((g.nodes v).fixedBindings) =
    List.count v ((g.nodes u).fixedBindings)

theorem addFixedPair_fb_count (g : Graph) (a b : TVar) (hab : a ≠ b) (u v : TVar) :
    List.count u (((addFixedPair g a b).nodes v).fixedBindings) =
      List.count u ((g.nodes v).fixedBindings)
        + (if v = b ∧ u = a then 1 else 0) + (if v = a ∧ u = b then 1 else 0) := by
  by_cases hvb : v = b
  · rw [hvb]
    have hba : b ≠ a := fun h => hab h.symm
    unfold addFixedPair
    rw [modifyNode_nodes_other _ _ _ hba, modifyNode_nodes_same]
    simp only [List.count_append, List.count_singleton', beq_iff_eq]
    by_cases hua : u = a
    · simp [hua, hba]
    · simp [hua, hba]
      exact fun h => hua h.symm
  · by_cases hva : v = a
    · rw [hva]
      unfold addFixedPair
      rw [modifyNode_nodes_same, modifyNode_nodes_other _ _ _ hab]
      simp only [List.count_append, List.count_singleton', beq_iff_eq]
      by_cases hub : u = b
      · simp [hub, hab]
      · simp [hub, hab]
        exact fun h => hub h.symm
    · unfold addFixedPair
      rw [modifyNode_nodes_other _ _ _ hva, modifyNode_nodes_other _ _ _ hvb]
      rw [if_neg (fun h => hvb h.1), if_neg (fun h => hva h.1)]
      omega

theorem FixedSymm_addFixedPair (g : Graph) (a b : TVar) (hab : a ≠ b)
    (hs : FixedSymm g) : FixedSymm (addFixedPair g a b) := by
  intro u v
  rw [addFixedPair_fb_count g a b hab u v, addFixedPair_fb_count g a b hab v u, hs u v]
  have e1 : (if v = b ∧ u = a then 1 else 0) = (if u = a ∧ v = b then (1 : Nat) else 0) := by
    by_cases h : v = b ∧ u = a
    · rw [if_pos h, if_pos ⟨h.2, h.1⟩]
    · rw [if_neg h, if_neg (fun hh => h ⟨hh.2, hh.1⟩)]
  have e2 : (if v = a ∧ u = b then 1 else 0) = (if u = b ∧ v = a then (1 : Nat) else 0) := by
    by_cases h : v = a ∧ u = b
    · rw [if_pos h, if_pos ⟨h.2, h.1⟩]
    · rw [if_neg h, if_neg (fun hh => h ⟨hh.2, hh.1⟩)]
  omega

theorem FixedSymm_modify_fb_id (g : Graph) (v : TVar) (f : CGNode → CGNode)
    (hfb : ∀ n, (f n).fixedBindings = n.fixedBindings) (hs : FixedSymm g) :
    FixedSymm (g.modifyNode v f) := by
  have hall : ∀ w, ((g.modifyNode v f).nodes w).fixedBindings = (g.nodes w).fixedBindings := by
    intro w
    by_cases h : w = v
    · rw [h, modifyNode_nodes_same, hfb]
    · rw [modifyNode_nodes_other _ _ _ h]
  intro u w
  rw [hall, hall, hs u w]

theorem FixedSymm_createNode (g : Graph) (tv : TVar) (hnt : g.hasNode tv = false)
    (hw : WFEmpty g) (hs : FixedSymm g) : FixedSymm (createNode g tv) := by
  have hall : ∀ w, ((createNode g tv).nodes w).fixedBindings = (g.nodes w).fixedBindings := by
    intro w
    by_cases h : w = tv
    · rw [h, createNode_nodes_same, hw tv hnt]
    · rw [createNode_nodes_other _ _ h]
  intro u w
  rw [hall, hall, hs u w]

theorem FixedSymm_setChanges (g : Graph) (cs : List Change) (hs : FixedSymm g) :
    FixedSymm { g with changes := cs } := hs

/-- Every node-creating operation preserves fixed-binding symmetry on
wellformed graphs: creation seeds an empty vector, and the only pushes are
the symmetric pairs of `bindTypeVariable` (which skips the self-pair). -/
theorem nodeOpGo_fixedSymm (env : CSEnv) :
    ∀ (fuel : Nat) (o : NodeOp) (g : Graph),
      WFEmpty g → FixedSymm g → FixedSymm (nodeOpGo env fuel o g) := by
  intro fuel
  induction fuel with
  | zero =>
    intro o g hw hs
    cases o with
    | lookup tv =>
      rw [nodeOpGo_lookup_zero]
      by_cases h : g.hasNode tv
      · rwa [if_pos h]
      · rw [if_neg h]
        exact FixedSymm_createNode g tv (by simpa using h) hw hs
    | merge a b => exact hs
    | bind tv t => exact hs
  | succ f ih =>
    intro o g hw hs
    cases o with
    | lookup tv =>
      rw [nodeOpGo_lookup_succ]
      by_cases h : g.hasNode tv
      · rwa [if_pos h]
      · rw [if_neg h]
        have hnt : g.hasNode tv = false := by simpa using h
        have hw1 : WFEmpty (createNode g tv) :=
          ((frame_createNode g tv hnt).2.2.2.2 hw).1
        have hs1 : FixedSymm (createNode g tv) := FixedSymm_createNode g tv hnt hw hs
        by_cases hrep : tv ≠ env.rep tv
        · rw [if_pos hrep]
          exact ih _ _ hw1 hs1
        · rw [if_neg hrep]
          cases hft : env.fixedType (env.rep tv) with
          | some fixed => exact ih _ _ hw1 hs1
          | none => exact hs1
    | merge a b =>
      rw [nodeOpGo_merge_succ]
      simp only []
      have hw1 : WFEmpty (nodeOpGo env f (.lookup (env.rep a)) g) :=
        ((nodeOpGo_frame env f _ g).1.2.2.2.2 hw).1
      have hs1 : FixedSymm (nodeOpGo env f (.lookup (env.rep a)) g) :=
        ih _ _ hw hs
      set g1 := nodeOpGo env f (.lookup (env.rep a)) g with hg1
      have hlive1 : g1.hasNode (env.rep a) = true :=
        (nodeOpGo_frame env f _ g).2 (env.rep a) rfl
      set g2 :=
        (if g1.activeScope then
          { g1 with changes := g1.changes ++
              [Change.extendedEquivalenceClass (env.rep a)
                (g1.nodes (env.rep a)).equivalenceClass.length] }
         else g1) with hg2
      have hw2 : WFEmpty g2 := by
        rw [hg2]; split
        · intro w hwn; exact hw1 w hwn
        · exact hw1
      have hs2 : FixedSymm g2 := by
        rw [hg2]; split
        · exact FixedSymm_setChanges g1 _ hs1
        · exact hs1
      have hlive2 : g2.hasNode (env.rep a) = true := by
        rw [hg2]; split
        · exact hlive1
        · exact hlive1
      have hw3 : WFEmpty (nodeOpGo env f (.lookup (if a = env.rep a then b else a)) g2) :=
        ((nodeOpGo_frame env f _ g2).1.2.2.2.2 hw2).1
      have hs3 : FixedSymm (nodeOpGo env f (.lookup (if a = env.rep a then b else a)) g2) :=
        ih _ _ hw2 hs2
      exact FixedSymm_modify_fb_id _ _ _ (fun n => rfl) hs3
    | bind typeVar fixed =>
      rw [nodeOpGo_bind_succ]
      simp only []
      by_cases hv : (!fixed.hasTypeVariable) = true
      · rwa [if_pos hv]
      · rw [if_neg hv]
        have hw1 : WFEmpty (nodeOpGo env f (.lookup typeVar) g) :=
          ((nodeOpGo_frame env f _ g).1.2.2.2.2 hw).1
        have hs1 : FixedSymm (nodeOpGo env f (.lookup typeVar) g) := ih _ _ hw hs
        have hlive1 : (nodeOpGo env f (.lookup typeVar) g).hasNode typeVar = true :=
          (nodeOpGo_frame env f _ g).2 typeVar rfl
        set g1 := nodeOpGo env f (.lookup typeVar) g with hg1
        have main := foldl_invariant
          (fun (st : Graph × List TVar) =>
            WFEmpty st.1 ∧ FixedSymm st.1 ∧ st.1.hasNode typeVar = true)
          (fun (st : Graph × List TVar) otherTypeVar =>
            if otherTypeVar ∈ st.2 then st
            else
              if typeVar = otherTypeVar then (st.1, otherTypeVar :: st.2)
              else
                let ga := nodeOpGo env f (.lookup otherTypeVar) st.1
                (addFixedPair ga typeVar otherTypeVar, otherTypeVar :: st.2))
          fixed.typeVarsList (g1, ([] : List TVar))
          ⟨hw1, hs1, hlive1⟩ ?step
        case step =>
          intro st x hx hst
          simp only []
          by_cases hmem : x ∈ st.2
          · rw [if_pos hmem]; exact hst
          · rw [if_neg hmem]
            by_cases heq : typeVar = x
            · rw [if_pos heq]; exact hst
            · rw [if_neg heq]
              have hwa : WFEmpty (nodeOpGo env f (.lookup x) st.1) :=
                ((nodeOpGo_frame env f _ st.1).1.2.2.2.2 hst.1).1
              have hsa : FixedSymm (nodeOpGo env f (.lookup x) st.1) :=
                ih _ _ hst.1 hst.2.1
              have halive : (nodeOpGo env f (.lookup x) st.1).hasNode x = true :=
                (nodeOpGo_frame env f _ st.1).2 x rfl
              have htv : (nodeOpGo env f (.lookup x) st.1).hasNode typeVar = true :=
                (nodeOpGo_frame env f _ st.1).1.2.2.1 typeVar hst.2.2
              refine ⟨?_, ?_, by simpa using htv⟩
              · intro w hwn
                rw [show ((addFixedPair (nodeOpGo env f (.lookup x) st.1) typeVar x).hasNode) =
                    ((nodeOpGo env f (.lookup x) st.1).hasNode) from rfl] at hwn
                have hwx : w ≠ x := fun he => by rw [he, halive] at hwn; cases hwn
                have hwt : w ≠ typeVar := fun he => by rw [he, htv] at hwn; cases hwn
                unfold addFixedPair
                rw [modifyNode_nodes_other _ _ _ hwt, modifyNode_nodes_other _ _ _ hwx]
                exact hwa w hwn
              · exact FixedSymm_addFixedPair _ typeVar x heq hsa
        set stF := fixed.typeVarsList.foldl
          (fun (st : Graph × List TVar) otherTypeVar =>
            if otherTypeVar ∈ st.2 then st
            else
              if typeVar = otherTypeVar then (st.1, otherTypeVar :: st.2)
              else
                let ga := nodeOpGo env f (.lookup otherTypeVar) st.1
                (addFixedPair ga typeVar otherTypeVar, otherTypeVar :: st.2))
          (g1, ([] : List TVar)) with hstF
        split
        · exact FixedSymm_setChanges stF.1 _ main.2.1
        · exact main.2.1

end CG

namespace CG

theorem addConstraintOp_fixedSymm (env : CSEnv) (fuel : Nat) (g : Graph)
    (c : Constraint) (hw : WFEmpty g) (hs : FixedSymm g) :
    WFEmpty (addConstraintOp env fuel g c) ∧ FixedSymm (addConstraintOp env fuel g c) := by
  unfold addConstraintOp
  have main := foldl_invariant (fun h : Graph => WFEmpty h ∧ FixedSymm h)
    (fun g tv =>
      let ga := lookupNode env fuel g tv
      ga.modifyNode tv (fun n => { n with constraints := n.constraints ++ [c] }))
    c.typeVars g ⟨hw, hs⟩ ?step
  case step =>
    intro h tv _ hh
    simp only []
    have hwa : WFEmpty (lookupNode env fuel h tv) :=
      ((nodeOpGo_frame env fuel _ h).1.2.2.2.2 hh.1).1
    have hsa : FixedSymm (lookupNode env fuel h tv) :=
      nodeOpGo_fixedSymm env fuel _ h hh.1 hh.2
    have hlive : (lookupNode env fuel h tv).hasNode tv = true :=
      (nodeOpGo_frame env fuel _ h).2 tv rfl
    exact ⟨WFEmpty_modify_live _ tv _ hlive hwa,
      FixedSymm_modify_fb_id _ tv _ (fun n => rfl) hsa⟩
  constructor
  · dsimp only []
    split <;> split <;> exact main.1
  · dsimp only []
    split <;> split <;> exact main.2

theorem removeConstraintOp_fixedSymm (env : CSEnv) (fuel : Nat) (g : Graph)
    (c : Constraint) (hw : WFEmpty g) (hs : FixedSymm g) :
    WFEmpty (removeConstraintOp env fuel g c) ∧ FixedSymm (removeConstraintOp env fuel g c) := by
  unfold removeConstraintOp
  have main := foldl_invariant (fun h : Graph => WFEmpty h ∧ FixedSymm h)
    (fun g tv =>
      let ga := lookupNode env fuel g tv
      ga.modifyNode tv (fun n => { n with constraints := swapRemove n.constraints c }))
    c.typeVars g ⟨hw, hs⟩ ?step
  case step =>
    intro h tv _ hh
    simp only []
    have hwa : WFEmpty (lookupNode env fuel h tv) :=
      ((nodeOpGo_frame env fuel _ h).1.2.2.2.2 hh.1).1
    have hsa : FixedSymm (lookupNode env fuel h tv) :=
      nodeOpGo_fixedSymm env fuel _ h hh.1 hh.2
    have hlive : (lookupNode env fuel h tv).hasNode tv = true :=
      (nodeOpGo_frame env fuel _ h).2 tv rfl
    exact ⟨WFEmpty_modify_live _ tv _ hlive hwa,
      FixedSymm_modify_fb_id _ tv _ (fun n => rfl) hsa⟩
  constructor
  · dsimp only []
    split <;> split <;> exact main.1
  · dsimp only []
    split <;> split <;> exact main.2

/-- C9: every public mutation (lookup-driven node creation, addConstraint,
removeConstraint, mergeNodes, bindTypeVariable) preserves the symmetry of
`fixed_bindings`, with equal multiplicities: `u` appears in
`nodes[v].fixedBindings` as often as `v` appears in
`nodes[u].fixedBindings`.  Creation seeds an empty vector; the only pushes
are the symmetric pairs added by `bindTypeVariable`, which skips the
self-pair; nothing else touches the vectors. -/
theorem c9_fixed_binding_symmetry (env : CSEnv) (fuel : Nat) (g : Graph)
    (op : MutOp) (hw : WFEmpty g) (hs : FixedSymm g) :
    FixedSymm (execOp env fuel g op) := by
  cases op with
  | lookup tv => exact nodeOpGo_fixedSymm env fuel _ g hw hs
  | mergeE a b => exact nodeOpGo_fixedSymm env fuel _ g hw hs
  | bindTV tv fixed => exact nodeOpGo_fixedSymm env fuel _ g hw hs
  | addC c => exact (addConstraintOp_fixedSymm env fuel g c hw hs).2
  | removeC c => exact (removeConstraintOp_fixedSymm env fuel g c hw hs).2

theorem c9_fixed_binding_symmetry_witness :
    FixedSymm (execOp envId 5 emptyGraph (MutOp.bindTV 0 (Ty.fn (Ty.tvar 1) (Ty.tvar 2)))) :=
  c9_fixed_binding_symmetry envId 5 emptyGraph (MutOp.bindTV 0 (Ty.fn (Ty.tvar 1) (Ty.tvar 2)))
    (fun _ _ => rfl) (fun _ _ => rfl)

end CG

namespace CG

/-! ### Claim C6: journalling discipline -/

/-- Is the entry one of the two constraint-record kinds? -/
def Change.isConstraintChange : Change → Bool
  | .addedConstraint _ => true
  | .removedConstraint _ => true
  | _ => false

/-- Journal extension: the scope flag is unchanged, the journal only grew,
nothing was appended without an active scope, and every appended entry
records node creation, an equivalence extension or a binding - never a
constraint addition or removal. -/
def JExt (g h : Graph) : Prop :=
  h.activeScope = g.activeScope ∧
  ∃ δ, h.changes = g.changes ++ δ ∧ (g.activeScope = false → δ = []) ∧
    ∀ e ∈ δ, e.isConstraintChange = false

theorem JExt_refl (g : Graph) : JExt g g :=
  ⟨rfl, [], (List.append_nil _).symm, fun _ => rfl, by simp⟩

theorem JExt_trans {g h k : Graph} (h1 : JExt g h) (h2 : JExt h k) : JExt g k := by
  obtain ⟨a1, δ1, e1, f1, m1⟩ := h1
  obtain ⟨a2, δ2, e2, f2, m2⟩ := h2
  refine ⟨a2.trans a1, δ1 ++ δ2, by rw [e2, e1, List.append_assoc], fun hf => ?_, ?_⟩
  · rw [f1 hf, f2 (a1.trans hf)]
    rfl
  · intro e he
    rcases List.mem_append.mp he with h | h
    · exact m1 e h
    · exact m2 e h

theorem JExt_same {g h : Graph} (h1 : h.changes = g.changes)
    (h2 : h.activeScope = g.activeScope) : JExt g h :=
  ⟨h2, [], by rw [h1, List.append_nil], fun _ => rfl, by simp⟩

theorem JExt_createNode (g : Graph) (tv : TVar) : JExt g (createNode g tv) := by
  refine ⟨rfl, ?_⟩
  by_cases h : g.activeScope
  · refine ⟨[Change.addedTypeVariable tv], ?_, fun hf => absurd h (by simp [hf]), ?_⟩
    · rw [createNode_changes, if_pos h]
    · intro e he
      rcases List.mem_singleton.mp he with rfl
      rfl
  · refine ⟨[], ?_, fun _ => rfl, by simp⟩
    rw [createNode_changes, if_neg h, List.append_nil]

/-- Every node-creating operation only extends the journal, only under an
active scope, and never with a constraint-record entry. -/
theorem nodeOpGo_jext (env : CSEnv) :
    ∀ (fuel : Nat) (o : NodeOp) (g : Graph), JExt g (nodeOpGo env fuel o g) := by
  intro fuel
  induction fuel with
  | zero =>
    intro o g
    cases o with
    | lookup tv =>
      rw [nodeOpGo_lookup_zero]
      by_cases h : g.hasNode tv
      · rw [if_pos h]; exact JExt_refl g
      · rw [if_neg h]; exact JExt_createNode g tv
    | merge a b => exact JExt_refl g
    | bind tv t => exact JExt_refl g
  | succ f ih =>
    intro o g
    cases o with
    | lookup tv =>
      rw [nodeOpGo_lookup_succ]
      by_cases h : g.hasNode tv
      · rw [if_pos h]; exact JExt_refl g
      · rw [if_neg h]
        by_cases hrep : tv ≠ env.rep tv
        · rw [if_pos hrep]
          exact JExt_trans (JExt_createNode g tv) (ih _ _)
        · rw [if_neg hrep]
          cases hft : env.fixedType (env.rep tv) with
          | some fixed => exact JExt_trans (JExt_createNode g tv) (ih _ _)
          | none => exact JExt_createNode g tv
    | merge a b =>
      rw [nodeOpGo_merge_succ]
      simp only []
      have h1 := ih (.lookup (env.rep a)) g
      set g1 := nodeOpGo env f (.lookup (env.rep a)) g with hg1
      have h2 : JExt g1
          (if g1.activeScope then
            { g1 with changes := g1.changes ++
                [Change.extendedEquivalenceClass (env.rep a)
                  (g1.nodes (env.rep a)).equivalenceClass.length] }
           else g1) := by
        split
        next hact =>
          refine ⟨rfl, [Change.extendedEquivalenceClass (env.rep a)
            (g1.nodes (env.rep a)).equivalenceClass.length], rfl,
            fun hf => absurd hact (by simp [hf]), ?_⟩
          intro e he
          rcases List.mem_singleton.mp he with rfl
          rfl
        next => exact JExt_refl g1
      exact JExt_trans (JExt_trans (JExt_trans h1 h2)
        (ih (.lookup (if a = env.rep a then b else a)) _)) (JExt_same rfl rfl)
    | bind typeVar fixed =>
      rw [nodeOpGo_bind_succ]
      simp only []
      by_cases hv : (!fixed.hasTypeVariable) = true
      · rw [if_pos hv]; exact JExt_refl g
      · rw [if_neg hv]
        have h1 := ih (.lookup typeVar) g
        set g1 := nodeOpGo env f (.lookup typeVar) g with hg1
        have main := foldl_invariant (fun (st : Graph × List TVar) => JExt g1 st.1)
          (fun (st : Graph × List TVar) otherTypeVar =>
            if otherTypeVar ∈ st.2 then st
            else
              if typeVar = otherTypeVar then (st.1, otherTypeVar :: st.2)
              else
                let ga := nodeOpGo env f (.lookup otherTypeVar) st.1
                (addFixedPair ga typeVar otherTypeVar, otherTypeVar :: st.2))
          fixed.typeVarsList (g1, ([] : List TVar)) (JExt_refl g1) ?step
        case step =>
          intro st x hx hst
          simp only []
          by_cases hmem : x ∈ st.2
          · rw [if_pos hmem]; exact hst
          · rw [if_neg hmem]
            by_cases heq : typeVar = x
            · rw [if_pos heq]; exact hst
            · rw [if_neg heq]
              exact JExt_trans (JExt_trans hst (ih (.lookup x) st.1)) (JExt_same rfl rfl)
        set stF := fixed.typeVarsList.foldl
          (fun (st : Graph × List TVar) otherTypeVar =>
            if otherTypeVar ∈ st.2 then st
            else
              if typeVar = otherTypeVar then (st.1, otherTypeVar :: st.2)
              else
                let ga := nodeOpGo env f (.lookup otherTypeVar) st.1
                (addFixedPair ga typeVar otherTypeVar, otherTypeVar :: st.2))
          (g1, ([] : List TVar)) with hstF
        have h3 : JExt stF.1
            (if stF.1.activeScope then
              { stF.1 with changes := stF.1.changes ++ [Change.boundTypeVariable typeVar fixed] }
             else stF.1) := by
          split
          next hact =>
            refine ⟨rfl, [Change.boundTypeVariable typeVar fixed], rfl,
              fun hf => absurd hact (by simp [hf]), ?_⟩
            intro e he
            rcases List.mem_singleton.mp he with rfl
            rfl
          next => exact JExt_refl stF.1
        exact JExt_trans (JExt_trans h1 main) h3

end CG

namespace CG

theorem addConstraintOp_changes (env : CSEnv) (fuel : Nat) (g : Graph) (c : Constraint) :
    ∃ pre, (addConstraintOp env fuel g c).changes =
        g.changes ++ pre ++ (if g.activeScope then [Change.addedConstraint c] else []) ∧
      (g.activeScope = false → pre = []) ∧
      (∀ e ∈ pre, e.isConstraintChange = false) := by
  have main := foldl_invariant (fun h : Graph => JExt g h)
    (fun g tv =>
      let ga := lookupNode env fuel g tv
      ga.modifyNode tv (fun n => { n with constraints := n.constraints ++ [c] }))
    c.typeVars g (JExt_refl g)
    (fun h tv _ hh =>
      JExt_trans (JExt_trans hh (nodeOpGo_jext env fuel (.lookup tv) h)) (JExt_same rfl rfl))
  obtain ⟨hact, pre, he, hf, hm⟩ := main
  refine ⟨pre, ?_, hf, hm⟩
  unfold addConstraintOp
  dsimp only []
  split
  next hempty =>
    split
    next hsc =>
      have hga : g.activeScope = true := by rw [← hact]; exact hsc
      rw [if_pos hga]
      dsimp only []
      rw [he, List.append_assoc]
    next hsc =>
      have hga : g.activeScope = false := by rw [← hact]; simpa using hsc
      rw [if_neg (by simp [hga]), List.append_nil]
      exact he
  next hempty =>
    split
    next hsc =>
      have hga : g.activeScope = true := by rw [← hact]; exact hsc
      rw [if_pos hga]
      dsimp only []
      rw [he, List.append_assoc]
    next hsc =>
      have hga : g.activeScope = false := by rw [← hact]; simpa using hsc
      rw [if_neg (by simp [hga]), List.append_nil]
      exact he

theorem removeConstraintOp_changes (env : CSEnv) (fuel : Nat) (g : Graph) (c : Constraint) :
    ∃ pre, (removeConstraintOp env fuel g c).changes =
        g.changes ++ pre ++ (if g.activeScope then [Change.removedConstraint c] else []) ∧
      (g.activeScope = false → pre = []) ∧
      (∀ e ∈ pre, e.isConstraintChange = false) := by
  have main := foldl_invariant (fun h : Graph => JExt g h)
    (fun g tv =>
      let ga := lookupNode env fuel g tv
      ga.modifyNode tv (fun n => { n with constraints := swapRemove n.constraints c }))
    c.typeVars g (JExt_refl g)
    (fun h tv _ hh =>
      JExt_trans (JExt_trans hh (nodeOpGo_jext env fuel (.lookup tv) h)) (JExt_same rfl rfl))
  obtain ⟨hact, pre, he, hf, hm⟩ := main
  refine ⟨pre, ?_, hf, hm⟩
  unfold removeConstraintOp
  dsimp only []
  split
  next hempty =>
    split
    next hsc =>
      have hga : g.activeScope = true := by rw [← hact]; exact hsc
      rw [if_pos hga]
      dsimp only []
      rw [he, List.append_assoc]
    next hsc =>
      have hga : g.activeScope = false := by rw [← hact]; simpa using hsc
      rw [if_neg (by simp [hga]), List.append_nil]
      exact he
  next hempty =>
    split
    next hsc =>
      have hga : g.activeScope = true := by rw [← hact]; exact hsc
      rw [if_pos hga]
      dsimp only []
      rw [he, List.append_assoc]
    next hsc =>
      have hga : g.activeScope = false := by rw [← hact]; simpa using hsc
      rw [if_neg (by simp [hga]), List.append_nil]
      exact he

end CG

namespace CG

/-- C6 (amended): with no active scope, no mutation appends any journal
entry.  With an active scope, `addConstraint` and `removeConstraint` each
append exactly one entry recording the operation itself, as the final
entry, preceded only by entries journalled by the node creations they
trigger (never constraint-record entries); `mergeNodes` appends exactly
one `ExtendedEquivalenceClass` entry recording itself, possibly surrounded
by node-creation entries from its two lookups; and `bindTypeVariable`
appends exactly one final `BoundTypeVariable` entry, preceded only by
node-creation entries - UNLESS its fixed type mentions no type variables,
in which case it appends nothing at all, scope or no scope.  (The merge
and bind clauses are stated at successor fuel: with fuel `0` the model
skips the cascaded call entirely.) -/
theorem c6_journal_discipline (env : CSEnv) (fuel : Nat) (g : Graph) :
    (g.activeScope = false → ∀ op : MutOp, (execOp env fuel g op).changes = g.changes) ∧
    (g.activeScope = true →
      (∀ c : Constraint, ∃ pre, (addConstraintOp env fuel g c).changes =
          g.changes ++ pre ++ [Change.addedConstraint c] ∧
          ∀ e ∈ pre, e.isConstraintChange = false) ∧
      (∀ c : Constraint, ∃ pre, (removeConstraintOp env fuel g c).changes =
          g.changes ++ pre ++ [Change.removedConstraint c] ∧
          ∀ e ∈ pre, e.isConstraintChange = false) ∧
      (∀ a b : TVar, ∃ pre n post, (mergeNodes env (fuel + 1) g a b).changes =
          g.changes ++ pre ++ [Change.extendedEquivalenceClass (env.rep a) n] ++ post ∧
          (∀ e ∈ pre, e.isConstraintChange = false) ∧
          (∀ e ∈ post, e.isConstraintChange = false)) ∧
      (∀ (tv : TVar) (fixed : Ty), fixed.hasTypeVariable = true →
        ∃ pre, (bindTypeVariable env (fuel + 1) g tv fixed).changes =
          g.changes ++ pre ++ [Change.boundTypeVariable tv fixed] ∧
          ∀ e ∈ pre, e.isConstraintChange = false)) ∧
    (∀ (tv : TVar) (fixed : Ty), fixed.hasTypeVariable = false →
      (bindTypeVariable env fuel g tv fixed).changes = g.changes) := by
  refine ⟨?inactive, ?active, ?earlyExit⟩
  case inactive =>
    intro hsc op
    cases op with
    | lookup tv =>
      obtain ⟨_, δ, he, hf, _⟩ := nodeOpGo_jext env fuel (.lookup tv) g
      rw [show execOp env fuel g (.lookup tv) = nodeOpGo env fuel (.lookup tv) g from rfl,
        he, hf hsc, List.append_nil]
    | mergeE a b =>
      obtain ⟨_, δ, he, hf, _⟩ := nodeOpGo_jext env fuel (.merge a b) g
      rw [show execOp env fuel g (.mergeE a b) = nodeOpGo env fuel (.merge a b) g from rfl,
        he, hf hsc, List.append_nil]
    | bindTV tv fixed =>
      obtain ⟨_, δ, he, hf, _⟩ := nodeOpGo_jext env fuel (.bind tv fixed) g
      rw [show execOp env fuel g (.bindTV tv fixed) = nodeOpGo env fuel (.bind tv fixed) g from rfl,
        he, hf hsc, List.append_nil]
    | addC c =>
      obtain ⟨pre, he, hf, _⟩ := addConstraintOp_changes env fuel g c
      rw [show execOp env fuel g (.addC c) = addConstraintOp env fuel g c from rfl,
        he, hf hsc, if_neg (by simp [hsc])]
      simp
    | removeC c =>
      obtain ⟨pre, he, hf, _⟩ := removeConstraintOp_changes env fuel g c
      rw [show execOp env fuel g (.removeC c) = removeConstraintOp env fuel g c from rfl,
        he, hf hsc, if_neg (by simp [hsc])]
      simp
  case active =>
    intro hsc
    refine ⟨?_, ?_, ?_, ?_⟩
    · intro c
      obtain ⟨pre, he, _, hm⟩ := addConstraintOp_changes env fuel g c
      exact ⟨pre, by rwa [if_pos hsc] at he, hm⟩
    · intro c
      obtain ⟨pre, he, _, hm⟩ := removeConstraintOp_changes env fuel g c
      exact ⟨pre, by rwa [if_pos hsc] at he, hm⟩
    · intro a b
      rw [show mergeNodes env (fuel + 1) g a b = nodeOpGo env (fuel + 1) (.merge a b) g from rfl,
        nodeOpGo_merge_succ]
      dsimp only []
      obtain ⟨hact1, pre, he1, _, hm1⟩ := nodeOpGo_jext env fuel (.lookup (env.rep a)) g
      set g1 := nodeOpGo env fuel (.lookup (env.rep a)) g with hg1
      have hsc1 : g1.activeScope = true := hact1.trans hsc
      rw [if_pos hsc1]
      obtain ⟨hact3, post, he3, _, hm3⟩ := nodeOpGo_jext env fuel
        (.lookup (if a = env.rep a then b else a))
        { g1 with changes := g1.changes ++
            [Change.extendedEquivalenceClass (env.rep a)
              (g1.nodes (env.rep a)).equivalenceClass.length] }
      refine ⟨pre, (g1.nodes (env.rep a)).equivalenceClass.length, post, ?_, hm1, hm3⟩
      rw [modifyNode_changes, he3]
      dsimp only []
      rw [he1]
    · intro tv fixed hftv
      rw [show bindTypeVariable env (fuel + 1) g tv fixed = nodeOpGo env (fuel + 1) (.bind tv fixed) g from rfl,
        nodeOpGo_bind_succ]
      rw [if_neg (by simp [hftv])]
      dsimp only []
      obtain ⟨hact1, pre1, he1, _, hm1⟩ := nodeOpGo_jext env fuel (.lookup tv) g
      set g1 := nodeOpGo env fuel (.lookup tv) g with hg1
      have main := foldl_invariant (fun (st : Graph × List TVar) => JExt g1 st.1)
        (fun (st : Graph × List TVar) otherTypeVar =>
          if otherTypeVar ∈ st.2 then st
          else
            if tv = otherTypeVar then (st.1, otherTypeVar :: st.2)
            else
              let ga := nodeOpGo env fuel (.lookup otherTypeVar) st.1
              (addFixedPair ga tv otherTypeVar, otherTypeVar :: st.2))
        fixed.typeVarsList (g1, ([] : List TVar)) (JExt_refl g1) ?step
      case step =>
        intro st x hx hst
        simp only []
        by_cases hmem : x ∈ st.2
        · rw [if_pos hmem]; exact hst
        · rw [if_neg hmem]
          by_cases heq : tv = x
          · rw [if_pos heq]; exact hst
          · rw [if_neg heq]
            exact JExt_trans (JExt_trans hst (nodeOpGo_jext env fuel (.lookup x) st.1))
              (JExt_same rfl rfl)
      obtain ⟨hact2, pre2, he2, _, hm2⟩ := main
      set stF := fixed.typeVarsList.foldl
        (fun (st : Graph × List TVar) otherTypeVar =>
          if otherTypeVar ∈ st.2 then st
          else
            if tv = otherTypeVar then (st.1, otherTypeVar :: st.2)
            else
              let ga := nodeOpGo env fuel (.lookup otherTypeVar) st.1
              (addFixedPair ga tv otherTypeVar, otherTypeVar :: st.2))
        (g1, ([] : List TVar)) with hstF
      have hsc2 : stF.1.activeScope = true := hact2.trans (hact1.trans hsc)
      rw [if_pos hsc2]
      refine ⟨pre1 ++ pre2, ?_, ?_⟩
      · dsimp only []
        rw [he2, he1]
        simp [List.append_assoc]
      · intro e he
        rcases List.mem_append.mp he with h | h
        · exact hm1 e h
        · exact hm2 e h
  case earlyExit =>
    intro tv fixed hftv
    cases fuel with
    | zero => rfl
    | succ f =>
      rw [show bindTypeVariable env (f + 1) g tv fixed = nodeOpGo env (f + 1) (.bind tv fixed) g from rfl,
        nodeOpGo_bind_succ, if_pos (by simp [hftv])]

/-- A graph with one live node 0 and an open (active) scope. -/
def graphC6 : Graph :=
  { typeVariables := [0]
    nodes := fun v => if v = 0 then ⟨[], [0], []⟩ else CGNode.empty
    hasNode := fun v => v == 0
    graphIndex := fun _ => 0
    orphanedConstraints := []
    changes := []
    activeScope := true }

/-- C6 counterexample: a scope is active, yet
`bind_type_variable(0, base 7)` - whose fixed type mentions no type
variables - appends NO journal entry (the early exit at
ConstraintGraph.cpp:336-337 returns before the recording at 355-356),
contradicting the claim that every bind_type_variable call appends exactly
one entry when a scope is active. -/
theorem c6_counterexample :
    graphC6.activeScope = true ∧
    (execOp envId 5 graphC6 (MutOp.bindTV 0 (Ty.base 7))).changes = [] ∧
    graphC6.changes = [] := by
  decide

/-- A constraint mentioning only variable 0, used for the C6 witness. -/
def cC6 : Constraint := ⟨5, ConstraintKind.Bind, [0], Ty.tvar 0, Ty.tvar 0⟩

theorem c6_journal_discipline_witness :
    ∃ pre, (addConstraintOp envId 5 graphC6 cC6).changes =
      graphC6.changes ++ pre ++ [Change.addedConstraint cC6] ∧
      ∀ e ∈ pre, e.isConstraintChange = false :=
  ((c6_journal_discipline envId 5 graphC6).2.1 rfl).1 cC6

end CG

namespace CG

/-! ### swap-with-last removal: permutation and count facts -/

theorem swapRemove_perm {α : Type} [DecidableEq α] (l : List α) (c : α)
    (hc : c ∈ l) : List.Perm (swapRemove l c) (l.erase c) := by
  have hne : l ≠ [] := List.ne_nil_of_mem hc
  have hi : l.indexOf c < l.length := List.indexOf_lt_length.mpr hc
  have hgetc : ∀ (j : Nat) (hj : j < l.length), j = l.indexOf c → l[j] = c := by
    intro j hj hje
    subst hje
    exact List.getElem_indexOf hj
  have key : List.Perm l (c :: swapRemove l c) := by
    unfold swapRemove
    rw [if_pos hc]
    dsimp only []
    by_cases hlast : l.indexOf c = l.length - 1
    · rw [if_pos hlast]
      have hlt : l.length - 1 < l.length := by
        have := List.length_pos_of_mem hc
        omega
      have hgl : l.getLast hne = c := by
        rw [List.getLast_eq_getElem]
        exact hgetc (l.length - 1) hlt hlast.symm
      have h3 : l = l.dropLast ++ [c] := by
        conv_lhs => rw [← List.dropLast_concat_getLast hne]
        rw [hgl]
      exact (List.Perm.of_eq h3).trans (List.perm_append_singleton c l.dropLast)
    · rw [if_neg hlast]
      have hi2 : l.indexOf c + 1 < l.length := by omega
      have hDne : l.drop (l.indexOf c + 1) ≠ [] := by
        intro hnil
        have := List.drop_eq_nil_iff.mp hnil
        omega
      have hdecomp : l = l.take (l.indexOf c) ++ c :: l.drop (l.indexOf c + 1) := by
        have h1 : l.drop (l.indexOf c) = c :: l.drop (l.indexOf c + 1) := by
          rw [List.drop_eq_getElem_cons hi, hgetc (l.indexOf c) hi rfl]
        rw [← h1, List.take_append_drop]
      have hsplit : l = (l.take (l.indexOf c) ++ [c]) ++ l.drop (l.indexOf c + 1) := by
        conv_lhs => rw [hdecomp]
        simp
      have hDd : l.drop (l.indexOf c + 1) =
          (l.drop (l.indexOf c + 1)).dropLast ++ [(l.drop (l.indexOf c + 1)).getLast hDne] :=
        (List.dropLast_concat_getLast hDne).symm
      have hglD : l.getLastD c = (l.drop (l.indexOf c + 1)).getLast hDne := by
        rw [List.getLastD_eq_getLast?]
        conv_lhs => rw [hsplit]
        rw [List.getLast?_append, List.getLast?_eq_getLast _ hDne]
        rfl
      rw [hglD, List.set_eq_take_cons_drop _ hi]
      rw [List.dropLast_append_cons, List.dropLast_cons_of_ne_nil hDne]
      have hfinal : l = l.take (l.indexOf c) ++
          c :: ((l.drop (l.indexOf c + 1)).dropLast ++
            [(l.drop (l.indexOf c + 1)).getLast hDne]) := by
        conv_lhs => rw [hdecomp]
        rw [← hDd]
      exact (List.Perm.of_eq hfinal).trans
        (List.perm_middle.trans
          (List.Perm.cons c (List.Perm.append_left _ (List.perm_append_singleton _ _))))
  have h2 : List.Perm (c :: swapRemove l c) (c :: l.erase c) :=
    key.symm.trans (List.perm_cons_erase hc)
  exact (List.perm_cons c).mp h2

theorem swapRemove_count {α : Type} [DecidableEq α] (l : List α) (c d : α) :
    List.count d (swapRemove l c) =
      List.count d l - (if d = c ∧ c ∈ l then 1 else 0) := by
  by_cases hc : c ∈ l
  · rw [(swapRemove_perm l c hc).count_eq]
    by_cases hdc : d = c
    · rw [if_pos ⟨hdc, hc⟩, hdc, List.count_erase_self]
    · rw [if_neg (fun h => hdc h.1), List.count_erase_of_ne hdc, Nat.sub_zero]
  · unfold swapRemove
    rw [if_neg hc, if_neg (fun h => hc h.2), Nat.sub_zero]

theorem swapRemove_not_mem {α : Type} [DecidableEq α] (l : List α) (c : α)
    (hc : c ∉ l) : swapRemove l c = l := by
  unfold swapRemove
  rw [if_neg hc]

end CG

namespace CG

/-! ### Claim C2: the incidence invariant -/

/-- A client-visible constraint mutation. -/
inductive ARop where
  | add (c : Constraint)
  | rem (c : Constraint)

def execAR (env : CSEnv) (fuel : Nat) (g : Graph) : ARop → Graph
  | .add c => addConstraintOp env fuel g c
  | .rem c => removeConstraintOp env fuel g c

/-- The constraints registered after running the operations: adds append,
removes erase. -/
def registeredOf (R : List Constraint) : List ARop → List Constraint
  | [] => R
  | .add c :: rest => registeredOf (R ++ [c]) rest
  | .rem c :: rest => registeredOf (R.erase c) rest

/-- Wellformed call sequences, mirroring the C++ assertions: a constraint
is only added while unregistered (`Constraint re-insertion` assert), its
`getTypeVariables()` list is duplicate-free (it is uniqued at construction),
and only registered constraints are removed. -/
def arValid (R : List Constraint) : List ARop → Prop
  | [] => True
  | .add c :: rest => c ∉ R ∧ c.typeVars.Nodup ∧ arValid (R ++ [c]) rest
  | .rem c :: rest => c ∈ R ∧ arValid (R.erase c) rest

def arValidDec : (R : List Constraint) → (ops : List ARop) → Decidable (arValid R ops)
  | _, [] => isTrue trivial
  | R, .add c :: rest =>
    haveI h := arValidDec (R ++ [c]) rest
    show Decidable (c ∉ R ∧ c.typeVars.Nodup ∧ arValid (R ++ [c]) rest) from inferInstance
  | R, .rem c :: rest =>
    haveI h := arValidDec (R.erase c) rest
    show Decidable (c ∈ R ∧ arValid (R.erase c) rest) from inferInstance

instance (R : List Constraint) (ops : List ARop) : Decidable (arValid R ops) :=
  arValidDec R ops

/-- The incidence invariant, in counting form: a constraint occurs on a
node exactly when it is registered and mentions that node's variable (then
exactly once), and occurs among the orphans exactly when it is registered
and mentions no variable. -/
def IncCount (g : Graph) (R : List Constraint) : Prop :=
  (∀ (v : TVar) (c : Constraint),
      List.count c ((g.nodes v).constraints) =
        if c ∈ R ∧ v ∈ c.typeVars then 1 else 0) ∧
  (∀ c : Constraint,
      List.count c g.orphanedConstraints =
        if c ∈ R ∧ c.typeVars = [] then 1 else 0)

theorem addFold_spec (env : CSEnv) (fuel : Nat) (c : Constraint) :
    ∀ (l : List TVar) (g : Graph), WFEmpty g → l.Nodup →
      WFEmpty (l.foldl (fun g tv =>
        let ga := lookupNode env fuel g tv
        ga.modifyNode tv (fun n => { n with constraints := n.constraints ++ [c] })) g) ∧
      (l.foldl (fun g tv =>
        let ga := lookupNode env fuel g tv
        ga.modifyNode tv (fun n => { n with constraints := n.constraints ++ [c] })) g).orphanedConstraints
        = g.orphanedConstraints ∧
      ∀ (v : TVar) (d : Constraint),
        List.count d (((l.foldl (fun g tv =>
          let ga := lookupNode env fuel g tv
          ga.modifyNode tv (fun n => { n with constraints := n.constraints ++ [c] })) g).nodes v).constraints)
          = List.count d ((g.nodes v).constraints) + (if d = c ∧ v ∈ l then 1 else 0) := by
  intro l
  induction l with
  | nil =>
    intro g hw _
    exact ⟨hw, rfl, fun v d => by simp⟩
  | cons a rest ih =>
    intro g hw hnd
    rw [List.foldl_cons]
    have hfr := (nodeOpGo_frame env fuel (.lookup a) g).1
    have hwa : WFEmpty (lookupNode env fuel g a) := (hfr.2.2.2.2 hw).1
    have hca : ∀ v, ((lookupNode env fuel g a).nodes v).constraints = (g.nodes v).constraints :=
      (hfr.2.2.2.2 hw).2
    have hlive : (lookupNode env fuel g a).hasNode a = true :=
      (nodeOpGo_frame env fuel (.lookup a) g).2 a rfl
    have hwb : WFEmpty ((lookupNode env fuel g a).modifyNode a
        (fun n => { n with constraints := n.constraints ++ [c] })) :=
      WFEmpty_modify_live _ a _ hlive hwa
    have horb : ((lookupNode env fuel g a).modifyNode a
        (fun n => { n with constraints := n.constraints ++ [c] })).orphanedConstraints
        = g.orphanedConstraints := by
      rw [modifyNode_orphaned]
      exact hfr.2.1
    have hcb : ∀ (v : TVar) (d : Constraint),
        List.count d ((((lookupNode env fuel g a).modifyNode a
          (fun n => { n with constraints := n.constraints ++ [c] })).nodes v).constraints) =
        List.count d ((g.nodes v).constraints) + (if v = a ∧ d = c then 1 else 0) := by
      intro v d
      by_cases hva : v = a
      · rw [hva, modifyNode_nodes_same]
        dsimp only []
        rw [List.count_append, hca a]
        by_cases hdc : d = c
        · rw [if_pos ⟨rfl, hdc⟩, hdc, List.count_singleton_self]
        · have h0 : List.count d [c] = 0 := by simp [hdc]
          rw [if_neg (fun h => hdc h.2), h0]
      · rw [modifyNode_nodes_other _ _ _ hva, hca, if_neg (fun h => hva h.1)]
        omega
    obtain ⟨hwf, horf, hcf⟩ := ih _ hwb (List.Nodup.of_cons hnd)
    have hanr : a ∉ rest := (List.nodup_cons.mp hnd).1
    refine ⟨hwf, horf.trans horb, ?_⟩
    intro v d
    rw [hcf v d, hcb v d]
    by_cases hdc : d = c
    · by_cases hva : v = a
      · rw [if_pos ⟨hva, hdc⟩, if_neg (fun h => hanr (hva ▸ h.2)),
          if_pos ⟨hdc, by rw [hva]; exact List.mem_cons_self a rest⟩]
      · by_cases hvr : v ∈ rest
        · rw [if_neg (fun h => hva h.1), if_pos ⟨hdc, hvr⟩,
            if_pos ⟨hdc, List.mem_cons_of_mem a hvr⟩]
        · rw [if_neg (fun h => hva h.1), if_neg (fun h => hvr h.2),
            if_neg (fun h => (List.mem_cons.mp h.2).elim hva hvr)]
    · rw [if_neg (fun h => hdc h.2), if_neg (fun h => hdc h.1),
        if_neg (fun h => hdc h.1)]

theorem remFold_spec (env : CSEnv) (fuel : Nat) (c : Constraint) :
    ∀ (l : List TVar) (g : Graph), WFEmpty g → l.Nodup →
      WFEmpty (l.foldl (fun g tv =>
        let ga := lookupNode env fuel g tv
        ga.modifyNode tv (fun n => { n with constraints := swapRemove n.constraints c })) g) ∧
      (l.foldl (fun g tv =>
        let ga := lookupNode env fuel g tv
        ga.modifyNode tv (fun n => { n with constraints := swapRemove n.constraints c })) g).orphanedConstraints
        = g.orphanedConstraints ∧
      ∀ (v : TVar) (d : Constraint),
        List.count d (((l.foldl (fun g tv =>
          let ga := lookupNode env fuel g tv
          ga.modifyNode tv (fun n => { n with constraints := swapRemove n.constraints c })) g).nodes v).constraints)
          = List.count d ((g.nodes v).constraints) -
            (if d = c ∧ v ∈ l ∧ c ∈ (g.nodes v).constraints then 1 else 0) := by
  intro l
  induction l with
  | nil =>
    intro g hw _
    exact ⟨hw, rfl, fun v d => by simp⟩
  | cons a rest ih =>
    intro g hw hnd
    rw [List.foldl_cons]
    have hfr := (nodeOpGo_frame env fuel (.lookup a) g).1
    have hwa : WFEmpty (lookupNode env fuel g a) := (hfr.2.2.2.2 hw).1
    have hca : ∀ v, ((lookupNode env fuel g a).nodes v).constraints = (g.nodes v).constraints :=
      (hfr.2.2.2.2 hw).2
    have hlive : (lookupNode env fuel g a).hasNode a = true :=
      (nodeOpGo_frame env fuel (.lookup a) g).2 a rfl
    have hwb : WFEmpty ((lookupNode env fuel g a).modifyNode a
        (fun n => { n with constraints := swapRemove n.constraints c })) :=
      WFEmpty_modify_live _ a _ hlive hwa
    have horb : ((lookupNode env fuel g a).modifyNode a
        (fun n => { n with constraints := swapRemove n.constraints c })).orphanedConstraints
        = g.orphanedConstraints := by
      rw [modifyNode_orphaned]
      exact hfr.2.1
    have hlb : ∀ v, v ≠ a → (((lookupNode env fuel g a).modifyNode a
        (fun n => { n with constraints := swapRemove n.constraints c })).nodes v).constraints
        = (g.nodes v).constraints := by
      intro v hva
      rw [modifyNode_nodes_other _ _ _ hva, hca]
    have hcb : ∀ (v : TVar) (d : Constraint),
        List.count d ((((lookupNode env fuel g a).modifyNode a
          (fun n => { n with constraints := swapRemove n.constraints c })).nodes v).constraints) =
        List.count d ((g.nodes v).constraints) -
          (if d = c ∧ v = a ∧ c ∈ (g.nodes v).constraints then 1 else 0) := by
      intro v d
      by_cases hva : v = a
      · rw [hva, modifyNode_nodes_same]
        dsimp only []
        rw [hca a, swapRemove_count]
        by_cases hm : c ∈ (g.nodes a).constraints
        · by_cases hdc : d = c
          · rw [if_pos ⟨hdc, hm⟩, if_pos ⟨hdc, rfl, hm⟩]
          · rw [if_neg (fun h => hdc h.1), if_neg (fun h => hdc h.1)]
        · rw [if_neg (fun h => hm h.2), if_neg (fun h => hm h.2.2)]
      · rw [hlb v hva, if_neg (fun h => hva h.2.1), Nat.sub_zero]
    obtain ⟨hwf, horf, hcf⟩ := ih _ hwb (List.Nodup.of_cons hnd)
    have hanr : a ∉ rest := (List.nodup_cons.mp hnd).1
    refine ⟨hwf, horf.trans horb, ?_⟩
    intro v d
    rw [hcf v d, hcb v d]
    by_cases hva : v = a
    · have hnr : ¬ (d = c ∧ v ∈ rest ∧ c ∈ (((lookupNode env fuel g a).modifyNode a
          (fun n => { n with constraints := swapRemove n.constraints c })).nodes v).constraints) :=
        fun h => hanr (hva ▸ h.2.1)
      rw [if_neg hnr]
      by_cases hdc : d = c
      · by_cases hm : c ∈ (g.nodes v).constraints
        · rw [if_pos ⟨hdc, hva, hva ▸ hm⟩, if_pos ⟨hdc, by rw [hva]; exact List.mem_cons_self a rest, hm⟩]
          omega
        · rw [if_neg (fun h => hm h.2.2), if_neg (fun h => hm h.2.2)]
          omega
      · rw [if_neg (fun h => hdc h.1), if_neg (fun h => hdc h.1)]
        omega
    · rw [hlb v hva, if_neg (fun h => hva h.2.1), Nat.sub_zero]
      by_cases hdc : d = c
      · by_cases hvr : v ∈ rest
        · by_cases hm : c ∈ (g.nodes v).constraints
          · rw [if_pos ⟨hdc, hvr, hm⟩, if_pos ⟨hdc, List.mem_cons_of_mem a hvr, hm⟩]
          · rw [if_neg (fun h => hm h.2.2), if_neg (fun h => hm h.2.2)]
        · rw [if_neg (fun h => hvr h.2.1),
            if_neg (fun h => ((List.mem_cons.mp h.2.1).elim hva hvr))]
      · rw [if_neg (fun h => hdc h.1), if_neg (fun h => hdc h.1)]

end CG

namespace CG

theorem addConstraintOp_proj (env : CSEnv) (fuel : Nat) (g : Graph) (c : Constraint) :
    (addConstraintOp env fuel g c).nodes = (c.typeVars.foldl
        (fun g tv =>
          let ga := lookupNode env fuel g tv
          ga.modifyNode tv (fun n => { n with constraints := n.constraints ++ [c] })) g).nodes ∧
    (addConstraintOp env fuel g c).hasNode = (c.typeVars.foldl
        (fun g tv =>
          let ga := lookupNode env fuel g tv
          ga.modifyNode tv (fun n => { n with constraints := n.constraints ++ [c] })) g).hasNode ∧
    (addConstraintOp env fuel g c).orphanedConstraints =
      ((c.typeVars.foldl
        (fun g tv =>
          let ga := lookupNode env fuel g tv
          ga.modifyNode tv (fun n => { n with constraints := n.constraints ++ [c] })) g).orphanedConstraints
        ++ (if c.typeVars.isEmpty then [c] else [])) := by
  unfold addConstraintOp
  dsimp only []
  by_cases he : c.typeVars.isEmpty = true
  · simp only [if_pos he]
    split
    · exact ⟨rfl, rfl, rfl⟩
    · exact ⟨rfl, rfl, rfl⟩
  · simp only [if_neg he]
    split
    · exact ⟨rfl, rfl, by rw [List.append_nil]⟩
    · exact ⟨rfl, rfl, by rw [List.append_nil]⟩

theorem removeConstraintOp_proj (env : CSEnv) (fuel : Nat) (g : Graph) (c : Constraint) :
    (removeConstraintOp env fuel g c).nodes = (c.typeVars.foldl
        (fun g tv =>
          let ga := lookupNode env fuel g tv
          ga.modifyNode tv (fun n => { n with constraints := swapRemove n.constraints c })) g).nodes ∧
    (removeConstraintOp env fuel g c).hasNode = (c.typeVars.foldl
        (fun g tv =>
          let ga := lookupNode env fuel g tv
          ga.modifyNode tv (fun n => { n with constraints := swapRemove n.constraints c })) g).hasNode ∧
    (removeConstraintOp env fuel g c).orphanedConstraints =
      (if c.typeVars.isEmpty then
        swapRemove ((c.typeVars.foldl
          (fun g tv =>
            let ga := lookupNode env fuel g tv
            ga.modifyNode tv (fun n => { n with constraints := swapRemove n.constraints c })) g).orphanedConstraints) c
       else (c.typeVars.foldl
          (fun g tv =>
            let ga := lookupNode env fuel g tv
            ga.modifyNode tv (fun n => { n with constraints := swapRemove n.constraints c })) g).orphanedConstraints) := by
  unfold removeConstraintOp
  dsimp only []
  by_cases he : c.typeVars.isEmpty = true
  · simp only [if_pos he]
    split
    · exact ⟨rfl, rfl, rfl⟩
    · exact ⟨rfl, rfl, rfl⟩
  · simp only [if_neg he]
    split
    · exact ⟨rfl, rfl, rfl⟩
    · exact ⟨rfl, rfl, rfl⟩

theorem addConstraintOp_inc (env : CSEnv) (fuel : Nat) (c : Constraint) (g : Graph)
    (R : List Constraint) (hw : WFEmpty g) (hinc : IncCount g R)
    (hcR : c ∉ R) (hnd : c.typeVars.Nodup) :
    WFEmpty (addConstraintOp env fuel g c) ∧
    IncCount (addConstraintOp env fuel g c) (R ++ [c]) := by
  obtain ⟨hpn, hph, hpo⟩ := addConstraintOp_proj env fuel g c
  obtain ⟨hw1, hor1, hc1⟩ := addFold_spec env fuel c c.typeVars g hw hnd
  refine ⟨?_, ?_, ?_⟩
  · intro v hv
    rw [hph] at hv
    rw [hpn]
    exact hw1 v hv
  · intro v d
    rw [hpn, hc1 v d, hinc.1 v d]
    by_cases hdc : d = c
    · subst hdc
      rw [if_neg (fun h => hcR h.1)]
      by_cases hvm : v ∈ d.typeVars
      · rw [if_pos ⟨rfl, hvm⟩,
          if_pos ⟨List.mem_append.mpr (Or.inr (List.mem_singleton.mpr rfl)), hvm⟩]
      · rw [if_neg (fun h => hvm h.2), if_neg (fun h => hvm h.2)]
    · have hmem : d ∈ R ++ [c] ↔ d ∈ R := by
        rw [List.mem_append, List.mem_singleton]
        exact ⟨fun h => h.elim id (fun h => absurd h hdc), Or.inl⟩
      rw [if_neg (show ¬ (d = c ∧ v ∈ c.typeVars) from fun h => hdc h.1)]
      by_cases hdR : d ∈ R ∧ v ∈ d.typeVars
      · rw [if_pos hdR, if_pos ⟨hmem.mpr hdR.1, hdR.2⟩]
      · rw [if_neg hdR, if_neg (fun h => hdR ⟨hmem.mp h.1, h.2⟩)]
  · intro d
    rw [hpo, List.count_append, hor1, hinc.2 d]
    by_cases hie : c.typeVars.isEmpty = true
    · have hce : c.typeVars = [] := List.isEmpty_iff.mp hie
      simp only [if_pos hie]
      by_cases hdc : d = c
      · subst hdc
        have h1 : List.count d [d] = 1 := List.count_singleton_self d
        rw [h1, if_neg (fun h => hcR h.1),
          if_pos ⟨List.mem_append.mpr (Or.inr (List.mem_singleton.mpr rfl)), hce⟩]
      · have h0 : List.count d [c] = 0 := by simp [hdc]
        have hmem : d ∈ R ++ [c] ↔ d ∈ R := by
          rw [List.mem_append, List.mem_singleton]
          exact ⟨fun h => h.elim id (fun h => absurd h hdc), Or.inl⟩
        rw [h0]
        by_cases hdR : d ∈ R ∧ d.typeVars = []
        · rw [if_pos hdR, if_pos ⟨hmem.mpr hdR.1, hdR.2⟩]
        · rw [if_neg hdR, if_neg (fun h => hdR ⟨hmem.mp h.1, h.2⟩)]
    · have hce : ¬ c.typeVars = [] := fun h => hie (by rw [h]; rfl)
      simp only [if_neg hie]
      have h0 : List.count d ([] : List Constraint) = 0 := rfl
      rw [h0]
      by_cases hdc : d = c
      · subst hdc
        rw [if_neg (fun h => hcR h.1), if_neg (fun h => hce h.2)]
      · have hmem : d ∈ R ++ [c] ↔ d ∈ R := by
          rw [List.mem_append, List.mem_singleton]
          exact ⟨fun h => h.elim id (fun h => absurd h hdc), Or.inl⟩
        by_cases hdR : d ∈ R ∧ d.typeVars = []
        · rw [if_pos hdR, if_pos ⟨hmem.mpr hdR.1, hdR.2⟩]
        · rw [if_neg hdR, if_neg (fun h => hdR ⟨hmem.mp h.1, h.2⟩)]

end CG

namespace CG

theorem removeConstraintOp_inc (env : CSEnv) (fuel : Nat) (c : Constraint) (g : Graph)
    (R : List Constraint) (hw : WFEmpty g) (hinc : IncCount g R)
    (hRnd : R.Nodup) (hcR : c ∈ R) (hnd : c.typeVars.Nodup) :
    WFEmpty (removeConstraintOp env fuel g c) ∧
    IncCount (removeConstraintOp env fuel g c) (R.erase c) := by
  obtain ⟨hpn, hph, hpo⟩ := removeConstraintOp_proj env fuel g c
  obtain ⟨hw1, hor1, hc1⟩ := remFold_spec env fuel c c.typeVars g hw hnd
  have hcnoterase : c ∉ R.erase c := fun h => ((hRnd.mem_erase_iff).mp h).1 rfl
  refine ⟨?_, ?_, ?_⟩
  · intro v hv
    rw [hph] at hv
    rw [hpn]
    exact hw1 v hv
  · intro v d
    have hcnt := hinc.1 v c
    have hmemc : c ∈ (g.nodes v).constraints ↔ v ∈ c.typeVars := by
      constructor
      · intro hm
        by_contra hv
        rw [if_neg (fun h => hv h.2)] at hcnt
        exact absurd hm (List.count_eq_zero.mp hcnt)
      · intro hv
        have h1 : List.count c ((g.nodes v).constraints) = 1 := by
          rw [hcnt, if_pos ⟨hcR, hv⟩]
        exact List.count_pos_iff.mp (by omega)
    rw [hpn, hc1 v d, hinc.1 v d]
    by_cases hdc : d = c
    · subst hdc
      rw [if_neg (show ¬ (d ∈ R.erase d ∧ v ∈ d.typeVars) from fun h => hcnoterase h.1)]
      by_cases hvm : v ∈ d.typeVars
      · rw [if_pos ⟨hcR, hvm⟩, if_pos ⟨rfl, hvm, hmemc.mpr hvm⟩]
      · rw [if_neg (fun h => hvm h.2),
          if_neg (show ¬ (d = d ∧ v ∈ d.typeVars ∧ d ∈ (g.nodes v).constraints)
            from fun h => hvm h.2.1)]
    · have hmem : d ∈ R.erase c ↔ d ∈ R := List.mem_erase_of_ne hdc
      rw [if_neg (show ¬ (d = c ∧ v ∈ c.typeVars ∧ c ∈ (g.nodes v).constraints)
        from fun h => hdc h.1), Nat.sub_zero]
      by_cases hdR : d ∈ R ∧ v ∈ d.typeVars
      · rw [if_pos hdR, if_pos ⟨hmem.mpr hdR.1, hdR.2⟩]
      · rw [if_neg hdR, if_neg (fun h => hdR ⟨hmem.mp h.1, h.2⟩)]
  · intro d
    have hcnto := hinc.2 c
    rw [hpo]
    by_cases hie : c.typeVars.isEmpty = true
    · have hce : c.typeVars = [] := List.isEmpty_iff.mp hie
      have hco : c ∈ g.orphanedConstraints := by
        have h1 : List.count c g.orphanedConstraints = 1 := by
          rw [hcnto, if_pos ⟨hcR, hce⟩]
        exact List.count_pos_iff.mp (by omega)
      simp only [if_pos hie]
      rw [swapRemove_count, hor1, hinc.2 d]
      by_cases hdc : d = c
      · subst hdc
        rw [if_pos ⟨hcR, hce⟩, if_pos ⟨rfl, hco⟩,
          if_neg (show ¬ (d ∈ R.erase d ∧ d.typeVars = []) from fun h => hcnoterase h.1)]
      · have hmem : d ∈ R.erase c ↔ d ∈ R := List.mem_erase_of_ne hdc
        rw [if_neg (show ¬ (d = c ∧ c ∈ g.orphanedConstraints) from fun h => hdc h.1),
          Nat.sub_zero]
        by_cases hdR : d ∈ R ∧ d.typeVars = []
        · rw [if_pos hdR, if_pos ⟨hmem.mpr hdR.1, hdR.2⟩]
        · rw [if_neg hdR, if_neg (fun h => hdR ⟨hmem.mp h.1, h.2⟩)]
    · have hce : ¬ c.typeVars = [] := fun h => hie (by rw [h]; rfl)
      simp only [if_neg hie]
      rw [hor1, hinc.2 d]
      by_cases hdc : d = c
      · subst hdc
        rw [if_neg (fun h => hce h.2), if_neg (fun h => hce h.2)]
      · have hmem : d ∈ R.erase c ↔ d ∈ R := List.mem_erase_of_ne hdc
        by_cases hdR : d ∈ R ∧ d.typeVars = []
        · rw [if_pos hdR, if_pos ⟨hmem.mpr hdR.1, hdR.2⟩]
        · rw [if_neg hdR, if_neg (fun h => hdR ⟨hmem.mp h.1, h.2⟩)]

end CG


namespace CG

theorem c2_incidence_main (env : CSEnv) (fuel : Nat) :
    ∀ (ops : List ARop) (g : Graph) (R : List Constraint),
      WFEmpty g → R.Nodup → (∀ c ∈ R, c.typeVars.Nodup) → IncCount g R →
      arValid R ops →
      WFEmpty (ops.foldl (execAR env fuel) g) ∧
      (registeredOf R ops).Nodup ∧
      (∀ c ∈ registeredOf R ops, c.typeVars.Nodup) ∧
      IncCount (ops.foldl (execAR env fuel) g) (registeredOf R ops) := by
  intro ops
  induction ops with
  | nil =>
    intro g R hw hnd htv hinc _
    exact ⟨hw, hnd, htv, hinc⟩
  | cons op rest ih =>
    intro g R hw hnd htv hinc hv
    cases op with
    | add c =>
      obtain ⟨hcR, hcnd, hv'⟩ := hv
      obtain ⟨hw', hinc'⟩ := addConstraintOp_inc env fuel c g R hw hinc hcR hcnd
      have hnd' : (R ++ [c]).Nodup := by
        rw [List.nodup_append]
        exact ⟨hnd, List.nodup_singleton c,
          fun a ha hb => hcR (by rwa [List.mem_singleton.mp hb] at ha)⟩
      have htv' : ∀ d ∈ R ++ [c], d.typeVars.Nodup := by
        intro d hd
        rcases List.mem_append.mp hd with h | h
        · exact htv d h
        · rw [List.mem_singleton.mp h]
          exact hcnd
      exact ih (addConstraintOp env fuel g c) (R ++ [c]) hw' hnd' htv' hinc' hv'
    | rem c =>
      obtain ⟨hcR, hv'⟩ := hv
      obtain ⟨hw', hinc'⟩ :=
        removeConstraintOp_inc env fuel c g R hw hinc hnd hcR (htv c hcR)
      have hnd' : (R.erase c).Nodup := hnd.erase c
      have htv' : ∀ d ∈ R.erase c, d.typeVars.Nodup :=
        fun d hd => htv d (List.mem_of_mem_erase hd)
      exact ih (removeConstraintOp env fuel g c) (R.erase c) hw' hnd' htv' hinc' hv'

end CG

namespace CG

/-- **C2.** After any wellformed sequence of `add_constraint` /
`remove_constraint` calls starting from the empty graph, every registered
constraint appears on the node of each type variable it mentions; conversely
every constraint stored on a node is registered and mentions that node's
variable; and `orphanedConstraints` holds exactly the registered constraints
mentioning no type variable. -/
theorem c2_incidence (env : CSEnv) (fuel : Nat) (ops : List ARop)
    (hv : arValid [] ops) :
    (∀ c ∈ registeredOf [] ops, ∀ tv ∈ c.typeVars,
        c ∈ ((ops.foldl (execAR env fuel) emptyGraph).nodes tv).constraints) ∧
    (∀ (tv : TVar) (c : Constraint),
        c ∈ ((ops.foldl (execAR env fuel) emptyGraph).nodes tv).constraints →
        c ∈ registeredOf [] ops ∧ tv ∈ c.typeVars) ∧
    (∀ c : Constraint,
        c ∈ (ops.foldl (execAR env fuel) emptyGraph).orphanedConstraints ↔
        (c ∈ registeredOf [] ops ∧ c.typeVars = [])) := by
  have hwe : WFEmpty emptyGraph := fun v _ => rfl
  have hie : IncCount emptyGraph [] := by
    constructor
    · intro v c
      rw [if_neg (fun h => (List.not_mem_nil c) h.1)]
      rfl
    · intro c
      rw [if_neg (fun h => (List.not_mem_nil c) h.1)]
      rfl
  obtain ⟨-, -, -, hinc⟩ := c2_incidence_main env fuel ops emptyGraph []
    hwe List.nodup_nil (fun c hc => absurd hc (List.not_mem_nil c)) hie hv
  refine ⟨?_, ?_, ?_⟩
  · intro c hc tv htv
    have h1 := hinc.1 tv c
    rw [if_pos ⟨hc, htv⟩] at h1
    exact List.count_pos_iff.mp (by omega)
  · intro tv c hc
    by_cases hcond : c ∈ registeredOf [] ops ∧ tv ∈ c.typeVars
    · exact hcond
    · have h1 := hinc.1 tv c
      rw [if_neg hcond] at h1
      exact absurd hc (List.count_eq_zero.mp h1)
  · intro c
    constructor
    · intro hc
      by_cases hcond : c ∈ registeredOf [] ops ∧ c.typeVars = []
      · exact hcond
      · have h1 := hinc.2 c
        rw [if_neg hcond] at h1
        exact absurd hc (List.count_eq_zero.mp h1)
    · intro hcond
      have h1 := hinc.2 c
      rw [if_pos hcond] at h1
      exact List.count_pos_iff.mp (by omega)

/-- A binary constraint on variables `0` and `1`. -/
def cC2a : Constraint := ⟨10, ConstraintKind.Other, [0, 1], Ty.base 0, Ty.base 0⟩

/-- An orphan constraint (mentions no type variable). -/
def cC2b : Constraint := ⟨11, ConstraintKind.Other, [], Ty.base 0, Ty.base 0⟩

def opsC2 : List ARop := [ARop.add cC2a, ARop.add cC2b, ARop.rem cC2a]

theorem c2_incidence_witness :
    arValid [] opsC2 ∧
    ((∀ c ∈ registeredOf [] opsC2, ∀ tv ∈ c.typeVars,
        c ∈ ((opsC2.foldl (execAR envId 5) emptyGraph).nodes tv).constraints) ∧
     (∀ (tv : TVar) (c : Constraint),
        c ∈ ((opsC2.foldl (execAR envId 5) emptyGraph).nodes tv).constraints →
        c ∈ registeredOf [] opsC2 ∧ tv ∈ c.typeVars) ∧
     (∀ c : Constraint,
        c ∈ (opsC2.foldl (execAR envId 5) emptyGraph).orphanedConstraints ↔
        (c ∈ registeredOf [] opsC2 ∧ c.typeVars = []))) :=
  ⟨by decide, c2_incidence envId 5 opsC2 (by decide)⟩

end CG

namespace CG

/-! ### Claim C7: gatherConstraints -/

/-- Invariant on the accumulator: duplicate-free, and a constraint is
accumulated exactly when it has been visited and passes the predicate. -/
def GAcc (accept : Constraint → Bool) (st : GatherState) : Prop :=
  st.acc.Nodup ∧ ∀ c, c ∈ st.acc ↔ (accept c = true ∧ c ∈ st.visitedConstraints)

/-- Every constraint of a variable in `typeVarsSet` has been visited. -/
def GVars (g : Graph) (st : GatherState) : Prop :=
  ∀ u ∈ st.typeVarsSet, ∀ c ∈ (g.nodes u).constraints, c ∈ st.visitedConstraints

/-- The three state components only grow. -/
def GMono (st st' : GatherState) : Prop :=
  (∀ u ∈ st.typeVarsSet, u ∈ st'.typeVarsSet) ∧
  (∀ c ∈ st.visitedConstraints, c ∈ st'.visitedConstraints) ∧
  (∀ c ∈ st.acc, c ∈ st'.acc)

theorem GMono_refl (st : GatherState) : GMono st st :=
  ⟨fun _ h => h, fun _ h => h, fun _ h => h⟩

theorem GMono_trans {a b c : GatherState} (h1 : GMono a b) (h2 : GMono b c) :
    GMono a c :=
  ⟨fun u hu => h2.1 u (h1.1 u hu), fun d hd => h2.2.1 d (h1.2.1 d hd),
   fun d hd => h2.2.2 d (h1.2.2 d hd)⟩

theorem GVars_transfer (g : Graph) {st st' : GatherState} (h : GVars g st)
    (hm : GMono st st') (hs : ∀ u ∈ st'.typeVarsSet, u ∈ st.typeVarsSet) :
    GVars g st' :=
  fun u hu c hc => hm.2.1 c (h u (hs u hu) c hc)

theorem visit_step (accept : Constraint → Bool) (st : GatherState) (c : Constraint)
    (st' : GatherState)
    (hdef : st' = (if c ∈ st.visitedConstraints then st
      else
        let st2 := { st with visitedConstraints := c :: st.visitedConstraints }
        if accept c then { st2 with acc := st2.acc ++ [c] } else st2))
    (hacc : GAcc accept st) :
    GAcc accept st' ∧ GMono st st' ∧ st'.typeVarsSet = st.typeVarsSet ∧
    c ∈ st'.visitedConstraints ∧
    (∀ d ∈ st'.visitedConstraints, d = c ∨ d ∈ st.visitedConstraints) := by
  subst hdef
  by_cases hv : c ∈ st.visitedConstraints
  · rw [if_pos hv]
    exact ⟨hacc, GMono_refl st, rfl, hv, fun d hd => Or.inr hd⟩
  · rw [if_neg hv]
    dsimp only []
    by_cases ha : accept c = true
    · rw [if_pos ha]
      refine ⟨⟨?_, ?_⟩,
        ⟨fun u hu => hu, fun d hd => List.mem_cons_of_mem c hd,
          fun d hd => List.mem_append_left _ hd⟩, rfl,
        List.mem_cons_self c _, fun d hd => (List.mem_cons.mp hd).imp id id⟩
      · rw [List.nodup_append]
        refine ⟨hacc.1, List.nodup_singleton c, fun a haa hab => ?_⟩
        rw [List.mem_singleton.mp hab] at haa
        exact hv ((hacc.2 c).mp haa).2
      · intro d
        rw [List.mem_append, List.mem_singleton, List.mem_cons]
        constructor
        · intro h
          rcases h with h | h
          · obtain ⟨h1, h2⟩ := (hacc.2 d).mp h
            exact ⟨h1, Or.inr h2⟩
          · subst h
            exact ⟨ha, Or.inl rfl⟩
        · rintro ⟨h1, h2⟩
          rcases h2 with h2 | h2
          · subst h2
            exact Or.inr rfl
          · exact Or.inl ((hacc.2 d).mpr ⟨h1, h2⟩)
    · rw [if_neg ha]
      refine ⟨⟨hacc.1, ?_⟩,
        ⟨fun u hu => hu, fun d hd => List.mem_cons_of_mem c hd, fun d hd => hd⟩, rfl,
        List.mem_cons_self c _, fun d hd => (List.mem_cons.mp hd).imp id id⟩
      intro d
      rw [List.mem_cons]
      constructor
      · intro h
        obtain ⟨h1, h2⟩ := (hacc.2 d).mp h
        exact ⟨h1, Or.inr h2⟩
      · rintro ⟨h1, h2⟩
        rcases h2 with h2 | h2
        · rw [h2] at h1
          exact absurd h1 ha
        · exact (hacc.2 d).mpr ⟨h1, h2⟩

theorem visitFold_spec (accept : Constraint → Bool) (cs : List Constraint) :
    ∀ st : GatherState, GAcc accept st →
      GAcc accept (cs.foldl (fun st constraint =>
        if constraint ∈ st.visitedConstraints then st
        else
          let st2 := { st with
            visitedConstraints := constraint :: st.visitedConstraints }
          if accept constraint then { st2 with acc := st2.acc ++ [constraint] }
          else st2) st) ∧
      GMono st (cs.foldl (fun st constraint =>
        if constraint ∈ st.visitedConstraints then st
        else
          let st2 := { st with
            visitedConstraints := constraint :: st.visitedConstraints }
          if accept constraint then { st2 with acc := st2.acc ++ [constraint] }
          else st2) st) ∧
      (cs.foldl (fun st constraint =>
        if constraint ∈ st.visitedConstraints then st
        else
          let st2 := { st with
            visitedConstraints := constraint :: st.visitedConstraints }
          if accept constraint then { st2 with acc := st2.acc ++ [constraint] }
          else st2) st).typeVarsSet = st.typeVarsSet ∧
      (∀ c ∈ cs, c ∈ (cs.foldl (fun st constraint =>
        if constraint ∈ st.visitedConstraints then st
        else
          let st2 := { st with
            visitedConstraints := constraint :: st.visitedConstraints }
          if accept constraint then { st2 with acc := st2.acc ++ [constraint] }
          else st2) st).visitedConstraints) ∧
      (∀ d ∈ (cs.foldl (fun st constraint =>
        if constraint ∈ st.visitedConstraints then st
        else
          let st2 := { st with
            visitedConstraints := constraint :: st.visitedConstraints }
          if accept constraint then { st2 with acc := st2.acc ++ [constraint] }
          else st2) st).visitedConstraints, d ∈ cs ∨ d ∈ st.visitedConstraints) := by
  induction cs with
  | nil =>
    intro st h
    exact ⟨h, GMono_refl st, rfl, by simp, fun d hd => Or.inr hd⟩
  | cons c rest ih =>
    intro st h
    rw [List.foldl_cons]
    obtain ⟨s1, s2, s3, s4, s5⟩ := visit_step accept st c _ rfl h
    obtain ⟨i1, i2, i3, i4, i5⟩ := ih _ s1
    refine ⟨i1, GMono_trans s2 i2, i3.trans s3, ?_, ?_⟩
    · intro d hd
      rcases List.mem_cons.mp hd with hdc | hdr
      · rw [hdc]
        exact i2.2.1 c s4
      · exact i4 d hdr
    · intro d hd
      rcases i5 d hd with h1 | h1
      · exact Or.inl (List.mem_cons_of_mem c h1)
      · rcases s5 d h1 with h2 | h2
        · exact Or.inl (by rw [h2]; exact List.mem_cons_self c rest)
        · exact Or.inr h2

end CG

namespace CG

theorem aacFold_spec (env : CSEnv) (g : Graph) (accept : Constraint → Bool)
    (l : List TVar) :
    ∀ st : GatherState, GAcc accept st → GVars g st →
      GAcc accept (l.foldl (fun st adjTypeVarEquiv =>
        if adjTypeVarEquiv ∈ st.typeVarsSet then st
        else
          let st1 := { st with typeVarsSet := adjTypeVarEquiv :: st.typeVarsSet }
          (g.nodes adjTypeVarEquiv).constraints.foldl
            (fun st constraint =>
              if constraint ∈ st.visitedConstraints then st
              else
                let st2 := { st with
                  visitedConstraints := constraint :: st.visitedConstraints }
                if accept constraint then { st2 with acc := st2.acc ++ [constraint] }
                else st2)
            st1) st) ∧
      GVars g (l.foldl (fun st adjTypeVarEquiv =>
        if adjTypeVarEquiv ∈ st.typeVarsSet then st
        else
          let st1 := { st with typeVarsSet := adjTypeVarEquiv :: st.typeVarsSet }
          (g.nodes adjTypeVarEquiv).constraints.foldl
            (fun st constraint =>
              if constraint ∈ st.visitedConstraints then st
              else
                let st2 := { st with
                  visitedConstraints := constraint :: st.visitedConstraints }
                if accept constraint then { st2 with acc := st2.acc ++ [constraint] }
                else st2)
            st1) st) ∧
      GMono st (l.foldl (fun st adjTypeVarEquiv =>
        if adjTypeVarEquiv ∈ st.typeVarsSet then st
        else
          let st1 := { st with typeVarsSet := adjTypeVarEquiv :: st.typeVarsSet }
          (g.nodes adjTypeVarEquiv).constraints.foldl
            (fun st constraint =>
              if constraint ∈ st.visitedConstraints then st
              else
                let st2 := { st with
                  visitedConstraints := constraint :: st.visitedConstraints }
                if accept constraint then { st2 with acc := st2.acc ++ [constraint] }
                else st2)
            st1) st) ∧
      (∀ u ∈ l, u ∈ (l.foldl (fun st adjTypeVarEquiv =>
        if adjTypeVarEquiv ∈ st.typeVarsSet then st
        else
          let st1 := { st with typeVarsSet := adjTypeVarEquiv :: st.typeVarsSet }
          (g.nodes adjTypeVarEquiv).constraints.foldl
            (fun st constraint =>
              if constraint ∈ st.visitedConstraints then st
              else
                let st2 := { st with
                  visitedConstraints := constraint :: st.visitedConstraints }
                if accept constraint then { st2 with acc := st2.acc ++ [constraint] }
                else st2)
            st1) st).typeVarsSet) ∧
      (∀ u ∈ (l.foldl (fun st adjTypeVarEquiv =>
        if adjTypeVarEquiv ∈ st.typeVarsSet then st
        else
          let st1 := { st with typeVarsSet := adjTypeVarEquiv :: st.typeVarsSet }
          (g.nodes adjTypeVarEquiv).constraints.foldl
            (fun st constraint =>
              if constraint ∈ st.visitedConstraints then st
              else
                let st2 := { st with
                  visitedConstraints := constraint :: st.visitedConstraints }
                if accept constraint then { st2 with acc := st2.acc ++ [constraint] }
                else st2)
            st1) st).typeVarsSet, u ∈ l ∨ u ∈ st.typeVarsSet) ∧
      (∀ d ∈ (l.foldl (fun st adjTypeVarEquiv =>
        if adjTypeVarEquiv ∈ st.typeVarsSet then st
        else
          let st1 := { st with typeVarsSet := adjTypeVarEquiv :: st.typeVarsSet }
          (g.nodes adjTypeVarEquiv).constraints.foldl
            (fun st constraint =>
              if constraint ∈ st.visitedConstraints then st
              else
                let st2 := { st with
                  visitedConstraints := constraint :: st.visitedConstraints }
                if accept constraint then { st2 with acc := st2.acc ++ [constraint] }
                else st2)
            st1) st).visitedConstraints,
        (∃ u, u ∈ l ∧ d ∈ (g.nodes u).constraints) ∨ d ∈ st.visitedConstraints) := by
  induction l with
  | nil =>
    intro st h1 h2
    exact ⟨h1, h2, GMono_refl st, by simp, fun u hu => Or.inr hu,
      fun d hd => Or.inr hd⟩
  | cons x rest ih =>
    intro st h1 h2
    by_cases hx : x ∈ st.typeVarsSet
    · have hF : List.foldl (fun st adjTypeVarEquiv =>
          if adjTypeVarEquiv ∈ st.typeVarsSet then st
          else
            let st1 := { st with typeVarsSet := adjTypeVarEquiv :: st.typeVarsSet }
            (g.nodes adjTypeVarEquiv).constraints.foldl
              (fun st constraint =>
                if constraint ∈ st.visitedConstraints then st
                else
                  let st2 := { st with
                    visitedConstraints := constraint :: st.visitedConstraints }
                  if accept constraint then { st2 with acc := st2.acc ++ [constraint] }
                  else st2)
              st1) st (x :: rest) = List.foldl (fun st adjTypeVarEquiv =>
          if adjTypeVarEquiv ∈ st.typeVarsSet then st
          else
            let st1 := { st with typeVarsSet := adjTypeVarEquiv :: st.typeVarsSet }
            (g.nodes adjTypeVarEquiv).constraints.foldl
              (fun st constraint =>
                if constraint ∈ st.visitedConstraints then st
                else
                  let st2 := { st with
                    visitedConstraints := constraint :: st.visitedConstraints }
                  if accept constraint then { st2 with acc := st2.acc ++ [constraint] }
                  else st2)
              st1) st rest := by
        rw [List.foldl_cons]
        congr 1
        simp only []
        rw [if_pos hx]
      rw [hF]
      obtain ⟨i1, i2, i3, i4, i5, i6⟩ := ih st h1 h2
      refine ⟨i1, i2, i3, ?_, ?_, ?_⟩
      · intro u hu
        rcases List.mem_cons.mp hu with hux | hur
        · rw [hux]
          exact i3.1 x hx
        · exact i4 u hur
      · intro u hu
        rcases i5 u hu with h | h
        · exact Or.inl (List.mem_cons_of_mem x h)
        · exact Or.inr h
      · intro d hd
        rcases i6 d hd with ⟨u, hu, hdu⟩ | h
        · exact Or.inl ⟨u, List.mem_cons_of_mem x hu, hdu⟩
        · exact Or.inr h
    · have hF : List.foldl (fun st adjTypeVarEquiv =>
          if adjTypeVarEquiv ∈ st.typeVarsSet then st
          else
            let st1 := { st with typeVarsSet := adjTypeVarEquiv :: st.typeVarsSet }
            (g.nodes adjTypeVarEquiv).constraints.foldl
              (fun st constraint =>
                if constraint ∈ st.visitedConstraints then st
                else
                  let st2 := { st with
                    visitedConstraints := constraint :: st.visitedConstraints }
                  if accept constraint then { st2 with acc := st2.acc ++ [constraint] }
                  else st2)
              st1) st (x :: rest) =
          List.foldl (fun st adjTypeVarEquiv =>
          if adjTypeVarEquiv ∈ st.typeVarsSet then st
          else
            let st1 := { st with typeVarsSet := adjTypeVarEquiv :: st.typeVarsSet }
            (g.nodes adjTypeVarEquiv).constraints.foldl
              (fun st constraint =>
                if constraint ∈ st.visitedConstraints then st
                else
                  let st2 := { st with
                    visitedConstraints := constraint :: st.visitedConstraints }
                  if accept constraint then { st2 with acc := st2.acc ++ [constraint] }
                  else st2)
              st1) ((g.nodes x).constraints.foldl
            (fun st constraint =>
              if constraint ∈ st.visitedConstraints then st
              else
                let st2 := { st with
                  visitedConstraints := constraint :: st.visitedConstraints }
                if accept constraint then { st2 with acc := st2.acc ++ [constraint] }
                else st2)
            { st with typeVarsSet := x :: st.typeVarsSet }) rest := by
        rw [List.foldl_cons]
        congr 1
        simp only []
        rw [if_neg hx]
      rw [hF]
      have h1x : GAcc accept { st with typeVarsSet := x :: st.typeVarsSet } := h1
      obtain ⟨v1, v2, v3, v4, v5⟩ :=
        visitFold_spec accept ((g.nodes x).constraints)
          { st with typeVarsSet := x :: st.typeVarsSet } h1x
      have hset2 : (((g.nodes x).constraints).foldl
          (fun (st : GatherState) constraint =>
            if constraint ∈ st.visitedConstraints then st
            else
              let st2 := { st with
                visitedConstraints := constraint :: st.visitedConstraints }
              if accept constraint then { st2 with acc := st2.acc ++ [constraint] }
              else st2)
          { st with typeVarsSet := x :: st.typeVarsSet }).typeVarsSet
          = x :: st.typeVarsSet := v3
      have hmono2 : GMono st (((g.nodes x).constraints).foldl
          (fun (st : GatherState) constraint =>
            if constraint ∈ st.visitedConstraints then st
            else
              let st2 := { st with
                visitedConstraints := constraint :: st.visitedConstraints }
              if accept constraint then { st2 with acc := st2.acc ++ [constraint] }
              else st2)
          { st with typeVarsSet := x :: st.typeVarsSet }) := by
        refine ⟨?_, ?_, ?_⟩
        · intro u hu
          rw [hset2]
          exact List.mem_cons_of_mem x hu
        · intro d hd
          exact v2.2.1 d hd
        · intro d hd
          exact v2.2.2 d hd
      have hvars2 : GVars g (((g.nodes x).constraints).foldl
          (fun (st : GatherState) constraint =>
            if constraint ∈ st.visitedConstraints then st
            else
              let st2 := { st with
                visitedConstraints := constraint :: st.visitedConstraints }
              if accept constraint then { st2 with acc := st2.acc ++ [constraint] }
              else st2)
          { st with typeVarsSet := x :: st.typeVarsSet }) := by
        intro u hu c hc
        rw [hset2] at hu
        rcases List.mem_cons.mp hu with hux | hur
        · rw [hux] at hc
          exact v4 c hc
        · exact v2.2.1 c (h2 u hur c hc)
      obtain ⟨i1, i2, i3, i4, i5, i6⟩ := ih _ v1 hvars2
      refine ⟨i1, i2, GMono_trans hmono2 i3, ?_, ?_, ?_⟩
      · intro u hu
        rcases List.mem_cons.mp hu with hux | hur
        · rw [hux]
          exact i3.1 x (by rw [hset2]; exact List.mem_cons_self x _)
        · exact i4 u hur
      · intro u hu
        rcases i5 u hu with h | h
        · exact Or.inl (List.mem_cons_of_mem x h)
        · rw [hset2] at h
          rcases List.mem_cons.mp h with hux | hur
          · exact Or.inl (by rw [hux]; exact List.mem_cons_self x rest)
          · exact Or.inr hur
      · intro d hd
        rcases i6 d hd with ⟨u, hu, hdu⟩ | h
        · exact Or.inl ⟨u, List.mem_cons_of_mem x hu, hdu⟩
        · rcases v5 d h with h1 | h1
          · exact Or.inl ⟨x, List.mem_cons_self x rest, h1⟩
          · exact Or.inr h1

theorem addAdjacentConstraints_spec (env : CSEnv) (g : Graph)
    (accept : Constraint → Bool) (adj : TVar) (st : GatherState)
    (h1 : GAcc accept st) (h2 : GVars g st) :
    GAcc accept (addAdjacentConstraints env g accept adj st) ∧
    GVars g (addAdjacentConstraints env g accept adj st) ∧
    GMono st (addAdjacentConstraints env g accept adj st) ∧
    (∀ u ∈ (g.nodes (env.rep adj)).equivalenceClass,
      u ∈ (addAdjacentConstraints env g accept adj st).typeVarsSet) ∧
    (∀ u ∈ (addAdjacentConstraints env g accept adj st).typeVarsSet,
      u ∈ (g.nodes (env.rep adj)).equivalenceClass ∨ u ∈ st.typeVarsSet) ∧
    (∀ d ∈ (addAdjacentConstraints env g accept adj st).visitedConstraints,
      (∃ u, u ∈ (g.nodes (env.rep adj)).equivalenceClass ∧
        d ∈ (g.nodes u).constraints) ∨ d ∈ st.visitedConstraints) := by
  unfold addAdjacentConstraints
  exact aacFold_spec env g accept ((g.nodes (env.rep adj)).equivalenceClass) st h1 h2

end CG

namespace CG

theorem adjListFold_spec (env : CSEnv) (g : Graph) (accept : Constraint → Bool)
    (ws : List TVar) :
    ∀ st : GatherState, GAcc accept st → GVars g st →
      GAcc accept (ws.foldl
        (fun st adjTypeVar => addAdjacentConstraints env g accept adjTypeVar st) st) ∧
      GVars g (ws.foldl
        (fun st adjTypeVar => addAdjacentConstraints env g accept adjTypeVar st) st) ∧
      GMono st (ws.foldl
        (fun st adjTypeVar => addAdjacentConstraints env g accept adjTypeVar st) st) ∧
      (∀ w ∈ ws, ∀ u ∈ (g.nodes (env.rep w)).equivalenceClass,
        u ∈ (ws.foldl
          (fun st adjTypeVar => addAdjacentConstraints env g accept adjTypeVar st)
          st).typeVarsSet) ∧
      (∀ u ∈ (ws.foldl
          (fun st adjTypeVar => addAdjacentConstraints env g accept adjTypeVar st)
          st).typeVarsSet,
        (∃ w ∈ ws, u ∈ (g.nodes (env.rep w)).equivalenceClass) ∨
          u ∈ st.typeVarsSet) ∧
      (∀ d ∈ (ws.foldl
          (fun st adjTypeVar => addAdjacentConstraints env g accept adjTypeVar st)
          st).visitedConstraints,
        (∃ w ∈ ws, ∃ u, u ∈ (g.nodes (env.rep w)).equivalenceClass ∧
          d ∈ (g.nodes u).constraints) ∨ d ∈ st.visitedConstraints) := by
  induction ws with
  | nil =>
    intro st h1 h2
    exact ⟨h1, h2, GMono_refl st, by simp, fun u hu => Or.inr hu,
      fun d hd => Or.inr hd⟩
  | cons w rest ih =>
    intro st h1 h2
    rw [List.foldl_cons]
    obtain ⟨a1, a2, a3, a4, a5, a6⟩ :=
      addAdjacentConstraints_spec env g accept w st h1 h2
    obtain ⟨i1, i2, i3, i4, i5, i6⟩ := ih _ a1 a2
    refine ⟨i1, i2, GMono_trans a3 i3, ?_, ?_, ?_⟩
    · intro w1 hw1 u hu
      rcases List.mem_cons.mp hw1 with hww | hwr
      · rw [hww] at hu
        exact i3.1 u (a4 u hu)
      · exact i4 w1 hwr u hu
    · intro u hu
      rcases i5 u hu with ⟨w1, hw1, hu1⟩ | h
      · exact Or.inl ⟨w1, List.mem_cons_of_mem w hw1, hu1⟩
      · rcases a5 u h with h1 | h1
        · exact Or.inl ⟨w, List.mem_cons_self w rest, h1⟩
        · exact Or.inr h1
    · intro d hd
      rcases i6 d hd with ⟨w1, hw1, u, hu, hdu⟩ | h
      · exact Or.inl ⟨w1, List.mem_cons_of_mem w hw1, u, hu, hdu⟩
      · rcases a6 d h with ⟨u, hu, hdu⟩ | h1
        · exact Or.inl ⟨w, List.mem_cons_self w rest, u, hu, hdu⟩
        · exact Or.inr h1

end CG

namespace CG

theorem mainInnerFold_spec (env : CSEnv) (g : Graph) (accept : Constraint → Bool)
    (kind : GatheringKind) (cs : List Constraint) :
    ∀ st : GatherState, GAcc accept st → GVars g st →
      GAcc accept (cs.foldl (fun st constraint =>
        let stA :=
          if constraint ∈ st.visitedConstraints then st
          else
            let stB := { st with
              visitedConstraints := constraint :: st.visitedConstraints }
            if accept constraint then { stB with acc := stB.acc ++ [constraint] }
            else stB
        if kind = GatheringKind.AllMentions then
          constraint.typeVars.foldl
            (fun st adjTypeVar => addAdjacentConstraints env g accept adjTypeVar st)
            stA
        else stA) st) ∧
      GVars g (cs.foldl (fun st constraint =>
        let stA :=
          if constraint ∈ st.visitedConstraints then st
          else
            let stB := { st with
              visitedConstraints := constraint :: st.visitedConstraints }
            if accept constraint then { stB with acc := stB.acc ++ [constraint] }
            else stB
        if kind = GatheringKind.AllMentions then
          constraint.typeVars.foldl
            (fun st adjTypeVar => addAdjacentConstraints env g accept adjTypeVar st)
            stA
        else stA) st) ∧
      GMono st (cs.foldl (fun st constraint =>
        let stA :=
          if constraint ∈ st.visitedConstraints then st
          else
            let stB := { st with
              visitedConstraints := constraint :: st.visitedConstraints }
            if accept constraint then { stB with acc := stB.acc ++ [constraint] }
            else stB
        if kind = GatheringKind.AllMentions then
          constraint.typeVars.foldl
            (fun st adjTypeVar => addAdjacentConstraints env g accept adjTypeVar st)
            stA
        else stA) st) ∧
      (∀ c ∈ cs, c ∈ (cs.foldl (fun st constraint =>
        let stA :=
          if constraint ∈ st.visitedConstraints then st
          else
            let stB := { st with
              visitedConstraints := constraint :: st.visitedConstraints }
            if accept constraint then { stB with acc := stB.acc ++ [constraint] }
            else stB
        if kind = GatheringKind.AllMentions then
          constraint.typeVars.foldl
            (fun st adjTypeVar => addAdjacentConstraints env g accept adjTypeVar st)
            stA
        else stA) st).visitedConstraints) ∧
      (kind = GatheringKind.AllMentions → ∀ c ∈ cs, ∀ w ∈ c.typeVars,
        ∀ u ∈ (g.nodes (env.rep w)).equivalenceClass,
        u ∈ (cs.foldl (fun st constraint =>
        let stA :=
          if constraint ∈ st.visitedConstraints then st
          else
            let stB := { st with
              visitedConstraints := constraint :: st.visitedConstraints }
            if accept constraint then { stB with acc := stB.acc ++ [constraint] }
            else stB
        if kind = GatheringKind.AllMentions then
          constraint.typeVars.foldl
            (fun st adjTypeVar => addAdjacentConstraints env g accept adjTypeVar st)
            stA
        else stA) st).typeVarsSet) ∧
      (∀ u ∈ (cs.foldl (fun st constraint =>
        let stA :=
          if constraint ∈ st.visitedConstraints then st
          else
            let stB := { st with
              visitedConstraints := constraint :: st.visitedConstraints }
            if accept constraint then { stB with acc := stB.acc ++ [constraint] }
            else stB
        if kind = GatheringKind.AllMentions then
          constraint.typeVars.foldl
            (fun st adjTypeVar => addAdjacentConstraints env g accept adjTypeVar st)
            stA
        else stA) st).typeVarsSet,
        (kind = GatheringKind.AllMentions ∧ ∃ c ∈ cs, ∃ w ∈ c.typeVars,
          u ∈ (g.nodes (env.rep w)).equivalenceClass) ∨ u ∈ st.typeVarsSet) ∧
      (∀ d ∈ (cs.foldl (fun st constraint =>
        let stA :=
          if constraint ∈ st.visitedConstraints then st
          else
            let stB := { st with
              visitedConstraints := constraint :: st.visitedConstraints }
            if accept constraint then { stB with acc := stB.acc ++ [constraint] }
            else stB
        if kind = GatheringKind.AllMentions then
          constraint.typeVars.foldl
            (fun st adjTypeVar => addAdjacentConstraints env g accept adjTypeVar st)
            stA
        else stA) st).visitedConstraints,
        d ∈ cs ∨
        (kind = GatheringKind.AllMentions ∧ ∃ c ∈ cs, ∃ w ∈ c.typeVars, ∃ u,
          u ∈ (g.nodes (env.rep w)).equivalenceClass ∧ d ∈ (g.nodes u).constraints) ∨
        d ∈ st.visitedConstraints) := by
  induction cs with
  | nil =>
    intro st h1 h2
    exact ⟨h1, h2, GMono_refl st, by simp, fun hk c hc => absurd hc (List.not_mem_nil c),
      fun u hu => Or.inr hu, fun d hd => Or.inr (Or.inr hd)⟩
  | cons c rest ih =>
    intro st h1 h2
    obtain ⟨s1, s2, s3, s4, s5⟩ := visit_step accept st c _ rfl h1
    have hvarsA : GVars g (if c ∈ st.visitedConstraints then st
        else
          let st2 := { st with visitedConstraints := c :: st.visitedConstraints }
          if accept c then { st2 with acc := st2.acc ++ [c] } else st2) :=
      GVars_transfer g h2 s2 (fun u hu => s3 ▸ hu)
    by_cases hk : kind = GatheringKind.AllMentions
    · have hF : List.foldl (fun st constraint =>
          let stA :=
            if constraint ∈ st.visitedConstraints then st
            else
              let stB := { st with
                visitedConstraints := constraint :: st.visitedConstraints }
              if accept constraint then { stB with acc := stB.acc ++ [constraint] }
              else stB
          if kind = GatheringKind.AllMentions then
            constraint.typeVars.foldl
              (fun st adjTypeVar => addAdjacentConstraints env g accept adjTypeVar st)
              stA
          else stA) st (c :: rest) =
          List.foldl (fun st constraint =>
            let stA :=
              if constraint ∈ st.visitedConstraints then st
              else
                let stB := { st with
                  visitedConstraints := constraint :: st.visitedConstraints }
                if accept constraint then { stB with acc := stB.acc ++ [constraint] }
                else stB
            if kind = GatheringKind.AllMentions then
              constraint.typeVars.foldl
                (fun st adjTypeVar => addAdjacentConstraints env g accept adjTypeVar st)
                stA
            else stA)
            (List.foldl
              (fun st adjTypeVar => addAdjacentConstraints env g accept adjTypeVar st)
              (if c ∈ st.visitedConstraints then st
               else
                 let stB := { st with
                   visitedConstraints := c :: st.visitedConstraints }
                 if accept c then { stB with acc := stB.acc ++ [c] }
                 else stB)
              c.typeVars) rest := by
        rw [List.foldl_cons]
        congr 1
        simp only []
        rw [if_pos hk]
      rw [hF]
      obtain ⟨a1, a2, a3, a4, a5, a6⟩ :=
        adjListFold_spec env g accept c.typeVars _ s1 hvarsA
      obtain ⟨i1, i2, i3, i4, i5, i6, i7⟩ := ih _ a1 a2
      refine ⟨i1, i2, GMono_trans s2 (GMono_trans a3 i3), ?_, ?_, ?_, ?_⟩
      · intro d hd
        rcases List.mem_cons.mp hd with hdc | hdr
        · rw [hdc]
          exact i3.2.1 c (a3.2.1 c s4)
        · exact i4 d hdr
      · intro hk1 c1 hc1 w hw u hu
        rcases List.mem_cons.mp hc1 with hcc | hcr
        · rw [hcc] at hw
          exact i3.1 u (a4 w hw u hu)
        · exact i5 hk1 c1 hcr w hw u hu
      · intro u hu
        rcases i6 u hu with ⟨hk1, c1, hc1, w, hw, hu1⟩ | h
        · exact Or.inl ⟨hk1, c1, List.mem_cons_of_mem c hc1, w, hw, hu1⟩
        · rcases a5 u h with ⟨w, hw, hu1⟩ | h1
          · exact Or.inl ⟨hk, c, List.mem_cons_self c rest, w, hw, hu1⟩
          · rw [s3] at h1
            exact Or.inr h1
      · intro d hd
        rcases i7 d hd with h | h | h
        · exact Or.inl (List.mem_cons_of_mem c h)
        · obtain ⟨hk1, c1, hc1, w, hw, u, hu, hdu⟩ := h
          exact Or.inr (Or.inl ⟨hk1, c1, List.mem_cons_of_mem c hc1, w, hw, u, hu, hdu⟩)
        · rcases a6 d h with ⟨w, hw, u, hu, hdu⟩ | h1
          · exact Or.inr (Or.inl ⟨hk, c, List.mem_cons_self c rest, w, hw, u, hu, hdu⟩)
          · rcases s5 d h1 with h2 | h2
            · exact Or.inl (by rw [h2]; exact List.mem_cons_self c rest)
            · exact Or.inr (Or.inr h2)
    · have hF : List.foldl (fun st constraint =>
          let stA :=
            if constraint ∈ st.visitedConstraints then st
            else
              let stB := { st with
                visitedConstraints := constraint :: st.visitedConstraints }
              if accept constraint then { stB with acc := stB.acc ++ [constraint] }
              else stB
          if kind = GatheringKind.AllMentions then
            constraint.typeVars.foldl
              (fun st adjTypeVar => addAdjacentConstraints env g accept adjTypeVar st)
              stA
          else stA) st (c :: rest) =
          List.foldl (fun st constraint =>
            let stA :=
              if constraint ∈ st.visitedConstraints then st
              else
                let stB := { st with
                  visitedConstraints := constraint :: st.visitedConstraints }
                if accept constraint then { stB with acc := stB.acc ++ [constraint] }
                else stB
            if kind = GatheringKind.AllMentions then
              constraint.typeVars.foldl
                (fun st adjTypeVar => addAdjacentConstraints env g accept adjTypeVar st)
                stA
            else stA)
            (if c ∈ st.visitedConstraints then st
             else
               let stB := { st with
                 visitedConstraints := c :: st.visitedConstraints }
               if accept c then { stB with acc := stB.acc ++ [c] }
               else stB) rest := by
        rw [List.foldl_cons]
        congr 1
        simp only []
        rw [if_neg hk]
      rw [hF]
      obtain ⟨i1, i2, i3, i4, i5, i6, i7⟩ := ih _ s1 hvarsA
      refine ⟨i1, i2, GMono_trans s2 i3, ?_, ?_, ?_, ?_⟩
      · intro d hd
        rcases List.mem_cons.mp hd with hdc | hdr
        · rw [hdc]
          exact i3.2.1 c s4
        · exact i4 d hdr
      · intro hk1
        exact absurd hk1 hk
      · intro u hu
        rcases i6 u hu with ⟨hk1, c1, hc1, w, hw, hu1⟩ | h
        · exact Or.inl ⟨hk1, c1, List.mem_cons_of_mem c hc1, w, hw, hu1⟩
        · rw [s3] at h
          exact Or.inr h
      · intro d hd
        rcases i7 d hd with h | h | h
        · exact Or.inl (List.mem_cons_of_mem c h)
        · obtain ⟨hk1, c1, hc1, w, hw, u, hu, hdu⟩ := h
          exact Or.inr (Or.inl ⟨hk1, c1, List.mem_cons_of_mem c hc1, w, hw, u, hu, hdu⟩)
        · rcases s5 d h with h2 | h2
          · exact Or.inl (by rw [h2]; exact List.mem_cons_self c rest)
          · exact Or.inr (Or.inr h2)

end CG

namespace CG

/-- The adjacent classes walked by `gatherConstraints` while processing the
members in `l`: classes of representatives of variables mentioned by a
member's constraints (only under `AllMentions`), and of variables in a
member's fixed bindings. -/
def ScanVia (env : CSEnv) (g : Graph) (kind : GatheringKind) (l : List TVar)
    (u : TVar) : Prop :=
  ∃ v ∈ l,
    (kind = GatheringKind.AllMentions ∧ ∃ c ∈ (g.nodes v).constraints,
      ∃ w ∈ c.typeVars, u ∈ (g.nodes (env.rep w)).equivalenceClass) ∨
    (∃ w ∈ (g.nodes v).fixedBindings,
      u ∈ (g.nodes (env.rep w)).equivalenceClass)

theorem ScanVia_cons {env : CSEnv} {g : Graph} {kind : GatheringKind}
    {v : TVar} {rest : List TVar} {u : TVar}
    (h : ScanVia env g kind rest u) : ScanVia env g kind (v :: rest) u := by
  obtain ⟨v1, hv1, hc⟩ := h
  exact ⟨v1, List.mem_cons_of_mem v hv1, hc⟩

theorem outerFold_spec (env : CSEnv) (g : Graph) (accept : Constraint → Bool)
    (kind : GatheringKind) (l : List TVar) :
    ∀ st : GatherState, GAcc accept st → GVars g st →
      GAcc accept (l.foldl (fun st typeVar1 =>
        let node := g.nodes typeVar1
        let st1 := node.constraints.foldl
          (fun st constraint =>
            let stA :=
              if constraint ∈ st.visitedConstraints then st
              else
                let stB := { st with
                  visitedConstraints := constraint :: st.visitedConstraints }
                if accept constraint then { stB with acc := stB.acc ++ [constraint] }
                else stB
            if kind = GatheringKind.AllMentions then
              constraint.typeVars.foldl
                (fun st adjTypeVar => addAdjacentConstraints env g accept adjTypeVar st)
                stA
            else stA)
          st
        node.fixedBindings.foldl
          (fun st adjTypeVar => addAdjacentConstraints env g accept adjTypeVar st)
          st1) st) ∧
      GVars g (l.foldl (fun st typeVar1 =>
        let node := g.nodes typeVar1
        let st1 := node.constraints.foldl
          (fun st constraint =>
            let stA :=
              if constraint ∈ st.visitedConstraints then st
              else
                let stB := { st with
                  visitedConstraints := constraint :: st.visitedConstraints }
                if accept constraint then { stB with acc := stB.acc ++ [constraint] }
                else stB
            if kind = GatheringKind.AllMentions then
              constraint.typeVars.foldl
                (fun st adjTypeVar => addAdjacentConstraints env g accept adjTypeVar st)
                stA
            else stA)
          st
        node.fixedBindings.foldl
          (fun st adjTypeVar => addAdjacentConstraints env g accept adjTypeVar st)
          st1) st) ∧
      GMono st (l.foldl (fun st typeVar1 =>
        let node := g.nodes typeVar1
        let st1 := node.constraints.foldl
          (fun st constraint =>
            let stA :=
              if constraint ∈ st.visitedConstraints then st
              else
                let stB := { st with
                  visitedConstraints := constraint :: st.visitedConstraints }
                if accept constraint then { stB with acc := stB.acc ++ [constraint] }
                else stB
            if kind = GatheringKind.AllMentions then
              constraint.typeVars.foldl
                (fun st adjTypeVar => addAdjacentConstraints env g accept adjTypeVar st)
                stA
            else stA)
          st
        node.fixedBindings.foldl
          (fun st adjTypeVar => addAdjacentConstraints env g accept adjTypeVar st)
          st1) st) ∧
      (∀ v ∈ l,
        (∀ c ∈ (g.nodes v).constraints, c ∈ (l.foldl (fun st typeVar1 =>
          let node := g.nodes typeVar1
          let st1 := node.constraints.foldl
            (fun st constraint =>
              let stA :=
                if constraint ∈ st.visitedConstraints then st
                else
                  let stB := { st with
                    visitedConstraints := constraint :: st.visitedConstraints }
                  if accept constraint then { stB with acc := stB.acc ++ [constraint] }
                  else stB
              if kind = GatheringKind.AllMentions then
                constraint.typeVars.foldl
                  (fun st adjTypeVar => addAdjacentConstraints env g accept adjTypeVar st)
                  stA
              else stA)
            st
          node.fixedBindings.foldl
            (fun st adjTypeVar => addAdjacentConstraints env g accept adjTypeVar st)
            st1) st).visitedConstraints) ∧
        (kind = GatheringKind.AllMentions → ∀ c ∈ (g.nodes v).constraints,
          ∀ w ∈ c.typeVars, ∀ u ∈ (g.nodes (env.rep w)).equivalenceClass,
          u ∈ (l.foldl (fun st typeVar1 =>
          let node := g.nodes typeVar1
          let st1 := node.constraints.foldl
            (fun st constraint =>
              let stA :=
                if constraint ∈ st.visitedConstraints then st
                else
                  let stB := { st with
                    visitedConstraints := constraint :: st.visitedConstraints }
                  if accept constraint then { stB with acc := stB.acc ++ [constraint] }
                  else stB
              if kind = GatheringKind.AllMentions then
                constraint.typeVars.foldl
                  (fun st adjTypeVar => addAdjacentConstraints env g accept adjTypeVar st)
                  stA
              else stA)
            st
          node.fixedBindings.foldl
            (fun st adjTypeVar => addAdjacentConstraints env g accept adjTypeVar st)
            st1) st).typeVarsSet) ∧
        (∀ w ∈ (g.nodes v).fixedBindings,
          ∀ u ∈ (g.nodes (env.rep w)).equivalenceClass,
          u ∈ (l.foldl (fun st typeVar1 =>
          let node := g.nodes typeVar1
          let st1 := node.constraints.foldl
            (fun st constraint =>
              let stA :=
                if constraint ∈ st.visitedConstraints then st
                else
                  let stB := { st with
                    visitedConstraints := constraint :: st.visitedConstraints }
                  if accept constraint then { stB with acc := stB.acc ++ [constraint] }
                  else stB
              if kind = GatheringKind.AllMentions then
                constraint.typeVars.foldl
                  (fun st adjTypeVar => addAdjacentConstraints env g accept adjTypeVar st)
                  stA
              else stA)
            st
          node.fixedBindings.foldl
            (fun st adjTypeVar => addAdjacentConstraints env g accept adjTypeVar st)
            st1) st).typeVarsSet)) ∧
      (∀ u ∈ (l.foldl (fun st typeVar1 =>
          let node := g.nodes typeVar1
          let st1 := node.constraints.foldl
            (fun st constraint =>
              let stA :=
                if constraint ∈ st.visitedConstraints then st
                else
                  let stB := { st with
                    visitedConstraints := constraint :: st.visitedConstraints }
                  if accept constraint then { stB with acc := stB.acc ++ [constraint] }
                  else stB
              if kind = GatheringKind.AllMentions then
                constraint.typeVars.foldl
                  (fun st adjTypeVar => addAdjacentConstraints env g accept adjTypeVar st)
                  stA
              else stA)
            st
          node.fixedBindings.foldl
            (fun st adjTypeVar => addAdjacentConstraints env g accept adjTypeVar st)
            st1) st).typeVarsSet,
        ScanVia env g kind l u ∨ u ∈ st.typeVarsSet) ∧
      (∀ d ∈ (l.foldl (fun st typeVar1 =>
          let node := g.nodes typeVar1
          let st1 := node.constraints.foldl
            (fun st constraint =>
              let stA :=
                if constraint ∈ st.visitedConstraints then st
                else
                  let stB := { st with
                    visitedConstraints := constraint :: st.visitedConstraints }
                  if accept constraint then { stB with acc := stB.acc ++ [constraint] }
                  else stB
              if kind = GatheringKind.AllMentions then
                constraint.typeVars.foldl
                  (fun st adjTypeVar => addAdjacentConstraints env g accept adjTypeVar st)
                  stA
              else stA)
            st
          node.fixedBindings.foldl
            (fun st adjTypeVar => addAdjacentConstraints env g accept adjTypeVar st)
            st1) st).visitedConstraints,
        (∃ v ∈ l, d ∈ (g.nodes v).constraints) ∨
        (∃ u, ScanVia env g kind l u ∧ d ∈ (g.nodes u).constraints) ∨
        d ∈ st.visitedConstraints) := by
  induction l with
  | nil =>
    intro st h1 h2
    exact ⟨h1, h2, GMono_refl st, by simp, fun u hu => Or.inr hu,
      fun d hd => Or.inr (Or.inr hd)⟩
  | cons v rest ih =>
    intro st h1 h2
    have hF : List.foldl (fun st typeVar1 =>
        let node := g.nodes typeVar1
        let st1 := node.constraints.foldl
          (fun st constraint =>
            let stA :=
              if constraint ∈ st.visitedConstraints then st
              else
                let stB := { st with
                  visitedConstraints := constraint :: st.visitedConstraints }
                if accept constraint then { stB with acc := stB.acc ++ [constraint] }
                else stB
            if kind = GatheringKind.AllMentions then
              constraint.typeVars.foldl
                (fun st adjTypeVar => addAdjacentConstraints env g accept adjTypeVar st)
                stA
            else stA)
          st
        node.fixedBindings.foldl
          (fun st adjTypeVar => addAdjacentConstraints env g accept adjTypeVar st)
          st1) st (v :: rest) =
        List.foldl (fun st typeVar1 =>
        let node := g.nodes typeVar1
        let st1 := node.constraints.foldl
          (fun st constraint =>
            let stA :=
              if constraint ∈ st.visitedConstraints then st
              else
                let stB := { st with
                  visitedConstraints := constraint :: st.visitedConstraints }
                if accept constraint then { stB with acc := stB.acc ++ [constraint] }
                else stB
            if kind = GatheringKind.AllMentions then
              constraint.typeVars.foldl
                (fun st adjTypeVar => addAdjacentConstraints env g accept adjTypeVar st)
                stA
            else stA)
          st
        node.fixedBindings.foldl
          (fun st adjTypeVar => addAdjacentConstraints env g accept adjTypeVar st)
          st1)
        ((g.nodes v).fixedBindings.foldl
          (fun st adjTypeVar => addAdjacentConstraints env g accept adjTypeVar st)
          ((g.nodes v).constraints.foldl
            (fun st constraint =>
              let stA :=
                if constraint ∈ st.visitedConstraints then st
                else
                  let stB := { st with
                    visitedConstraints := constraint :: st.visitedConstraints }
                  if accept constraint then { stB with acc := stB.acc ++ [constraint] }
                  else stB
              if kind = GatheringKind.AllMentions then
                constraint.typeVars.foldl
                  (fun st adjTypeVar => addAdjacentConstraints env g accept adjTypeVar st)
                  stA
              else stA)
            st)) rest := by
      rw [List.foldl_cons]
    rw [hF]
    obtain ⟨m1, m2, m3, m4, m5, m6, m7⟩ :=
      mainInnerFold_spec env g accept kind ((g.nodes v).constraints) st h1 h2
    obtain ⟨f1, f2, f3, f4, f5, f6⟩ :=
      adjListFold_spec env g accept ((g.nodes v).fixedBindings) _ m1 m2
    obtain ⟨i1, i2, i3, i4, i5, i6⟩ := ih _ f1 f2
    refine ⟨i1, i2, GMono_trans m3 (GMono_trans f3 i3), ?_, ?_, ?_⟩
    · intro v1 hv1
      rcases List.mem_cons.mp hv1 with hvv | hvr
      · subst hvv
        refine ⟨?_, ?_, ?_⟩
        · intro c hc
          exact i3.2.1 c (f3.2.1 c (m4 c hc))
        · intro hk c hc w hw u hu
          exact i3.1 u (f3.1 u (m5 hk c hc w hw u hu))
        · intro w hw u hu
          exact i3.1 u (f4 w hw u hu)
      · exact i4 v1 hvr
    · intro u hu
      rcases i5 u hu with h | h
      · exact Or.inl (ScanVia_cons h)
      · rcases f5 u h with ⟨w, hw, hu1⟩ | h1
        · exact Or.inl ⟨v, List.mem_cons_self v rest, Or.inr ⟨w, hw, hu1⟩⟩
        · rcases m6 u h1 with ⟨hk, c, hc, w, hw, hu1⟩ | h2
          · exact Or.inl ⟨v, List.mem_cons_self v rest, Or.inl ⟨hk, c, hc, w, hw, hu1⟩⟩
          · exact Or.inr h2
    · intro d hd
      rcases i6 d hd with ⟨v1, hv1, hdv⟩ | h | h
      · exact Or.inl ⟨v1, List.mem_cons_of_mem v hv1, hdv⟩
      · obtain ⟨u, hsu, hdu⟩ := h
        exact Or.inr (Or.inl ⟨u, ScanVia_cons hsu, hdu⟩)
      · rcases f6 d h with ⟨w, hw, u, hu, hdu⟩ | h1
        · exact Or.inr (Or.inl ⟨u,
            ⟨v, List.mem_cons_self v rest, Or.inr ⟨w, hw, hu⟩⟩, hdu⟩)
        · rcases m7 d h1 with h2 | h2 | h2
          · exact Or.inl ⟨v, List.mem_cons_self v rest, h2⟩
          · obtain ⟨hk, c, hc, w, hw, u, hu, hdu⟩ := h2
            exact Or.inr (Or.inl ⟨u,
              ⟨v, List.mem_cons_self v rest, Or.inl ⟨hk, c, hc, w, hw, hu⟩⟩, hdu⟩)
          · exact Or.inr (Or.inr h2)

end CG

namespace CG

/-- The set of type variables whose constraint lists feed the result of
`gatherConstraints typeVar kind`: the equivalence class of `rep typeVar`,
plus every class walked via `addAdjacentConstraints` — and the walk is
triggered by each scanned constraint of the class (accepted or not, under
`AllMentions`) and by each fixed binding of a class member. -/
def Scanned (env : CSEnv) (g : Graph) (typeVar : TVar) (kind : GatheringKind)
    (u : TVar) : Prop :=
  u ∈ (g.nodes (env.rep typeVar)).equivalenceClass ∨
  ScanVia env g kind ((g.nodes (env.rep typeVar)).equivalenceClass) u

/-- **C7 (amended).** `gatherConstraints` returns a duplicate-free list, and
a constraint is returned exactly when it passes the predicate and is held by
some walked variable; the walked variables are the representative's
equivalence class plus — under `AllMentions` — the classes of `rep(w)` for
every variable `w` mentioned by EVERY constraint scanned on the class
(accepted by the predicate or not), plus the classes of `rep(w)` for every
fixed binding `w` of a class member.  (The claim's restriction of the walk
to predicate-satisfying constraints is refuted separately.) -/
theorem c7_gather_characterization (env : CSEnv) (g : Graph) (typeVar : TVar)
    (kind : GatheringKind) (accept : Constraint → Bool) :
    (gatherConstraints env g typeVar kind accept).Nodup ∧
    (∀ c, c ∈ gatherConstraints env g typeVar kind accept ↔
      (accept c = true ∧ ∃ u, Scanned env g typeVar kind u ∧
        c ∈ (g.nodes u).constraints)) := by
  have hGA : GAcc accept (⟨[], [], []⟩ : GatherState) := by
    refine ⟨List.nodup_nil, fun c => ⟨fun h => absurd h (List.not_mem_nil c), ?_⟩⟩
    rintro ⟨-, h⟩
    exact absurd h (List.not_mem_nil c)
  have hGV : GVars g (⟨[], [], []⟩ : GatherState) :=
    fun u hu => absurd hu (List.not_mem_nil u)
  obtain ⟨o1, o2, o3, o4, o5, o6⟩ :=
    outerFold_spec env g accept kind ((g.nodes (env.rep typeVar)).equivalenceClass)
      (⟨[], [], []⟩ : GatherState) hGA hGV
  unfold gatherConstraints
  refine ⟨o1.1, fun c => ⟨?_, ?_⟩⟩
  · intro hc
    obtain ⟨ha, hv⟩ := (o1.2 c).mp hc
    refine ⟨ha, ?_⟩
    rcases o6 c hv with ⟨v, hvE, hdv⟩ | h | h
    · exact ⟨v, Or.inl hvE, hdv⟩
    · obtain ⟨u, hsu, hdu⟩ := h
      exact ⟨u, Or.inr hsu, hdu⟩
    · exact absurd h (List.not_mem_nil c)
  · rintro ⟨ha, u, hsc, hcu⟩
    refine (o1.2 c).mpr ⟨ha, ?_⟩
    rcases hsc with huE | hvia
    · exact (o4 u huE).1 c hcu
    · have huset : u ∈ (((g.nodes (env.rep typeVar)).equivalenceClass).foldl
          (fun st typeVar1 =>
            let node := g.nodes typeVar1
            let st1 := node.constraints.foldl
              (fun st constraint =>
                let stA :=
                  if constraint ∈ st.visitedConstraints then st
                  else
                    let stB := { st with
                      visitedConstraints := constraint :: st.visitedConstraints }
                    if accept constraint then { stB with acc := stB.acc ++ [constraint] }
                    else stB
                if kind = GatheringKind.AllMentions then
                  constraint.typeVars.foldl
                    (fun st adjTypeVar => addAdjacentConstraints env g accept adjTypeVar st)
                    stA
                else stA)
              st
            node.fixedBindings.foldl
              (fun st adjTypeVar => addAdjacentConstraints env g accept adjTypeVar st)
              st1)
          (⟨[], [], []⟩ : GatherState)).typeVarsSet := by
        obtain ⟨v, hv, hcase⟩ := hvia
        rcases hcase with ⟨hk, c1, hc1, w, hw, hu⟩ | ⟨w, hw, hu⟩
        · exact (o4 v hv).2.1 hk c1 hc1 w hw u hu
        · exact (o4 v hv).2.2 w hw u hu
      exact o2 u huset c hcu

end CG

namespace CG

/-- Transcription of the CLAIM's words (not of the code): identical to
`gatherConstraints` except that, under `AllMentions`, the adjacent walk for
a constraint's mentioned variables runs only when the constraint satisfies
the predicate ("it is exactly for the constraints c that satisfy the
predicate that ... the equivalence class of rep(v) is additionally
walked").  Compare with `gatherConstraints`. -/
def gatherConstraintsClaimed (env : CSEnv) (g : Graph) (typeVar : TVar)
    (kind : GatheringKind) (accept : Constraint → Bool) : List Constraint :=
  let equivClass := (g.nodes (env.rep typeVar)).equivalenceClass
  (equivClass.foldl
    (fun st typeVar1 =>
      let node := g.nodes typeVar1
      let st1 := node.constraints.foldl
        (fun st constraint =>
          let stA :=
            if constraint ∈ st.visitedConstraints then st
            else
              let stB := { st with
                visitedConstraints := constraint :: st.visitedConstraints }
              if accept constraint then { stB with acc := stB.acc ++ [constraint] }
              else stB
          if kind = GatheringKind.AllMentions ∧ accept constraint = true then
            constraint.typeVars.foldl
              (fun st adjTypeVar => addAdjacentConstraints env g accept adjTypeVar st)
              stA
          else stA)
        st
      node.fixedBindings.foldl
        (fun st adjTypeVar => addAdjacentConstraints env g accept adjTypeVar st)
        st1)
    (⟨[], [], []⟩ : GatherState)).acc

/-- A rejected binary constraint mentioning variables `0` and `2`. -/
def cC7a : Constraint := ⟨20, ConstraintKind.Other, [0, 2], Ty.base 0, Ty.base 0⟩

/-- An accepted constraint held by variable `2` only. -/
def cC7b : Constraint := ⟨21, ConstraintKind.Other, [2], Ty.base 0, Ty.base 0⟩

/-- Node `0` holds only the rejected `cC7a`; node `2` holds the accepted
`cC7b`; the classes are singletons and there are no fixed bindings. -/
def graphC7 : Graph :=
  { typeVariables := [0, 2]
    nodes := fun v =>
      if v = 0 then ⟨[cC7a], [0], []⟩
      else if v = 2 then ⟨[cC7b], [2], []⟩
      else CGNode.empty
    hasNode := fun v => v == 0 || v == 2
    graphIndex := fun v => if v = 2 then 1 else 0
    orphanedConstraints := []
    changes := []
    activeScope := false }

def acceptC7 : Constraint → Bool := fun c => c.cid == 21

/-- The claim's predicate-gated walk is refuted: gathering `AllMentions`
from variable `0` returns `[cC7b]` because the walk runs for the REJECTED
constraint `cC7a` too (reaching variable `2`), while the claim's reading —
walk only for predicate-satisfying constraints — returns nothing. -/
theorem c7_counterexample :
    gatherConstraints envId graphC7 0 GatheringKind.AllMentions acceptC7 = [cC7b] ∧
    gatherConstraintsClaimed envId graphC7 0 GatheringKind.AllMentions acceptC7 = [] ∧
    acceptC7 cC7a = false := by
  refine ⟨?_, ?_, rfl⟩ <;> decide

end CG

namespace CG

/-! ### Claim C4: dependency ordering of one-way components -/

theorem set_last_append {α : Type} (l : List α) (a b : α) :
    (l ++ [a]).set l.length b = l ++ [b] := by
  induction l with
  | nil => rfl
  | cons x xs ih =>
    show x :: ((xs ++ [a]).set xs.length b) = x :: (xs ++ [b])
    rw [ih]

theorem getD_last_append {α : Type} (l : List α) (a d : α) :
    (l ++ [a]).getD l.length d = a := by
  induction l with
  | nil => rfl
  | cons x xs ih =>
    show (xs ++ [a]).getD xs.length d = a
    exact ih

theorem getD_mem_or {α : Type} (l : List α) (i : Nat) (d : α) :
    l.getD i d ∈ l ∨ l.getD i d = d := by
  induction l generalizing i with
  | nil => exact Or.inr rfl
  | cons x xs ih =>
    cases i with
    | zero => exact Or.inl (List.mem_cons_self x xs)
    | succ n =>
      rcases ih n with h | h
      · exact Or.inl (List.mem_cons_of_mem x h)
      · exact Or.inr h

theorem getElem_last_append {α : Type} (l : List α) (a : α)
    (h : l.length < (l ++ [a]).length) : (l ++ [a])[l.length] = a := by
  induction l with
  | nil => rfl
  | cons x xs ih =>
    have h2 : xs.length < (xs ++ [a]).length := by
      rw [List.length_append]
      exact Nat.lt_add_of_pos_right Nat.one_pos
    exact ih h2

theorem assocFind_some {m : List (TVar × Nat)} {v : TVar} {idx : Nat}
    (h : assocFind m v = some idx) : ∃ p ∈ m, p.1 = v ∧ p.2 = idx := by
  unfold assocFind at h
  cases hf : m.find? (fun p => p.1 == v) with
  | none =>
    rw [hf] at h
    cases h
  | some p =>
    rw [hf] at h
    injection h with h2
    refine ⟨p, List.mem_of_find?_eq_some hf, ?_, h2⟩
    have hb := List.find?_some hf
    exact eq_of_beq hb

/-- Every subcomponent's dependency indices sit strictly below its own
position. -/
def DepsBelow (owcs : List OneWayComponent) : Prop :=
  ∀ i (h : i < owcs.length), ∀ j ∈ owcs[i].dependsOn, j < i

theorem DepsBelow_nil : DepsBelow [] :=
  fun i h => absurd h (Nat.not_lt_zero i)

theorem innerDFSVisit_succ (digraph : OneWayDigraph) (m : List (TVar × Nat))
    (owner : TVar) (n : Nat) (v : TVar) (st : List TVar × List Nat) :
    innerDFSVisit digraph m owner (n + 1) v st =
      (if v ∈ st.1 then st
       else
         let st1 := (v :: st.1, st.2)
         let adjacencies :=
           match digraphFind digraph v with
           | none => []
           | some comp => comp.inAdjacencies
         let st2 := adjacencies.foldl
           (fun st adj => innerDFSVisit digraph m owner n adj st) st1
         if v = owner then st2
         else
           match assocFind m v with
           | none => st2
           | some subcomponentIdx => (st2.1, st2.2 ++ [subcomponentIdx])) := rfl

theorem innerDFSVisit_bound (digraph : OneWayDigraph) (m : List (TVar × Nat))
    (owner : TVar) (L : Nat) (hm : ∀ p ∈ m, p.1 ≠ owner → p.2 < L) :
    ∀ (fuel : Nat) (v : TVar) (st : List TVar × List Nat),
      (∀ j ∈ st.2, j < L) →
      ∀ j ∈ (innerDFSVisit digraph m owner fuel v st).2, j < L := by
  intro fuel
  induction fuel with
  | zero =>
    intro v st h
    exact h
  | succ n ih =>
    intro v st h
    rw [innerDFSVisit_succ]
    by_cases hv : v ∈ st.1
    · rw [if_pos hv]
      exact h
    · rw [if_neg hv]
      dsimp only []
      have hfold : ∀ j ∈ ((match digraphFind digraph v with
          | none => []
          | some comp => comp.inAdjacencies).foldl
          (fun st adj => innerDFSVisit digraph m owner n adj st)
          (v :: st.1, st.2)).2, j < L := by
        apply foldl_invariant (fun (st : List TVar × List Nat) => ∀ j ∈ st.2, j < L)
        · exact h
        · intro a b _ ha
          exact ih b a ha
      by_cases hvo : v = owner
      · rw [if_pos hvo]
        exact hfold
      · rw [if_neg hvo]
        cases hfind : assocFind m v with
        | none => exact hfold
        | some idx =>
          intro j hj
          rcases List.mem_append.mp hj with hj1 | hj1
          · exact hfold j hj1
          · rw [List.mem_singleton.mp hj1]
            obtain ⟨p, hp, hp1, hp2⟩ := assocFind_some hfind
            rw [← hp2]
            exact hm p hp (by rw [hp1]; exact hvo)

end CG

namespace CG

theorem populateStep_pres (digraph : OneWayDigraph) (dfsFuel : Nat)
    (st : Component × List (TVar × Nat)) (typeVar : TVar)
    (h1 : DepsBelow st.1.oneWayComponents)
    (h2 : ∀ p ∈ st.2, p.2 < st.1.oneWayComponents.length) :
    DepsBelow (((fun (st : Component × List (TVar × Nat)) typeVar =>
      let component := st.1
      let subcomponentIdxs := st.2
      let subcomponentIdxs1 :=
        subcomponentIdxs ++ [(typeVar, component.oneWayComponents.length)]
      let newTypeVars :=
        match digraphFind digraph typeVar with
        | some raw => raw.typeVars
        | none => [typeVar]
      let component1 := { component with
        oneWayComponents := component.oneWayComponents ++ [OneWayComponent.mk newTypeVars []] }
      let inner := innerDFSVisit digraph subcomponentIdxs1 typeVar dfsFuel typeVar ([], [])
      let lastIdx := component1.oneWayComponents.length - 1
      let lastComp := component1.oneWayComponents.getD lastIdx (OneWayComponent.mk [] [])
      let newOwc := component1.oneWayComponents.set lastIdx { lastComp with dependsOn := inner.2 }
      let component2 := { component1 with oneWayComponents := newOwc }
      (component2, subcomponentIdxs1)) st typeVar).1.oneWayComponents) ∧
    (∀ p ∈ ((fun (st : Component × List (TVar × Nat)) typeVar =>
      let component := st.1
      let subcomponentIdxs := st.2
      let subcomponentIdxs1 :=
        subcomponentIdxs ++ [(typeVar, component.oneWayComponents.length)]
      let newTypeVars :=
        match digraphFind digraph typeVar with
        | some raw => raw.typeVars
        | none => [typeVar]
      let component1 := { component with
        oneWayComponents := component.oneWayComponents ++ [OneWayComponent.mk newTypeVars []] }
      let inner := innerDFSVisit digraph subcomponentIdxs1 typeVar dfsFuel typeVar ([], [])
      let lastIdx := component1.oneWayComponents.length - 1
      let lastComp := component1.oneWayComponents.getD lastIdx (OneWayComponent.mk [] [])
      let newOwc := component1.oneWayComponents.set lastIdx { lastComp with dependsOn := inner.2 }
      let component2 := { component1 with oneWayComponents := newOwc }
      (component2, subcomponentIdxs1)) st typeVar).2,
      p.2 < ((fun (st : Component × List (TVar × Nat)) typeVar =>
      let component := st.1
      let subcomponentIdxs := st.2
      let subcomponentIdxs1 :=
        subcomponentIdxs ++ [(typeVar, component.oneWayComponents.length)]
      let newTypeVars :=
        match digraphFind digraph typeVar with
        | some raw => raw.typeVars
        | none => [typeVar]
      let component1 := { component with
        oneWayComponents := component.oneWayComponents ++ [OneWayComponent.mk newTypeVars []] }
      let inner := innerDFSVisit digraph subcomponentIdxs1 typeVar dfsFuel typeVar ([], [])
      let lastIdx := component1.oneWayComponents.length - 1
      let lastComp := component1.oneWayComponents.getD lastIdx (OneWayComponent.mk [] [])
      let newOwc := component1.oneWayComponents.set lastIdx { lastComp with dependsOn := inner.2 }
      let component2 := { component1 with oneWayComponents := newOwc }
      (component2, subcomponentIdxs1)) st typeVar).1.oneWayComponents.length) := by
  have hlen : (st.1.oneWayComponents ++
      [OneWayComponent.mk (match digraphFind digraph typeVar with
        | some raw => raw.typeVars
        | none => [typeVar]) []]).length - 1 = st.1.oneWayComponents.length := by
    rw [List.length_append]
    rfl
  have hshape : ((fun (st : Component × List (TVar × Nat)) typeVar =>
      let component := st.1
      let subcomponentIdxs := st.2
      let subcomponentIdxs1 :=
        subcomponentIdxs ++ [(typeVar, component.oneWayComponents.length)]
      let newTypeVars :=
        match digraphFind digraph typeVar with
        | some raw => raw.typeVars
        | none => [typeVar]
      let component1 := { component with
        oneWayComponents := component.oneWayComponents ++ [OneWayComponent.mk newTypeVars []] }
      let inner := innerDFSVisit digraph subcomponentIdxs1 typeVar dfsFuel typeVar ([], [])
      let lastIdx := component1.oneWayComponents.length - 1
      let lastComp := component1.oneWayComponents.getD lastIdx (OneWayComponent.mk [] [])
      let newOwc := component1.oneWayComponents.set lastIdx { lastComp with dependsOn := inner.2 }
      let component2 := { component1 with oneWayComponents := newOwc }
      (component2, subcomponentIdxs1)) st typeVar).1.oneWayComponents =
      st.1.oneWayComponents ++
        [OneWayComponent.mk
          (match digraphFind digraph typeVar with
            | some raw => raw.typeVars
            | none => [typeVar])
          (innerDFSVisit digraph
            (st.2 ++ [(typeVar, st.1.oneWayComponents.length)])
            typeVar dfsFuel typeVar ([], [])).2] := by
    simp only []
    rw [hlen, getD_last_append, set_last_append]
  have hsnd : ((fun (st : Component × List (TVar × Nat)) typeVar =>
      let component := st.1
      let subcomponentIdxs := st.2
      let subcomponentIdxs1 :=
        subcomponentIdxs ++ [(typeVar, component.oneWayComponents.length)]
      let newTypeVars :=
        match digraphFind digraph typeVar with
        | some raw => raw.typeVars
        | none => [typeVar]
      let component1 := { component with
        oneWayComponents := component.oneWayComponents ++ [OneWayComponent.mk newTypeVars []] }
      let inner := innerDFSVisit digraph subcomponentIdxs1 typeVar dfsFuel typeVar ([], [])
      let lastIdx := component1.oneWayComponents.length - 1
      let lastComp := component1.oneWayComponents.getD lastIdx (OneWayComponent.mk [] [])
      let newOwc := component1.oneWayComponents.set lastIdx { lastComp with dependsOn := inner.2 }
      let component2 := { component1 with oneWayComponents := newOwc }
      (component2, subcomponentIdxs1)) st typeVar).2 =
      st.2 ++ [(typeVar, st.1.oneWayComponents.length)] := rfl
  have hdeps : ∀ j ∈ (innerDFSVisit digraph
      (st.2 ++ [(typeVar, st.1.oneWayComponents.length)])
      typeVar dfsFuel typeVar ([], [])).2, j < st.1.oneWayComponents.length := by
    apply innerDFSVisit_bound
    · intro p hp hne
      rcases List.mem_append.mp hp with h | h
      · exact h2 p h
      · exfalso
        apply hne
        rw [List.mem_singleton.mp h]
    · intro j hj
      exact absurd hj (List.not_mem_nil j)
  constructor
  · rw [hshape]
    intro i hi j hj
    rw [List.length_append] at hi
    have hi1 : i < st.1.oneWayComponents.length + 1 := by
      simpa using hi
    rcases Nat.lt_or_ge i st.1.oneWayComponents.length with hlt | hge
    · have hget : (st.1.oneWayComponents ++
          [OneWayComponent.mk
            (match digraphFind digraph typeVar with
              | some raw => raw.typeVars
              | none => [typeVar])
            (innerDFSVisit digraph
              (st.2 ++ [(typeVar, st.1.oneWayComponents.length)])
              typeVar dfsFuel typeVar ([], [])).2])[i] =
          st.1.oneWayComponents[i] := List.getElem_append_left hlt
      rw [hget] at hj
      exact h1 i hlt j hj
    · have hieq : i = st.1.oneWayComponents.length := Nat.le_antisymm (Nat.lt_succ_iff.mp hi1) hge
      subst hieq
      have hget := getElem_last_append st.1.oneWayComponents
        (OneWayComponent.mk
          (match digraphFind digraph typeVar with
            | some raw => raw.typeVars
            | none => [typeVar])
          (innerDFSVisit digraph
            (st.2 ++ [(typeVar, st.1.oneWayComponents.length)])
            typeVar dfsFuel typeVar ([], [])).2)
        (by rw [List.length_append]; exact Nat.lt_add_of_pos_right Nat.one_pos)
      rw [hget] at hj
      exact hdeps j hj
  · intro p hp
    rw [hshape, List.length_append]
    rw [hsnd] at hp
    rcases List.mem_append.mp hp with h | h
    · have := h2 p h
      omega
    · rw [List.mem_singleton.mp h]
      simp

end CG

namespace CG

theorem populateOneWay_depsBelow (dfsFuel : Nat) (typeVars : List TVar)
    (digraph : OneWayDigraph) (componentIdxMap : List (TVar × Nat))
    (uf : UFState) (components : List Component)
    (h : ∀ comp ∈ components, DepsBelow comp.oneWayComponents) :
    ∀ comp ∈ populateOneWay dfsFuel typeVars digraph componentIdxMap uf components,
      DepsBelow comp.oneWayComponents := by
  unfold populateOneWay
  dsimp only []
  apply foldl_invariant
    (fun (comps : List Component) => ∀ comp ∈ comps, DepsBelow comp.oneWayComponents)
  · exact h
  · intro comps componentIdx _ hinv
    split
    · exact hinv
    · intro comp hcomp
      rcases List.mem_or_eq_of_mem_set hcomp with hold | hnew
      · exact hinv comp hold
      · rw [hnew]
        have hstart : DepsBelow (comps.getD componentIdx Component.emptyC).oneWayComponents := by
          rcases getD_mem_or comps componentIdx Component.emptyC with hmem | hdef
          · exact hinv _ hmem
          · rw [hdef]
            exact DepsBelow_nil
        have hmap : ∀ p ∈ ((comps.getD componentIdx Component.emptyC,
            ([] : List (TVar × Nat))) : Component × List (TVar × Nat)).2,
            p.2 < (comps.getD componentIdx Component.emptyC).oneWayComponents.length :=
          fun p hp => absurd hp (List.not_mem_nil p)
        have hfold := foldl_invariant
          (fun (st : Component × List (TVar × Nat)) =>
            DepsBelow st.1.oneWayComponents ∧
            ∀ p ∈ st.2, p.2 < st.1.oneWayComponents.length)
          (fun (st : Component × List (TVar × Nat)) typeVar =>
            let component := st.1
            let subcomponentIdxs := st.2
            let subcomponentIdxs1 :=
              subcomponentIdxs ++ [(typeVar, component.oneWayComponents.length)]
            let newTypeVars :=
              match digraphFind digraph typeVar with
              | some raw => raw.typeVars
              | none => [typeVar]
            let component1 := { component with
              oneWayComponents := component.oneWayComponents ++ [OneWayComponent.mk newTypeVars []] }
            let inner := innerDFSVisit digraph subcomponentIdxs1 typeVar dfsFuel typeVar ([], [])
            let lastIdx := component1.oneWayComponents.length - 1
            let lastComp := component1.oneWayComponents.getD lastIdx (OneWayComponent.mk [] [])
            let newOwc := component1.oneWayComponents.set lastIdx { lastComp with dependsOn := inner.2 }
            let component2 := { component1 with oneWayComponents := newOwc }
            (component2, subcomponentIdxs1))
          (((typeVars.foldl
              (fun st typeVar => outerDFSVisit digraph componentIdxMap dfsFuel typeVar st)
              (⟨[], uf, List.replicate components.length []⟩ : OuterDFSState)).orders.getD
              componentIdx []).reverse)
          (comps.getD componentIdx Component.emptyC, ([] : List (TVar × Nat)))
          ⟨hstart, hmap⟩
          (fun a b _ ha => populateStep_pres digraph dfsFuel a b ha.1 ha.2)
        exact hfold.1

end CG

namespace CG

theorem assemble_owc_nil (env : CSEnv) (g : Graph) (typeVars : List TVar)
    (chu : List TVar) (init : AssembleState)
    (h : ∀ comp ∈ init.components, comp.oneWayComponents = []) :
    ∀ comp ∈ (typeVars.foldl
      (fun (st : AssembleState) typeVar =>
        let r := st.uf.findRepresentative typeVar
        let st := { st with uf := r.2 }
        if r.1 ∈ chu then
          let p :=
            match assocFind st.componentIdxMap r.1 with
            | some idx => (st, idx)
            | none =>
              ({ st with
                 componentIdxMap := st.componentIdxMap ++ [(r.1, st.componentIdxMap.length)],
                 components := st.components ++ [Component.emptyC] },
               st.componentIdxMap.length)
          let st1 := p.1
          let componentIdx := p.2
          let comp := st1.components.getD componentIdx Component.emptyC
          let comps2 := st1.components.set componentIdx { comp with typeVars := comp.typeVars ++ [typeVar] }
          let st2 := { st1 with components := comps2 }
          (g.nodes typeVar).constraints.foldl
            (fun (st : AssembleState) constraint =>
              if constraint ∈ st.knownConstraints then st
              else
                let comp := st.components.getD componentIdx Component.emptyC
                let comps3 := st.components.set componentIdx { comp with constraints := comp.constraints ++ [constraint] }
                { st with
                  knownConstraints := constraint :: st.knownConstraints,
                  components := comps3 })
            st2
        else st) init).components, comp.oneWayComponents = [] := by
  apply foldl_invariant
    (fun (st : AssembleState) => ∀ comp ∈ st.components, comp.oneWayComponents = [])
  · exact h
  · intro st typeVar _ hP
    simp only []
    split
    · -- the representative owns an unbound variable
      cases hfind : assocFind
          ({ st with uf := (st.uf.findRepresentative typeVar).2 } : AssembleState).componentIdxMap
          ((st.uf.findRepresentative typeVar).1) with
      | some idx =>
        dsimp only []
        apply foldl_invariant
          (fun (st : AssembleState) => ∀ comp ∈ st.components, comp.oneWayComponents = [])
        · intro comp hc
          rcases List.mem_or_eq_of_mem_set hc with hold | hnew
          · exact hP comp hold
          · rw [hnew]
            rcases getD_mem_or st.components idx Component.emptyC with hmem | hdef
            · exact hP (st.components.getD idx Component.emptyC) hmem
            · rw [hdef]
              rfl
        · intro a b _ ha
          split
          · exact ha
          · intro comp hc
            rcases List.mem_or_eq_of_mem_set hc with hold | hnew
            · exact ha comp hold
            · rw [hnew]
              rcases getD_mem_or a.components idx Component.emptyC with hmem | hdef
              · exact ha (a.components.getD idx Component.emptyC) hmem
              · rw [hdef]
                rfl
      | none =>
        dsimp only []
        apply foldl_invariant
          (fun (st : AssembleState) => ∀ comp ∈ st.components, comp.oneWayComponents = [])
        · intro comp hc
          rcases List.mem_or_eq_of_mem_set hc with hold | hnew
          · rcases List.mem_append.mp hold with ho | ho
            · exact hP comp ho
            · rw [List.mem_singleton.mp ho]
              rfl
          · rw [hnew]
            rcases getD_mem_or (st.components ++ [Component.emptyC])
                st.componentIdxMap.length Component.emptyC with hmem | hdef
            · rcases List.mem_append.mp hmem with ho | ho
              · exact hP ((st.components ++ [Component.emptyC]).getD
                  st.componentIdxMap.length Component.emptyC) ho
              · rw [List.mem_singleton.mp ho]
                rfl
            · rw [hdef]
              rfl
        · intro a b _ ha
          split
          · exact ha
          · intro comp hc
            rcases List.mem_or_eq_of_mem_set hc with hold | hnew
            · exact ha comp hold
            · rw [hnew]
              rcases getD_mem_or a.components st.componentIdxMap.length
                  Component.emptyC with hmem | hdef
              · exact ha (a.components.getD st.componentIdxMap.length Component.emptyC) hmem
              · rw [hdef]
                rfl
    · exact hP

end CG

namespace CG

theorem getComponents_depsBelow (env : CSEnv) (g : Graph) (typeVars : List TVar)
    (dfsFuel : Nat) (cc : CCData) :
    ∀ comp ∈ getComponents env g typeVars dfsFuel cc,
      DepsBelow comp.oneWayComponents := by
  unfold getComponents
  dsimp only []
  have hnil := assemble_owc_nil env g typeVars
    (typeVars.foldl
      (fun (st : List TVar × UFState) typeVar =>
        match env.fixedType typeVar with
        | some _ => st
        | none =>
          let r := st.2.findRepresentative typeVar
          (if r.1 ∈ st.1 then st.1 else st.1 ++ [r.1], r.2))
      (([] : List TVar), cc.uf)).1
    (⟨[], [], [],
      (typeVars.foldl
        (fun (st : List TVar × UFState) typeVar =>
          match env.fixedType typeVar with
          | some _ => st
          | none =>
            let r := st.2.findRepresentative typeVar
            (if r.1 ∈ st.1 then st.1 else st.1 ++ [r.1], r.2))
        (([] : List TVar), cc.uf)).2⟩ : AssembleState)
    (fun comp hc => absurd hc (List.not_mem_nil comp))
  split
  · intro comp hc
    rw [hnil comp hc]
    exact DepsBelow_nil
  · apply populateOneWay_depsBelow
    intro comp hc
    rw [hnil comp hc]
    exact DepsBelow_nil

/-- **C4.** For every environment, graph and variable list, within each
component reported by `computeConnectedComponents` the `oneWayComponents`
list is ordered so that every index in a subcomponent's `dependsOn` list is
strictly smaller than that subcomponent's own position. -/
theorem c4_dependency_ordering (env : CSEnv) (g : Graph) (typeVars : List TVar)
    (comp : Component) (hc : comp ∈ computeConnectedComponents env g typeVars)
    (i : Nat) (hi : i < comp.oneWayComponents.length) :
    ∀ j ∈ comp.oneWayComponents[i].dependsOn, j < i := by
  have h := getComponents_depsBelow env g typeVars
    (dfsFuelFor typeVars (ccConstruct env g typeVars).oneWayDigraph)
    (ccConstruct env g typeVars) comp hc
  exact h i hi

/-- The one-way constraint `$T0 one-way bind to $T1` used in the witness
scenario. -/
def cC4 : Constraint := ⟨30, ConstraintKind.OneWayBind, [0, 1], Ty.tvar 0, Ty.tvar 1⟩

/-- Nodes `0` and `1`, both holding `cC4`, singleton classes, no fixed
bindings. -/
def graphC4 : Graph :=
  { typeVariables := [0, 1]
    nodes := fun v =>
      if v = 0 then ⟨[cC4], [0], []⟩
      else if v = 1 then ⟨[cC4], [1], []⟩
      else CGNode.empty
    hasNode := fun v => v == 0 || v == 1
    graphIndex := fun v => if v = 1 then 1 else 0
    orphanedConstraints := []
    changes := []
    activeScope := false }

theorem c4_dependency_ordering_witness :
    (((computeConnectedComponents envId graphC4 [0, 1]).getD 0
        Component.emptyC).oneWayComponents.getD 1 (OneWayComponent.mk [] [])).dependsOn
      = [0] ∧ (0 : Nat) < 1 :=
  ⟨by decide,
   c4_dependency_ordering envId graphC4 [0, 1]
     ((computeConnectedComponents envId graphC4 [0, 1]).getD 0 Component.emptyC)
     (by decide) 1 (by decide) 0 (by decide)⟩

end CG

namespace CG

/-! ### Claim C3: component soundness.  Union-find root theory. -/

/-- The root of the parent chain, fuel-bounded and without compression. -/
def rootAux : Nat → UFState → TVar → TVar
  | 0, _, v => v
  | n + 1, u, v =>
    match u.parent v with
    | none => v
    | some p => rootAux n u p

/-- The root; `v + 1` steps suffice under `UFInv`. -/
def rootOf (u : UFState) (v : TVar) : TVar := rootAux (v + 1) u v

theorem rootAux_succ (n : Nat) (u : UFState) (v : TVar) :
    rootAux (n + 1) u v =
      (match u.parent v with
       | none => v
       | some p => rootAux n u p) := rfl

theorem rootOf_of_none {u : UFState} {v : TVar} (h : u.parent v = none) :
    rootOf u v = v := by
  unfold rootOf
  rw [rootAux_succ, h]

theorem rootAux_fuel {u : UFState} (hinv : UFInv u) :
    ∀ v n, v + 1 ≤ n → rootAux n u v = rootOf u v := by
  intro v
  induction v using Nat.strong_induction_on with
  | _ v ih =>
    intro n hn
    match n, hn with
    | m + 1, hm =>
      rw [rootAux_succ]
      cases hp : u.parent v with
      | none =>
        rw [rootOf_of_none hp]
      | some p =>
        have hpv : p < v := hinv v p hp
        have hvm : v ≤ m := Nat.succ_le_succ_iff.mp hm
        have h1 : rootAux m u p = rootOf u p :=
          ih p hpv m (Nat.le_trans hpv hvm)
        have h2 : rootOf u v = rootOf u p := by
          unfold rootOf
          rw [rootAux_succ, hp]
          exact ih p hpv v hpv
        dsimp only []
        rw [h1, h2]

theorem rootOf_step {u : UFState} (hinv : UFInv u) {v p : TVar}
    (h : u.parent v = some p) : rootOf u v = rootOf u p := by
  unfold rootOf
  rw [rootAux_succ, h]
  exact rootAux_fuel hinv p v (hinv v p h)

theorem rootOf_le {u : UFState} (hinv : UFInv u) : ∀ v, rootOf u v ≤ v := by
  intro v
  induction v using Nat.strong_induction_on with
  | _ v ih =>
    cases hp : u.parent v with
    | none => rw [rootOf_of_none hp]
    | some p =>
      have hpv : p < v := hinv v p hp
      rw [rootOf_step hinv hp]
      exact Nat.le_trans (ih p hpv) (Nat.le_of_lt hpv)

theorem rootOf_parent_none {u : UFState} (hinv : UFInv u) :
    ∀ v, u.parent (rootOf u v) = none := by
  intro v
  induction v using Nat.strong_induction_on with
  | _ v ih =>
    cases hp : u.parent v with
    | none => rw [rootOf_of_none hp]; exact hp
    | some p =>
      rw [rootOf_step hinv hp]
      exact ih p (hinv v p hp)

theorem rootOf_idem {u : UFState} (hinv : UFInv u) (v : TVar) :
    rootOf u (rootOf u v) = rootOf u v :=
  rootOf_of_none (rootOf_parent_none hinv v)

/-- Pointwise reparenting towards old roots preserves the root function. -/
theorem rootOf_preserved {u1 u2 : UFState} (hinv : UFInv u1)
    (H : ∀ w, u2.parent w = u1.parent w ∨
      (∃ p, u1.parent w = some p ∧ u2.parent w = some (rootOf u1 w))) :
    UFInv u2 ∧ ∀ w, rootOf u2 w = rootOf u1 w := by
  have hinv2 : UFInv u2 := by
    intro w q hq
    rcases H w with h | ⟨p, hp, hq2⟩
    · exact hinv w q (h ▸ hq)
    · rw [hq2] at hq
      injection hq with hq
      have h1 : rootOf u1 w = rootOf u1 p := rootOf_step hinv hp
      have h2 : rootOf u1 p ≤ p := rootOf_le hinv p
      have h3 : p < w := hinv w p hp
      rw [← hq, h1]
      exact Nat.lt_of_le_of_lt h2 h3
  refine ⟨hinv2, ?_⟩
  intro w
  induction w using Nat.strong_induction_on with
  | _ w ih =>
    rcases H w with h | ⟨p, hp, hq2⟩
    · cases hp : u1.parent w with
      | none =>
        rw [rootOf_of_none (h.trans hp), rootOf_of_none hp]
      | some p =>
        rw [rootOf_step hinv2 (h.trans hp), rootOf_step hinv hp]
        exact ih p (hinv w p hp)
    · have h1 : rootOf u1 w = rootOf u1 p := rootOf_step hinv hp
      have h2 : rootOf u1 w < w := by
        rw [h1]
        exact Nat.lt_of_le_of_lt (rootOf_le hinv p) (hinv w p hp)
      rw [rootOf_step hinv2 hq2, ih (rootOf u1 w) h2, rootOf_idem hinv]

end CG

namespace CG
theorem findAux_succ (f : Nat) (u : UFState) (v : TVar) :
    UFState.findAux (f + 1) u v =
      (match u.parent v with
       | none => (v, u)
       | some p =>
         let r := UFState.findAux f u p
         if r.1 = p then r
         else (r.1, ⟨upd r.2.parent v (some r.1)⟩)) := rfl

/-- Specification of `findAux` under the decreasing-parent invariant:
given at least `v + 1` fuel it returns the root, and it only reparents
chain members directly to their (old) root. -/
theorem findAux_spec {u : UFState} (hinv : UFInv u) :
    ∀ v f, v + 1 ≤ f →
      (UFState.findAux f u v).1 = rootOf u v ∧
      (∀ w, (UFState.findAux f u v).2.parent w = u.parent w ∨
        (∃ p, u.parent w = some p ∧
          (UFState.findAux f u v).2.parent w = some (rootOf u w))) := by
  intro v
  induction v using Nat.strong_induction_on with
  | _ v ih =>
    intro f hf
    match f, hf with
    | m + 1, hm =>
      rw [findAux_succ]
      cases hp : u.parent v with
      | none =>
        exact ⟨(rootOf_of_none hp).symm, fun w => Or.inl rfl⟩
      | some p =>
        dsimp only []
        have hpv : p < v := hinv v p hp
        have hvm : v ≤ m := Nat.succ_le_succ_iff.mp hm
        obtain ⟨ir, iw⟩ := ih p hpv m (Nat.le_trans hpv hvm)
        have hroot : rootOf u v = rootOf u p := rootOf_step hinv hp
        by_cases he : (UFState.findAux m u p).1 = p
        · rw [if_pos he]
          exact ⟨ir.trans hroot.symm, iw⟩
        · rw [if_neg he]
          refine ⟨by dsimp only []; exact ir.trans hroot.symm, ?_⟩
          intro w
          by_cases hw : w = v
          · subst hw
            refine Or.inr ⟨p, hp, ?_⟩
            dsimp only []
            rw [upd_same]
            rw [ir, ← hroot]
          · refine (iw w).imp ?_ ?_
            · intro h
              dsimp only []
              rw [upd_other _ _ _ hw]
              exact h
            · rintro ⟨q, hq1, hq2⟩
              refine ⟨q, hq1, ?_⟩
              dsimp only []
              rw [upd_other _ _ _ hw]
              exact hq2

theorem findRepresentative_spec {u : UFState} (hinv : UFInv u) (v : TVar) :
    (u.findRepresentative v).1 = rootOf u v ∧
    UFInv (u.findRepresentative v).2 ∧
    (∀ w, rootOf (u.findRepresentative v).2 w = rootOf u w) := by
  obtain ⟨h1, h2⟩ := findAux_spec hinv v (v + 1) (Nat.le_refl _)
  have hp := rootOf_preserved hinv h2
  exact ⟨h1, hp.1, hp.2⟩

/-- Linking a root `rmax` beneath a smaller root `rmin`. -/
theorem link_spec {u : UFState} (hinv : UFInv u) {rmin rmax : TVar}
    (hmin : u.parent rmin = none) (hmax : u.parent rmax = none)
    (hlt : rmin < rmax) :
    UFInv (⟨upd u.parent rmax (some rmin)⟩ : UFState) ∧
    (∀ w, rootOf (⟨upd u.parent rmax (some rmin)⟩ : UFState) w =
      if rootOf u w = rmax then rmin else rootOf u w) := by
  have hinv2 : UFInv (⟨upd u.parent rmax (some rmin)⟩ : UFState) := by
    intro w q hq
    have hq2 : upd u.parent rmax (some rmin) w = some q := hq
    by_cases hw : w = rmax
    · rw [hw, upd_same] at hq2
      injection hq2 with hq2
      rw [← hq2, hw]
      exact hlt
    · rw [upd_other _ _ _ hw] at hq2
      exact hinv w q hq2
  refine ⟨hinv2, ?_⟩
  intro w
  induction w using Nat.strong_induction_on with
  | _ w ihw =>
    by_cases hw : w = rmax
    · rw [hw]
      have hstep : (⟨upd u.parent rmax (some rmin)⟩ : UFState).parent rmax = some rmin :=
        upd_same _ _ _
      rw [rootOf_step hinv2 hstep]
      have hr := ihw rmin (by rw [hw]; exact hlt)
      rw [hr, rootOf_of_none hmin, rootOf_of_none hmax,
        if_neg (show ¬ rmin = rmax from fun h => Nat.lt_irrefl rmax (h ▸ hlt)),
        if_pos rfl]
    · have hpar : (⟨upd u.parent rmax (some rmin)⟩ : UFState).parent w = u.parent w :=
        upd_other _ _ _ hw
      cases hp : u.parent w with
      | none =>
        rw [rootOf_of_none (hpar.trans hp), rootOf_of_none hp, if_neg (fun h => hw h)]
      | some p =>
        rw [rootOf_step hinv2 (hpar.trans hp), rootOf_step hinv hp,
          ihw p (hinv w p hp)]

end CG

namespace CG

theorem union_iff_aux (ra rb rw rx : TVar) :
    ((if rw = rb then ra else rw) = (if rx = rb then ra else rx)) ↔
      (rw = rx ∨ (rw = ra ∧ rx = rb) ∨ (rw = rb ∧ rx = ra)) := by
  by_cases h1 : rw = rb
  · by_cases h2 : rx = rb
    · rw [if_pos h1, if_pos h2]
      exact ⟨fun _ => Or.inl (h1.trans h2.symm), fun _ => rfl⟩
    · rw [if_pos h1, if_neg h2]
      constructor
      · intro h
        exact Or.inr (Or.inr ⟨h1, h.symm⟩)
      · intro h
        rcases h with h | ⟨ha, hb⟩ | ⟨ha, hb⟩
        · exact absurd (h.symm.trans h1) h2
        · exact absurd hb h2
        · exact hb.symm
  · by_cases h2 : rx = rb
    · rw [if_neg h1, if_pos h2]
      constructor
      · intro h
        exact Or.inr (Or.inl ⟨h, h2⟩)
      · intro h
        rcases h with h | ⟨ha, hb⟩ | ⟨ha, hb⟩
        · exact absurd (h.trans h2) h1
        · exact ha
        · exact absurd ha h1
    · rw [if_neg h1, if_neg h2]
      constructor
      · exact fun h => Or.inl h
      · intro h
        rcases h with h | ⟨ha, hb⟩ | ⟨ha, hb⟩
        · exact h
        · exact absurd hb h2
        · exact absurd ha h1

theorem unionSets_spec {u : UFState} (hinv : UFInv u) (a b : TVar) :
    UFInv (unionSets u a b).2 ∧
    (∀ w x, rootOf (unionSets u a b).2 w = rootOf (unionSets u a b).2 x ↔
      (rootOf u w = rootOf u x ∨
       (rootOf u w = rootOf u a ∧ rootOf u x = rootOf u b) ∨
       (rootOf u w = rootOf u b ∧ rootOf u x = rootOf u a))) := by
  obtain ⟨f1a, f2a, f3a⟩ := findRepresentative_spec hinv a
  obtain ⟨f1b, f2b, f3b⟩ := findRepresentative_spec f2a b
  have f3 : ∀ w, rootOf ((u.findRepresentative a).2.findRepresentative b).2 w = rootOf u w :=
    fun w => (f3b w).trans (f3a w)
  have hrb : ((u.findRepresentative a).2.findRepresentative b).1 = rootOf u b :=
    f1b.trans (f3a b)
  unfold unionSets
  dsimp only []
  by_cases hrep : (u.findRepresentative a).1 =
      ((u.findRepresentative a).2.findRepresentative b).1
  · rw [if_pos hrep]
    have hab : rootOf u a = rootOf u b := by rw [← f1a, ← hrb, hrep]
    refine ⟨f2b, ?_⟩
    intro w x
    rw [f3 w, f3 x]
    constructor
    · exact fun h => Or.inl h
    · intro h
      rcases h with h | ⟨h1, h2⟩ | ⟨h1, h2⟩
      · exact h
      · exact h1.trans (hab.trans h2.symm)
      · exact h1.trans (hab.symm.trans h2.symm)
  · rw [if_neg hrep]
    have hmin : ((u.findRepresentative a).2.findRepresentative b).2.parent
        (u.findRepresentative a).1 = none := by
      have h1 : (u.findRepresentative a).1 =
          rootOf ((u.findRepresentative a).2.findRepresentative b).2 a := by
        rw [f3 a, f1a]
      rw [h1]
      exact rootOf_parent_none f2b a
    have hmax : ((u.findRepresentative a).2.findRepresentative b).2.parent
        ((u.findRepresentative a).2.findRepresentative b).1 = none := by
      have h1 : ((u.findRepresentative a).2.findRepresentative b).1 =
          rootOf ((u.findRepresentative a).2.findRepresentative b).2 b := by
        rw [f3 b, hrb]
      rw [h1]
      exact rootOf_parent_none f2b b
    by_cases hlt : (u.findRepresentative a).1 <
        ((u.findRepresentative a).2.findRepresentative b).1
    · rw [if_pos hlt]
      obtain ⟨l1, l2⟩ := link_spec f2b hmin hmax hlt
      refine ⟨l1, ?_⟩
      intro w x
      rw [l2 w, l2 x, f3 w, f3 x, f1a, hrb]
      exact union_iff_aux (rootOf u a) (rootOf u b) (rootOf u w) (rootOf u x)
    · rw [if_neg hlt]
      have hgt : ((u.findRepresentative a).2.findRepresentative b).1 <
          (u.findRepresentative a).1 :=
        Nat.lt_of_le_of_ne (Nat.not_lt.mp hlt) (fun h => hrep h.symm)
      obtain ⟨l1, l2⟩ := link_spec f2b hmax hmin hgt
      refine ⟨l1, ?_⟩
      intro w x
      rw [l2 w, l2 x, f3 w, f3 x, f1a, hrb]
      rw [union_iff_aux (rootOf u b) (rootOf u a) (rootOf u w) (rootOf u x)]
      tauto

end CG

namespace CG

/-- The undirected edges the union-find actually contracts over (phases 1
and 3 of the `ConnectedComponents` constructor): a walked variable with
each member of its representative's equivalence class, a walked variable
with each of its fixed bindings, and — for every constraint on a walked
variable's node (one-way or not) — the constraint's first mentioned
variable with each of the remaining ones.  The second endpoint may lie
outside `V`. -/
def Edge (env : CSEnv) (g : Graph) (V : List TVar) (x y : TVar) : Prop :=
  ∃ v ∈ V,
    (x = v ∧ (y ∈ (g.nodes (env.rep v)).equivalenceClass ∨
              y ∈ (g.nodes v).fixedBindings)) ∨
    (∃ c ∈ (g.nodes v).constraints, ∃ rest, c.typeVars = x :: rest ∧ y ∈ rest)

/-- `Sound`: every union-find identification is justified by the edges. -/
def Sound (env : CSEnv) (g : Graph) (V : List TVar) (u : UFState) : Prop :=
  ∀ w x, rootOf u w = rootOf u x → Relation.EqvGen (Edge env g V) w x

theorem unionSets_mono {u : UFState} (hinv : UFInv u) (a b : TVar)
    {w x : TVar} (h : rootOf u w = rootOf u x) :
    rootOf (unionSets u a b).2 w = rootOf (unionSets u a b).2 x :=
  ((unionSets_spec hinv a b).2 w x).mpr (Or.inl h)

theorem unionSets_new {u : UFState} (hinv : UFInv u) (a b : TVar) :
    rootOf (unionSets u a b).2 a = rootOf (unionSets u a b).2 b :=
  ((unionSets_spec hinv a b).2 a b).mpr (Or.inr (Or.inl ⟨rfl, rfl⟩))

theorem unionSets_sound {env : CSEnv} {g : Graph} {V : List TVar} {u : UFState}
    (hinv : UFInv u) (a b : TVar) (hs : Sound env g V u)
    (hab : Relation.EqvGen (Edge env g V) a b) :
    Sound env g V (unionSets u a b).2 := by
  intro w x h
  rcases ((unionSets_spec hinv a b).2 w x).mp h with h1 | ⟨h1, h2⟩ | ⟨h1, h2⟩
  · exact hs w x h1
  · exact ((hs w a h1).trans _ _ _ hab).trans _ _ _ ((hs x b h2).symm _ _)
  · exact ((hs w b h1).trans _ _ _ (hab.symm _ _)).trans _ _ _ ((hs x a h2).symm _ _)

theorem unionFold_spec (v : TVar) (l : List TVar) :
    ∀ u : UFState, UFInv u →
      UFInv (l.foldl (fun u equiv => (unionSets u v equiv).2) u) ∧
      (∀ w x, rootOf u w = rootOf u x →
        rootOf (l.foldl (fun u equiv => (unionSets u v equiv).2) u) w =
        rootOf (l.foldl (fun u equiv => (unionSets u v equiv).2) u) x) ∧
      (∀ e ∈ l, rootOf (l.foldl (fun u equiv => (unionSets u v equiv).2) u) v =
        rootOf (l.foldl (fun u equiv => (unionSets u v equiv).2) u) e) ∧
      (∀ (env : CSEnv) (g : Graph) (V : List TVar), Sound env g V u →
        (∀ e ∈ l, Relation.EqvGen (Edge env g V) v e) →
        Sound env g V (l.foldl (fun u equiv => (unionSets u v equiv).2) u)) := by
  induction l with
  | nil =>
    intro u hinv
    exact ⟨hinv, fun w x h => h, by simp, fun env g V hs _ => hs⟩
  | cons e rest ih =>
    intro u hinv
    rw [List.foldl_cons]
    have hinv1 : UFInv (unionSets u v e).2 := (unionSets_spec hinv v e).1
    obtain ⟨i1, i2, i3, i4⟩ := ih (unionSets u v e).2 hinv1
    refine ⟨i1, ?_, ?_, ?_⟩
    · intro w x h
      exact i2 w x (unionSets_mono hinv v e h)
    · intro e1 he1
      rcases List.mem_cons.mp he1 with he | he
      · rw [he]
        exact i2 v e (unionSets_new hinv v e)
      · exact i3 e1 he
    · intro env g V hs hcov
      exact i4 env g V
        (unionSets_sound hinv v e hs (hcov e (List.mem_cons_self e rest)))
        (fun e1 he1 => hcov e1 (List.mem_cons_of_mem e he1))

end CG

namespace CG

theorem unionPairFold_spec (head : TVar) (rest : List TVar) :
    ∀ acc : Bool × UFState, UFInv acc.2 →
      UFInv ((rest.foldl (fun (acc : Bool × UFState) otherTypeVar =>
        let r := unionSets acc.2 head otherTypeVar
        (acc.1 || r.1, r.2)) acc).2) ∧
      (∀ w x, rootOf acc.2 w = rootOf acc.2 x →
        rootOf ((rest.foldl (fun (acc : Bool × UFState) otherTypeVar =>
          let r := unionSets acc.2 head otherTypeVar
          (acc.1 || r.1, r.2)) acc).2) w =
        rootOf ((rest.foldl (fun (acc : Bool × UFState) otherTypeVar =>
          let r := unionSets acc.2 head otherTypeVar
          (acc.1 || r.1, r.2)) acc).2) x) ∧
      (∀ o ∈ rest, rootOf ((rest.foldl (fun (acc : Bool × UFState) otherTypeVar =>
          let r := unionSets acc.2 head otherTypeVar
          (acc.1 || r.1, r.2)) acc).2) head =
        rootOf ((rest.foldl (fun (acc : Bool × UFState) otherTypeVar =>
          let r := unionSets acc.2 head otherTypeVar
          (acc.1 || r.1, r.2)) acc).2) o) ∧
      (∀ (env : CSEnv) (g : Graph) (V : List TVar), Sound env g V acc.2 →
        (∀ o ∈ rest, Relation.EqvGen (Edge env g V) head o) →
        Sound env g V ((rest.foldl (fun (acc : Bool × UFState) otherTypeVar =>
          let r := unionSets acc.2 head otherTypeVar
          (acc.1 || r.1, r.2)) acc).2)) := by
  induction rest with
  | nil =>
    intro acc hinv
    exact ⟨hinv, fun w x h => h, by simp, fun env g V hs _ => hs⟩
  | cons e rest ih =>
    intro acc hinv
    rw [List.foldl_cons]
    have hinv1 : UFInv (unionSets acc.2 head e).2 := (unionSets_spec hinv head e).1
    obtain ⟨i1, i2, i3, i4⟩ :=
      ih (acc.1 || (unionSets acc.2 head e).1, (unionSets acc.2 head e).2) hinv1
    refine ⟨i1, ?_, ?_, ?_⟩
    · intro w x h
      exact i2 w x (unionSets_mono hinv head e h)
    · intro e1 he1
      rcases List.mem_cons.mp he1 with he | he
      · rw [he]
        exact i2 head e (unionSets_new hinv head e)
      · exact i3 e1 he
    · intro env g V hs hcov
      exact i4 env g V
        (unionSets_sound hinv head e hs (hcov e (List.mem_cons_self e rest)))
        (fun e1 he1 => hcov e1 (List.mem_cons_of_mem e he1))

theorem unionSetsViaConstraint_spec (c : Constraint) (u : UFState) (hinv : UFInv u) :
    UFInv (unionSetsViaConstraint u c).2 ∧
    (∀ w x, rootOf u w = rootOf u x →
      rootOf (unionSetsViaConstraint u c).2 w =
      rootOf (unionSetsViaConstraint u c).2 x) ∧
    (∀ head rest, c.typeVars = head :: rest → ∀ o ∈ rest,
      rootOf (unionSetsViaConstraint u c).2 head =
      rootOf (unionSetsViaConstraint u c).2 o) ∧
    (∀ (env : CSEnv) (g : Graph) (V : List TVar), Sound env g V u →
      (∀ head rest, c.typeVars = head :: rest → ∀ o ∈ rest,
        Relation.EqvGen (Edge env g V) head o) →
      Sound env g V (unionSetsViaConstraint u c).2) := by
  unfold unionSetsViaConstraint
  by_cases hlen : c.typeVars.length < 2
  · rw [if_pos hlen]
    refine ⟨hinv, fun w x h => h, ?_, fun env g V hs _ => hs⟩
    intro head rest heq o ho
    rw [heq, List.length_cons] at hlen
    have : rest = [] := List.eq_nil_of_length_eq_zero (by omega)
    rw [this] at ho
    exact absurd ho (List.not_mem_nil o)
  · rw [if_neg hlen]
    cases hty : c.typeVars with
    | nil =>
      refine ⟨hinv, fun w x h => h, ?_, fun env g V hs _ => hs⟩
      intro head rest heq o ho
      cases heq
    | cons h t =>
      dsimp only []
      obtain ⟨i1, i2, i3, i4⟩ := unionPairFold_spec h t (false, u) hinv
      refine ⟨i1, i2, ?_, ?_⟩
      · intro head rest heq o ho
        injection heq with heq1 heq2
        rw [← heq1]
        rw [← heq2] at ho
        exact i3 o ho
      · intro env g V hs hcov
        exact i4 env g V hs (fun o ho => hcov h t rfl o ho)

end CG

namespace CG

/-- Fold of `unionSetsViaConstraint` (phase 3 of the constructor). -/
theorem p3Fold_spec (l : List Constraint) :
    ∀ u : UFState, UFInv u →
      UFInv (l.foldl (fun u constraint => (unionSetsViaConstraint u constraint).2) u) ∧
      (∀ w x, rootOf u w = rootOf u x →
        rootOf (l.foldl (fun u constraint => (unionSetsViaConstraint u constraint).2) u) w =
        rootOf (l.foldl (fun u constraint => (unionSetsViaConstraint u constraint).2) u) x) ∧
      (∀ c ∈ l, ∀ head rest, c.typeVars = head :: rest → ∀ o ∈ rest,
        rootOf (l.foldl (fun u constraint => (unionSetsViaConstraint u constraint).2) u) head =
        rootOf (l.foldl (fun u constraint => (unionSetsViaConstraint u constraint).2) u) o) ∧
      (∀ (env : CSEnv) (g : Graph) (V : List TVar), Sound env g V u →
        (∀ c ∈ l, ∀ head rest, c.typeVars = head :: rest → ∀ o ∈ rest,
          Relation.EqvGen (Edge env g V) head o) →
        Sound env g V (l.foldl (fun u constraint => (unionSetsViaConstraint u constraint).2) u)) := by
  induction l with
  | nil =>
    intro u hinv
    exact ⟨hinv, fun w x h => h, by simp, fun env g V hs _ => hs⟩
  | cons c rest ih =>
    intro u hinv
    rw [List.foldl_cons]
    obtain ⟨s1, s2, s3, s4⟩ := unionSetsViaConstraint_spec c u hinv
    obtain ⟨i1, i2, i3, i4⟩ := ih (unionSetsViaConstraint u c).2 s1
    refine ⟨i1, ?_, ?_, ?_⟩
    · intro w x h
      exact i2 w x (s2 w x h)
    · intro c1 hc1 head rest1 heq o ho
      rcases List.mem_cons.mp hc1 with hc | hc
      · subst hc
        exact i2 head o (s3 head rest1 heq o ho)
      · exact i3 c1 hc head rest1 heq o ho
    · intro env g V hs hcov
      exact i4 env g V
        (s4 env g V hs (fun head rest1 heq o ho =>
          hcov c (List.mem_cons_self c rest) head rest1 heq o ho))
        (fun c1 hc1 head rest1 heq o ho =>
          hcov c1 (List.mem_cons_of_mem c hc1) head rest1 heq o ho)

/-- The invariant carried through phase 1 of the constructor. -/
def P1Inv (env : CSEnv) (g : Graph) (V : List TVar) (st : CCState) : Prop :=
  UFInv st.uf ∧
  Sound env g V st.uf ∧
  (∀ c ∈ st.oneWayConstraints, ∃ v ∈ V, c ∈ (g.nodes v).constraints) ∧
  (∀ c ∈ st.visitedConstraints,
    ((c.kind = ConstraintKind.OneWayBind ∨ c.kind = ConstraintKind.OneWayBindParam) →
      c ∈ st.oneWayConstraints) ∧
    (¬(c.kind = ConstraintKind.OneWayBind ∨ c.kind = ConstraintKind.OneWayBindParam) →
      ∀ head rest, c.typeVars = head :: rest → ∀ o ∈ rest,
        rootOf st.uf head = rootOf st.uf o))

theorem p1ConstraintFold_spec (env : CSEnv) (g : Graph) (V : List TVar)
    (v : TVar) (hv : v ∈ V) (cs : List Constraint)
    (hcs : ∀ c ∈ cs, c ∈ (g.nodes v).constraints) :
    ∀ st : CCState, P1Inv env g V st →
      P1Inv env g V (cs.foldl (fun st constraint =>
        if constraint ∈ st.visitedConstraints then st
        else
          let st1 := { st with
            visitedConstraints := constraint :: st.visitedConstraints }
          if constraint.kind = ConstraintKind.OneWayBind ∨
              constraint.kind = ConstraintKind.OneWayBindParam then
            { st1 with oneWayConstraints := st1.oneWayConstraints ++ [constraint] }
          else { st1 with uf := (unionSetsViaConstraint st1.uf constraint).2 }) st) ∧
      (∀ w x, rootOf st.uf w = rootOf st.uf x →
        rootOf ((cs.foldl (fun st constraint =>
          if constraint ∈ st.visitedConstraints then st
          else
            let st1 := { st with
              visitedConstraints := constraint :: st.visitedConstraints }
            if constraint.kind = ConstraintKind.OneWayBind ∨
                constraint.kind = ConstraintKind.OneWayBindParam then
              { st1 with oneWayConstraints := st1.oneWayConstraints ++ [constraint] }
            else { st1 with uf := (unionSetsViaConstraint st1.uf constraint).2 }) st).uf) w =
        rootOf ((cs.foldl (fun st constraint =>
          if constraint ∈ st.visitedConstraints then st
          else
            let st1 := { st with
              visitedConstraints := constraint :: st.visitedConstraints }
            if constraint.kind = ConstraintKind.OneWayBind ∨
                constraint.kind = ConstraintKind.OneWayBindParam then
              { st1 with oneWayConstraints := st1.oneWayConstraints ++ [constraint] }
            else { st1 with uf := (unionSetsViaConstraint st1.uf constraint).2 }) st).uf) x) ∧
      (∀ c ∈ st.visitedConstraints, c ∈ (cs.foldl (fun st constraint =>
        if constraint ∈ st.visitedConstraints then st
        else
          let st1 := { st with
            visitedConstraints := constraint :: st.visitedConstraints }
          if constraint.kind = ConstraintKind.OneWayBind ∨
              constraint.kind = ConstraintKind.OneWayBindParam then
            { st1 with oneWayConstraints := st1.oneWayConstraints ++ [constraint] }
          else { st1 with uf := (unionSetsViaConstraint st1.uf constraint).2 }) st).visitedConstraints) ∧
      (∀ c ∈ st.oneWayConstraints, c ∈ (cs.foldl (fun st constraint =>
        if constraint ∈ st.visitedConstraints then st
        else
          let st1 := { st with
            visitedConstraints := constraint :: st.visitedConstraints }
          if constraint.kind = ConstraintKind.OneWayBind ∨
              constraint.kind = ConstraintKind.OneWayBindParam then
            { st1 with oneWayConstraints := st1.oneWayConstraints ++ [constraint] }
          else { st1 with uf := (unionSetsViaConstraint st1.uf constraint).2 }) st).oneWayConstraints) ∧
      (∀ c ∈ cs, c ∈ (cs.foldl (fun st constraint =>
        if constraint ∈ st.visitedConstraints then st
        else
          let st1 := { st with
            visitedConstraints := constraint :: st.visitedConstraints }
          if constraint.kind = ConstraintKind.OneWayBind ∨
              constraint.kind = ConstraintKind.OneWayBindParam then
            { st1 with oneWayConstraints := st1.oneWayConstraints ++ [constraint] }
          else { st1 with uf := (unionSetsViaConstraint st1.uf constraint).2 }) st).visitedConstraints) := by
  induction cs with
  | nil =>
    intro st h
    exact ⟨h, fun w x hh => hh, fun c hc => hc, fun c hc => hc, by simp⟩
  | cons c rest ih =>
    intro st h
    have hcs' : ∀ d ∈ rest, d ∈ (g.nodes v).constraints :=
      fun d hd => hcs d (List.mem_cons_of_mem c hd)
    by_cases hvis : c ∈ st.visitedConstraints
    · have hF : List.foldl (fun st constraint =>
        if constraint ∈ st.visitedConstraints then st
        else
          let st1 := { st with
            visitedConstraints := constraint :: st.visitedConstraints }
          if constraint.kind = ConstraintKind.OneWayBind ∨
              constraint.kind = ConstraintKind.OneWayBindParam then
            { st1 with oneWayConstraints := st1.oneWayConstraints ++ [constraint] }
          else { st1 with uf := (unionSetsViaConstraint st1.uf constraint).2 }) st (c :: rest) = List.foldl (fun st constraint =>
        if constraint ∈ st.visitedConstraints then st
        else
          let st1 := { st with
            visitedConstraints := constraint :: st.visitedConstraints }
          if constraint.kind = ConstraintKind.OneWayBind ∨
              constraint.kind = ConstraintKind.OneWayBindParam then
            { st1 with oneWayConstraints := st1.oneWayConstraints ++ [constraint] }
          else { st1 with uf := (unionSetsViaConstraint st1.uf constraint).2 }) st rest := by
        rw [List.foldl_cons]
        congr 1
        simp only []
        rw [if_pos hvis]
      rw [hF]
      obtain ⟨i1, i2, i3, i4, i5⟩ := ih hcs' st h
      refine ⟨i1, i2, i3, i4, ?_⟩
      intro d hd
      rcases List.mem_cons.mp hd with hdc | hdr
      · rw [hdc]
        exact i3 c hvis
      · exact i5 d hdr
    · by_cases hk : c.kind = ConstraintKind.OneWayBind ∨
          c.kind = ConstraintKind.OneWayBindParam
      · have hF : List.foldl (fun st constraint =>
        if constraint ∈ st.visitedConstraints then st
        else
          let st1 := { st with
            visitedConstraints := constraint :: st.visitedConstraints }
          if constraint.kind = ConstraintKind.OneWayBind ∨
              constraint.kind = ConstraintKind.OneWayBindParam then
            { st1 with oneWayConstraints := st1.oneWayConstraints ++ [constraint] }
          else { st1 with uf := (unionSetsViaConstraint st1.uf constraint).2 }) st (c :: rest) = List.foldl (fun st constraint =>
        if constraint ∈ st.visitedConstraints then st
        else
          let st1 := { st with
            visitedConstraints := constraint :: st.visitedConstraints }
          if constraint.kind = ConstraintKind.OneWayBind ∨
              constraint.kind = ConstraintKind.OneWayBindParam then
            { st1 with oneWayConstraints := st1.oneWayConstraints ++ [constraint] }
          else { st1 with uf := (unionSetsViaConstraint st1.uf constraint).2 }) ({ st with
                visitedConstraints := c :: st.visitedConstraints,
                oneWayConstraints := st.oneWayConstraints ++ [c] } : CCState) rest := by
          rw [List.foldl_cons]
          congr 1
          simp only []
          rw [if_neg hvis, if_pos hk]
        rw [hF]
        have hnext : P1Inv env g V { st with
            visitedConstraints := c :: st.visitedConstraints,
            oneWayConstraints := st.oneWayConstraints ++ [c] } := by
          obtain ⟨h1, h2, h3, h4⟩ := h
          refine ⟨h1, h2, ?_, ?_⟩
          · intro d hd
            rcases List.mem_append.mp hd with hdo | hdo
            · exact h3 d hdo
            · rw [List.mem_singleton.mp hdo]
              exact ⟨v, hv, hcs c (List.mem_cons_self c rest)⟩
          · intro d hd
            rcases List.mem_cons.mp hd with hdc | hdr
            · subst hdc
              exact ⟨fun _ => List.mem_append.mpr
                  (Or.inr (List.mem_singleton.mpr rfl)),
                fun hnk => absurd hk hnk⟩
            · obtain ⟨ha, hb⟩ := h4 d hdr
              exact ⟨fun hkk => List.mem_append.mpr (Or.inl (ha hkk)), hb⟩
        obtain ⟨i1, i2, i3, i4, i5⟩ := ih hcs' _ hnext
        refine ⟨i1, i2, ?_, ?_, ?_⟩
        · intro d hd
          exact i3 d (List.mem_cons_of_mem c hd)
        · intro d hd
          exact i4 d (List.mem_append.mpr (Or.inl hd))
        · intro d hd
          rcases List.mem_cons.mp hd with hdc | hdr
          · rw [hdc]
            exact i3 c (List.mem_cons_self c _)
          · exact i5 d hdr
      · have hF : List.foldl (fun st constraint =>
        if constraint ∈ st.visitedConstraints then st
        else
          let st1 := { st with
            visitedConstraints := constraint :: st.visitedConstraints }
          if constraint.kind = ConstraintKind.OneWayBind ∨
              constraint.kind = ConstraintKind.OneWayBindParam then
            { st1 with oneWayConstraints := st1.oneWayConstraints ++ [constraint] }
          else { st1 with uf := (unionSetsViaConstraint st1.uf constraint).2 }) st (c :: rest) = List.foldl (fun st constraint =>
        if constraint ∈ st.visitedConstraints then st
        else
          let st1 := { st with
            visitedConstraints := constraint :: st.visitedConstraints }
          if constraint.kind = ConstraintKind.OneWayBind ∨
              constraint.kind = ConstraintKind.OneWayBindParam then
            { st1 with oneWayConstraints := st1.oneWayConstraints ++ [constraint] }
          else { st1 with uf := (unionSetsViaConstraint st1.uf constraint).2 }) ({ st with
                visitedConstraints := c :: st.visitedConstraints,
                uf := (unionSetsViaConstraint st.uf c).2 } : CCState) rest := by
          rw [List.foldl_cons]
          congr 1
          simp only []
          rw [if_neg hvis, if_neg hk]
        rw [hF]
        obtain ⟨h1, h2, h3, h4⟩ := h
        obtain ⟨s1, s2, s3, s4⟩ := unionSetsViaConstraint_spec c st.uf h1
        have hedge : ∀ head rest1, c.typeVars = head :: rest1 → ∀ o ∈ rest1,
            Relation.EqvGen (Edge env g V) head o := by
          intro head rest1 heq o ho
          exact Relation.EqvGen.rel _ _
            ⟨v, hv, Or.inr ⟨c, hcs c (List.mem_cons_self c rest), rest1, heq, ho⟩⟩
        have hnext : P1Inv env g V { st with
            visitedConstraints := c :: st.visitedConstraints,
            uf := (unionSetsViaConstraint st.uf c).2 } := by
          refine ⟨s1, s4 env g V h2 hedge, h3, ?_⟩
          intro d hd
          rcases List.mem_cons.mp hd with hdc | hdr
          · subst hdc
            exact ⟨fun hkk => absurd hkk hk, fun _ => s3⟩
          · obtain ⟨ha, hb⟩ := h4 d hdr
            refine ⟨ha, ?_⟩
            intro hnk head rest1 heq o ho
            exact s2 head o (hb hnk head rest1 heq o ho)
        obtain ⟨i1, i2, i3, i4, i5⟩ := ih hcs' _ hnext
        refine ⟨i1, ?_, ?_, ?_, ?_⟩
        · intro w x hh
          exact i2 w x (s2 w x hh)
        · intro d hd
          exact i3 d (List.mem_cons_of_mem c hd)
        · intro d hd
          exact i4 d hd
        · intro d hd
          rcases List.mem_cons.mp hd with hdc | hdr
          · rw [hdc]
            exact i3 c (List.mem_cons_self c _)
          · exact i5 d hdr

end CG

namespace CG


theorem ccPhase1Fold_spec (env : CSEnv) (g : Graph) (V : List TVar) :
    ∀ l : List TVar, (∀ v ∈ l, v ∈ V) →
    ∀ st : CCState, P1Inv env g V st →
      P1Inv env g V (l.foldl (fun st typeVar =>
      let rep := env.rep typeVar
      let u1 := (g.nodes rep).equivalenceClass.foldl
        (fun u equiv => (unionSets u typeVar equiv).2) st.uf
      let node := g.nodes typeVar
      let u2 := node.fixedBindings.foldl
        (fun u fixedAdj => (unionSets u typeVar fixedAdj).2) u1
      node.constraints.foldl
        (fun st constraint =>
          if constraint ∈ st.visitedConstraints then st
          else
            let st1 := { st with
              visitedConstraints := constraint :: st.visitedConstraints }
            if constraint.kind = ConstraintKind.OneWayBind ∨
                constraint.kind = ConstraintKind.OneWayBindParam then
              { st1 with oneWayConstraints := st1.oneWayConstraints ++ [constraint] }
            else { st1 with uf := (unionSetsViaConstraint st1.uf constraint).2 })
        { st with uf := u2 }) st) ∧
      (∀ w x, rootOf st.uf w = rootOf st.uf x →
        rootOf (l.foldl (fun st typeVar =>
      let rep := env.rep typeVar
      let u1 := (g.nodes rep).equivalenceClass.foldl
        (fun u equiv => (unionSets u typeVar equiv).2) st.uf
      let node := g.nodes typeVar
      let u2 := node.fixedBindings.foldl
        (fun u fixedAdj => (unionSets u typeVar fixedAdj).2) u1
      node.constraints.foldl
        (fun st constraint =>
          if constraint ∈ st.visitedConstraints then st
          else
            let st1 := { st with
              visitedConstraints := constraint :: st.visitedConstraints }
            if constraint.kind = ConstraintKind.OneWayBind ∨
                constraint.kind = ConstraintKind.OneWayBindParam then
              { st1 with oneWayConstraints := st1.oneWayConstraints ++ [constraint] }
            else { st1 with uf := (unionSetsViaConstraint st1.uf constraint).2 })
        { st with uf := u2 }) st).uf w =
        rootOf (l.foldl (fun st typeVar =>
      let rep := env.rep typeVar
      let u1 := (g.nodes rep).equivalenceClass.foldl
        (fun u equiv => (unionSets u typeVar equiv).2) st.uf
      let node := g.nodes typeVar
      let u2 := node.fixedBindings.foldl
        (fun u fixedAdj => (unionSets u typeVar fixedAdj).2) u1
      node.constraints.foldl
        (fun st constraint =>
          if constraint ∈ st.visitedConstraints then st
          else
            let st1 := { st with
              visitedConstraints := constraint :: st.visitedConstraints }
            if constraint.kind = ConstraintKind.OneWayBind ∨
                constraint.kind = ConstraintKind.OneWayBindParam then
              { st1 with oneWayConstraints := st1.oneWayConstraints ++ [constraint] }
            else { st1 with uf := (unionSetsViaConstraint st1.uf constraint).2 })
        { st with uf := u2 }) st).uf x) ∧
      (∀ c ∈ st.visitedConstraints, c ∈ (l.foldl (fun st typeVar =>
      let rep := env.rep typeVar
      let u1 := (g.nodes rep).equivalenceClass.foldl
        (fun u equiv => (unionSets u typeVar equiv).2) st.uf
      let node := g.nodes typeVar
      let u2 := node.fixedBindings.foldl
        (fun u fixedAdj => (unionSets u typeVar fixedAdj).2) u1
      node.constraints.foldl
        (fun st constraint =>
          if constraint ∈ st.visitedConstraints then st
          else
            let st1 := { st with
              visitedConstraints := constraint :: st.visitedConstraints }
            if constraint.kind = ConstraintKind.OneWayBind ∨
                constraint.kind = ConstraintKind.OneWayBindParam then
              { st1 with oneWayConstraints := st1.oneWayConstraints ++ [constraint] }
            else { st1 with uf := (unionSetsViaConstraint st1.uf constraint).2 })
        { st with uf := u2 }) st).visitedConstraints) ∧
      (∀ c ∈ st.oneWayConstraints, c ∈ (l.foldl (fun st typeVar =>
      let rep := env.rep typeVar
      let u1 := (g.nodes rep).equivalenceClass.foldl
        (fun u equiv => (unionSets u typeVar equiv).2) st.uf
      let node := g.nodes typeVar
      let u2 := node.fixedBindings.foldl
        (fun u fixedAdj => (unionSets u typeVar fixedAdj).2) u1
      node.constraints.foldl
        (fun st constraint =>
          if constraint ∈ st.visitedConstraints then st
          else
            let st1 := { st with
              visitedConstraints := constraint :: st.visitedConstraints }
            if constraint.kind = ConstraintKind.OneWayBind ∨
                constraint.kind = ConstraintKind.OneWayBindParam then
              { st1 with oneWayConstraints := st1.oneWayConstraints ++ [constraint] }
            else { st1 with uf := (unionSetsViaConstraint st1.uf constraint).2 })
        { st with uf := u2 }) st).oneWayConstraints) ∧
      (∀ v ∈ l,
        (∀ e ∈ (g.nodes (env.rep v)).equivalenceClass,
          rootOf (l.foldl (fun st typeVar =>
      let rep := env.rep typeVar
      let u1 := (g.nodes rep).equivalenceClass.foldl
        (fun u equiv => (unionSets u typeVar equiv).2) st.uf
      let node := g.nodes typeVar
      let u2 := node.fixedBindings.foldl
        (fun u fixedAdj => (unionSets u typeVar fixedAdj).2) u1
      node.constraints.foldl
        (fun st constraint =>
          if constraint ∈ st.visitedConstraints then st
          else
            let st1 := { st with
              visitedConstraints := constraint :: st.visitedConstraints }
            if constraint.kind = ConstraintKind.OneWayBind ∨
                constraint.kind = ConstraintKind.OneWayBindParam then
              { st1 with oneWayConstraints := st1.oneWayConstraints ++ [constraint] }
            else { st1 with uf := (unionSetsViaConstraint st1.uf constraint).2 })
        { st with uf := u2 }) st).uf v =
          rootOf (l.foldl (fun st typeVar =>
      let rep := env.rep typeVar
      let u1 := (g.nodes rep).equivalenceClass.foldl
        (fun u equiv => (unionSets u typeVar equiv).2) st.uf
      let node := g.nodes typeVar
      let u2 := node.fixedBindings.foldl
        (fun u fixedAdj => (unionSets u typeVar fixedAdj).2) u1
      node.constraints.foldl
        (fun st constraint =>
          if constraint ∈ st.visitedConstraints then st
          else
            let st1 := { st with
              visitedConstraints := constraint :: st.visitedConstraints }
            if constraint.kind = ConstraintKind.OneWayBind ∨
                constraint.kind = ConstraintKind.OneWayBindParam then
              { st1 with oneWayConstraints := st1.oneWayConstraints ++ [constraint] }
            else { st1 with uf := (unionSetsViaConstraint st1.uf constraint).2 })
        { st with uf := u2 }) st).uf e) ∧
        (∀ e ∈ (g.nodes v).fixedBindings,
          rootOf (l.foldl (fun st typeVar =>
      let rep := env.rep typeVar
      let u1 := (g.nodes rep).equivalenceClass.foldl
        (fun u equiv => (unionSets u typeVar equiv).2) st.uf
      let node := g.nodes typeVar
      let u2 := node.fixedBindings.foldl
        (fun u fixedAdj => (unionSets u typeVar fixedAdj).2) u1
      node.constraints.foldl
        (fun st constraint =>
          if constraint ∈ st.visitedConstraints then st
          else
            let st1 := { st with
              visitedConstraints := constraint :: st.visitedConstraints }
            if constraint.kind = ConstraintKind.OneWayBind ∨
                constraint.kind = ConstraintKind.OneWayBindParam then
              { st1 with oneWayConstraints := st1.oneWayConstraints ++ [constraint] }
            else { st1 with uf := (unionSetsViaConstraint st1.uf constraint).2 })
        { st with uf := u2 }) st).uf v =
          rootOf (l.foldl (fun st typeVar =>
      let rep := env.rep typeVar
      let u1 := (g.nodes rep).equivalenceClass.foldl
        (fun u equiv => (unionSets u typeVar equiv).2) st.uf
      let node := g.nodes typeVar
      let u2 := node.fixedBindings.foldl
        (fun u fixedAdj => (unionSets u typeVar fixedAdj).2) u1
      node.constraints.foldl
        (fun st constraint =>
          if constraint ∈ st.visitedConstraints then st
          else
            let st1 := { st with
              visitedConstraints := constraint :: st.visitedConstraints }
            if constraint.kind = ConstraintKind.OneWayBind ∨
                constraint.kind = ConstraintKind.OneWayBindParam then
              { st1 with oneWayConstraints := st1.oneWayConstraints ++ [constraint] }
            else { st1 with uf := (unionSetsViaConstraint st1.uf constraint).2 })
        { st with uf := u2 }) st).uf e) ∧
        (∀ c ∈ (g.nodes v).constraints,
          c ∈ (l.foldl (fun st typeVar =>
      let rep := env.rep typeVar
      let u1 := (g.nodes rep).equivalenceClass.foldl
        (fun u equiv => (unionSets u typeVar equiv).2) st.uf
      let node := g.nodes typeVar
      let u2 := node.fixedBindings.foldl
        (fun u fixedAdj => (unionSets u typeVar fixedAdj).2) u1
      node.constraints.foldl
        (fun st constraint =>
          if constraint ∈ st.visitedConstraints then st
          else
            let st1 := { st with
              visitedConstraints := constraint :: st.visitedConstraints }
            if constraint.kind = ConstraintKind.OneWayBind ∨
                constraint.kind = ConstraintKind.OneWayBindParam then
              { st1 with oneWayConstraints := st1.oneWayConstraints ++ [constraint] }
            else { st1 with uf := (unionSetsViaConstraint st1.uf constraint).2 })
        { st with uf := u2 }) st).visitedConstraints)) := by
  intro l
  induction l with
  | nil =>
    intro _ st h
    exact ⟨h, fun w x hh => hh, fun c hc => hc, fun c hc => hc, by simp⟩
  | cons v rest ih =>
    intro hsub st h
    have hvV : v ∈ V := hsub v (List.mem_cons_self v rest)
    have hsub2 : ∀ w ∈ rest, w ∈ V := fun w hw => hsub w (List.mem_cons_of_mem v hw)
    have hF : List.foldl (fun st typeVar =>
      let rep := env.rep typeVar
      let u1 := (g.nodes rep).equivalenceClass.foldl
        (fun u equiv => (unionSets u typeVar equiv).2) st.uf
      let node := g.nodes typeVar
      let u2 := node.fixedBindings.foldl
        (fun u fixedAdj => (unionSets u typeVar fixedAdj).2) u1
      node.constraints.foldl
        (fun st constraint =>
          if constraint ∈ st.visitedConstraints then st
          else
            let st1 := { st with
              visitedConstraints := constraint :: st.visitedConstraints }
            if constraint.kind = ConstraintKind.OneWayBind ∨
                constraint.kind = ConstraintKind.OneWayBindParam then
              { st1 with oneWayConstraints := st1.oneWayConstraints ++ [constraint] }
            else { st1 with uf := (unionSetsViaConstraint st1.uf constraint).2 })
        { st with uf := u2 }) st (v :: rest) = List.foldl (fun st typeVar =>
      let rep := env.rep typeVar
      let u1 := (g.nodes rep).equivalenceClass.foldl
        (fun u equiv => (unionSets u typeVar equiv).2) st.uf
      let node := g.nodes typeVar
      let u2 := node.fixedBindings.foldl
        (fun u fixedAdj => (unionSets u typeVar fixedAdj).2) u1
      node.constraints.foldl
        (fun st constraint =>
          if constraint ∈ st.visitedConstraints then st
          else
            let st1 := { st with
              visitedConstraints := constraint :: st.visitedConstraints }
            if constraint.kind = ConstraintKind.OneWayBind ∨
                constraint.kind = ConstraintKind.OneWayBindParam then
              { st1 with oneWayConstraints := st1.oneWayConstraints ++ [constraint] }
            else { st1 with uf := (unionSetsViaConstraint st1.uf constraint).2 })
        { st with uf := u2 })
        ((g.nodes v).constraints.foldl
          (fun st constraint =>
            if constraint ∈ st.visitedConstraints then st
            else
              let st1 := { st with
                visitedConstraints := constraint :: st.visitedConstraints }
              if constraint.kind = ConstraintKind.OneWayBind ∨
                  constraint.kind = ConstraintKind.OneWayBindParam then
                { st1 with oneWayConstraints := st1.oneWayConstraints ++ [constraint] }
              else { st1 with uf := (unionSetsViaConstraint st1.uf constraint).2 })
          (CCState.mk
          ((g.nodes v).fixedBindings.foldl
            (fun u equiv => (unionSets u v equiv).2)
            ((g.nodes (env.rep v)).equivalenceClass.foldl
              (fun u equiv => (unionSets u v equiv).2) st.uf))
          st.oneWayConstraints st.visitedConstraints)) rest := by
      rw [List.foldl_cons]
    rw [hF]
    obtain ⟨h1, h2, h3, h4⟩ := h
    obtain ⟨a1, a2, a3, a4⟩ :=
      unionFold_spec v ((g.nodes (env.rep v)).equivalenceClass) st.uf h1
    obtain ⟨b1, b2, b3, b4⟩ :=
      unionFold_spec v ((g.nodes v).fixedBindings)
        ((g.nodes (env.rep v)).equivalenceClass.foldl
          (fun u equiv => (unionSets u v equiv).2) st.uf) a1
    have hst2 : P1Inv env g V (CCState.mk
          ((g.nodes v).fixedBindings.foldl
            (fun u equiv => (unionSets u v equiv).2)
            ((g.nodes (env.rep v)).equivalenceClass.foldl
              (fun u equiv => (unionSets u v equiv).2) st.uf))
          st.oneWayConstraints st.visitedConstraints) := by
      refine ⟨b1, ?_, h3, ?_⟩
      · refine b4 env g V ?_ ?_
        · refine a4 env g V h2 ?_
          intro e he
          exact Relation.EqvGen.rel _ _ ⟨v, hvV, Or.inl ⟨rfl, Or.inl he⟩⟩
        · intro e he
          exact Relation.EqvGen.rel _ _ ⟨v, hvV, Or.inl ⟨rfl, Or.inr he⟩⟩
      · intro d hd
        obtain ⟨ha, hb⟩ := h4 d hd
        refine ⟨ha, ?_⟩
        intro hnk head rest1 heq o ho
        exact b2 head o (a2 head o (hb hnk head rest1 heq o ho))
    obtain ⟨p1, p2, p3, p4, p5⟩ :=
      p1ConstraintFold_spec env g V v hvV ((g.nodes v).constraints)
        (fun c hc => hc) (CCState.mk
          ((g.nodes v).fixedBindings.foldl
            (fun u equiv => (unionSets u v equiv).2)
            ((g.nodes (env.rep v)).equivalenceClass.foldl
              (fun u equiv => (unionSets u v equiv).2) st.uf))
          st.oneWayConstraints st.visitedConstraints) hst2
    obtain ⟨i1, i2, i3, i4, i5⟩ := ih hsub2 _ p1
    refine ⟨i1, ?_, ?_, ?_, ?_⟩
    · intro w x hh
      exact i2 w x (p2 w x (b2 w x (a2 w x hh)))
    · intro c hc
      exact i3 c (p3 c hc)
    · intro c hc
      exact i4 c (p4 c hc)
    · intro v1 hv1
      rcases List.mem_cons.mp hv1 with hvv | hvr
      · subst hvv
        refine ⟨?_, ?_, ?_⟩
        · intro e he
          exact i2 v1 e (p2 v1 e (b2 v1 e (a3 e he)))
        · intro e he
          exact i2 v1 e (p2 v1 e (b3 e he))
        · intro c hc
          exact i3 c (p5 c hc)
      · exact i5 v1 hvr

end CG

namespace CG

theorem eqvGen_to_root {env : CSEnv} {g : Graph} {V : List TVar} {u : UFState}
    (hgen : ∀ w x, Edge env g V w x → rootOf u w = rootOf u x) :
    ∀ w x, Relation.EqvGen (Edge env g V) w x → rootOf u w = rootOf u x := by
  intro w x h
  induction h with
  | rel a b hab => exact hgen a b hab
  | refl a => rfl
  | symm a b _ ih => exact ih.symm
  | trans a b c _ _ ih1 ih2 => exact ih1.trans ih2

theorem pairFindFold_uf (l : List TVar) :
    ∀ st : List TVar × UFState, UFInv st.2 →
      UFInv ((l.foldl (fun (st : List TVar × UFState) typeVar =>
        let r := st.2.findRepresentative typeVar
        (insertIfUnique st.1 r.1, r.2)) st).2) ∧
      (∀ w, rootOf ((l.foldl (fun (st : List TVar × UFState) typeVar =>
        let r := st.2.findRepresentative typeVar
        (insertIfUnique st.1 r.1, r.2)) st).2) w = rootOf st.2 w) := by
  induction l with
  | nil =>
    intro st h
    exact ⟨h, fun w => rfl⟩
  | cons v rest ih =>
    intro st h
    rw [List.foldl_cons]
    obtain ⟨_, f2, f3⟩ := findRepresentative_spec h v
    obtain ⟨i1, i2⟩ := ih (insertIfUnique st.1 (st.2.findRepresentative v).1,
      (st.2.findRepresentative v).2) f2
    exact ⟨i1, fun w => (i2 w).trans (f3 w)⟩

theorem getRepresentativesInType_uf (ty : Ty) (u : UFState) (hinv : UFInv u) :
    UFInv (getRepresentativesInType u ty).2 ∧
    (∀ w, rootOf (getRepresentativesInType u ty).2 w = rootOf u w) := by
  unfold getRepresentativesInType
  exact pairFindFold_uf ty.typeVarsList ([], u) hinv

theorem owEdgeFold_uf (l : List Constraint) :
    ∀ st : OneWayDigraph × UFState, UFInv st.2 →
      UFInv ((l.foldl (fun (st : OneWayDigraph × UFState) constraint =>
        let lhs := getRepresentativesInType st.2 constraint.firstTy
        let rhs := getRepresentativesInType lhs.2 constraint.secondTy
        let d := lhs.1.foldl
          (fun d lhsTypeRep =>
            rhs.1.foldl
              (fun d rhsTypeRep =>
                let d1 := digraphModify d rhsTypeRep
                  (fun c => { c with outAdjacencies := insertIfUnique c.outAdjacencies lhsTypeRep })
                digraphModify d1 lhsTypeRep
                  (fun c => { c with inAdjacencies := insertIfUnique c.inAdjacencies rhsTypeRep }))
              d)
          st.1
        (d, rhs.2)) st).2) ∧
      (∀ w, rootOf ((l.foldl (fun (st : OneWayDigraph × UFState) constraint =>
        let lhs := getRepresentativesInType st.2 constraint.firstTy
        let rhs := getRepresentativesInType lhs.2 constraint.secondTy
        let d := lhs.1.foldl
          (fun d lhsTypeRep =>
            rhs.1.foldl
              (fun d rhsTypeRep =>
                let d1 := digraphModify d rhsTypeRep
                  (fun c => { c with outAdjacencies := insertIfUnique c.outAdjacencies lhsTypeRep })
                digraphModify d1 lhsTypeRep
                  (fun c => { c with inAdjacencies := insertIfUnique c.inAdjacencies rhsTypeRep }))
              d)
          st.1
        (d, rhs.2)) st).2) w = rootOf st.2 w) := by
  induction l with
  | nil =>
    intro st h
    exact ⟨h, fun w => rfl⟩
  | cons c rest ih =>
    intro st h
    rw [List.foldl_cons]
    obtain ⟨g1, g2⟩ := getRepresentativesInType_uf c.firstTy st.2 h
    obtain ⟨g3, g4⟩ :=
      getRepresentativesInType_uf c.secondTy (getRepresentativesInType st.2 c.firstTy).2 g1
    obtain ⟨i1, i2⟩ := ih ((fun (st : OneWayDigraph × UFState) constraint =>
        let lhs := getRepresentativesInType st.2 constraint.firstTy
        let rhs := getRepresentativesInType lhs.2 constraint.secondTy
        let d := lhs.1.foldl
          (fun d lhsTypeRep =>
            rhs.1.foldl
              (fun d rhsTypeRep =>
                let d1 := digraphModify d rhsTypeRep
                  (fun c => { c with outAdjacencies := insertIfUnique c.outAdjacencies lhsTypeRep })
                digraphModify d1 lhsTypeRep
                  (fun c => { c with inAdjacencies := insertIfUnique c.inAdjacencies rhsTypeRep }))
              d)
          st.1
        (d, rhs.2)) st c) g3
    refine ⟨i1, fun w => (i2 w).trans ((g4 w).trans (g2 w))⟩

theorem owBucketFold_uf (l : List TVar) :
    ∀ st : OneWayDigraph × UFState, UFInv st.2 →
      UFInv ((l.foldl (fun (st : OneWayDigraph × UFState) typeVar =>
        let r := st.2.findRepresentative typeVar
        match digraphFind st.1 r.1 with
        | none => (st.1, r.2)
        | some _ =>
          (digraphModify st.1 r.1 (fun c => { c with typeVars := c.typeVars ++ [typeVar] }),
           r.2)) st).2) ∧
      (∀ w, rootOf ((l.foldl (fun (st : OneWayDigraph × UFState) typeVar =>
        let r := st.2.findRepresentative typeVar
        match digraphFind st.1 r.1 with
        | none => (st.1, r.2)
        | some _ =>
          (digraphModify st.1 r.1 (fun c => { c with typeVars := c.typeVars ++ [typeVar] }),
           r.2)) st).2) w = rootOf st.2 w) := by
  induction l with
  | nil =>
    intro st h
    exact ⟨h, fun w => rfl⟩
  | cons v rest ih =>
    intro st h
    rw [List.foldl_cons]
    obtain ⟨_, f2, f3⟩ := findRepresentative_spec h v
    have hstep : ∀ st2 : OneWayDigraph × UFState,
        st2 = ((fun (st : OneWayDigraph × UFState) typeVar =>
          let r := st.2.findRepresentative typeVar
          match digraphFind st.1 r.1 with
          | none => (st.1, r.2)
          | some _ =>
            (digraphModify st.1 r.1 (fun c => { c with typeVars := c.typeVars ++ [typeVar] }),
             r.2)) st v) →
        st2.2 = (st.2.findRepresentative v).2 := by
      intro st2 h2
      rw [h2]
      dsimp only []
      cases digraphFind st.1 (st.2.findRepresentative v).1 with
      | none => rfl
      | some _ => rfl
    have h2 := hstep _ rfl
    obtain ⟨i1, i2⟩ := ih _ (by rw [h2]; exact f2)
    refine ⟨i1, fun w => (i2 w).trans (by rw [h2]; exact f3 w)⟩

theorem buildOneWay_uf (tvs : List TVar) (ows : List Constraint) (u : UFState)
    (hinv : UFInv u) :
    UFInv (buildOneWayConstraintGraph u tvs ows).2 ∧
    (∀ w, rootOf (buildOneWayConstraintGraph u tvs ows).2 w = rootOf u w) := by
  unfold buildOneWayConstraintGraph
  dsimp only []
  obtain ⟨e1, e2⟩ := owEdgeFold_uf ows ([], u) hinv
  obtain ⟨b1, b2⟩ := owBucketFold_uf tvs _ e1
  exact ⟨b1, fun w => (b2 w).trans (e2 w)⟩

end CG

namespace CG

theorem ccConstruct_spec (env : CSEnv) (g : Graph) (V : List TVar) :
    UFInv (ccConstruct env g V).uf ∧
    (∀ w x, rootOf (ccConstruct env g V).uf w = rootOf (ccConstruct env g V).uf x ↔
      Relation.EqvGen (Edge env g V) w x) := by
  have hinit : P1Inv env g V ⟨UFState.empty, [], []⟩ := by
    refine ⟨?_, ?_, ?_, ?_⟩
    · intro v p hp
      cases hp
    · intro w x h
      have hw : rootOf UFState.empty w = w := rootOf_of_none rfl
      have hx : rootOf UFState.empty x = x := rootOf_of_none rfl
      rw [hw, hx] at h
      rw [h]
      exact Relation.EqvGen.refl x
    · intro c hc
      exact absurd hc (List.not_mem_nil c)
    · intro c hc
      exact absurd hc (List.not_mem_nil c)
  obtain ⟨hP1, hmono0, hvis0, how0, hcov⟩ :=
    ccPhase1Fold_spec env g V V (fun v hv => hv) ⟨UFState.empty, [], []⟩ hinit
  obtain ⟨q1, q2, q3, q4⟩ := hP1
  unfold ccConstruct
  dsimp only []
  by_cases he : (ccPhase1 env g V).oneWayConstraints.isEmpty = true
  · rw [if_pos he]
    have hemp : (ccPhase1 env g V).oneWayConstraints = [] := List.isEmpty_iff.mp he
    refine ⟨q1, ?_⟩
    intro w x
    constructor
    · exact fun h => q2 w x h
    · refine eqvGen_to_root ?_ w x
      intro a b hab
      obtain ⟨v, hv, hcase⟩ := hab
      rcases hcase with ⟨rfl, hin⟩ | ⟨c, hc, rest1, heq, ho⟩
      · rcases hin with hin | hin
        · exact (hcov a hv).1 b hin
        · exact (hcov a hv).2.1 b hin
      · have hvis : c ∈ (ccPhase1 env g V).visitedConstraints := (hcov v hv).2.2 c hc
        obtain ⟨ha, hb⟩ := q4 c hvis
        by_cases hk : c.kind = ConstraintKind.OneWayBind ∨
            c.kind = ConstraintKind.OneWayBindParam
        · have h2 : c ∈ (ccPhase1 env g V).oneWayConstraints := ha hk
          rw [hemp] at h2
          exact absurd h2 (List.not_mem_nil c)
        · exact hb hk a rest1 heq b ho
  · rw [if_neg he]
    dsimp only []
    obtain ⟨bb1, bb2⟩ := buildOneWay_uf V ((ccPhase1 env g V).oneWayConstraints)
      (ccPhase1 env g V).uf q1
    obtain ⟨r1, r2, r3, r4⟩ :=
      p3Fold_spec ((ccPhase1 env g V).oneWayConstraints)
        (buildOneWayConstraintGraph (ccPhase1 env g V).uf V
          ((ccPhase1 env g V).oneWayConstraints)).2 bb1
    refine ⟨r1, ?_⟩
    intro w x
    constructor
    · intro h
      refine r4 env g V ?_ ?_ w x h
      · intro w1 x1 h1
        rw [bb2 w1, bb2 x1] at h1
        exact q2 w1 x1 h1
      · intro c hc head rest1 heq o ho
        obtain ⟨v, hv, hcv⟩ := q3 c hc
        exact Relation.EqvGen.rel _ _ ⟨v, hv, Or.inr ⟨c, hcv, rest1, heq, ho⟩⟩
    · refine eqvGen_to_root ?_ w x
      intro a b hab
      obtain ⟨v, hv, hcase⟩ := hab
      rcases hcase with ⟨rfl, hin⟩ | ⟨c, hc, rest1, heq, ho⟩
      · rcases hin with hin | hin
        · refine r2 a b ?_
          rw [bb2 a, bb2 b]
          exact (hcov a hv).1 b hin
        · refine r2 a b ?_
          rw [bb2 a, bb2 b]
          exact (hcov a hv).2.1 b hin
      · have hvis : c ∈ (ccPhase1 env g V).visitedConstraints := (hcov v hv).2.2 c hc
        obtain ⟨ha, hb⟩ := q4 c hvis
        by_cases hk : c.kind = ConstraintKind.OneWayBind ∨
            c.kind = ConstraintKind.OneWayBindParam
        · exact r3 c (ha hk) a rest1 heq b ho
        · refine r2 a b ?_
          rw [bb2 a, bb2 b]
          exact hb hk a rest1 heq b ho

end CG

namespace CG

theorem getD_set_self {α : Type} (l : List α) (i : Nat) (a d : α)
    (h : i < l.length) : (l.set i a).getD i d = a := by
  induction l generalizing i with
  | nil => cases h
  | cons x xs ih =>
    cases i with
    | zero => rfl
    | succ n => exact ih n (Nat.lt_of_succ_lt_succ h)

theorem getD_set_other {α : Type} (l : List α) (i j : Nat) (a d : α)
    (h : j ≠ i) : (l.set i a).getD j d = l.getD j d := by
  induction l generalizing i j with
  | nil => rfl
  | cons x xs ih =>
    cases i with
    | zero =>
      cases j with
      | zero => exact absurd rfl h
      | succ m => rfl
    | succ n =>
      cases j with
      | zero => rfl
      | succ m => exact ih n m (fun hh => h (by rw [hh]))

theorem getD_eq_getElem_of_lt {α : Type} (l : List α) (i : Nat) (d : α)
    (h : i < l.length) : l.getD i d = l[i] := by
  induction l generalizing i with
  | nil => cases h
  | cons x xs ih =>
    cases i with
    | zero => rfl
    | succ n => exact ih n (Nat.lt_of_succ_lt_succ h)

theorem assocFind_mono {m : List (TVar × Nat)} {k : TVar} {i : Nat}
    (h : assocFind m k = some i) (l : List (TVar × Nat)) :
    assocFind (m ++ l) k = some i := by
  unfold assocFind at h ⊢
  cases hf : m.find? (fun p => p.1 == k) with
  | none =>
    rw [hf] at h
    cases h
  | some p =>
    rw [List.find?_append, hf]
    rw [hf] at h
    exact h

theorem assocFind_append_miss {m : List (TVar × Nat)} {k : TVar}
    (h : assocFind m k = none) (v : Nat) :
    assocFind (m ++ [(k, v)]) k = some v := by
  unfold assocFind at h ⊢
  cases hf : m.find? (fun p => p.1 == k) with
  | some p =>
    rw [hf] at h
    cases h
  | none =>
    rw [List.find?_append, hf]
    simp [Option.none_orElse, List.find?]

theorem assocFind_bound {m : List (TVar × Nat)} {k : TVar} {i : Nat}
    (hsnd : m.map Prod.snd = List.range m.length)
    (h : assocFind m k = some i) : i < m.length := by
  obtain ⟨p, hp, hp1, hp2⟩ := assocFind_some h
  have : p.2 ∈ m.map Prod.snd := List.mem_map_of_mem Prod.snd hp
  rw [hsnd, List.mem_range] at this
  rw [← hp2]
  exact this

theorem assocFind_value_inj {m : List (TVar × Nat)} {k1 k2 : TVar} {i : Nat}
    (hsnd : m.map Prod.snd = List.range m.length)
    (h1 : assocFind m k1 = some i) (h2 : assocFind m k2 = some i) : k1 = k2 := by
  obtain ⟨p, hp, hp1, hp2⟩ := assocFind_some h1
  obtain ⟨q, hq, hq1, hq2⟩ := assocFind_some h2
  have hnd : (m.map Prod.snd).Nodup := by
    rw [hsnd]
    exact List.nodup_range _
  have hpq : p = q :=
    List.inj_on_of_nodup_map hnd hp hq (by rw [hp2, hq2])
  rw [← hp1, ← hq1, hpq]

theorem pAFold_spec (env : CSEnv) (l : List TVar) :
    ∀ st : List TVar × UFState, UFInv st.2 →
      UFInv ((l.foldl (fun (st : List TVar × UFState) typeVar =>
        match env.fixedType typeVar with
        | some _ => st
        | none =>
          let r := st.2.findRepresentative typeVar
          (if r.1 ∈ st.1 then st.1 else st.1 ++ [r.1], r.2)) st).2) ∧
      (∀ w, rootOf ((l.foldl (fun (st : List TVar × UFState) typeVar =>
        match env.fixedType typeVar with
        | some _ => st
        | none =>
          let r := st.2.findRepresentative typeVar
          (if r.1 ∈ st.1 then st.1 else st.1 ++ [r.1], r.2)) st).2) w = rootOf st.2 w) ∧
      (∀ r ∈ st.1, r ∈ (l.foldl (fun (st : List TVar × UFState) typeVar =>
        match env.fixedType typeVar with
        | some _ => st
        | none =>
          let r := st.2.findRepresentative typeVar
          (if r.1 ∈ st.1 then st.1 else st.1 ++ [r.1], r.2)) st).1) ∧
      (∀ a ∈ l, env.fixedType a = none →
        rootOf st.2 a ∈ (l.foldl (fun (st : List TVar × UFState) typeVar =>
          match env.fixedType typeVar with
          | some _ => st
          | none =>
            let r := st.2.findRepresentative typeVar
            (if r.1 ∈ st.1 then st.1 else st.1 ++ [r.1], r.2)) st).1) := by
  induction l with
  | nil =>
    intro st h
    exact ⟨h, fun w => rfl, fun r hr => hr, by simp⟩
  | cons v rest ih =>
    intro st h
    cases hft : env.fixedType v with
    | some ty =>
      have hF : List.foldl (fun (st : List TVar × UFState) typeVar =>
        match env.fixedType typeVar with
        | some _ => st
        | none =>
          let r := st.2.findRepresentative typeVar
          (if r.1 ∈ st.1 then st.1 else st.1 ++ [r.1], r.2)) st (v :: rest) = List.foldl (fun (st : List TVar × UFState) typeVar =>
        match env.fixedType typeVar with
        | some _ => st
        | none =>
          let r := st.2.findRepresentative typeVar
          (if r.1 ∈ st.1 then st.1 else st.1 ++ [r.1], r.2)) st rest := by
        rw [List.foldl_cons]
        congr 1
        simp only []
        rw [hft]
      rw [hF]
      obtain ⟨i1, i2, i3, i4⟩ := ih st h
      refine ⟨i1, i2, i3, ?_⟩
      intro a ha hfa
      rcases List.mem_cons.mp ha with hav | har
      · rw [hav] at hfa
        rw [hfa] at hft
        cases hft
      · exact i4 a har hfa
    | none =>
      obtain ⟨f1, f2, f3⟩ := findRepresentative_spec h v
      have hF : List.foldl (fun (st : List TVar × UFState) typeVar =>
        match env.fixedType typeVar with
        | some _ => st
        | none =>
          let r := st.2.findRepresentative typeVar
          (if r.1 ∈ st.1 then st.1 else st.1 ++ [r.1], r.2)) st (v :: rest) = List.foldl (fun (st : List TVar × UFState) typeVar =>
        match env.fixedType typeVar with
        | some _ => st
        | none =>
          let r := st.2.findRepresentative typeVar
          (if r.1 ∈ st.1 then st.1 else st.1 ++ [r.1], r.2)) ((if (st.2.findRepresentative v).1 ∈ st.1 then st.1
            else st.1 ++ [(st.2.findRepresentative v).1],
           (st.2.findRepresentative v).2) : List TVar × UFState) rest := by
        rw [List.foldl_cons]
        congr 1
        simp only []
        rw [hft]
      rw [hF]
      obtain ⟨i1, i2, i3, i4⟩ := ih ((if (st.2.findRepresentative v).1 ∈ st.1 then st.1
          else st.1 ++ [(st.2.findRepresentative v).1],
          (st.2.findRepresentative v).2) : List TVar × UFState) f2
      have hroots : ∀ w, rootOf ((if (st.2.findRepresentative v).1 ∈ st.1 then st.1
          else st.1 ++ [(st.2.findRepresentative v).1],
          (st.2.findRepresentative v).2) : List TVar × UFState).2 w = rootOf st.2 w := f3
      have hmem1 : ∀ r ∈ st.1, r ∈ ((if (st.2.findRepresentative v).1 ∈ st.1 then st.1
          else st.1 ++ [(st.2.findRepresentative v).1],
          (st.2.findRepresentative v).2) : List TVar × UFState).1 := by
        intro r hr
        by_cases hin : (st.2.findRepresentative v).1 ∈ st.1
        · rw [if_pos hin]
          exact hr
        · rw [if_neg hin]
          exact List.mem_append_left _ hr
      have hmemv : (st.2.findRepresentative v).1 ∈
          ((if (st.2.findRepresentative v).1 ∈ st.1 then st.1
          else st.1 ++ [(st.2.findRepresentative v).1],
          (st.2.findRepresentative v).2) : List TVar × UFState).1 := by
        by_cases hin : (st.2.findRepresentative v).1 ∈ st.1
        · rw [if_pos hin]
          exact hin
        · rw [if_neg hin]
          exact List.mem_append_right _ (List.mem_singleton.mpr rfl)
      refine ⟨i1, fun w => (i2 w).trans (hroots w), ?_, ?_⟩
      · intro r hr
        exact i3 r (hmem1 r hr)
      · intro a ha hfa
        rcases List.mem_cons.mp ha with hav | har
      
        · rw [hav]
          have : rootOf st.2 v = (st.2.findRepresentative v).1 := f1.symm
          rw [this]
          exact i3 _ hmemv
        · have := i4 a har hfa
          rw [hroots a] at this
          exact this
  
end CG

namespace CG

theorem getD_append_left {α : Type} (l l2 : List α) (i : Nat) (d : α)
    (h : i < l.length) : (l ++ l2).getD i d = l.getD i d := by
  induction l generalizing i with
  | nil => cases h
  | cons x xs ih =>
    cases i with
    | zero => rfl
    | succ n => exact ih n (Nat.lt_of_succ_lt_succ h)

theorem getD_oob {α : Type} (l : List α) (i : Nat) (d : α)
    (h : l.length ≤ i) : l.getD i d = d := by
  induction l generalizing i with
  | nil => cases i <;> rfl
  | cons x xs ih =>
    cases i with
    | zero => cases h
    | succ n => exact ih n (Nat.le_of_succ_le_succ h)

theorem set_oob {α : Type} (l : List α) (i : Nat) (a : α)
    (h : l.length ≤ i) : l.set i a = l := by
  induction l generalizing i with
  | nil => rfl
  | cons x xs ih =>
    cases i with
    | zero => cases h
    | succ n => 
      show x :: xs.set n a = x :: xs
      rw [ih n (Nat.le_of_succ_le_succ h)]

/-- The constraint-collection sub-fold of `getComponents` changes only the
`constraints` fields and the known-constraints set. -/
theorem cFold_pres (componentIdx : Nat) (cs : List Constraint) :
    ∀ st : AssembleState,
      (cs.foldl (fun (st : AssembleState) constraint =>
        if constraint ∈ st.knownConstraints then st
        else
          let comp := st.components.getD componentIdx Component.emptyC
          let comps3 := st.components.set componentIdx { comp with constraints := comp.constraints ++ [constraint] }
          { st with
            knownConstraints := constraint :: st.knownConstraints,
            components := comps3 }) st).componentIdxMap = st.componentIdxMap ∧
      (cs.foldl (fun (st : AssembleState) constraint =>
        if constraint ∈ st.knownConstraints then st
        else
          let comp := st.components.getD componentIdx Component.emptyC
          let comps3 := st.components.set componentIdx { comp with constraints := comp.constraints ++ [constraint] }
          { st with
            knownConstraints := constraint :: st.knownConstraints,
            components := comps3 }) st).uf = st.uf ∧
      (cs.foldl (fun (st : AssembleState) constraint =>
        if constraint ∈ st.knownConstraints then st
        else
          let comp := st.components.getD componentIdx Component.emptyC
          let comps3 := st.components.set componentIdx { comp with constraints := comp.constraints ++ [constraint] }
          { st with
            knownConstraints := constraint :: st.knownConstraints,
            components := comps3 }) st).components.length = st.components.length ∧
      (∀ i, ((cs.foldl (fun (st : AssembleState) constraint =>
        if constraint ∈ st.knownConstraints then st
        else
          let comp := st.components.getD componentIdx Component.emptyC
          let comps3 := st.components.set componentIdx { comp with constraints := comp.constraints ++ [constraint] }
          { st with
            knownConstraints := constraint :: st.knownConstraints,
            components := comps3 }) st).components.getD i Component.emptyC).typeVars =
        ((st.components.getD i Component.emptyC).typeVars)) := by
  induction cs with
  | nil =>
    intro st
    exact ⟨rfl, rfl, rfl, fun i => rfl⟩
  | cons c rest ih =>
    intro st
    rw [List.foldl_cons]
    by_cases hk : c ∈ st.knownConstraints
    · rw [if_pos hk]
      exact ih st
    · rw [if_neg hk]
      obtain ⟨i1, i2, i3, i4⟩ := ih
        { st with
          knownConstraints := c :: st.knownConstraints,
          components := st.components.set componentIdx
            { st.components.getD componentIdx Component.emptyC with
              constraints := (st.components.getD componentIdx Component.emptyC).constraints ++ [c] } }
      refine ⟨i1, i2, i3.trans (List.length_set _ _ _), fun i => (i4 i).trans ?_⟩
      by_cases hii : i = componentIdx
      · subst hii
        by_cases hlt : i < st.components.length
        · rw [getD_set_self _ _ _ _ hlt]
        · rw [set_oob _ _ _ (Nat.le_of_not_lt hlt)]
      · rw [getD_set_other _ _ _ _ _ hii]

end CG

namespace CG

/-- Invariant of the component-assembly fold of `getComponents`, with
`chu` the marked-representative list and `R` the (stable) root map. -/
def ASInv (chu : List TVar) (R : TVar → TVar) (st : AssembleState) : Prop :=
  UFInv st.uf ∧
  (∀ w, rootOf st.uf w = R w) ∧
  st.componentIdxMap.map Prod.snd = List.range st.componentIdxMap.length ∧
  st.components.length = st.componentIdxMap.length ∧
  (∀ tv i, tv ∈ (st.components.getD i Component.emptyC).typeVars →
    R tv ∈ chu ∧ assocFind st.componentIdxMap (R tv) = some i)

/-- One step of the assembly fold preserves `ASInv`, only extends the
index map and the per-slot variable lists, and covers the processed
variable whenever its representative is marked. -/
theorem asmStep_spec (g : Graph) (chu : List TVar) (R : TVar → TVar)
    (v : TVar) (st st' : AssembleState)
    (hstep : st' = (fun (st : AssembleState) typeVar =>
      let r := st.uf.findRepresentative typeVar
      let st := { st with uf := r.2 }
      if r.1 ∈ chu then
        let p :=
          match assocFind st.componentIdxMap r.1 with
          | some idx => (st, idx)
          | none =>
            ({ st with
               componentIdxMap := st.componentIdxMap ++ [(r.1, st.componentIdxMap.length)],
               components := st.components ++ [Component.emptyC] },
             st.componentIdxMap.length)
        let st1 := p.1
        let componentIdx := p.2
        let comp := st1.components.getD componentIdx Component.emptyC
        let comps2 := st1.components.set componentIdx { comp with typeVars := comp.typeVars ++ [typeVar] }
        let st2 := { st1 with components := comps2 }
        (g.nodes typeVar).constraints.foldl
          (fun (st : AssembleState) constraint =>
            if constraint ∈ st.knownConstraints then st
            else
              let comp := st.components.getD componentIdx Component.emptyC
              let comps3 := st.components.set componentIdx { comp with constraints := comp.constraints ++ [constraint] }
              { st with
                knownConstraints := constraint :: st.knownConstraints,
                components := comps3 })
          st2
      else st) st v)
    (hinv : ASInv chu R st) :
    ASInv chu R st' ∧
    (∀ k i, assocFind st.componentIdxMap k = some i →
      assocFind st'.componentIdxMap k = some i) ∧
    (∀ i tv, tv ∈ (st.components.getD i Component.emptyC).typeVars →
      tv ∈ (st'.components.getD i Component.emptyC).typeVars) ∧
    (R v ∈ chu →
      ∃ i, assocFind st'.componentIdxMap (R v) = some i ∧
        v ∈ (st'.components.getD i Component.emptyC).typeVars) := by
  obtain ⟨hu, hr, hsnd, hlen, hmem⟩ := hinv
  obtain ⟨f1, f2, f3⟩ := findRepresentative_spec hu v
  have hRv : (st.uf.findRepresentative v).1 = R v := by rw [f1, hr]
  simp only [] at hstep
  by_cases hchu : (st.uf.findRepresentative v).1 ∈ chu
  · rw [if_pos hchu] at hstep
    cases hfind : assocFind st.componentIdxMap (st.uf.findRepresentative v).1 with
    | some idx =>
      rw [hfind] at hstep
      dsimp only [] at hstep
      have hidx : idx < st.componentIdxMap.length := assocFind_bound hsnd hfind
      have hidx2 : idx < st.components.length := by rw [hlen]; exact hidx
      obtain ⟨c1, c2, c3, c4⟩ := cFold_pres idx (g.nodes v).constraints
        { st with
          uf := (st.uf.findRepresentative v).2,
          components := st.components.set idx
            { st.components.getD idx Component.emptyC with
              typeVars := (st.components.getD idx Component.emptyC).typeVars ++ [v] } }
      have hmap : st'.componentIdxMap = st.componentIdxMap := by rw [hstep]; exact c1
      have huf : st'.uf = (st.uf.findRepresentative v).2 := by rw [hstep]; exact c2
      have htv : ∀ i, (st'.components.getD i Component.emptyC).typeVars =
          ((st.components.set idx
            { st.components.getD idx Component.emptyC with
              typeVars := (st.components.getD idx Component.emptyC).typeVars ++ [v] }).getD i Component.emptyC).typeVars := by
        intro i
        rw [hstep]
        exact c4 i
      have hclen : st'.components.length = st.components.length := by
        rw [hstep]
        exact c3.trans (List.length_set _ _ _)
      refine ⟨⟨?_, ?_, ?_, ?_, ?_⟩, ?_, ?_, ?_⟩
      · rw [huf]
        exact f2
      · intro w
        rw [huf]
        exact (f3 w).trans (hr w)
      · rw [hmap]
        exact hsnd
      · rw [hclen, hmap]
        exact hlen
      · intro tv i h
        rw [htv i] at h
        by_cases hii : i = idx
        · subst hii
          rw [getD_set_self _ _ _ _ hidx2] at h
          rcases List.mem_append.mp h with h1 | h1
          · obtain ⟨m1, m2⟩ := hmem tv i h1
            rw [hmap]
            exact ⟨m1, m2⟩
          · have htveq : tv = v := List.mem_singleton.mp h1
            subst htveq
            constructor
            · rw [← hRv]
              exact hchu
            · rw [hmap, ← hRv]
              exact hfind
        · rw [getD_set_other _ _ _ _ _ hii] at h
          obtain ⟨m1, m2⟩ := hmem tv i h
          rw [hmap]
          exact ⟨m1, m2⟩
      · intro k i h
        rw [hmap]
        exact h
      · intro i tv h
        rw [htv i]
        by_cases hii : i = idx
        · subst hii
          rw [getD_set_self _ _ _ _ hidx2]
          exact List.mem_append.mpr (Or.inl h)
        · rw [getD_set_other _ _ _ _ _ hii]
          exact h
      · intro hRchu
        refine ⟨idx, ?_, ?_⟩
        · rw [hmap, ← hRv]
          exact hfind
        · rw [htv idx, getD_set_self _ _ _ _ hidx2]
          exact List.mem_append.mpr (Or.inr (List.mem_singleton.mpr rfl))
    | none =>
      rw [hfind] at hstep
      dsimp only [] at hstep
      have hgetD : (st.components ++ [Component.emptyC]).getD st.componentIdxMap.length Component.emptyC = Component.emptyC := by
        rw [← hlen]
        exact getD_last_append _ _ _
      obtain ⟨c1, c2, c3, c4⟩ := cFold_pres st.componentIdxMap.length (g.nodes v).constraints
        { components := (st.components ++ [Component.emptyC]).set st.componentIdxMap.length
            { (st.components ++ [Component.emptyC]).getD st.componentIdxMap.length Component.emptyC with
              typeVars := ((st.components ++ [Component.emptyC]).getD st.componentIdxMap.length Component.emptyC).typeVars ++ [v] },
          componentIdxMap := st.componentIdxMap ++ [((st.uf.findRepresentative v).1, st.componentIdxMap.length)],
          knownConstraints := st.knownConstraints,
          uf := (st.uf.findRepresentative v).2 }
      have hcomp : (st.components ++ [Component.emptyC]).set st.componentIdxMap.length
            { (st.components ++ [Component.emptyC]).getD st.componentIdxMap.length Component.emptyC with
              typeVars := ((st.components ++ [Component.emptyC]).getD st.componentIdxMap.length Component.emptyC).typeVars ++ [v] } =
          st.components ++ [{ Component.emptyC with typeVars := Component.emptyC.typeVars ++ [v] }] := by
        rw [hgetD, ← hlen]
        exact set_last_append _ _ _
      have hmapN : st'.componentIdxMap = st.componentIdxMap ++ [((st.uf.findRepresentative v).1, st.componentIdxMap.length)] := by
        rw [hstep]
        exact c1
      have hufN : st'.uf = (st.uf.findRepresentative v).2 := by
        rw [hstep]
        exact c2
      have htvN : ∀ i, (st'.components.getD i Component.emptyC).typeVars =
          ((st.components ++ [{ Component.emptyC with typeVars := Component.emptyC.typeVars ++ [v] }]).getD i Component.emptyC).typeVars := by
        intro i
        rw [hstep]
        have h4 := c4 i
        rw [show (AssembleState.mk
            ((st.components ++ [Component.emptyC]).set st.componentIdxMap.length
              { (st.components ++ [Component.emptyC]).getD st.componentIdxMap.length Component.emptyC with
                typeVars := ((st.components ++ [Component.emptyC]).getD st.componentIdxMap.length Component.emptyC).typeVars ++ [v] })
            (st.componentIdxMap ++ [((st.uf.findRepresentative v).1, st.componentIdxMap.length)])
            st.knownConstraints
            ((st.uf.findRepresentative v).2)).components =
          st.components ++ [{ Component.emptyC with typeVars := Component.emptyC.typeVars ++ [v] }] from hcomp] at h4
        exact h4
      have hclenN : st'.components.length = st.components.length + 1 := by
        rw [hstep]
        refine c3.trans ?_
        show ((st.components ++ [Component.emptyC]).set st.componentIdxMap.length
            { (st.components ++ [Component.emptyC]).getD st.componentIdxMap.length Component.emptyC with
              typeVars := ((st.components ++ [Component.emptyC]).getD st.componentIdxMap.length Component.emptyC).typeVars ++ [v] }).length =
          st.components.length + 1
        rw [hcomp]
        simp
      refine ⟨⟨?_, ?_, ?_, ?_, ?_⟩, ?_, ?_, ?_⟩
      · rw [hufN]
        exact f2
      · intro w
        rw [hufN]
        exact (f3 w).trans (hr w)
      · rw [hmapN, List.map_append, hsnd]
        simp [List.range_succ]
      · rw [hclenN, hmapN, hlen]
        simp
      · intro tv i h
        rw [htvN i] at h
        rcases Nat.lt_trichotomy i st.components.length with hlt | heq | hgt
        · rw [getD_append_left _ _ _ _ hlt] at h
          obtain ⟨m1, m2⟩ := hmem tv i h
          refine ⟨m1, ?_⟩
          rw [hmapN]
          exact assocFind_mono m2 _
        · subst heq
          rw [getD_last_append] at h
          have htveq : tv = v := by
            rcases List.mem_append.mp h with h1 | h1
            · exact absurd h1 (List.not_mem_nil tv)
            · exact List.mem_singleton.mp h1
          subst htveq
          constructor
          · rw [← hRv]
            exact hchu
          · rw [hmapN, ← hRv, hlen]
            exact assocFind_append_miss hfind _
        · exfalso
          have hle : (st.components ++ [{ Component.emptyC with typeVars := Component.emptyC.typeVars ++ [v] }]).length ≤ i := by
            rw [List.length_append]
            exact hgt
          rw [getD_oob _ _ _ hle] at h
          exact absurd h (List.not_mem_nil tv)
      · intro k i h
        rw [hmapN]
        exact assocFind_mono h _
      · intro i tv h
        rw [htvN i]
        by_cases hlt : i < st.components.length
        · rw [getD_append_left _ _ _ _ hlt]
          exact h
        · exfalso
          rw [getD_oob _ _ _ (Nat.le_of_not_lt hlt)] at h
          exact absurd h (List.not_mem_nil tv)
      · intro hRchu
        refine ⟨st.components.length, ?_, ?_⟩
        · rw [hmapN, ← hRv, hlen]
          exact assocFind_append_miss hfind _
        · rw [htvN st.components.length, getD_last_append]
          exact List.mem_append.mpr (Or.inr (List.mem_singleton.mpr rfl))
  · rw [if_neg hchu] at hstep
    refine ⟨⟨?_, ?_, ?_, ?_, ?_⟩, ?_, ?_, ?_⟩
    · rw [hstep]
      exact f2
    · intro w
      rw [hstep]
      exact (f3 w).trans (hr w)
    · rw [hstep]
      exact hsnd
    · rw [hstep]
      exact hlen
    · intro tv i h
      rw [hstep] at h ⊢
      exact hmem tv i h
    · intro k i h
      rw [hstep]
      exact h
    · intro i tv h
      rw [hstep]
      exact h
    · intro hRchu
      exact absurd (by rw [hRv]; exact hRchu) hchu

end CG

namespace CG

/-- The whole assembly fold of `getComponents` preserves `ASInv`, only
extends the index map and the per-slot variable lists, and assigns every
walked variable with a marked representative to the slot its
representative maps to. -/
theorem asmFold_spec (g : Graph) (chu : List TVar) (R : TVar → TVar) (l : List TVar) :
    ∀ st : AssembleState, ASInv chu R st →
      ASInv chu R (l.foldl (fun (st : AssembleState) typeVar =>
            let r := st.uf.findRepresentative typeVar
            let st := { st with uf := r.2 }
            if r.1 ∈ chu then
              let p :=
                match assocFind st.componentIdxMap r.1 with
                | some idx => (st, idx)
                | none =>
                  ({ st with
                     componentIdxMap := st.componentIdxMap ++ [(r.1, st.componentIdxMap.length)],
                     components := st.components ++ [Component.emptyC] },
                   st.componentIdxMap.length)
              let st1 := p.1
              let componentIdx := p.2
              let comp := st1.components.getD componentIdx Component.emptyC
              let comps2 := st1.components.set componentIdx { comp with typeVars := comp.typeVars ++ [typeVar] }
              let st2 := { st1 with components := comps2 }
              (g.nodes typeVar).constraints.foldl
                (fun (st : AssembleState) constraint =>
                  if constraint ∈ st.knownConstraints then st
                  else
                    let comp := st.components.getD componentIdx Component.emptyC
                    let comps3 := st.components.set componentIdx { comp with constraints := comp.constraints ++ [constraint] }
                    { st with
                      knownConstraints := constraint :: st.knownConstraints,
                      components := comps3 })
                st2
            else st) st) ∧
      (∀ k i, assocFind st.componentIdxMap k = some i →
        assocFind (l.foldl (fun (st : AssembleState) typeVar =>
            let r := st.uf.findRepresentative typeVar
            let st := { st with uf := r.2 }
            if r.1 ∈ chu then
              let p :=
                match assocFind st.componentIdxMap r.1 with
                | some idx => (st, idx)
                | none =>
                  ({ st with
                     componentIdxMap := st.componentIdxMap ++ [(r.1, st.componentIdxMap.length)],
                     components := st.components ++ [Component.emptyC] },
                   st.componentIdxMap.length)
              let st1 := p.1
              let componentIdx := p.2
              let comp := st1.components.getD componentIdx Component.emptyC
              let comps2 := st1.components.set componentIdx { comp with typeVars := comp.typeVars ++ [typeVar] }
              let st2 := { st1 with components := comps2 }
              (g.nodes typeVar).constraints.foldl
                (fun (st : AssembleState) constraint =>
                  if constraint ∈ st.knownConstraints then st
                  else
                    let comp := st.components.getD componentIdx Component.emptyC
                    let comps3 := st.components.set componentIdx { comp with constraints := comp.constraints ++ [constraint] }
                    { st with
                      knownConstraints := constraint :: st.knownConstraints,
                      components := comps3 })
                st2
            else st) st).componentIdxMap k = some i) ∧
      (∀ i tv, tv ∈ (st.components.getD i Component.emptyC).typeVars →
        tv ∈ ((l.foldl (fun (st : AssembleState) typeVar =>
            let r := st.uf.findRepresentative typeVar
            let st := { st with uf := r.2 }
            if r.1 ∈ chu then
              let p :=
                match assocFind st.componentIdxMap r.1 with
                | some idx => (st, idx)
                | none =>
                  ({ st with
                     componentIdxMap := st.componentIdxMap ++ [(r.1, st.componentIdxMap.length)],
                     components := st.components ++ [Component.emptyC] },
                   st.componentIdxMap.length)
              let st1 := p.1
              let componentIdx := p.2
              let comp := st1.components.getD componentIdx Component.emptyC
              let comps2 := st1.components.set componentIdx { comp with typeVars := comp.typeVars ++ [typeVar] }
              let st2 := { st1 with components := comps2 }
              (g.nodes typeVar).constraints.foldl
                (fun (st : AssembleState) constraint =>
                  if constraint ∈ st.knownConstraints then st
                  else
                    let comp := st.components.getD componentIdx Component.emptyC
                    let comps3 := st.components.set componentIdx { comp with constraints := comp.constraints ++ [constraint] }
                    { st with
                      knownConstraints := constraint :: st.knownConstraints,
                      components := comps3 })
                st2
            else st) st).components.getD i Component.emptyC).typeVars) ∧
      (∀ a ∈ l, R a ∈ chu →
        ∃ i, assocFind (l.foldl (fun (st : AssembleState) typeVar =>
            let r := st.uf.findRepresentative typeVar
            let st := { st with uf := r.2 }
            if r.1 ∈ chu then
              let p :=
                match assocFind st.componentIdxMap r.1 with
                | some idx => (st, idx)
                | none =>
                  ({ st with
                     componentIdxMap := st.componentIdxMap ++ [(r.1, st.componentIdxMap.length)],
                     components := st.components ++ [Component.emptyC] },
                   st.componentIdxMap.length)
              let st1 := p.1
              let componentIdx := p.2
              let comp := st1.components.getD componentIdx Component.emptyC
              let comps2 := st1.components.set componentIdx { comp with typeVars := comp.typeVars ++ [typeVar] }
              let st2 := { st1 with components := comps2 }
              (g.nodes typeVar).constraints.foldl
                (fun (st : AssembleState) constraint =>
                  if constraint ∈ st.knownConstraints then st
                  else
                    let comp := st.components.getD componentIdx Component.emptyC
                    let comps3 := st.components.set componentIdx { comp with constraints := comp.constraints ++ [constraint] }
                    { st with
                      knownConstraints := constraint :: st.knownConstraints,
                      components := comps3 })
                st2
            else st) st).componentIdxMap (R a) = some i ∧
          a ∈ ((l.foldl (fun (st : AssembleState) typeVar =>
            let r := st.uf.findRepresentative typeVar
            let st := { st with uf := r.2 }
            if r.1 ∈ chu then
              let p :=
                match assocFind st.componentIdxMap r.1 with
                | some idx => (st, idx)
                | none =>
                  ({ st with
                     componentIdxMap := st.componentIdxMap ++ [(r.1, st.componentIdxMap.length)],
                     components := st.components ++ [Component.emptyC] },
                   st.componentIdxMap.length)
              let st1 := p.1
              let componentIdx := p.2
              let comp := st1.components.getD componentIdx Component.emptyC
              let comps2 := st1.components.set componentIdx { comp with typeVars := comp.typeVars ++ [typeVar] }
              let st2 := { st1 with components := comps2 }
              (g.nodes typeVar).constraints.foldl
                (fun (st : AssembleState) constraint =>
                  if constraint ∈ st.knownConstraints then st
                  else
                    let comp := st.components.getD componentIdx Component.emptyC
                    let comps3 := st.components.set componentIdx { comp with constraints := comp.constraints ++ [constraint] }
                    { st with
                      knownConstraints := constraint :: st.knownConstraints,
                      components := comps3 })
                st2
            else st) st).components.getD i Component.emptyC).typeVars) := by
  induction l with
  | nil =>
    intro st h
    exact ⟨h, fun k i hh => hh, fun i tv hh => hh, by simp⟩
  | cons v rest ih =>
    intro st h
    obtain ⟨s1, s2, s3, s4⟩ := asmStep_spec g chu R v st _ rfl h
    rw [List.foldl_cons]
    obtain ⟨i1, i2, i3, i4⟩ := ih ((fun (st : AssembleState) typeVar =>
            let r := st.uf.findRepresentative typeVar
            let st := { st with uf := r.2 }
            if r.1 ∈ chu then
              let p :=
                match assocFind st.componentIdxMap r.1 with
                | some idx => (st, idx)
                | none =>
                  ({ st with
                     componentIdxMap := st.componentIdxMap ++ [(r.1, st.componentIdxMap.length)],
                     components := st.components ++ [Component.emptyC] },
                   st.componentIdxMap.length)
              let st1 := p.1
              let componentIdx := p.2
              let comp := st1.components.getD componentIdx Component.emptyC
              let comps2 := st1.components.set componentIdx { comp with typeVars := comp.typeVars ++ [typeVar] }
              let st2 := { st1 with components := comps2 }
              (g.nodes typeVar).constraints.foldl
                (fun (st : AssembleState) constraint =>
                  if constraint ∈ st.knownConstraints then st
                  else
                    let comp := st.components.getD componentIdx Component.emptyC
                    let comps3 := st.components.set componentIdx { comp with constraints := comp.constraints ++ [constraint] }
                    { st with
                      knownConstraints := constraint :: st.knownConstraints,
                      components := comps3 })
                st2
            else st) st v) s1
    refine ⟨i1, ?_, ?_, ?_⟩
    · intro k i hh
      exact i2 k i (s2 k i hh)
    · intro i tv hh
      exact i3 i tv (s3 i tv hh)
    · intro a ha hRa
      rcases List.mem_cons.mp ha with hav | har
      · subst hav
        obtain ⟨j, hj1, hj2⟩ := s4 hRa
        exact ⟨j, i2 _ j hj1, i3 j _ hj2⟩
      · exact i4 a har hRa

end CG

namespace CG

/-- The per-variable step of `populateOneWay`'s dependency-order fold only
touches the `oneWayComponents` field of the carried component. -/
theorem powInner_typeVars (digraph : OneWayDigraph) (dfsFuel : Nat) (order : List TVar) :
    ∀ st : Component × List (TVar × Nat),
      ((order.foldl (fun (st : Component × List (TVar × Nat)) typeVar =>
              let component := st.1
              let subcomponentIdxs := st.2
              let subcomponentIdxs1 :=
                subcomponentIdxs ++ [(typeVar, component.oneWayComponents.length)]
              let newTypeVars :=
                match digraphFind digraph typeVar with
                | some raw => raw.typeVars
                | none => [typeVar]
              let component1 := { component with
                oneWayComponents := component.oneWayComponents ++ [OneWayComponent.mk newTypeVars []] }
              let inner := innerDFSVisit digraph subcomponentIdxs1 typeVar dfsFuel typeVar ([], [])
              let lastIdx := component1.oneWayComponents.length - 1
              let lastComp := component1.oneWayComponents.getD lastIdx (OneWayComponent.mk [] [])
              let newOwc := component1.oneWayComponents.set lastIdx { lastComp with dependsOn := inner.2 }
              let component2 := { component1 with oneWayComponents := newOwc }
              (component2, subcomponentIdxs1)) st).1).typeVars = st.1.typeVars := by
  induction order with
  | nil =>
    intro st
    rfl
  | cons v rest ih =>
    intro st
    rw [List.foldl_cons]
    exact ih ((fun (st : Component × List (TVar × Nat)) typeVar =>
              let component := st.1
              let subcomponentIdxs := st.2
              let subcomponentIdxs1 :=
                subcomponentIdxs ++ [(typeVar, component.oneWayComponents.length)]
              let newTypeVars :=
                match digraphFind digraph typeVar with
                | some raw => raw.typeVars
                | none => [typeVar]
              let component1 := { component with
                oneWayComponents := component.oneWayComponents ++ [OneWayComponent.mk newTypeVars []] }
              let inner := innerDFSVisit digraph subcomponentIdxs1 typeVar dfsFuel typeVar ([], [])
              let lastIdx := component1.oneWayComponents.length - 1
              let lastComp := component1.oneWayComponents.getD lastIdx (OneWayComponent.mk [] [])
              let newOwc := component1.oneWayComponents.set lastIdx { lastComp with dependsOn := inner.2 }
              let component2 := { component1 with oneWayComponents := newOwc }
              (component2, subcomponentIdxs1)) st v)

/-- The outer fold of `populateOneWay` preserves the number of components
and every slot's `typeVars` list. -/
theorem powOuter_typeVars (digraph : OneWayDigraph) (dfsFuel : Nat)
    (orders : List (List TVar)) (idxs : List Nat) :
    ∀ components : List Component,
      (idxs.foldl (fun components componentIdx =>
              let dependencyOrder := orders.getD componentIdx []
              if dependencyOrder.isEmpty then components
              else
                let res := dependencyOrder.reverse.foldl
                  (fun (st : Component × List (TVar × Nat)) typeVar =>
                          let component := st.1
                          let subcomponentIdxs := st.2
                          let subcomponentIdxs1 :=
                            subcomponentIdxs ++ [(typeVar, component.oneWayComponents.length)]
                          let newTypeVars :=
                            match digraphFind digraph typeVar with
                            | some raw => raw.typeVars
                            | none => [typeVar]
                          let component1 := { component with
                            oneWayComponents := component.oneWayComponents ++ [OneWayComponent.mk newTypeVars []] }
                          let inner := innerDFSVisit digraph subcomponentIdxs1 typeVar dfsFuel typeVar ([], [])
                          let lastIdx := component1.oneWayComponents.length - 1
                          let lastComp := component1.oneWayComponents.getD lastIdx (OneWayComponent.mk [] [])
                          let newOwc := component1.oneWayComponents.set lastIdx { lastComp with dependsOn := inner.2 }
                          let component2 := { component1 with oneWayComponents := newOwc }
                          (component2, subcomponentIdxs1))
                  (components.getD componentIdx Component.emptyC, [])
                components.set componentIdx res.1) components).length = components.length ∧
      (∀ i, ((idxs.foldl (fun components componentIdx =>
              let dependencyOrder := orders.getD componentIdx []
              if dependencyOrder.isEmpty then components
              else
                let res := dependencyOrder.reverse.foldl
                  (fun (st : Component × List (TVar × Nat)) typeVar =>
                          let component := st.1
                          let subcomponentIdxs := st.2
                          let subcomponentIdxs1 :=
                            subcomponentIdxs ++ [(typeVar, component.oneWayComponents.length)]
                          let newTypeVars :=
                            match digraphFind digraph typeVar with
                            | some raw => raw.typeVars
                            | none => [typeVar]
                          let component1 := { component with
                            oneWayComponents := component.oneWayComponents ++ [OneWayComponent.mk newTypeVars []] }
                          let inner := innerDFSVisit digraph subcomponentIdxs1 typeVar dfsFuel typeVar ([], [])
                          let lastIdx := component1.oneWayComponents.length - 1
                          let lastComp := component1.oneWayComponents.getD lastIdx (OneWayComponent.mk [] [])
                          let newOwc := component1.oneWayComponents.set lastIdx { lastComp with dependsOn := inner.2 }
                          let component2 := { component1 with oneWayComponents := newOwc }
                          (component2, subcomponentIdxs1))
                  (components.getD componentIdx Component.emptyC, [])
                components.set componentIdx res.1) components).getD i Component.emptyC).typeVars =
        ((components.getD i Component.emptyC).typeVars)) := by
  induction idxs with
  | nil =>
    intro components
    exact ⟨rfl, fun i => rfl⟩
  | cons k rest ih =>
    intro components
    rw [List.foldl_cons]
    obtain ⟨i1, i2⟩ := ih ((fun components componentIdx =>
              let dependencyOrder := orders.getD componentIdx []
              if dependencyOrder.isEmpty then components
              else
                let res := dependencyOrder.reverse.foldl
                  (fun (st : Component × List (TVar × Nat)) typeVar =>
                          let component := st.1
                          let subcomponentIdxs := st.2
                          let subcomponentIdxs1 :=
                            subcomponentIdxs ++ [(typeVar, component.oneWayComponents.length)]
                          let newTypeVars :=
                            match digraphFind digraph typeVar with
                            | some raw => raw.typeVars
                            | none => [typeVar]
                          let component1 := { component with
                            oneWayComponents := component.oneWayComponents ++ [OneWayComponent.mk newTypeVars []] }
                          let inner := innerDFSVisit digraph subcomponentIdxs1 typeVar dfsFuel typeVar ([], [])
                          let lastIdx := component1.oneWayComponents.length - 1
                          let lastComp := component1.oneWayComponents.getD lastIdx (OneWayComponent.mk [] [])
                          let newOwc := component1.oneWayComponents.set lastIdx { lastComp with dependsOn := inner.2 }
                          let component2 := { component1 with oneWayComponents := newOwc }
                          (component2, subcomponentIdxs1))
                  (components.getD componentIdx Component.emptyC, [])
                components.set componentIdx res.1) components k)
    have hlen : ((fun components componentIdx =>
              let dependencyOrder := orders.getD componentIdx []
              if dependencyOrder.isEmpty then components
              else
                let res := dependencyOrder.reverse.foldl
                  (fun (st : Component × List (TVar × Nat)) typeVar =>
                          let component := st.1
                          let subcomponentIdxs := st.2
                          let subcomponentIdxs1 :=
                            subcomponentIdxs ++ [(typeVar, component.oneWayComponents.length)]
                          let newTypeVars :=
                            match digraphFind digraph typeVar with
                            | some raw => raw.typeVars
                            | none => [typeVar]
                          let component1 := { component with
                            oneWayComponents := component.oneWayComponents ++ [OneWayComponent.mk newTypeVars []] }
                          let inner := innerDFSVisit digraph subcomponentIdxs1 typeVar dfsFuel typeVar ([], [])
                          let lastIdx := component1.oneWayComponents.length - 1
                          let lastComp := component1.oneWayComponents.getD lastIdx (OneWayComponent.mk [] [])
                          let newOwc := component1.oneWayComponents.set lastIdx { lastComp with dependsOn := inner.2 }
                          let component2 := { component1 with oneWayComponents := newOwc }
                          (component2, subcomponentIdxs1))
                  (components.getD componentIdx Component.emptyC, [])
                components.set componentIdx res.1) components k).length = components.length := by
      simp only []
      split
      · rfl
      · exact List.length_set _ _ _
    have htv : ∀ i, (((fun components componentIdx =>
              let dependencyOrder := orders.getD componentIdx []
              if dependencyOrder.isEmpty then components
              else
                let res := dependencyOrder.reverse.foldl
                  (fun (st : Component × List (TVar × Nat)) typeVar =>
                          let component := st.1
                          let subcomponentIdxs := st.2
                          let subcomponentIdxs1 :=
                            subcomponentIdxs ++ [(typeVar, component.oneWayComponents.length)]
                          let newTypeVars :=
                            match digraphFind digraph typeVar with
                            | some raw => raw.typeVars
                            | none => [typeVar]
                          let component1 := { component with
                            oneWayComponents := component.oneWayComponents ++ [OneWayComponent.mk newTypeVars []] }
                          let inner := innerDFSVisit digraph subcomponentIdxs1 typeVar dfsFuel typeVar ([], [])
                          let lastIdx := component1.oneWayComponents.length - 1
                          let lastComp := component1.oneWayComponents.getD lastIdx (OneWayComponent.mk [] [])
                          let newOwc := component1.oneWayComponents.set lastIdx { lastComp with dependsOn := inner.2 }
                          let component2 := { component1 with oneWayComponents := newOwc }
                          (component2, subcomponentIdxs1))
                  (components.getD componentIdx Component.emptyC, [])
                components.set componentIdx res.1) components k).getD i Component.emptyC).typeVars =
        ((components.getD i Component.emptyC).typeVars) := by
      intro i
      simp only []
      split
      · rfl
      · by_cases hii : i = k
        · subst hii
          by_cases hlt : i < components.length
          · rw [getD_set_self _ _ _ _ hlt]
            exact powInner_typeVars digraph dfsFuel _ _
          · rw [set_oob _ _ _ (Nat.le_of_not_lt hlt)]
        · rw [getD_set_other _ _ _ _ _ hii]
    exact ⟨i1.trans hlen, fun i => (i2 i).trans (htv i)⟩

/-- `populateOneWay` preserves the number of components and every slot's
`typeVars` list. -/
theorem populateOneWay_typeVars (dfsFuel : Nat) (typeVars : List TVar)
    (digraph : OneWayDigraph) (componentIdxMap : List (TVar × Nat))
    (uf : UFState) (components : List Component) :
    (populateOneWay dfsFuel typeVars digraph componentIdxMap uf components).length = components.length ∧
    (∀ i, ((populateOneWay dfsFuel typeVars digraph componentIdxMap uf components).getD i Component.emptyC).typeVars =
      ((components.getD i Component.emptyC).typeVars)) :=
  powOuter_typeVars digraph dfsFuel
    (typeVars.foldl
      (fun st typeVar => outerDFSVisit digraph componentIdxMap dfsFuel typeVar st)
      (⟨[], uf, List.replicate components.length []⟩ : OuterDFSState)).orders
    (List.range components.length) components

end CG

namespace CG

/-- `getComponents` returns the components assembled by its second fold,
with the same count and the same per-slot `typeVars` lists (the one-way
post-pass only fills in `oneWayComponents`). -/
theorem getComponents_typeVars (env : CSEnv) (g : Graph) (typeVars : List TVar)
    (dfsFuel : Nat) (cc : CCData) :
    (getComponents env g typeVars dfsFuel cc).length =
      (typeVars.foldl
          (fun (st : AssembleState) typeVar =>
                let r := st.uf.findRepresentative typeVar
                let st := { st with uf := r.2 }
                if r.1 ∈ (typeVars.foldl
                    (fun (st : List TVar × UFState) typeVar =>
                      match env.fixedType typeVar with
                      | some _ => st
                      | none =>
                        let r := st.2.findRepresentative typeVar
                        (if r.1 ∈ st.1 then st.1 else st.1 ++ [r.1], r.2))
                    (([] : List TVar), cc.uf)).1 then
                  let p :=
                    match assocFind st.componentIdxMap r.1 with
                    | some idx => (st, idx)
                    | none =>
                      ({ st with
                         componentIdxMap := st.componentIdxMap ++ [(r.1, st.componentIdxMap.length)],
                         components := st.components ++ [Component.emptyC] },
                       st.componentIdxMap.length)
                  let st1 := p.1
                  let componentIdx := p.2
                  let comp := st1.components.getD componentIdx Component.emptyC
                  let comps2 := st1.components.set componentIdx { comp with typeVars := comp.typeVars ++ [typeVar] }
                  let st2 := { st1 with components := comps2 }
                  (g.nodes typeVar).constraints.foldl
                    (fun (st : AssembleState) constraint =>
                      if constraint ∈ st.knownConstraints then st
                      else
                        let comp := st.components.getD componentIdx Component.emptyC
                        let comps3 := st.components.set componentIdx { comp with constraints := comp.constraints ++ [constraint] }
                        { st with
                          knownConstraints := constraint :: st.knownConstraints,
                          components := comps3 })
                    st2
                else st)
          (⟨[], [], [], (typeVars.foldl
              (fun (st : List TVar × UFState) typeVar =>
                match env.fixedType typeVar with
                | some _ => st
                | none =>
                  let r := st.2.findRepresentative typeVar
                  (if r.1 ∈ st.1 then st.1 else st.1 ++ [r.1], r.2))
              (([] : List TVar), cc.uf)).2⟩ : AssembleState)).components.length ∧
    (∀ i, ((getComponents env g typeVars dfsFuel cc).getD i Component.emptyC).typeVars =
      (((typeVars.foldl
          (fun (st : AssembleState) typeVar =>
                let r := st.uf.findRepresentative typeVar
                let st := { st with uf := r.2 }
                if r.1 ∈ (typeVars.foldl
                    (fun (st : List TVar × UFState) typeVar =>
                      match env.fixedType typeVar with
                      | some _ => st
                      | none =>
                        let r := st.2.findRepresentative typeVar
                        (if r.1 ∈ st.1 then st.1 else st.1 ++ [r.1], r.2))
                    (([] : List TVar), cc.uf)).1 then
                  let p :=
                    match assocFind st.componentIdxMap r.1 with
                    | some idx => (st, idx)
                    | none =>
                      ({ st with
                         componentIdxMap := st.componentIdxMap ++ [(r.1, st.componentIdxMap.length)],
                         components := st.components ++ [Component.emptyC] },
                       st.componentIdxMap.length)
                  let st1 := p.1
                  let componentIdx := p.2
                  let comp := st1.components.getD componentIdx Component.emptyC
                  let comps2 := st1.components.set componentIdx { comp with typeVars := comp.typeVars ++ [typeVar] }
                  let st2 := { st1 with components := comps2 }
                  (g.nodes typeVar).constraints.foldl
                    (fun (st : AssembleState) constraint =>
                      if constraint ∈ st.knownConstraints then st
                      else
                        let comp := st.components.getD componentIdx Component.emptyC
                        let comps3 := st.components.set componentIdx { comp with constraints := comp.constraints ++ [constraint] }
                        { st with
                          knownConstraints := constraint :: st.knownConstraints,
                          components := comps3 })
                    st2
                else st)
          (⟨[], [], [], (typeVars.foldl
              (fun (st : List TVar × UFState) typeVar =>
                match env.fixedType typeVar with
                | some _ => st
                | none =>
                  let r := st.2.findRepresentative typeVar
                  (if r.1 ∈ st.1 then st.1 else st.1 ++ [r.1], r.2))
              (([] : List TVar), cc.uf)).2⟩ : AssembleState)).components.getD i Component.emptyC).typeVars)) := by
  unfold getComponents
  dsimp only []
  split
  · exact ⟨rfl, fun i => rfl⟩
  · exact populateOneWay_typeVars _ _ _ _ _ _

end CG

namespace CG

/-- **C3 (amended).** For every environment, graph and input list `V`,
two members of `V` that the environment leaves unbound lie together in
some component reported by `computeConnectedComponents` exactly when they
are connected by the equivalence closure of the single-step relation
`Edge`, whose edges run from each walked variable to the members of its
representative's equivalence class and of its fixed bindings, and from
the first variable mentioned by each of its constraints (one-way or not)
to the other mentioned variables; intermediate variables need not lie in
`V`. -/
theorem c3_component_characterization (env : CSEnv) (g : Graph) (V : List TVar)
    (a b : TVar) (ha : a ∈ V) (hb : b ∈ V)
    (hfa : env.fixedType a = none) (hfb : env.fixedType b = none) :
    (∃ comp ∈ computeConnectedComponents env g V,
        a ∈ comp.typeVars ∧ b ∈ comp.typeVars) ↔
      Relation.EqvGen (Edge env g V) a b := by
  obtain ⟨hufcc, hiff⟩ := ccConstruct_spec env g V
  obtain ⟨p1, p2, p3, p4⟩ :=
    pAFold_spec env V ((([] : List TVar), (ccConstruct env g V).uf)) hufcc
  obtain ⟨⟨q1, q2, q3, q4, q5⟩, m2, m3, cov⟩ :=
    asmFold_spec g
      (V.foldl
          (fun (st : List TVar × UFState) typeVar =>
            match env.fixedType typeVar with
            | some _ => st
            | none =>
              let r := st.2.findRepresentative typeVar
              (if r.1 ∈ st.1 then st.1 else st.1 ++ [r.1], r.2))
          (([] : List TVar), (ccConstruct env g V).uf)).1
      (rootOf (ccConstruct env g V).uf) V
      (⟨[], [], [], (V.foldl
          (fun (st : List TVar × UFState) typeVar =>
            match env.fixedType typeVar with
            | some _ => st
            | none =>
              let r := st.2.findRepresentative typeVar
              (if r.1 ∈ st.1 then st.1 else st.1 ++ [r.1], r.2))
          (([] : List TVar), (ccConstruct env g V).uf)).2⟩ : AssembleState)
      ⟨p1, p2, rfl, rfl,
       fun tv i h => absurd h (List.not_mem_nil tv)⟩
  obtain ⟨hGlen, hGtv⟩ := getComponents_typeVars env g V
    (dfsFuelFor V (ccConstruct env g V).oneWayDigraph) (ccConstruct env g V)
  have hCC : computeConnectedComponents env g V =
      getComponents env g V (dfsFuelFor V (ccConstruct env g V).oneWayDigraph)
        (ccConstruct env g V) := rfl
  rw [← hCC] at hGlen hGtv
  constructor
  · rintro ⟨comp, hcm, hac, hbc⟩
    obtain ⟨i, hilt, hieq⟩ := List.mem_iff_getElem.mp hcm
    have ha2 : a ∈ ((computeConnectedComponents env g V).getD i Component.emptyC).typeVars := by
      rw [getD_eq_getElem_of_lt _ _ _ hilt, hieq]
      exact hac
    have hb2 : b ∈ ((computeConnectedComponents env g V).getD i Component.emptyC).typeVars := by
      rw [getD_eq_getElem_of_lt _ _ _ hilt, hieq]
      exact hbc
    rw [hGtv i] at ha2 hb2
    obtain ⟨hca, hfa2⟩ := q5 a i ha2
    obtain ⟨hcb, hfb2⟩ := q5 b i hb2
    exact (hiff a b).mp (assocFind_value_inj q3 hfa2 hfb2)
  · intro heqv
    have hroot : rootOf (ccConstruct env g V).uf a = rootOf (ccConstruct env g V).uf b :=
      (hiff a b).mpr heqv
    obtain ⟨i, hia, hia2⟩ := cov a ha (p4 a ha hfa)
    obtain ⟨j, hjb, hjb2⟩ := cov b hb (p4 b hb hfb)
    have h1 := hia
    rw [hroot] at h1
    rw [h1] at hjb
    have hij : i = j := Option.some.inj hjb
    subst hij
    have hmaplt := assocFind_bound q3 hia
    have hclt : i < (computeConnectedComponents env g V).length := by
      rw [hGlen, q4]
      exact hmaplt
    refine ⟨(computeConnectedComponents env g V).getD i Component.emptyC, ?_, ?_, ?_⟩
    · rw [getD_eq_getElem_of_lt _ _ _ hclt]
      exact List.getElem_mem _
    · rw [hGtv i]
      exact hia2
    · rw [hGtv i]
      exact hjb2

end CG

namespace CG

/-- Constraint mentioning variables `1` and `3` (id 40). -/
def cC3a : Constraint := ⟨40, ConstraintKind.Other, [1, 3], Ty.base 0, Ty.base 0⟩

/-- Constraint mentioning variables `2` and `3` (id 41). -/
def cC3b : Constraint := ⟨41, ConstraintKind.Other, [2, 3], Ty.base 0, Ty.base 0⟩

/-- Nodes `1`, `2`, `3` with singleton equivalence classes and no fixed
bindings; `cC3a` joins `1` with `3` and `cC3b` joins `2` with `3`. -/
def graphC3 : Graph :=
  { typeVariables := [1, 2, 3]
    nodes := fun v =>
      if v = 1 then ⟨[cC3a], [1], []⟩
      else if v = 2 then ⟨[cC3b], [2], []⟩
      else if v = 3 then ⟨[cC3a, cC3b], [3], []⟩
      else CGNode.empty
    hasNode := fun v => v == 1 || v == 2 || v == 3
    graphIndex := fun v => if v = 1 then 0 else if v = 2 then 1 else 2
    orphanedConstraints := []
    changes := []
    activeScope := false }

/-- The claim's connectivity relation, transcribed from its words: an
undirected graph **on `V`** whose edges join variables in the same
equivalence class, variables appearing in each other's fixed bindings,
and variables mentioned together by a constraint. -/
def edgeClaimed (env : CSEnv) (g : Graph) (V : List TVar) (x y : TVar) : Prop :=
  x ∈ V ∧ y ∈ V ∧
    (y ∈ (g.nodes (env.rep x)).equivalenceClass ∨
     y ∈ (g.nodes x).fixedBindings ∨
     ∃ c ∈ (g.nodes x).constraints, x ∈ c.typeVars ∧ y ∈ c.typeVars)

/-- A relation contained in equality generates an equivalence contained in
equality. -/
theorem eqvGen_diag {α : Type} {E : α → α → Prop} (h : ∀ x y, E x y → x = y) :
    ∀ a b, Relation.EqvGen E a b → a = b := by
  intro a b hg
  induction hg with
  | rel x y hxy => exact h x y hxy
  | refl x => rfl
  | symm x y hxy ih => exact ih.symm
  | trans x y z h1 h2 ih1 ih2 => exact ih1.trans ih2

/-- **C3 counterexample.** With `V = [1, 2]` on `graphC3`, the code reports
`1` and `2` in the same component (they are joined through variable `3`,
which is outside `V`), yet the claim's undirected graph on `V` has no
edge at all between distinct variables, so its connectivity relation does
not relate `1` and `2`. -/
theorem c3_counterexample :
    (∃ comp ∈ computeConnectedComponents envId graphC3 [1, 2],
        1 ∈ comp.typeVars ∧ 2 ∈ comp.typeVars) ∧
    ¬ Relation.EqvGen (edgeClaimed envId graphC3 [1, 2]) 1 2 := by
  constructor
  · exact ⟨(computeConnectedComponents envId graphC3 [1, 2]).getD 0 Component.emptyC,
      by decide, by decide, by decide⟩
  · intro hg
    have hdiag : ∀ x y, edgeClaimed envId graphC3 [1, 2] x y → x = y := by
      intro x y h
      obtain ⟨hx, hy, hcase⟩ := h
      have hx2 : x = 1 ∨ x = 2 := by simpa using hx
      have hy2 : y = 1 ∨ y = 2 := by simpa using hy
      rcases hx2 with rfl | rfl <;> rcases hy2 with rfl | rfl
      · rfl
      · exfalso
        revert hcase
        decide
      · exfalso
        revert hcase
        decide
      · rfl
    exact absurd (eqvGen_diag hdiag 1 2 hg) (by decide)

theorem c3_component_characterization_witness :
    ((1 : TVar) ∈ ([1, 2] : List TVar) ∧ (2 : TVar) ∈ ([1, 2] : List TVar) ∧
      envId.fixedType 1 = none ∧ envId.fixedType 2 = none) ∧
    (∃ comp ∈ computeConnectedComponents envId graphC3 [1, 2],
        1 ∈ comp.typeVars ∧ 2 ∈ comp.typeVars) :=
  ⟨⟨by decide, by decide, rfl, rfl⟩,
   (c3_component_characterization envId graphC3 [1, 2] 1 2 (by decide) (by decide) rfl rfl).mpr
     (Relation.EqvGen.trans 1 3 2
       (Relation.EqvGen.rel 1 3 ⟨1, by decide, Or.inr ⟨cC3a, by decide, [3], rfl, by decide⟩⟩)
       (Relation.EqvGen.symm 2 3
         (Relation.EqvGen.rel 2 3 ⟨2, by decide, Or.inr ⟨cC3b, by decide, [3], rfl, by decide⟩⟩)))⟩

end CG

namespace CG

/-! ### Claim C10: removal during unwinding always hits the last slot -/

/-- The variables recorded by the `AddedTypeVariable` entries of a journal
segment, in order. -/
def addedVarsOf (es : List Change) : List TVar :=
  es.filterMap (fun e => match e with
    | Change.addedTypeVariable tv => some tv
    | _ => none)

/-- The variables a journal entry's undo touches. -/
def entryMentions : Change → List TVar
  | .addedTypeVariable tv => [tv]
  | .addedConstraint c => c.typeVars
  | .removedConstraint c => c.typeVars
  | .extendedEquivalenceClass tv _ => [tv]
  | .boundTypeVariable tv fixed => tv :: fixed.typeVarsList

theorem addedVarsOf_append (S T : List Change) :
    addedVarsOf (S ++ T) = addedVarsOf S ++ addedVarsOf T :=
  List.filterMap_append _ _ _

/-- The journal/vector correspondence maintained from a scope's opening:
relative to the opening state's variable list `base` and journal `P`, the
journal extends `P` by a suffix `S`, the variable vector extends `base` by
exactly the variables journalled as added in `S` (in order), the vector is
duplicate-free, every live variable's stored graph index equals its slot,
`hasNode` matches vector membership, and every entry of `S` mentions only
variables that are in `base` or were added at or before that entry. -/
def JInv (base : List TVar) (P : List Change) (g : Graph) : Prop :=
  ∃ S : List Change,
    g.changes = P ++ S ∧
    g.typeVariables = base ++ addedVarsOf S ∧
    g.typeVariables.Nodup ∧
    (∀ i, i < g.typeVariables.length → g.graphIndex (g.typeVariables.getD i 0) = i) ∧
    (∀ v, g.hasNode v = true ↔ v ∈ g.typeVariables) ∧
    (∀ i, i < S.length → ∀ v ∈ entryMentions (S.getD i (Change.addedTypeVariable 0)),
      v ∈ base ∨ v ∈ addedVarsOf (S.take (i + 1)))

/-- A live lookup is the identity, for every fuel. -/
theorem nodeOpGo_lookup_live (env : CSEnv) (fuel : Nat) (tv : TVar) (g : Graph)
    (h : g.hasNode tv = true) : nodeOpGo env fuel (.lookup tv) g = g := by
  cases fuel with
  | zero =>
    rw [nodeOpGo_lookup_zero, if_pos h]
  | succ f =>
    rw [nodeOpGo_lookup_succ, if_pos h]

end CG

namespace CG

/-- `JInv` only depends on the journal, the vector, `hasNode` and the
stored indices. -/
theorem JInv_stable {base : List TVar} {P : List Change} {g g' : Graph}
    (hc : g'.changes = g.changes) (ht : g'.typeVariables = g.typeVariables)
    (hh : g'.hasNode = g.hasNode) (hi : g'.graphIndex = g.graphIndex)
    (h : JInv base P g) : JInv base P g' := by
  obtain ⟨S, h1, h2, h3, h4, h5, h6⟩ := h
  refine ⟨S, hc.trans h1, ht.trans h2, ?_, ?_, ?_, h6⟩
  · rw [ht]
    exact h3
  · intro i hlt
    rw [ht] at hlt ⊢
    rw [hi]
    exact h4 i hlt
  · intro v
    rw [hh, ht]
    exact h5 v

/-- Node creation under an active scope preserves the correspondence: the
variable is appended to the vector and journalled. -/
theorem JInv_createNode {base : List TVar} {P : List Change} {g : Graph} (tv : TVar)
    (hnt : g.hasNode tv = false) (hact : g.activeScope = true)
    (h : JInv base P g) : JInv base P (createNode g tv) := by
  obtain ⟨S, h1, h2, h3, h4, h5, h6⟩ := h
  have htv : tv ∉ g.typeVariables := fun hmem => by
    rw [(h5 tv).mpr hmem] at hnt
    cases hnt
  refine ⟨S ++ [Change.addedTypeVariable tv], ?_, ?_, ?_, ?_, ?_, ?_⟩
  · show (if g.activeScope then g.changes ++ [Change.addedTypeVariable tv] else g.changes) = _
    rw [if_pos hact, h1, List.append_assoc]
  · show g.typeVariables ++ [tv] = base ++ addedVarsOf (S ++ [Change.addedTypeVariable tv])
    rw [addedVarsOf_append, h2, List.append_assoc]
    rfl
  · show (g.typeVariables ++ [tv]).Nodup
    rw [List.nodup_append]
    exact ⟨h3, List.nodup_singleton tv,
      fun a ha hb => htv (List.mem_singleton.mp hb ▸ ha)⟩
  · intro i hlt
    show upd g.graphIndex tv g.typeVariables.length ((g.typeVariables ++ [tv]).getD i 0) = i
    have hlen : (g.typeVariables ++ [tv]).length = g.typeVariables.length + 1 := by simp
    rw [show (createNode g tv).typeVariables = g.typeVariables ++ [tv] from rfl, hlen] at hlt
    rcases Nat.lt_succ_iff_lt_or_eq.mp hlt with hlt2 | heq
    · rw [getD_append_left _ _ _ _ hlt2]
      have hmem : g.typeVariables.getD i 0 ∈ g.typeVariables := by
        rw [getD_eq_getElem_of_lt _ _ _ hlt2]
        exact List.getElem_mem _
      have hne : g.typeVariables.getD i 0 ≠ tv := fun he => htv (he ▸ hmem)
      rw [upd_other _ _ _ hne]
      exact h4 i hlt2
    · subst heq
      rw [getD_last_append, upd_same]
  · intro v
    show upd g.hasNode tv true v = true ↔ v ∈ g.typeVariables ++ [tv]
    by_cases hv : v = tv
    · subst hv
      rw [upd_same]
      simp
    · rw [upd_other _ _ _ hv, List.mem_append, List.mem_singleton]
      constructor
      · intro hh
        exact Or.inl ((h5 v).mp hh)
      · rintro (hh | hh)
        · exact (h5 v).mpr hh
        · exact absurd hh hv
  · intro i hlt v hvm
    have hlen : (S ++ [Change.addedTypeVariable tv]).length = S.length + 1 := by simp
    rw [hlen] at hlt
    rcases Nat.lt_succ_iff_lt_or_eq.mp hlt with hlt2 | heq
    · rw [getD_append_left _ _ _ _ hlt2] at hvm
      rcases h6 i hlt2 v hvm with hb | ha
      · exact Or.inl hb
      · refine Or.inr ?_
        rw [List.take_append_of_le_length (by omega)]
        exact ha
    · subst heq
      rw [getD_last_append] at hvm
      have hveq : v = tv := List.mem_singleton.mp hvm
      subst hveq
      refine Or.inr ?_
      rw [List.take_of_length_le (by simp), addedVarsOf_append]
      exact List.mem_append.mpr (Or.inr (List.mem_singleton.mpr rfl))

/-- Appending a non-`AddedTypeVariable` journal entry that mentions only
live variables preserves the correspondence. -/
theorem JInv_appendEntry {base : List TVar} {P : List Change} {g : Graph} (e : Change)
    (hadd : addedVarsOf [e] = [])
    (hm : ∀ v ∈ entryMentions e, v ∈ g.typeVariables)
    (h : JInv base P g) : JInv base P { g with changes := g.changes ++ [e] } := by
  obtain ⟨S, h1, h2, h3, h4, h5, h6⟩ := h
  refine ⟨S ++ [e], ?_, ?_, h3, h4, h5, ?_⟩
  · show g.changes ++ [e] = P ++ (S ++ [e])
    rw [h1, List.append_assoc]
  · rw [addedVarsOf_append, hadd, List.append_nil]
    exact h2
  · intro i hlt v hvm
    have hlen : (S ++ [e]).length = S.length + 1 := by simp
    rw [hlen] at hlt
    rcases Nat.lt_succ_iff_lt_or_eq.mp hlt with hlt2 | heq
    · rw [getD_append_left _ _ _ _ hlt2] at hvm
      rcases h6 i hlt2 v hvm with hb | ha
      · exact Or.inl hb
      · refine Or.inr ?_
        rw [List.take_append_of_le_length (by omega)]
        exact ha
    · subst heq
      rw [getD_last_append] at hvm
      have hlive := hm v hvm
      rw [h2] at hlive
      rcases List.mem_append.mp hlive with hb | ha
      · exact Or.inl hb
      · refine Or.inr ?_
        rw [List.take_of_length_le (by simp), addedVarsOf_append, hadd, List.append_nil]
        exact ha

end CG

namespace CG

/-- The `bindTypeVariable` loop never destroys a node. -/
theorem bindFold_hasNode_mono (env : CSEnv) (f : Nat) (typeVar : TVar) (l : List TVar) :
    ∀ (st : Graph × List TVar) (v : TVar), st.1.hasNode v = true →
      ((l.foldl (fun (st : Graph × List TVar) otherTypeVar =>
          if otherTypeVar ∈ st.2 then st
          else
            if typeVar = otherTypeVar then (st.1, otherTypeVar :: st.2)
            else
              let ga := nodeOpGo env f (.lookup otherTypeVar) st.1
              (addFixedPair ga typeVar otherTypeVar, otherTypeVar :: st.2)) st).1).hasNode v = true := by
  induction l with
  | nil =>
    intro st v h
    exact h
  | cons y rest ih =>
    intro st v h
    rw [List.foldl_cons]
    apply ih
    simp only []
    by_cases h1 : y ∈ st.2
    · rw [if_pos h1]
      exact h
    · rw [if_neg h1]
      by_cases h2 : typeVar = y
      · rw [if_pos h2]
        exact h
      · rw [if_neg h2]
        exact (nodeOpGo_frame env f _ st.1).1.2.2.1 v h

/-- After the `bindTypeVariable` loop, every walked variable has a node. -/
theorem bindFold_cover (env : CSEnv) (f : Nat) (typeVar : TVar) (l : List TVar) :
    ∀ st : Graph × List TVar,
      st.1.hasNode typeVar = true → (∀ x ∈ st.2, st.1.hasNode x = true) →
      ∀ x ∈ l, ((l.foldl (fun (st : Graph × List TVar) otherTypeVar =>
          if otherTypeVar ∈ st.2 then st
          else
            if typeVar = otherTypeVar then (st.1, otherTypeVar :: st.2)
            else
              let ga := nodeOpGo env f (.lookup otherTypeVar) st.1
              (addFixedPair ga typeVar otherTypeVar, otherTypeVar :: st.2)) st).1).hasNode x = true := by
  induction l with
  | nil =>
    intro st h1 h2 x hx
    exact absurd hx (List.not_mem_nil x)
  | cons y rest ih =>
    intro st h1 h2 x hx
    rw [List.foldl_cons]
    by_cases hm : y ∈ st.2
    · rw [if_pos hm]
      rcases List.mem_cons.mp hx with rfl | hxr
      · exact bindFold_hasNode_mono env f typeVar rest st x (h2 x hm)
      · exact ih st h1 h2 x hxr
    · rw [if_neg hm]
      by_cases heq : typeVar = y
      · rw [if_pos heq]
        have h2b : ∀ z ∈ y :: st.2, st.1.hasNode z = true := by
          intro z hz
          rcases List.mem_cons.mp hz with rfl | hzr
          · rw [← heq]
            exact h1
          · exact h2 z hzr
        rcases List.mem_cons.mp hx with rfl | hxr
        · exact bindFold_hasNode_mono env f typeVar rest
            ((st.1, x :: st.2) : Graph × List TVar) x (by rw [← heq]; exact h1)
        · exact ih ((st.1, y :: st.2) : Graph × List TVar) h1 h2b x hxr
      · rw [if_neg heq]
        have hya : (nodeOpGo env f (.lookup y) st.1).hasNode y = true :=
          (nodeOpGo_frame env f _ st.1).2 y rfl
        have hta : (nodeOpGo env f (.lookup y) st.1).hasNode typeVar = true :=
          (nodeOpGo_frame env f _ st.1).1.2.2.1 typeVar h1
        have h2b : ∀ z ∈ y :: st.2,
            (addFixedPair (nodeOpGo env f (.lookup y) st.1) typeVar y).hasNode z = true := by
          intro z hz
          rcases List.mem_cons.mp hz with rfl | hzr
          · exact hya
          · exact (nodeOpGo_frame env f _ st.1).1.2.2.1 z (h2 z hzr)
        rcases List.mem_cons.mp hx with rfl | hxr
        · exact bindFold_hasNode_mono env f typeVar rest
            ((addFixedPair (nodeOpGo env f (.lookup x) st.1) typeVar x, x :: st.2) :
              Graph × List TVar) x hya
        · exact ih ((addFixedPair (nodeOpGo env f (.lookup y) st.1) typeVar y, y :: st.2) :
              Graph × List TVar) hta h2b x hxr

end CG

namespace CG

/-- The node-creating operations preserve the journal/vector
correspondence while a scope is active. -/
theorem nodeOpGo_JInv (env : CSEnv) (base : List TVar) (P : List Change) :
    ∀ (fuel : Nat) (o : NodeOp) (g : Graph),
      g.activeScope = true → JInv base P g → JInv base P (nodeOpGo env fuel o g) := by
  intro fuel
  induction fuel with
  | zero =>
    intro o g hact h
    cases o with
    | lookup tv =>
      rw [nodeOpGo_lookup_zero]
      by_cases hh : g.hasNode tv
      · rwa [if_pos hh]
      · rw [if_neg hh]
        exact JInv_createNode tv (by simpa using hh) hact h
    | merge a b => exact h
    | bind tv t => exact h
  | succ f ih =>
    intro o g hact h
    cases o with
    | lookup tv =>
      rw [nodeOpGo_lookup_succ]
      by_cases hh : g.hasNode tv
      · rwa [if_pos hh]
      · rw [if_neg hh]
        have hnt : g.hasNode tv = false := by simpa using hh
        have h1 : JInv base P (createNode g tv) := JInv_createNode tv hnt hact h
        have hact1 : (createNode g tv).activeScope = true := hact
        by_cases hrep : tv ≠ env.rep tv
        · rw [if_pos hrep]
          exact ih _ _ hact1 h1
        · rw [if_neg hrep]
          cases hft : env.fixedType (env.rep tv) with
          | some fixed => exact ih _ _ hact1 h1
          | none => exact h1
    | merge a b =>
      rw [nodeOpGo_merge_succ]
      simp only []
      have h1 : JInv base P (nodeOpGo env f (.lookup (env.rep a)) g) := ih _ _ hact h
      have hact1 : (nodeOpGo env f (.lookup (env.rep a)) g).activeScope = true :=
        ((nodeOpGo_frame env f _ g).1.1).trans hact
      have hlive1 : (nodeOpGo env f (.lookup (env.rep a)) g).hasNode (env.rep a) = true :=
        (nodeOpGo_frame env f _ g).2 _ rfl
      set g1 := nodeOpGo env f (.lookup (env.rep a)) g with hg1
      set g2 :=
        (if g1.activeScope then
          { g1 with changes := g1.changes ++
              [Change.extendedEquivalenceClass (env.rep a)
                (g1.nodes (env.rep a)).equivalenceClass.length] }
         else g1) with hg2
      have h2 : JInv base P g2 := by
        rw [hg2, if_pos hact1]
        apply JInv_appendEntry
          (Change.extendedEquivalenceClass (env.rep a)
            (g1.nodes (env.rep a)).equivalenceClass.length) rfl _ h1
        intro v hv
        obtain ⟨S, _, _, _, _, h5, _⟩ := h1
        rw [show v = env.rep a from List.mem_singleton.mp hv]
        exact (h5 _).mp hlive1
      have hact2 : g2.activeScope = true := by
        rw [hg2, if_pos hact1]
        exact hact1
      have h3 : JInv base P (nodeOpGo env f (.lookup (if a = env.rep a then b else a)) g2) :=
        ih _ _ hact2 h2
      exact JInv_stable rfl rfl rfl rfl h3
    | bind typeVar fixed =>
      rw [nodeOpGo_bind_succ]
      simp only []
      by_cases hv : (!fixed.hasTypeVariable) = true
      · rwa [if_pos hv]
      · rw [if_neg hv]
        have h1 : JInv base P (nodeOpGo env f (.lookup typeVar) g) := ih _ _ hact h
        have hact1 : (nodeOpGo env f (.lookup typeVar) g).activeScope = true :=
          ((nodeOpGo_frame env f _ g).1.1).trans hact
        have hlive1 : (nodeOpGo env f (.lookup typeVar) g).hasNode typeVar = true :=
          (nodeOpGo_frame env f _ g).2 typeVar rfl
        set g1 := nodeOpGo env f (.lookup typeVar) g with hg1
        have hcov := bindFold_cover env f typeVar fixed.typeVarsList
          ((g1, ([] : List TVar)) : Graph × List TVar) hlive1
          (fun x hx => absurd hx (List.not_mem_nil x))
        have main := foldl_invariant
          (fun (st : Graph × List TVar) =>
            JInv base P st.1 ∧ st.1.activeScope = true ∧ st.1.hasNode typeVar = true)
          (fun (st : Graph × List TVar) otherTypeVar =>
                if otherTypeVar ∈ st.2 then st
                else
                  if typeVar = otherTypeVar then (st.1, otherTypeVar :: st.2)
                  else
                    let ga := nodeOpGo env f (.lookup otherTypeVar) st.1
                    (addFixedPair ga typeVar otherTypeVar, otherTypeVar :: st.2))
          fixed.typeVarsList ((g1, ([] : List TVar)) : Graph × List TVar)
          ⟨h1, hact1, hlive1⟩ ?step
        case step =>
          intro st x hx hst
          simp only []
          by_cases hmem : x ∈ st.2
          · rw [if_pos hmem]
            exact hst
          · rw [if_neg hmem]
            by_cases heq : typeVar = x
            · rw [if_pos heq]
              exact hst
            · rw [if_neg heq]
              obtain ⟨ha1, ha2, ha3⟩ := hst
              have hb1 : JInv base P (nodeOpGo env f (.lookup x) st.1) := ih _ _ ha2 ha1
              have hb2 : (nodeOpGo env f (.lookup x) st.1).activeScope = true :=
                ((nodeOpGo_frame env f _ st.1).1.1).trans ha2
              have hb3 : (nodeOpGo env f (.lookup x) st.1).hasNode typeVar = true :=
                (nodeOpGo_frame env f _ st.1).1.2.2.1 typeVar ha3
              exact ⟨JInv_stable rfl rfl rfl rfl hb1, hb2, hb3⟩
        set stF := fixed.typeVarsList.foldl
          (fun (st : Graph × List TVar) otherTypeVar =>
                if otherTypeVar ∈ st.2 then st
                else
                  if typeVar = otherTypeVar then (st.1, otherTypeVar :: st.2)
                  else
                    let ga := nodeOpGo env f (.lookup otherTypeVar) st.1
                    (addFixedPair ga typeVar otherTypeVar, otherTypeVar :: st.2))
          ((g1, ([] : List TVar)) : Graph × List TVar) with hstF
        obtain ⟨hm1, hm2, hm3⟩ := main
        rw [if_pos hm2]
        apply JInv_appendEntry (Change.boundTypeVariable typeVar fixed) rfl _ hm1
        intro v hvm
        obtain ⟨S, _, _, _, _, h5F, _⟩ := hm1
        rcases List.mem_cons.mp hvm with rfl | hvr
        · exact (h5F v).mp hm3
        · exact (h5F v).mp (hcov v hvr)

end CG

namespace CG

/-- The per-variable fold shared by `addConstraint` and `removeConstraint`
(look the node up, then modify it in place) preserves the journal/vector
correspondence, keeps the scope flag, never destroys a node, and leaves
every walked variable with a node. -/
theorem consFold_JInv (base : List TVar) (P : List Change) (env : CSEnv)
    (fuel : Nat) (F : CGNode → CGNode) (l : List TVar) :
    ∀ g : Graph, g.activeScope = true → JInv base P g →
      (l.foldl (fun g tv =>
          let ga := lookupNode env fuel g tv
          ga.modifyNode tv F) g).activeScope = true ∧
      JInv base P (l.foldl (fun g tv =>
          let ga := lookupNode env fuel g tv
          ga.modifyNode tv F) g) ∧
      (∀ v, g.hasNode v = true → (l.foldl (fun g tv =>
          let ga := lookupNode env fuel g tv
          ga.modifyNode tv F) g).hasNode v = true) ∧
      (∀ tv ∈ l, (l.foldl (fun g tv =>
          let ga := lookupNode env fuel g tv
          ga.modifyNode tv F) g).hasNode tv = true) := by
  induction l with
  | nil =>
    intro g hact h
    exact ⟨hact, h, fun v hv => hv, fun tv htv => absurd htv (List.not_mem_nil tv)⟩
  | cons y rest ih =>
    intro g hact h
    rw [List.foldl_cons]
    have hLa : JInv base P (lookupNode env fuel g y) :=
      nodeOpGo_JInv env base P fuel _ g hact h
    have hLact : (lookupNode env fuel g y).activeScope = true :=
      ((nodeOpGo_frame env fuel _ g).1.1).trans hact
    have hLy : (lookupNode env fuel g y).hasNode y = true :=
      (nodeOpGo_frame env fuel _ g).2 y rfl
    obtain ⟨i1, i2, i3, i4⟩ := ih ((lookupNode env fuel g y).modifyNode y F)
      hLact (JInv_stable rfl rfl rfl rfl hLa)
    refine ⟨i1, i2, ?_, ?_⟩
    · intro v hv
      apply i3
      exact (nodeOpGo_frame env fuel _ g).1.2.2.1 v hv
    · intro tv htv
      rcases List.mem_cons.mp htv with rfl | hr
      · exact i3 tv hLy
      · exact i4 tv hr

/-- `addConstraint` preserves the journal/vector correspondence while a
scope is active. -/
theorem addConstraintOp_JInv (base : List TVar) (P : List Change) (env : CSEnv)
    (fuel : Nat) (g : Graph) (c : Constraint)
    (hact : g.activeScope = true) (h : JInv base P g) :
    JInv base P (addConstraintOp env fuel g c) ∧
    (addConstraintOp env fuel g c).activeScope = true := by
  unfold addConstraintOp
  dsimp only []
  refine ⟨?_, ?_⟩
  · split
    · split
      · obtain ⟨i1, i2, i3, i4⟩ := consFold_JInv base P env fuel
          (fun n => { n with constraints := n.constraints ++ [c] }) c.typeVars g hact h
        obtain ⟨S, h1, h2, h3, h4, h5, h6⟩ := i2
        apply JInv_appendEntry (Change.addedConstraint c) rfl
        · intro v hv
          exact (h5 v).mp (i4 v hv)
        · exact JInv_stable rfl rfl rfl rfl ⟨S, h1, h2, h3, h4, h5, h6⟩
      · obtain ⟨i1, i2, i3, i4⟩ := consFold_JInv base P env fuel
          (fun n => { n with constraints := n.constraints ++ [c] }) c.typeVars g hact h
        exact JInv_stable rfl rfl rfl rfl i2
    · split
      · obtain ⟨i1, i2, i3, i4⟩ := consFold_JInv base P env fuel
          (fun n => { n with constraints := n.constraints ++ [c] }) c.typeVars g hact h
        obtain ⟨S, h1, h2, h3, h4, h5, h6⟩ := i2
        apply JInv_appendEntry (Change.addedConstraint c) rfl
        · intro v hv
          exact (h5 v).mp (i4 v hv)
        · exact ⟨S, h1, h2, h3, h4, h5, h6⟩
      · obtain ⟨i1, i2, i3, i4⟩ := consFold_JInv base P env fuel
          (fun n => { n with constraints := n.constraints ++ [c] }) c.typeVars g hact h
        exact i2
  · split
    · split
      · obtain ⟨i1, i2, i3, i4⟩ := consFold_JInv base P env fuel
          (fun n => { n with constraints := n.constraints ++ [c] }) c.typeVars g hact h
        exact i1
      · obtain ⟨i1, i2, i3, i4⟩ := consFold_JInv base P env fuel
          (fun n => { n with constraints := n.constraints ++ [c] }) c.typeVars g hact h
        exact i1
    · split
      · obtain ⟨i1, i2, i3, i4⟩ := consFold_JInv base P env fuel
          (fun n => { n with constraints := n.constraints ++ [c] }) c.typeVars g hact h
        exact i1
      · obtain ⟨i1, i2, i3, i4⟩ := consFold_JInv base P env fuel
          (fun n => { n with constraints := n.constraints ++ [c] }) c.typeVars g hact h
        exact i1

/-- `removeConstraint` preserves the journal/vector correspondence while a
scope is active. -/
theorem removeConstraintOp_JInv (base : List TVar) (P : List Change) (env : CSEnv)
    (fuel : Nat) (g : Graph) (c : Constraint)
    (hact : g.activeScope = true) (h : JInv base P g) :
    JInv base P (removeConstraintOp env fuel g c) ∧
    (removeConstraintOp env fuel g c).activeScope = true := by
  unfold removeConstraintOp
  dsimp only []
  refine ⟨?_, ?_⟩
  · split
    · split
      · obtain ⟨i1, i2, i3, i4⟩ := consFold_JInv base P env fuel
          (fun n => { n with constraints := swapRemove n.constraints c }) c.typeVars g hact h
        obtain ⟨S, h1, h2, h3, h4, h5, h6⟩ := i2
        apply JInv_appendEntry (Change.removedConstraint c) rfl
        · intro v hv
          exact (h5 v).mp (i4 v hv)
        · exact JInv_stable rfl rfl rfl rfl ⟨S, h1, h2, h3, h4, h5, h6⟩
      · obtain ⟨i1, i2, i3, i4⟩ := consFold_JInv base P env fuel
          (fun n => { n with constraints := swapRemove n.constraints c }) c.typeVars g hact h
        exact JInv_stable rfl rfl rfl rfl i2
    · split
      · obtain ⟨i1, i2, i3, i4⟩ := consFold_JInv base P env fuel
          (fun n => { n with constraints := swapRemove n.constraints c }) c.typeVars g hact h
        obtain ⟨S, h1, h2, h3, h4, h5, h6⟩ := i2
        apply JInv_appendEntry (Change.removedConstraint c) rfl
        · intro v hv
          exact (h5 v).mp (i4 v hv)
        · exact ⟨S, h1, h2, h3, h4, h5, h6⟩
      · obtain ⟨i1, i2, i3, i4⟩ := consFold_JInv base P env fuel
          (fun n => { n with constraints := swapRemove n.constraints c }) c.typeVars g hact h
        exact i2
  · split
    · split
      · obtain ⟨i1, i2, i3, i4⟩ := consFold_JInv base P env fuel
          (fun n => { n with constraints := swapRemove n.constraints c }) c.typeVars g hact h
        exact i1
      · obtain ⟨i1, i2, i3, i4⟩ := consFold_JInv base P env fuel
          (fun n => { n with constraints := swapRemove n.constraints c }) c.typeVars g hact h
        exact i1
    · split
      · obtain ⟨i1, i2, i3, i4⟩ := consFold_JInv base P env fuel
          (fun n => { n with constraints := swapRemove n.constraints c }) c.typeVars g hact h
        exact i1
      · obtain ⟨i1, i2, i3, i4⟩ := consFold_JInv base P env fuel
          (fun n => { n with constraints := swapRemove n.constraints c }) c.typeVars g hact h
        exact i1

end CG

namespace CG

/-- A live lookup is the identity (wrapper). -/
theorem lookupNode_live (env : CSEnv) (fuel : Nat) (g : Graph) (tv : TVar)
    (h : g.hasNode tv = true) : lookupNode env fuel g tv = g :=
  nodeOpGo_lookup_live env fuel tv g h

/-- When every walked variable is live, the constraint-list fold only
modifies node contents. -/
theorem consFold_fields (env : CSEnv) (fuel : Nat) (F : CGNode → CGNode) (l : List TVar) :
    ∀ g : Graph, (∀ tv ∈ l, g.hasNode tv = true) →
      (l.foldl (fun g tv => (lookupNode env fuel g tv).modifyNode tv F) g).changes = g.changes ∧
      (l.foldl (fun g tv => (lookupNode env fuel g tv).modifyNode tv F) g).typeVariables = g.typeVariables ∧
      (l.foldl (fun g tv => (lookupNode env fuel g tv).modifyNode tv F) g).hasNode = g.hasNode ∧
      (l.foldl (fun g tv => (lookupNode env fuel g tv).modifyNode tv F) g).graphIndex = g.graphIndex ∧
      (l.foldl (fun g tv => (lookupNode env fuel g tv).modifyNode tv F) g).activeScope = g.activeScope := by
  induction l with
  | nil =>
    intro g hl
    exact ⟨rfl, rfl, rfl, rfl, rfl⟩
  | cons y rest ih =>
    intro g hl
    have hy : g.hasNode y = true := hl y (List.mem_cons_self y rest)
    have hlive : lookupNode env fuel g y = g := lookupNode_live env fuel g y hy
    rw [List.foldl_cons]
    obtain ⟨e1, e2, e3, e4, e5⟩ := ih ((lookupNode env fuel g y).modifyNode y F)
      (fun tv ht => by rw [hlive]; exact hl tv (List.mem_cons_of_mem y ht))
    refine ⟨e1.trans ?_, e2.trans ?_, e3.trans ?_, e4.trans ?_, e5.trans ?_⟩
    all_goals rw [hlive]
    all_goals rfl

/-- With a dead scope and all mentioned variables live, `addConstraint`
changes neither the journal, the vector, `hasNode`, the indices nor the
flag. -/
theorem addConstraintOp_fields (env : CSEnv) (fuel : Nat) (g : Graph) (c : Constraint)
    (hl : ∀ tv ∈ c.typeVars, g.hasNode tv = true) (hact : g.activeScope = false) :
    (addConstraintOp env fuel g c).changes = g.changes ∧
    (addConstraintOp env fuel g c).typeVariables = g.typeVariables ∧
    (addConstraintOp env fuel g c).hasNode = g.hasNode ∧
    (addConstraintOp env fuel g c).graphIndex = g.graphIndex ∧
    (addConstraintOp env fuel g c).activeScope = g.activeScope := by
  unfold addConstraintOp
  dsimp only []
  split
  · split
    · rename_i hsc
      exfalso
      obtain ⟨e1, e2, e3, e4, e5⟩ := consFold_fields env fuel
        (fun n => { n with constraints := n.constraints ++ [c] }) c.typeVars g hl
      simp only [] at hsc
      rw [e5, hact] at hsc
      cases hsc
    · obtain ⟨e1, e2, e3, e4, e5⟩ := consFold_fields env fuel
        (fun n => { n with constraints := n.constraints ++ [c] }) c.typeVars g hl
      exact ⟨e1, e2, e3, e4, e5⟩
  · split
    · rename_i hsc
      exfalso
      obtain ⟨e1, e2, e3, e4, e5⟩ := consFold_fields env fuel
        (fun n => { n with constraints := n.constraints ++ [c] }) c.typeVars g hl
      rw [e5, hact] at hsc
      cases hsc
    · obtain ⟨e1, e2, e3, e4, e5⟩ := consFold_fields env fuel
        (fun n => { n with constraints := n.constraints ++ [c] }) c.typeVars g hl
      exact ⟨e1, e2, e3, e4, e5⟩

/-- With a dead scope and all mentioned variables live, `removeConstraint`
changes neither the journal, the vector, `hasNode`, the indices nor the
flag. -/
theorem removeConstraintOp_fields (env : CSEnv) (fuel : Nat) (g : Graph) (c : Constraint)
    (hl : ∀ tv ∈ c.typeVars, g.hasNode tv = true) (hact : g.activeScope = false) :
    (removeConstraintOp env fuel g c).changes = g.changes ∧
    (removeConstraintOp env fuel g c).typeVariables = g.typeVariables ∧
    (removeConstraintOp env fuel g c).hasNode = g.hasNode ∧
    (removeConstraintOp env fuel g c).graphIndex = g.graphIndex ∧
    (removeConstraintOp env fuel g c).activeScope = g.activeScope := by
  unfold removeConstraintOp
  dsimp only []
  split
  · split
    · rename_i hsc
      exfalso
      obtain ⟨e1, e2, e3, e4, e5⟩ := consFold_fields env fuel
        (fun n => { n with constraints := swapRemove n.constraints c }) c.typeVars g hl
      simp only [] at hsc
      rw [e5, hact] at hsc
      cases hsc
    · obtain ⟨e1, e2, e3, e4, e5⟩ := consFold_fields env fuel
        (fun n => { n with constraints := swapRemove n.constraints c }) c.typeVars g hl
      exact ⟨e1, e2, e3, e4, e5⟩
  · split
    · rename_i hsc
      exfalso
      obtain ⟨e1, e2, e3, e4, e5⟩ := consFold_fields env fuel
        (fun n => { n with constraints := swapRemove n.constraints c }) c.typeVars g hl
      rw [e5, hact] at hsc
      cases hsc
    · obtain ⟨e1, e2, e3, e4, e5⟩ := consFold_fields env fuel
        (fun n => { n with constraints := swapRemove n.constraints c }) c.typeVars g hl
      exact ⟨e1, e2, e3, e4, e5⟩

end CG

namespace CG

/-- When every walked variable is live, the `unbindTypeVariable` loop only
modifies node contents. -/
theorem unbindFold_fields (env : CSEnv) (fuel : Nat) (typeVar : TVar) (l : List TVar) :
    ∀ st : Graph × List TVar, (∀ x ∈ l, st.1.hasNode x = true) →
      ((l.foldl (fun (st : Graph × List TVar) otherTypeVar =>
        if otherTypeVar ∈ st.2 then st
        else
          let ga := lookupNode env fuel st.1 otherTypeVar
          (removeFixedPair ga typeVar otherTypeVar, otherTypeVar :: st.2)) st).1).changes = st.1.changes ∧
      ((l.foldl (fun (st : Graph × List TVar) otherTypeVar =>
        if otherTypeVar ∈ st.2 then st
        else
          let ga := lookupNode env fuel st.1 otherTypeVar
          (removeFixedPair ga typeVar otherTypeVar, otherTypeVar :: st.2)) st).1).typeVariables = st.1.typeVariables ∧
      ((l.foldl (fun (st : Graph × List TVar) otherTypeVar =>
        if otherTypeVar ∈ st.2 then st
        else
          let ga := lookupNode env fuel st.1 otherTypeVar
          (removeFixedPair ga typeVar otherTypeVar, otherTypeVar :: st.2)) st).1).hasNode = st.1.hasNode ∧
      ((l.foldl (fun (st : Graph × List TVar) otherTypeVar =>
        if otherTypeVar ∈ st.2 then st
        else
          let ga := lookupNode env fuel st.1 otherTypeVar
          (removeFixedPair ga typeVar otherTypeVar, otherTypeVar :: st.2)) st).1).graphIndex = st.1.graphIndex ∧
      ((l.foldl (fun (st : Graph × List TVar) otherTypeVar =>
        if otherTypeVar ∈ st.2 then st
        else
          let ga := lookupNode env fuel st.1 otherTypeVar
          (removeFixedPair ga typeVar otherTypeVar, otherTypeVar :: st.2)) st).1).activeScope = st.1.activeScope := by
  induction l with
  | nil =>
    intro st hl
    exact ⟨rfl, rfl, rfl, rfl, rfl⟩
  | cons y rest ih =>
    intro st hl
    rw [List.foldl_cons]
    by_cases hm : y ∈ st.2
    · rw [if_pos hm]
      exact ih st (fun x hx => hl x (List.mem_cons_of_mem y hx))
    · rw [if_neg hm]
      have hy : st.1.hasNode y = true := hl y (List.mem_cons_self y rest)
      have hlive : lookupNode env fuel st.1 y = st.1 := lookupNode_live env fuel st.1 y hy
      obtain ⟨e1, e2, e3, e4, e5⟩ := ih
        ((removeFixedPair (lookupNode env fuel st.1 y) typeVar y, y :: st.2) : Graph × List TVar)
        (fun x hx => by
          show (removeFixedPair (lookupNode env fuel st.1 y) typeVar y).hasNode x = true
          rw [hlive]
          exact hl x (List.mem_cons_of_mem y hx))
      refine ⟨e1.trans ?_, e2.trans ?_, e3.trans ?_, e4.trans ?_, e5.trans ?_⟩
      all_goals rw [hlive]
      all_goals rfl

/-- With every mentioned variable live, `unbindTypeVariable` only modifies
node contents. -/
theorem unbindTypeVariable_fields (env : CSEnv) (fuel : Nat) (g : Graph)
    (typeVar : TVar) (fixed : Ty)
    (hl : ∀ x ∈ fixed.typeVarsList, g.hasNode x = true)
    (htv : g.hasNode typeVar = true) :
    (unbindTypeVariable env fuel g typeVar fixed).changes = g.changes ∧
    (unbindTypeVariable env fuel g typeVar fixed).typeVariables = g.typeVariables ∧
    (unbindTypeVariable env fuel g typeVar fixed).hasNode = g.hasNode ∧
    (unbindTypeVariable env fuel g typeVar fixed).graphIndex = g.graphIndex ∧
    (unbindTypeVariable env fuel g typeVar fixed).activeScope = g.activeScope := by
  unfold unbindTypeVariable
  by_cases hft : (!fixed.hasTypeVariable) = true
  · rw [if_pos hft]
    exact ⟨rfl, rfl, rfl, rfl, rfl⟩
  · rw [if_neg hft]
    dsimp only []
    have hlive : lookupNode env fuel g typeVar = g := lookupNode_live env fuel g typeVar htv
    rw [hlive]
    exact unbindFold_fields env fuel typeVar fixed.typeVarsList
      ((g, ([] : List TVar)) : Graph × List TVar) hl

/-- `removeNode` on the variable holding the last slot takes the
`pop_back` branch: the vector just loses its last entry and nothing is
relocated. -/
theorem removeNode_last (g : Graph) (tv : TVar)
    (hidx : g.graphIndex tv = g.typeVariables.length - 1) :
    (removeNode g tv).typeVariables = g.typeVariables.dropLast ∧
    (removeNode g tv).graphIndex = g.graphIndex ∧
    (removeNode g tv).changes = g.changes ∧
    (removeNode g tv).activeScope = g.activeScope ∧
    (removeNode g tv).hasNode = upd g.hasNode tv false := by
  unfold removeNode
  dsimp only []
  rw [if_neg (show ¬ g.graphIndex tv < g.typeVariables.length - 1 from by
    rw [hidx]
    exact Nat.lt_irrefl _)]
  exact ⟨rfl, rfl, rfl, rfl, rfl⟩

end CG

namespace CG

/-- Mention-liveness restricts to a journal prefix. -/
theorem mentLive_front (base : List TVar) (T : List Change) (e : Change)
    (h6 : ∀ i, i < (T ++ [e]).length →
      ∀ v ∈ entryMentions ((T ++ [e]).getD i (Change.addedTypeVariable 0)),
      v ∈ base ∨ v ∈ addedVarsOf ((T ++ [e]).take (i + 1))) :
    ∀ i, i < T.length →
      ∀ v ∈ entryMentions (T.getD i (Change.addedTypeVariable 0)),
      v ∈ base ∨ v ∈ addedVarsOf (T.take (i + 1)) := by
  intro i hlt v hv
  have hb := h6 i (by simp; omega) v
    (by rw [getD_append_left _ _ _ _ hlt]; exact hv)
  rcases hb with hb | ha
  · exact Or.inl hb
  · refine Or.inr ?_
    rw [List.take_append_of_le_length (by omega)] at ha
    exact ha

/-- When the last journal entry in the scope's suffix records a variable
addition, that variable occupies the last slot of the vector and its
stored index points there. -/
theorem JInv_added_facts (base : List TVar) (Pr : List Change) (g : Graph)
    (T : List Change) (tv : TVar)
    (h2 : g.typeVariables = base ++ addedVarsOf (T ++ [Change.addedTypeVariable tv]))
    (h3 : g.typeVariables.Nodup)
    (h4 : ∀ i, i < g.typeVariables.length → g.graphIndex (g.typeVariables.getD i 0) = i) :
    g.typeVariables ≠ [] ∧
    g.typeVariables.getLast? = some tv ∧
    g.graphIndex tv = g.typeVariables.length - 1 ∧
    tv ∉ base ++ addedVarsOf T ∧
    g.typeVariables.dropLast = base ++ addedVarsOf T ∧
    g.typeVariables = (base ++ addedVarsOf T) ++ [tv] := by
  have hav : addedVarsOf (T ++ [Change.addedTypeVariable tv]) = addedVarsOf T ++ [tv] := by
    rw [addedVarsOf_append]
    rfl
  have hTV : g.typeVariables = (base ++ addedVarsOf T) ++ [tv] := by
    rw [h2, hav, ← List.append_assoc]
  have hlen : g.typeVariables.length = (base ++ addedVarsOf T).length + 1 := by
    rw [hTV]
    simp
    omega
  have hgetD : g.typeVariables.getD (g.typeVariables.length - 1) 0 = tv := by
    have hsub : g.typeVariables.length - 1 = (base ++ addedVarsOf T).length := by
      rw [hlen]
      omega
    rw [hsub, hTV, getD_last_append]
  refine ⟨?_, ?_, ?_, ?_, ?_, hTV⟩
  · rw [hTV]
    simp
  · rw [hTV]
    exact List.getLast?_concat _
  · have hi := h4 (g.typeVariables.length - 1) (by omega)
    rw [hgetD] at hi
    exact hi
  · rw [hTV] at h3
    have hd := (List.nodup_append.mp h3).2.2
    intro hmem
    exact hd hmem (List.mem_singleton.mpr rfl)
  · rw [hTV, List.dropLast_concat]

/-- Reassembling the invariant after undoing and popping a
non-`AddedTypeVariable` entry whose undo left the relevant fields
untouched. -/
theorem JInv_undoPop (base : List TVar) (Pr : List Change) (g u : Graph)
    (T : List Change) (e : Change)
    (h1 : g.changes = Pr ++ (T ++ [e]))
    (h2 : g.typeVariables = base ++ addedVarsOf (T ++ [e]))
    (h3 : g.typeVariables.Nodup)
    (h4 : ∀ i, i < g.typeVariables.length → g.graphIndex (g.typeVariables.getD i 0) = i)
    (h5 : ∀ v, g.hasNode v = true ↔ v ∈ g.typeVariables)
    (h6 : ∀ i, i < (T ++ [e]).length →
      ∀ v ∈ entryMentions ((T ++ [e]).getD i (Change.addedTypeVariable 0)),
      v ∈ base ∨ v ∈ addedVarsOf ((T ++ [e]).take (i + 1)))
    (hav : addedVarsOf [e] = [])
    (f1 : u.changes = g.changes) (f2 : u.typeVariables = g.typeVariables)
    (f3 : u.hasNode = g.hasNode) (f4 : u.graphIndex = g.graphIndex) :
    JInv base Pr { u with changes := u.changes.dropLast } ∧
    ({ u with changes := u.changes.dropLast } : Graph).changes.length + 1 = g.changes.length := by
  have hav2 : addedVarsOf (T ++ [e]) = addedVarsOf T := by
    rw [addedVarsOf_append, hav, List.append_nil]
  have hch : u.changes.dropLast = Pr ++ T := by
    rw [f1, h1, ← List.append_assoc, List.dropLast_concat]
  constructor
  · refine ⟨T, hch, ?_, ?_, ?_, ?_, ?_⟩
    · show u.typeVariables = base ++ addedVarsOf T
      rw [f2, h2, hav2]
    · show u.typeVariables.Nodup
      rw [f2]
      exact h3
    · intro i hlt
      show u.graphIndex (u.typeVariables.getD i 0) = i
      rw [f2, f4]
      rw [show ({ u with changes := u.changes.dropLast } : Graph).typeVariables = u.typeVariables from rfl, f2] at hlt
      exact h4 i hlt
    · intro v
      show u.hasNode v = true ↔ v ∈ u.typeVariables
      rw [f2, f3]
      exact h5 v
    · exact mentLive_front base T e h6
  · show u.changes.dropLast.length + 1 = g.changes.length
    rw [hch, h1]
    simp
    omega

end CG

namespace CG

/-- One unwind round preserves the correspondence and pops exactly one
entry, as long as entries of the scope's suffix remain. -/
theorem popUndoStep_JInv (base : List TVar) (Pr : List Change) (env : CSEnv) (fuel : Nat)
    (g : Graph) (h : JInv base Pr g) (hne : Pr.length < g.changes.length) :
    JInv base Pr (popUndoStep env fuel g) ∧
    (popUndoStep env fuel g).changes.length + 1 = g.changes.length := by
  obtain ⟨S, h1, h2, h3, h4, h5, h6⟩ := h
  have hSlen : 0 < S.length := by
    have hcl := congrArg List.length h1
    rw [List.length_append] at hcl
    omega
  have hS : S ≠ [] := by
    intro he
    rw [he] at hSlen
    simp at hSlen
  obtain ⟨T, e, hTe⟩ : ∃ T e, S = T ++ [e] :=
    ⟨S.dropLast, S.getLast hS, (List.dropLast_append_getLast hS).symm⟩
  subst hTe
  have hgl : g.changes.getLast? = some e := by
    rw [h1, ← List.append_assoc]
    exact List.getLast?_concat _
  have hml : ∀ v ∈ entryMentions e, v ∈ g.typeVariables := by
    intro v hv
    have h6e := h6 T.length (by simp) v (by rw [getD_last_append]; exact hv)
    rcases h6e with hb | ha
    · rw [h2]
      exact List.mem_append.mpr (Or.inl hb)
    · rw [h2]
      refine List.mem_append.mpr (Or.inr ?_)
      rw [List.take_of_length_le (by simp)] at ha
      exact ha
  unfold popUndoStep
  rw [hgl]
  dsimp only []
  cases e with
  | addedTypeVariable tv =>
    dsimp only [Change.undo]
    obtain ⟨n1, n2, n3, n4, n5, n6⟩ := JInv_added_facts base Pr g T tv h2 h3 h4
    obtain ⟨r1, r2, r3, r4, r5⟩ := removeNode_last ({ g with activeScope := false }) tv n3
    refine ⟨⟨T, ?_, ?_, ?_, ?_, ?_, mentLive_front base T _ h6⟩, ?_⟩
    · show (removeNode { g with activeScope := false } tv).changes.dropLast = Pr ++ T
      rw [r3]
      show g.changes.dropLast = Pr ++ T
      rw [h1, ← List.append_assoc, List.dropLast_concat]
    · show (removeNode { g with activeScope := false } tv).typeVariables = base ++ addedVarsOf T
      rw [r1]
      exact n5
    · show (removeNode { g with activeScope := false } tv).typeVariables.Nodup
      rw [r1]
      show g.typeVariables.dropLast.Nodup
      exact List.Nodup.sublist (List.dropLast_sublist _) h3
    · intro i hlt
      have hlt2 : i < (removeNode { g with activeScope := false } tv).typeVariables.length := hlt
      rw [r1] at hlt2
      have hlt3 : i < g.typeVariables.dropLast.length := hlt2
      rw [n5] at hlt3
      show (removeNode { g with activeScope := false } tv).graphIndex
        ((removeNode { g with activeScope := false } tv).typeVariables.getD i 0) = i
      rw [r1, r2]
      show g.graphIndex (g.typeVariables.dropLast.getD i 0) = i
      rw [n5, ← getD_append_left (base ++ addedVarsOf T) [tv] i 0 hlt3, ← n6]
      apply h4
      have hgl2 : g.typeVariables.length = (base ++ addedVarsOf T).length + 1 := by
        rw [n6]
        simp
        omega
      omega
    · intro v
      show (removeNode { g with activeScope := false } tv).hasNode v = true ↔
        v ∈ (removeNode { g with activeScope := false } tv).typeVariables
      rw [r5, r1]
      show upd g.hasNode tv false v = true ↔ v ∈ g.typeVariables.dropLast
      rw [n5]
      by_cases hvt : v = tv
      · subst hvt
        rw [upd_same]
        constructor
        · intro hf
          cases hf
        · intro hmem
          exact absurd hmem n4
      · rw [upd_other _ _ _ hvt]
        rw [h5 v, n6, List.mem_append, List.mem_singleton]
        constructor
        · rintro (hm | hm)
          · exact hm
          · exact absurd hm hvt
        · intro hm
          exact Or.inl hm
    · show (removeNode { g with activeScope := false } tv).changes.dropLast.length + 1 =
        g.changes.length
      rw [r3]
      show g.changes.dropLast.length + 1 = g.changes.length
      rw [h1, ← List.append_assoc, List.dropLast_concat]
      simp
      omega
  | addedConstraint c =>
    dsimp only [Change.undo]
    obtain ⟨f1, f2, f3, f4, f5⟩ := removeConstraintOp_fields env fuel
      ({ g with activeScope := false }) c
      (fun tv htv => (h5 tv).mpr (hml tv htv)) rfl
    exact JInv_undoPop base Pr g _ T _ h1 h2 h3 h4 h5 h6 rfl f1 f2 f3 f4
  | removedConstraint c =>
    dsimp only [Change.undo]
    obtain ⟨f1, f2, f3, f4, f5⟩ := addConstraintOp_fields env fuel
      ({ g with activeScope := false }) c
      (fun tv htv => (h5 tv).mpr (hml tv htv)) rfl
    exact JInv_undoPop base Pr g _ T _ h1 h2 h3 h4 h5 h6 rfl f1 f2 f3 f4
  | extendedEquivalenceClass tv n =>
    dsimp only [Change.undo]
    have hlive : ({ g with activeScope := false } : Graph).hasNode tv = true :=
      (h5 tv).mpr (hml tv (List.mem_singleton.mpr rfl))
    have hlk : lookupNode env fuel ({ g with activeScope := false }) tv =
        { g with activeScope := false } := lookupNode_live env fuel _ tv hlive
    refine JInv_undoPop base Pr g _ T _ h1 h2 h3 h4 h5 h6 rfl ?_ ?_ ?_ ?_
    · rw [hlk]
      rfl
    · rw [hlk]
      rfl
    · rw [hlk]
      rfl
    · rw [hlk]
      rfl
  | boundTypeVariable tv fixed =>
    dsimp only [Change.undo]
    have htvl : ({ g with activeScope := false } : Graph).hasNode tv = true :=
      (h5 tv).mpr (hml tv (List.mem_cons_self _ _))
    have hothers : ∀ x ∈ fixed.typeVarsList,
        ({ g with activeScope := false } : Graph).hasNode x = true :=
      fun x hx => (h5 x).mpr (hml x (List.mem_cons_of_mem _ hx))
    obtain ⟨f1, f2, f3, f4, f5⟩ := unbindTypeVariable_fields env fuel
      ({ g with activeScope := false }) tv fixed hothers htvl
    exact JInv_undoPop base Pr g _ T _ h1 h2 h3 h4 h5 h6 rfl f1 f2 f3 f4

end CG

namespace CG

/-- Iterated unwinding preserves the correspondence while it stays within
the scope's suffix. -/
theorem popUndoN_JInv (base : List TVar) (Pr : List Change) (env : CSEnv) (fuel : Nat) :
    ∀ (k : Nat) (g : Graph), JInv base Pr g → Pr.length + k ≤ g.changes.length →
      JInv base Pr (popUndoN env fuel k g) ∧
      (popUndoN env fuel k g).changes.length + k = g.changes.length := by
  intro k
  induction k with
  | zero =>
    intro g h hk
    exact ⟨h, rfl⟩
  | succ m ih =>
    intro g h hk
    have hne : Pr.length < g.changes.length := by omega
    obtain ⟨s1, s2⟩ := popUndoStep_JInv base Pr env fuel g h hne
    obtain ⟨i1, i2⟩ := ih (popUndoStep env fuel g) s1 (by omega)
    refine ⟨i1, ?_⟩
    show (popUndoN env fuel m (popUndoStep env fuel g)).changes.length + (m + 1) = g.changes.length
    omega

/-- Every public mutation preserves the correspondence while a scope is
active. -/
theorem execOp_JInv (base : List TVar) (Pr : List Change) (env : CSEnv) (fuel : Nat)
    (g : Graph) (op : MutOp) (hact : g.activeScope = true) (h : JInv base Pr g) :
    JInv base Pr (execOp env fuel g op) ∧ (execOp env fuel g op).activeScope = true := by
  cases op with
  | lookup tv =>
    exact ⟨nodeOpGo_JInv env base Pr fuel _ g hact h,
      ((nodeOpGo_frame env fuel _ g).1.1).trans hact⟩
  | addC c => exact addConstraintOp_JInv base Pr env fuel g c hact h
  | removeC c => exact removeConstraintOp_JInv base Pr env fuel g c hact h
  | mergeE a b =>
    exact ⟨nodeOpGo_JInv env base Pr fuel _ g hact h,
      ((nodeOpGo_frame env fuel _ g).1.1).trans hact⟩
  | bindTV tv fixed =>
    exact ⟨nodeOpGo_JInv env base Pr fuel _ g hact h,
      ((nodeOpGo_frame env fuel _ g).1.1).trans hact⟩

/-- Any sequence of public mutations preserves the correspondence while a
scope is active. -/
theorem execOps_JInv (base : List TVar) (Pr : List Change) (env : CSEnv) (fuel : Nat)
    (ops : List MutOp) (g : Graph) (hact : g.activeScope = true) (h : JInv base Pr g) :
    JInv base Pr (execOps env fuel g ops) ∧ (execOps env fuel g ops).activeScope = true := by
  unfold execOps
  have main := foldl_invariant
    (fun gr : Graph => JInv base Pr gr ∧ gr.activeScope = true)
    (execOp env fuel) ops g ⟨h, hact⟩
    (fun gr op _ hgr => execOp_JInv base Pr env fuel gr op hgr.2 hgr.1)
  exact main

end CG

namespace CG

/-- **C10.** When a scope's unwinding is about to undo an
`AddedTypeVariable` entry - the only caller of `removeNode` - the recorded
variable occupies the last slot of `typeVariables` and its stored graph
index points at that slot, so `removeNode` takes the `pop_back` branch
(the vector just loses its last entry, relocating nothing) and every
remaining variable's stored graph index still equals its slot.  This holds
after any mutation sequence under the scope and any number of earlier
unwind rounds that stay within the scope's journal suffix. -/
theorem c10_removeNode_last_slot (env : CSEnv) (fuel : Nat) (A : Graph)
    (ops : List MutOp) (k : Nat) (tv : TVar)
    (hnd : A.typeVariables.Nodup)
    (hidx : ∀ i, i < A.typeVariables.length → A.graphIndex (A.typeVariables.getD i 0) = i)
    (hhn : ∀ v, A.hasNode v = true ↔ v ∈ A.typeVariables)
    (hk : A.changes.length + k ≤ (execOps env fuel (openScope A).2 ops).changes.length)
    (hlast : (popUndoN env fuel k (execOps env fuel (openScope A).2 ops)).changes.getLast? = some (Change.addedTypeVariable tv))
    (hmore : A.changes.length < (popUndoN env fuel k (execOps env fuel (openScope A).2 ops)).changes.length) :
    (popUndoN env fuel k (execOps env fuel (openScope A).2 ops)).graphIndex tv = (popUndoN env fuel k (execOps env fuel (openScope A).2 ops)).typeVariables.length - 1 ∧
    (popUndoN env fuel k (execOps env fuel (openScope A).2 ops)).typeVariables.getLast? = some tv ∧
    (removeNode (popUndoN env fuel k (execOps env fuel (openScope A).2 ops)) tv).typeVariables = (popUndoN env fuel k (execOps env fuel (openScope A).2 ops)).typeVariables.dropLast ∧
    (∀ i, i < (removeNode (popUndoN env fuel k (execOps env fuel (openScope A).2 ops)) tv).typeVariables.length →
      (removeNode (popUndoN env fuel k (execOps env fuel (openScope A).2 ops)) tv).graphIndex ((removeNode (popUndoN env fuel k (execOps env fuel (openScope A).2 ops)) tv).typeVariables.getD i 0) = i) := by
  have hinit : JInv A.typeVariables A.changes (openScope A).2 :=
    ⟨[], (List.append_nil _).symm, (List.append_nil _).symm, hnd, hidx, hhn,
     fun i hi => absurd hi (by simp)⟩
  obtain ⟨hfwd, hfact⟩ := execOps_JInv A.typeVariables A.changes env fuel ops
    (openScope A).2 rfl hinit
  obtain ⟨hJ2, hlen2⟩ := popUndoN_JInv A.typeVariables A.changes env fuel k
    (execOps env fuel (openScope A).2 ops) hfwd hk
  obtain ⟨S, h1, h2, h3, h4, h5, h6⟩ := hJ2
  have hSlen : 0 < S.length := by
    have hcl := congrArg List.length h1
    rw [List.length_append] at hcl
    omega
  have hS : S ≠ [] := by
    intro he
    rw [he] at hSlen
    simp at hSlen
  obtain ⟨T, e, hTe⟩ : ∃ T e, S = T ++ [e] :=
    ⟨S.dropLast, S.getLast hS, (List.dropLast_append_getLast hS).symm⟩
  subst hTe
  have hge : (popUndoN env fuel k (execOps env fuel (openScope A).2 ops)).changes.getLast? = some e := by
    rw [h1, ← List.append_assoc]
    exact List.getLast?_concat _
  have hee : some (Change.addedTypeVariable tv) = some e := hlast.symm.trans hge
  injection hee with hee2
  subst hee2
  obtain ⟨n1, n2, n3, n4, n5, n6⟩ :=
    JInv_added_facts A.typeVariables A.changes (popUndoN env fuel k (execOps env fuel (openScope A).2 ops)) T tv h2 h3 h4
  obtain ⟨r1, r2, r3, r4, r5⟩ := removeNode_last (popUndoN env fuel k (execOps env fuel (openScope A).2 ops)) tv n3
  refine ⟨n3, n2, r1, ?_⟩
  intro i hlt
  have hlt3 : i < (A.typeVariables ++ addedVarsOf T).length := by
    rw [r1, n5] at hlt
    exact hlt
  rw [r1, r2, n5, ← getD_append_left (A.typeVariables ++ addedVarsOf T) [tv] i 0 hlt3, ← n6]
  apply h4
  have hgl2 : (popUndoN env fuel k (execOps env fuel (openScope A).2 ops)).typeVariables.length = (A.typeVariables ++ addedVarsOf T).length + 1 := by
    rw [n6]
    simp
    omega
  omega

theorem c10_removeNode_last_slot_witness :
    (popUndoN envId 1 0 (execOps envId 1 (openScope emptyGraph).2
        [MutOp.lookup 5, MutOp.lookup 7])).changes.getLast? =
      some (Change.addedTypeVariable 7) ∧
    ((popUndoN envId 1 0 (execOps envId 1 (openScope emptyGraph).2
        [MutOp.lookup 5, MutOp.lookup 7])).graphIndex 7 =
      (popUndoN envId 1 0 (execOps envId 1 (openScope emptyGraph).2
        [MutOp.lookup 5, MutOp.lookup 7])).typeVariables.length - 1 ∧
    (popUndoN envId 1 0 (execOps envId 1 (openScope emptyGraph).2
        [MutOp.lookup 5, MutOp.lookup 7])).typeVariables.getLast? = some 7 ∧
    (removeNode (popUndoN envId 1 0 (execOps envId 1 (openScope emptyGraph).2
        [MutOp.lookup 5, MutOp.lookup 7])) 7).typeVariables =
      (popUndoN envId 1 0 (execOps envId 1 (openScope emptyGraph).2
        [MutOp.lookup 5, MutOp.lookup 7])).typeVariables.dropLast ∧
    (∀ i, i < (removeNode (popUndoN envId 1 0 (execOps envId 1 (openScope emptyGraph).2
        [MutOp.lookup 5, MutOp.lookup 7])) 7).typeVariables.length →
      (removeNode (popUndoN envId 1 0 (execOps envId 1 (openScope emptyGraph).2
        [MutOp.lookup 5, MutOp.lookup 7])) 7).graphIndex
        ((removeNode (popUndoN envId 1 0 (execOps envId 1 (openScope emptyGraph).2
          [MutOp.lookup 5, MutOp.lookup 7])) 7).typeVariables.getD i 0) = i)) :=
  ⟨by decide,
   c10_removeNode_last_slot envId 1 emptyGraph [MutOp.lookup 5, MutOp.lookup 7] 0 7
     (by decide) (fun i hi => absurd hi (Nat.not_lt_zero i))
     (fun v => ⟨fun h => absurd h Bool.false_ne_true, fun h => absurd h (List.not_mem_nil v)⟩)
     (by decide) (by decide) (by decide)⟩

end CG
